import Mathlib

/-! gcli: command-line interpretation engine

A shallow embedding of the command resolution and type-conversion pipeline of
`build/gcli-uncompressed.js` (modules `gcli/argument`, `gcli/types`, `gcli/canon`
and `gcli/cli`), followed by theorems about it.

Conventions of the embedding:

* a JavaScript string is the list of its UTF-16 code units, one `Char` per unit;
* the Argument member `prefix` is written `prefix_`;
* a JavaScript exception is an `Except.error`;
* numbers are mathematical integers (`parseInt` results are exact below 2^53).
-/

namespace Gcli

/-- A JavaScript string: the sequence of its code units. -/
abbrev Str := List Char

/-- `s.substring(a, b)`: the units from `min a b` up to (not including) `max a b`. -/
def substring (s : Str) (a b : Nat) : Str :=
  (s.take (max a b)).drop (min a b)

/-! ## gcli/types: Status -/

/-- `Status`: the three validity states of a conversion. -/
inductive Status where
  | VALID
  | INCOMPLETE
  | ERROR
deriving DecidableEq, Repr

/-- `Status.X.valueOf()`: the number used when statuses are compared. -/
def Status.valueOf : Status → Nat
  | Status.VALID => 0
  | Status.INCOMPLETE => 1
  | Status.ERROR => 2

/-- One actual argument of `Status.combine`: a status, or an array of such arguments. -/
inductive CombineArg where
  | status (s : Status)
  | array (xs : List CombineArg)

mutual
/-- The loop of `Status.combine`, started with `combined`. -/
def Status.combineFrom (combined : Status) : List CombineArg → Status
  | [] => combined
  | a :: rest =>
    let status := CombineArg.resolve a
    Status.combineFrom (if status.valueOf > combined.valueOf then status else combined) rest
/-- The `status` variable of the loop: an array is replaced by
`Status.combine.apply(null, status)`. -/
def CombineArg.resolve : CombineArg → Status
  | CombineArg.status s => s
  | CombineArg.array xs => Status.combineFrom Status.VALID xs
end

/-- `Status.combine(...arguments)`. -/
def Status.combine (arguments : List CombineArg) : Status :=
  Status.combineFrom Status.VALID arguments

mutual
/-- All the statuses that occur in a list of arguments, arrays opened up, left to right. -/
def CombineArg.flattenList : List CombineArg → List Status
  | [] => []
  | a :: rest => CombineArg.flatten a ++ CombineArg.flattenList rest
/-- The statuses that occur in one argument. -/
def CombineArg.flatten : CombineArg → List Status
  | CombineArg.status s => [s]
  | CombineArg.array xs => CombineArg.flattenList xs
end

/-- The largest `valueOf` in a list of statuses, 0 (VALID) for the empty list. -/
def Status.maxValue (ss : List Status) : Nat :=
  (ss.map Status.valueOf).foldr max 0

/-! ## gcli/argument: Argument -/

/-- `Argument(text, prefix, suffix)`. -/
structure Argument where
  text : Str
  prefix_ : Str
  suffix : Str
deriving DecidableEq, Repr

/-- `new Argument()`: all three members empty. -/
def Argument.empty : Argument := ⟨[], [], []⟩

/-- `Argument.prototype.toString`. -/
def Argument.toString (a : Argument) : Str :=
  a.prefix_ ++ a.text ++ a.suffix

/-- `Argument.prototype.merge`. -/
def Argument.merge (a following : Argument) : Argument :=
  ⟨a.text ++ a.suffix ++ following.prefix_ ++ following.text, a.prefix_, following.suffix⟩

/-- The text reconstructed from a list of arguments:
`args.map(function(arg) { return arg.toString(); }).join('')`. -/
def joinArgs (args : List Argument) : Str :=
  (args.map Argument.toString).flatten

/-! ## gcli/cli: the tokenizer -/

/-- The scanner states of `_tokenize`. -/
inductive Mode where
  | OUTSIDE
  | IN_SIMPLE
  | IN_SINGLE_Q
  | IN_DOUBLE_Q
deriving DecidableEq, Repr

/-- `isSimple(typed)`: no space, quote or backslash. -/
def isSimple : Str → Bool
  | [] => true
  | c :: rest =>
    if c = ' ' ∨ c = '"' ∨ c = '\'' ∨ c = '\\' then false else isSimple rest

/-- `str.replace(/\\X/g, r)`: each occurrence, left to right and not overlapping, of a
backslash followed by the unit `x` becomes the unit `r`. -/
def replaceEscape (x r : Char) : Str → Str
  | [] => []
  | [c] => [c]
  | c :: d :: rest =>
    if c = '\\' ∧ d = x then r :: replaceEscape x r rest
    else c :: replaceEscape x r (d :: rest)

/-- The private-use unit that stands for an escaped space. -/
def escSpace : Char := Char.ofNat 0xF000
/-- The private-use unit that stands for an escaped single quote. -/
def escSingle : Char := Char.ofNat 0xF001
/-- The private-use unit that stands for an escaped double quote. -/
def escDouble : Char := Char.ofNat 0xF002

/-- The chain of twelve `replace` calls at the start of the general path. -/
def unescape (typed : Str) : Str :=
  replaceEscape '"' escDouble <|
  replaceEscape '\'' escSingle <|
  replaceEscape ' ' escSpace <|
  replaceEscape 'r' (Char.ofNat 0x0D) <|
  replaceEscape 'n' (Char.ofNat 0x0A) <|
  replaceEscape 'v' (Char.ofNat 0x0B) <|
  replaceEscape 't' (Char.ofNat 0x09) <|
  replaceEscape 'r' (Char.ofNat 0x0D) <|
  replaceEscape 'n' (Char.ofNat 0x0A) <|
  replaceEscape 'f' (Char.ofNat 0x0C) <|
  replaceEscape 'b' (Char.ofNat 0x08) <|
  replaceEscape '\\' '\\' typed

/-- One unit of `unescape2`. The three replacements have distinct sources and targets
outside the sources, so doing them one after the other is a map over the units. -/
def unescape2Char (c : Char) : Char :=
  if c = escSpace then ' ' else if c = escSingle then '\'' else if c = escDouble then '"' else c

/-- `unescape2(str)`. -/
def unescape2 (str : Str) : Str :=
  str.map unescape2Char

/-- The variables of the scanner loop. -/
structure TokState where
  mode : Mode
  i : Nat
  start : Nat
  prefix_ : Str
  args : List Argument
deriving DecidableEq, Repr

/-- The body of the `switch (mode)` for the unit `c = typed[i]`, followed by `i++`. -/
def tokenizeStep (typed : Str) (c : Char) (st : TokState) : TokState :=
  match st.mode with
  | Mode.OUTSIDE =>
    if c = '\'' then
      { st with prefix_ := substring typed st.start (st.i + 1), mode := Mode.IN_SINGLE_Q,
                start := st.i + 1, i := st.i + 1 }
    else if c = '"' then
      { st with prefix_ := substring typed st.start (st.i + 1), mode := Mode.IN_DOUBLE_Q,
                start := st.i + 1, i := st.i + 1 }
    else if c = ' ' then
      { st with i := st.i + 1 }
    else
      { st with prefix_ := substring typed st.start st.i, mode := Mode.IN_SIMPLE,
                start := st.i, i := st.i + 1 }
  | Mode.IN_SIMPLE =>
    if c = ' ' then
      { st with args := st.args ++ [⟨unescape2 (substring typed st.start st.i), st.prefix_, []⟩],
                mode := Mode.OUTSIDE, start := st.i, prefix_ := [], i := st.i + 1 }
    else
      { st with i := st.i + 1 }
  | Mode.IN_SINGLE_Q =>
    if c = '\'' then
      { st with args := st.args ++ [⟨unescape2 (substring typed st.start st.i), st.prefix_, [c]⟩],
                mode := Mode.OUTSIDE, start := st.i + 1, prefix_ := [], i := st.i + 1 }
    else
      { st with i := st.i + 1 }
  | Mode.IN_DOUBLE_Q =>
    if c = '"' then
      { st with args := st.args ++ [⟨unescape2 (substring typed st.start st.i), st.prefix_, [c]⟩],
                mode := Mode.OUTSIDE, start := st.i + 1, prefix_ := [], i := st.i + 1 }
    else
      { st with i := st.i + 1 }

/-- The tidy-up branch taken when `i >= typed.length`. -/
def tokenizeFinish (typed : Str) (st : TokState) : List Argument :=
  if st.mode ≠ Mode.OUTSIDE then
    st.args ++ [⟨unescape2 (substring typed st.start st.i), st.prefix_, []⟩]
  else if st.i ≠ st.start then
    let extra := substring typed st.start st.i
    match st.args.getLast? with
    | none => st.args ++ [⟨[], extra, []⟩]
    | some lastArg => st.args.dropLast ++ [{ lastArg with suffix := lastArg.suffix ++ extra }]
  else
    st.args

/-- The `while (true)` loop of `_tokenize`. The second argument is the part of `typed`
from index `st.i` on: empty exactly when `i >= typed.length`, and otherwise its head is
`typed[i]`. -/
def tokenizeLoop (typed : Str) : Str → TokState → List Argument
  | [], st => tokenizeFinish typed st
  | c :: rest, st => tokenizeLoop typed rest (tokenizeStep typed c st)

/-- `Requisition.prototype._tokenize(typed)`; `none` is a `null` or `undefined` input. -/
def _tokenize (typed : Option Str) : List Argument :=
  match typed with
  | none => [⟨[], [], []⟩]
  | some [] => [⟨[], [], []⟩]
  | some (c :: cs) =>
    if isSimple (c :: cs) then [⟨c :: cs, [], []⟩]
    else
      let typed := unescape (c :: cs)
      tokenizeLoop typed typed ⟨Mode.OUTSIDE, 0, 0, [], []⟩


/-! ## JavaScript objects used as maps -/

/-- The own enumerable properties of a plain object, in the order of their creation. That is
the order in which `Object.keys` and `for ... in` list them when no key is a decimal
numeral; keys that are numerals, which the engines list first and in numeric order, are not
treated apart, and what depends on the order of the keys is stated for keys that are not
numerals (`isIntegerKey`). -/
abbrev JSObject (α : Type) := List (Str × α)

/-- Own property lookup. -/
def JSObject.own {α : Type} (o : JSObject α) (key : Str) : Option α :=
  match o with
  | [] => none
  | (k, v) :: rest => if k = key then some v else JSObject.own rest key

/-- `o[key] = v`: an existing key keeps its place, a new key goes last (its place among keys
that are not decimal numerals). -/
def JSObject.set {α : Type} (o : JSObject α) (key : Str) (v : α) : JSObject α :=
  match o with
  | [] => [(key, v)]
  | (k, w) :: rest => if k = key then (k, v) :: rest else (k, w) :: JSObject.set rest key v

/-- `Object.keys(o)`. -/
def JSObject.keys {α : Type} (o : JSObject α) : List Str :=
  o.map Prod.fst

/-- The function members every plain object inherits from `Object.prototype`: those of
ECMAScript 5 (15.2.4) and the four accessor helpers that the engines add. (The accessor
`__proto__` is left out: what is read under it is stored back under `__proto__`, which
creates no property, so the text `__proto__` gives `_findCompletions` no completion.) -/
def objectPrototypeKeys : List Str :=
  ["constructor".toList, "toString".toList, "toLocaleString".toList, "valueOf".toList,
   "hasOwnProperty".toList, "isPrototypeOf".toList, "propertyIsEnumerable".toList,
   "__defineGetter__".toList, "__defineSetter__".toList, "__lookupGetter__".toList,
   "__lookupSetter__".toList]

/-! ## gcli/types and gcli/canon: types, parameters, commands, values -/

/-- One entry of a selection's `data` array: a string, or an object with a `name`. -/
inductive SelOption where
  | string (s : Str)
  | object (name : Str)
deriving DecidableEq, Repr

/-- The built-in types, and the `command` selection that gcli/cli registers.
`selection data` is a SelectionType given by a `data` array, `lookup entries` one given by a
`lookup` object whose values are plain objects without a `name` (each shown by a number that
stands for its identity). `deferred t` is a DeferredType whose `defer()` currently returns
`t`. The bounds of a number type are integers. -/
inductive GType where
  | string
  | number (min max : Option Int)
  | boolean
  | blank
  | selection (data : List SelOption)
  | lookup (entries : List (Str × Nat))
  | deferred (defer : GType)
  | array (subtype : GType)
  | command
deriving DecidableEq, Repr

/-- A value a parameter spec can give as `defaultValue`. -/
inductive Literal where
  | null
  | bool (b : Bool)
  | number (n : Int)
  | string (s : Str)
  | object (name : Str)
deriving DecidableEq, Repr

/-- `Parameter`: the members the pipeline reads. `defaultValue = none` is `undefined`,
`groupName = none` is `null`. -/
structure Parameter where
  name : Str
  type : GType
  defaultValue : Option Literal
  groupName : Option Str
  uniquePrefix : Str
deriving DecidableEq, Repr

/-- `Command`: `exec = none` is a command without an `exec` function (a parent command);
`some k` names the action. -/
structure Command where
  name : Str
  params : List Parameter
  exec : Option Nat
deriving DecidableEq, Repr

/-- The values a conversion can hold. `number n` is a number whose value is the integer `n`
(the numbers of this program come from `parseInt` and from adding or subtracting 1), and
`infinity` is `Infinity` or `-Infinity`. `builtin key` is the member `key` that a plain
object inherits from `Object.prototype`; `object name` is a selection option given as an
object with that `name`, and `plain id` an object without a `name`. -/
inductive Value where
  | undefined
  | null
  | bool (b : Bool)
  | number (n : Int)
  | infinity (negative : Bool)
  | NaN
  | string (s : Str)
  | object (name : Str)
  | plain (id : Nat)
  | builtin (key : Str)
  | command (c : Command)
deriving DecidableEq, Repr

/-- `a === b`. Objects are compared by content, which stands for their identity. -/
def Value.strictEquals (a b : Value) : Bool :=
  match a, b with
  | Value.NaN, _ => false
  | _, Value.NaN => false
  | a, b => decide (a = b)

/-- `v == null`: true for `null` and `undefined` only. -/
def Value.isNullish : Value → Bool
  | Value.undefined => true
  | Value.null => true
  | _ => false

/-- `SelOption` as the value stored in a lookup. -/
def SelOption.toValue : SelOption → Value
  | SelOption.string s => Value.string s
  | SelOption.object name => Value.object name

/-- `(typeof option === 'string') ? option : option.name`. -/
def SelOption.name : SelOption → Str
  | SelOption.string s => s
  | SelOption.object name => name

/-- The registry of gcli/canon: the `commands` object and the sorted `commandNames`. -/
structure Canon where
  commands : JSObject Command
  commandNames : List Str
deriving DecidableEq, Repr

/-- `canon.getCommands()`. -/
def Canon.getCommands (canon : Canon) : List Command :=
  canon.commands.map Prod.snd

/-- A lookup object of a selection: option name to option. -/
abbrev Lookup := JSObject Value

/-- `lookup[key]`: the own property, else the inherited member, else `undefined`. -/
def Lookup.get (lookup : Lookup) (key : Str) : Value :=
  match JSObject.own lookup key with
  | some v => v
  | none => if key ∈ objectPrototypeKeys then Value.builtin key else Value.undefined

/-! ## gcli/argument: the composite arguments -/

/-- An Argument object of the live token list: `idx` is its position in `_args` and stands
for the identity of the object. -/
structure Tok where
  idx : Nat
  arg : Argument
deriving DecidableEq, Repr

/-- A member of an ArrayArgument: a token, or a NamedArgument made of two tokens. -/
inductive ArrayMember where
  | token (t : Tok)
  | named (nameArg valueArg : Tok)
deriving DecidableEq, Repr

/-- The argument object a conversion holds.
`fresh` is an Argument created outside the tokenizer (`new Argument(...)`),
`token` an Argument of the token list, the others are the subclasses of gcli/argument. -/
inductive Arg where
  | fresh (a : Argument)
  | token (t : Tok)
  | merged (args : List Tok)
  | trueNamed (name : Option Str) (arg : Option Tok)
  | falseNamed
  | named (nameArg valueArg : Tok)
  | array (args : List ArrayMember)
deriving DecidableEq, Repr

/-- `Argument.merge(argArray)`: `none` is the `undefined` an empty array gives. -/
def Argument.mergeAll : List Argument → Option Argument
  | [] => none
  | a :: rest => some (rest.foldl Argument.merge a)

/-- The `text`, `prefix` and `suffix` of a NamedArgument. -/
def NamedArgument.members (nameArg valueArg : Argument) : Argument :=
  ⟨valueArg.text, nameArg.toString ++ valueArg.prefix_, valueArg.suffix⟩

/-- The `text`, `prefix` and `suffix` members of an argument object. An ArrayArgument has
none of the three (`undefined`), shown here as empty. -/
def Arg.members : Arg → Argument
  | Arg.fresh a => a
  | Arg.token t => t.arg
  | Arg.merged args => ((Argument.mergeAll (args.map Tok.arg)).getD Argument.empty)
  | Arg.trueNamed name arg =>
    match arg with
    | some t => t.arg
    | none => ⟨'-' :: '-' :: name.getD "null".toList, [' '], []⟩
  | Arg.falseNamed => ⟨[], [], []⟩
  | Arg.named nameArg valueArg => NamedArgument.members nameArg.arg valueArg.arg
  | Arg.array _ => ⟨[], [], []⟩

/-- `arg.text`. -/
def Arg.text (a : Arg) : Str := a.members.text

/-- The tokens of the live list that `arg.assign(assignment)` marks. -/
def Arg.tokens : Arg → List Tok
  | Arg.fresh _ => []
  | Arg.token t => [t]
  | Arg.merged args => args
  | Arg.trueNamed _ arg => arg.toList
  | Arg.falseNamed => []
  | Arg.named nameArg valueArg => [nameArg, valueArg]
  | Arg.array args =>
    (args.map (fun m => match m with
      | ArrayMember.token t => [t]
      | ArrayMember.named n v => [n, v])).flatten

/-- What a `throw`, a failing property access or a failing built-in raises;
`invalidRegExp` is the SyntaxError of `new RegExp`, shown by the pattern that was rejected
(the wording of its message is the engine's own). -/
inductive Thrown where
  | error (message : Str)
  | typeError (message : Str)
  | invalidRegExp (pattern : Str)
deriving DecidableEq, Repr

/-- `new MergedArgument(args)`: reading `arg.text` fails when `args` is empty. -/
def MergedArgument.new (args : List Tok) : Except Thrown Arg :=
  match args with
  | [] => Except.error (Thrown.typeError "arg is undefined".toList)
  | _ :: _ => Except.ok (Arg.merged args)

/-- `new NamedArgument(nameArg, valueArg)`: reading `valueArg.text` fails when `valueArg`
is `null` or `undefined` (`none`). -/
def NamedArgument.new (nameArg : Tok) (valueArg : Option Tok) : Except Thrown Arg :=
  match valueArg with
  | none => Except.error (Thrown.typeError "valueArg is null or undefined".toList)
  | some v => Except.ok (Arg.named nameArg v)

/-! ## gcli/types: conversions -/

/-- `Conversion(value, arg, status, message, completer)`. `message = none` is `undefined`.
`completer = some t` is the closure a selection `t` attaches: it calls
`t._findCompletions(arg)` again when predictions are asked for. -/
structure Conversion where
  value : Value
  arg : Arg
  _status : Status
  message : Option Str
  completer : Option GType
deriving DecidableEq, Repr

/-- `new Conversion(value, arg)`: status VALID, no message, no completer. -/
def Conversion.valid (value : Value) (arg : Arg) : Conversion :=
  ⟨value, arg, Status.VALID, none, none⟩

/-- `Conversion.prototype.getStatus`. -/
def Conversion.getStatus (c : Conversion) : Status := c._status

/-- `ArrayConversion(conversions, arg)`: its `value` and `_status` are computed from the
member conversions. -/
structure ArrayConversion where
  conversions : List Conversion
  arg : Arg
deriving DecidableEq, Repr

/-- `ArrayConversion`'s `value`: the member values. -/
def ArrayConversion.value (c : ArrayConversion) : List Value :=
  c.conversions.map Conversion.value

/-- `ArrayConversion`'s `_status`: `Status.combine` of the array of member statuses. -/
def ArrayConversion._status (c : ArrayConversion) : Status :=
  Status.combine [CombineArg.array (c.conversions.map (fun m => CombineArg.status m.getStatus))]

/-- What `type.parse` returns: a Conversion or an ArrayConversion. -/
inductive AnyConversion where
  | simple (c : Conversion)
  | array (c : ArrayConversion)
deriving DecidableEq, Repr

/-- `conversion.arg`. -/
def AnyConversion.arg : AnyConversion → Arg
  | AnyConversion.simple c => c.arg
  | AnyConversion.array c => c.arg

/-! ## gcli/types: the built-in types -/

/-- The units matched by `\s` and skipped by `parseInt`: WhiteSpace and LineTerminator, with
the space separators of current Unicode (U+180E is not one of them). -/
def isWhiteSpace (c : Char) : Bool :=
  let n := c.toNat
  n = 0x09 || n = 0x0A || n = 0x0B || n = 0x0C || n = 0x0D || n = 0x20 || n = 0xA0 ||
  n = 0x1680 || (0x2000 ≤ n && n ≤ 0x200A) || n = 0x2028 || n = 0x2029 ||
  n = 0x202F || n = 0x205F || n = 0x3000 || n = 0xFEFF

/-- A decimal digit. -/
def isDigit (c : Char) : Bool :=
  48 ≤ c.toNat && c.toNat ≤ 57

/-- The number a run of decimal digits spells, continuing from `acc`. -/
def digitsValue (acc : Nat) (ds : Str) : Nat :=
  ds.foldl (fun n c => 10 * n + (c.toNat - 48)) acc

/-- The sign step of `parseInt`: a leading `-` or `+` is read and removed. -/
def splitSign : Str → Int × Str
  | '-' :: r => (-1, r)
  | '+' :: r => (1, r)
  | s => (1, s)

/-- The integer that `parseInt(text, 10)` reads, before it is made a number; `none` when
there is none. Leading white space is skipped, one sign is read, then the longest run of
decimal digits; what follows the digits is ignored. -/
def readInteger (text : Str) : Option Int :=
  let signed := splitSign (text.dropWhile isWhiteSpace)
  let z := signed.2.takeWhile isDigit
  if z = [] then none else some (signed.1 * (digitsValue 0 z : Nat))

/-- The number of binary digits of `n`, counted with `fuel` halvings. -/
def bitLengthAux : Nat → Nat → Nat
  | 0, _ => 0
  | fuel + 1, n => if n = 0 then 0 else bitLengthAux fuel (n / 2) + 1

/-- The number of binary digits of `n`. -/
def bitLength (n : Nat) : Nat :=
  bitLengthAux n n

/-- The natural number `n` rounded to 53 significant bits, ties to the even mantissa: the
double nearest to `n`, as long as that is finite. Up to 2^53 every natural number is a
double. -/
def roundTo53 (n : Nat) : Nat :=
  if n ≤ 2 ^ 53 then n
  else
    let e := bitLength n - 53
    let q := n / 2 ^ e
    let r := n % 2 ^ e
    if 2 * r > 2 ^ e ∨ (2 * r = 2 ^ e ∧ q % 2 = 1) then (q + 1) * 2 ^ e else q * 2 ^ e

/-- The integer `z` rounded to double precision; the result of an addition or subtraction of
numbers that stays finite. -/
def roundInt53 (z : Int) : Int :=
  if z < 0 then -(roundTo53 z.natAbs : Nat) else (roundTo53 z.natAbs : Nat)

/-- The number 2^1024, above every finite double. -/
def doubleLimit : Nat :=
  2 ^ 256 * 2 ^ 256 * 2 ^ 256 * 2 ^ 256

/-- The Number value for the integer `z`: the nearest double, and `Infinity` or `-Infinity`
when that is 2^1024 or more in magnitude. -/
def Value.ofInteger (z : Int) : Value :=
  if roundTo53 z.natAbs < doubleLimit then Value.number (roundInt53 z)
  else Value.infinity (decide (z < 0))

/-- `parseInt(text, 10)`: `NaN` when no integer is read, else the Number value for the
integer read. (The language lets an engine replace the digits after the twentieth by zeros;
the engines round the integer itself, as done here.) -/
def parseInt (text : Str) : Value :=
  match readInteger text with
  | none => Value.NaN
  | some z => Value.ofInteger z

/-- The decimal digits of `n`, most significant first; `fuel` bounds the number of digits. -/
def natToStringAux : Nat → Nat → Str
  | 0, _ => []
  | fuel + 1, n =>
    if n < 10 then [Char.ofNat (48 + n)]
    else natToStringAux fuel (n / 10) ++ [Char.ofNat (48 + n % 10)]

/-- The decimal digits of a natural number. -/
def natToString (n : Nat) : Str :=
  natToStringAux (n + 1) n

/-- The decimal digits of an integer, with its sign. -/
def intToString : Int → Str
  | Int.ofNat n => natToString n
  | Int.negSucc n => '-' :: natToString (n + 1)

/-- The multiple of `10 ^ p` that the string of the double `m` uses, when one next to `m`
denotes `m`: of the two neighbours of `m`, the one that is rounded to `m`; when both are,
the nearer one, and the one with the even digit when they are as near. -/
def shortestAt (m p : Nat) : Option Nat :=
  let lower := m / 10 ^ p * 10 ^ p
  let upper := lower + 10 ^ p
  if roundTo53 lower = m then
    if roundTo53 upper = m then
      if m - lower < upper - m then some lower
      else if upper - m < m - lower then some upper
      else if (m / 10 ^ p) % 2 = 0 then some lower else some upper
    else some lower
  else if roundTo53 upper = m then some upper
  else none

/-- The search for the numeral with the fewest significant digits that denotes the double
`m` (ECMAScript 5, 9.8.1, step 5): the largest number of trailing zeros is tried first. -/
def shortestFrom (m : Nat) : Nat → Nat
  | 0 => m
  | p + 1 =>
    match shortestAt m (p + 1) with
    | some t => t
    | none => shortestFrom m p

/-- The digits without the zeros at the end. -/
def dropTrailingZeros (ds : Str) : Str :=
  (ds.reverse.dropWhile (fun c => c = '0')).reverse

/-- `'' + m` for a natural number `m` that is a double. Up to 2^53 the digits of `m`; above,
the numeral with the fewest significant digits that denotes `m`, written out when it has at
most 21 digits and with an exponent otherwise. -/
def natNumberToString (m : Nat) : Str :=
  if m ≤ 2 ^ 53 then natToString m
  else
    let digits := natToString (shortestFrom m (natToString m).length)
    if digits.length ≤ 21 then digits
    else
      match dropTrailingZeros digits with
      | [] => digits
      | [d] => d :: "e+".toList ++ natToString (digits.length - 1)
      | d :: more => d :: '.' :: more ++ "e+".toList ++ natToString (digits.length - 1)

/-- `'' + n` for a number whose value is the integer `n`. -/
def numberToString : Int → Str
  | Int.ofNat n => natNumberToString n
  | Int.negSucc n => '-' :: natNumberToString (n + 1)

/-- The `name` of the function a plain object inherits under `key`: `constructor` is the
function `Object`, the other members are named like their key. -/
def builtinName (key : Str) : Str :=
  if key = "constructor".toList then "Object".toList else key

/-- `'' + value` and `value.toString()`. The text of a built-in function is
implementation-dependent; the usual form is shown. -/
def Value.toStr : Value → Str
  | Value.undefined => "undefined".toList
  | Value.null => "null".toList
  | Value.bool true => "true".toList
  | Value.bool false => "false".toList
  | Value.number n => numberToString n
  | Value.infinity false => "Infinity".toList
  | Value.infinity true => "-Infinity".toList
  | Value.NaN => "NaN".toList
  | Value.string s => s
  | Value.object _ => "[object Object]".toList
  | Value.plain _ => "[object Object]".toList
  | Value.builtin key =>
    "function ".toList ++ builtinName key ++ "() \x7b [native code] \x7d".toList
  | Value.command _ => "[object Object]".toList

/-- `value > bound` for a value that `parseInt` returned. -/
def Value.greaterThan (value : Value) (bound : Int) : Bool :=
  match value with
  | Value.number n => decide (n > bound)
  | Value.infinity negative => !negative
  | _ => false

/-- `value < bound` for a value that `parseInt` returned. -/
def Value.lessThan (value : Value) (bound : Int) : Bool :=
  match value with
  | Value.number n => decide (n < bound)
  | Value.infinity negative => negative
  | _ => false

/-- `StringType.prototype.parse`. -/
def StringType.parse (arg : Arg) : Conversion :=
  Conversion.valid (Value.string arg.text) arg

/-- `NumberType.prototype.parse` for a type with the given `min` and `max`
(`none`: not configured). -/
def NumberType.parse (min max : Option Int) (arg : Arg) : Conversion :=
  if (arg.text.filter (fun c => !isWhiteSpace c)).length = 0 then
    ⟨Value.null, arg, Status.INCOMPLETE, some [], none⟩
  else
    let value := parseInt arg.text
    if value = Value.NaN then
      ⟨value, arg, Status.ERROR,
        some ("Can't convert \"".toList ++ arg.text ++ "\" to a number.".toList), none⟩
    else if max.isSome ∧ value.greaterThan (max.getD 0) then
      ⟨value, arg, Status.ERROR,
        some (value.toStr ++ " is greater that maximum allowed: ".toList
          ++ numberToString (max.getD 0) ++ ".".toList), none⟩
    else if min.isSome ∧ value.lessThan (min.getD 0) then
      ⟨value, arg, Status.ERROR,
        some (value.toStr ++ " is smaller that minimum allowed: ".toList
          ++ numberToString (min.getD 0) ++ ".".toList), none⟩
    else
      Conversion.valid value arg

/-- `SelectionType.prototype._dataToLookup` for a `data` array. -/
def _dataToLookup (data : List SelOption) : Lookup :=
  data.foldl (fun lookup option => JSObject.set lookup option.name option.toValue) []

/-- `_dataToLookup(canon.getCommands())`: the lookup of the `command` type. -/
def commandLookup (canon : Canon) : Lookup :=
  canon.getCommands.foldl
    (fun lookup command => JSObject.set lookup command.name (Value.command command)) []

/-- `BooleanType.prototype.lookup`. -/
def BooleanType.lookup : Lookup :=
  [("true".toList, Value.bool true), ("false".toList, Value.bool false)]

/-- `SelectionType.prototype._findCompletions` for the given lookup and `arg.text`. -/
def _findCompletions (lookup : Lookup) (text : Str) : Lookup :=
  match Lookup.get lookup text with
  | Value.undefined =>
    (JSObject.keys lookup).foldl
      (fun completions name =>
        if text.isPrefixOf name then JSObject.set completions name (Lookup.get lookup name)
        else completions)
      []
  | matchedValue => JSObject.set [] text matchedValue

/-- `SelectionType.prototype.parse`, for the selection `self` whose `getLookup()` returns
`lookup`. -/
def SelectionType.parse (self : GType) (lookup : Lookup) (arg : Arg) : Conversion :=
  let completions := _findCompletions lookup arg.text
  let matches_ := (JSObject.keys completions).length
  if matches_ = 1 ∧ (Lookup.get completions arg.text).isNullish = false then
    Conversion.valid (Lookup.get completions arg.text) arg
  else if matches_ > 0 then
    ⟨Value.null, arg, Status.INCOMPLETE, some [], some self⟩
  else
    ⟨Value.null, arg, Status.ERROR,
      some ("Can't use '".toList ++ arg.text ++ "'.".toList), some self⟩

/-- `BooleanType.prototype.parse`. -/
def BooleanType.parse (arg : Arg) : Conversion :=
  match arg with
  | Arg.trueNamed _ _ => Conversion.valid (Value.bool true) arg
  | Arg.falseNamed => Conversion.valid (Value.bool false) arg
  | _ => SelectionType.parse GType.boolean BooleanType.lookup arg

/-- `BlankType.prototype.parse`. -/
def BlankType.parse (arg : Arg) : Conversion :=
  Conversion.valid Value.null arg

/-- The `lookup` object of a selection given by one: each key with its object. -/
def entriesToLookup (entries : List (Str × Nat)) : Lookup :=
  entries.foldl (fun lookup entry => JSObject.set lookup entry.1 (Value.plain entry.2)) []

/-- `getLookup()` of a selection, of the boolean type and of the `command` type; the other
types have none. -/
def GType.getLookup (canon : Canon) : GType → Lookup
  | GType.selection data => _dataToLookup data
  | GType.lookup entries => entriesToLookup entries
  | GType.boolean => BooleanType.lookup
  | GType.command => commandLookup canon
  | GType.deferred t => GType.getLookup canon t
  | _ => []

/-- `type.parse(arg)` for an `arg` that is not an ArrayArgument. An array type throws. -/
def GType.parseSimple (canon : Canon) : GType → Arg → Except Thrown Conversion
  | GType.string, arg => Except.ok (StringType.parse arg)
  | GType.number min max, arg => Except.ok (NumberType.parse min max arg)
  | GType.boolean, arg => Except.ok (BooleanType.parse arg)
  | GType.blank, arg => Except.ok (BlankType.parse arg)
  | GType.selection data, arg =>
    Except.ok (SelectionType.parse (GType.selection data) (_dataToLookup data) arg)
  | GType.lookup entries, arg =>
    Except.ok (SelectionType.parse (GType.lookup entries) (entriesToLookup entries) arg)
  | GType.deferred t, arg => GType.parseSimple canon t arg
  | GType.array _, _ =>
    Except.error (Thrown.error "non ArrayArgument to ArrayType.parse".toList)
  | GType.command, arg =>
    Except.ok (SelectionType.parse GType.command (commandLookup canon) arg)

/-- A member of an ArrayArgument as an argument object. -/
def ArrayMember.toArg : ArrayMember → Arg
  | ArrayMember.token t => Arg.token t
  | ArrayMember.named n v => Arg.named n v

/-- `type.parse(arg)`. `ArrayType.prototype.parse` maps the subtype's parse over the members
of an ArrayArgument and throws on any other argument. -/
def GType.parse (canon : Canon) : GType → Arg → Except Thrown AnyConversion
  | GType.array subtype, Arg.array members =>
    (members.mapM (fun m => GType.parseSimple canon subtype m.toArg)).map
      (fun conversions => AnyConversion.array ⟨conversions, Arg.array members⟩)
  | GType.deferred t, arg => GType.parse canon t arg
  | t, arg => (GType.parseSimple canon t arg).map AnyConversion.simple

/-- `Type.prototype.parseString(str)`: `parse(new Argument(str))`. -/
def GType.parseString (canon : Canon) (t : GType) (str : Str) : Except Thrown AnyConversion :=
  GType.parse canon t (Arg.fresh ⟨str, [], []⟩)

/-- `Conversion.prototype.getPredictions`, evaluated when the registry is `canon`: the
completer runs `_findCompletions` on the lookup the selection has at that moment. -/
def Conversion.getPredictions (canon : Canon) (c : Conversion) : List Value :=
  match c.completer with
  | some t => (_findCompletions (GType.getLookup canon t) c.arg.text).map Prod.snd
  | none => []

/-- The claim's wording "the text is a number", read as: an optional sign, one or more
decimal digits, optionally followed by a point and further digits, and nothing else. -/
def isNumeralText (text : Str) : Bool :=
  let unsigned := (splitSign text).2
  let whole := unsigned.takeWhile isDigit
  let rest := unsigned.dropWhile isDigit
  !whole.isEmpty &&
    (rest.isEmpty ||
      (rest.head? = some '.' && !rest.tail.isEmpty && rest.tail.all isDigit))

/-! ## gcli/types: stringify -/

/-- `value.name`: `none` is `undefined`, reading it off `null` or `undefined` throws. -/
def Value.getName : Value → Except Thrown (Option Str)
  | Value.undefined => Except.error (Thrown.typeError "value is undefined".toList)
  | Value.null => Except.error (Thrown.typeError "value is null".toList)
  | Value.object name => Except.ok (some name)
  | Value.command c => Except.ok (some c.name)
  | Value.builtin key => Except.ok (some (builtinName key))
  | _ => Except.ok none

/-- `StringType.prototype.stringify`. -/
def StringType.stringify (value : Value) : Str :=
  if value.isNullish then [] else value.toStr

/-- `NumberType.prototype.stringify`. -/
def NumberType.stringify (value : Value) : Str :=
  if value.isNullish then [] else value.toStr

/-- `SelectionType.prototype.stringify`:
`typeof value === 'string' ? value : value.name`. -/
def SelectionType.stringify (value : Value) : Except Thrown (Option Str) :=
  match value with
  | Value.string s => Except.ok (some s)
  | v => v.getName

/-- `BooleanType.prototype.stringify`. -/
def BooleanType.stringify (value : Value) : Str :=
  value.toStr

/-- `BlankType.prototype.stringify`. -/
def BlankType.stringify (_value : Value) : Str :=
  []

/-- `ArrayType.prototype.stringify`: `values.join(' ')`, where `null` and `undefined`
members give the empty string. -/
def ArrayType.stringify (values : List Value) : Str :=
  (List.intersperse [' '] (values.map (fun v => if v.isNullish then [] else v.toStr))).flatten

/-- `type.stringify(value)` for a value that is not an array; `none` is `undefined`.
An array type calls `values.join`, which such a value does not have. -/
def GType.stringify : GType → Value → Except Thrown (Option Str)
  | GType.string, v => Except.ok (some (StringType.stringify v))
  | GType.number _ _, v => Except.ok (some (NumberType.stringify v))
  | GType.boolean, v => Except.ok (some (BooleanType.stringify v))
  | GType.blank, v => Except.ok (some (BlankType.stringify v))
  | GType.selection _, v => SelectionType.stringify v
  | GType.lookup _, v => SelectionType.stringify v
  | GType.deferred t, v => GType.stringify t v
  | GType.array _, _ => Except.error (Thrown.typeError "values.join is not a function".toList)
  | GType.command, v => v.getName

/-- The types the round trip of `stringify` and `parse` is stated for: string, number,
boolean, blank, selection over a `data` array, and a deferred type that resolves to one of
them. -/
def GType.isScalar : GType → Bool
  | GType.string => true
  | GType.number _ _ => true
  | GType.boolean => true
  | GType.blank => true
  | GType.selection _ => true
  | GType.lookup _ => false
  | GType.deferred t => GType.isScalar t
  | GType.array _ => false
  | GType.command => false

/-! ## gcli/canon: parameters, commands and the registry -/

/-- The characters with a syntactic meaning in a regular-expression pattern
(ECMAScript 5, 15.10.1, the complement of PatternCharacter). -/
def isSyntaxCharacter (c : Char) : Bool :=
  c = '^' || c = '$' || c = '\\' || c = '.' || c = '*' || c = '+' || c = '?' || c = '(' ||
  c = ')' || c = '[' || c = ']' || c = Char.ofNat 0x7B || c = Char.ofNat 0x7D || c = '|'

/-- `new RegExp('^--?' + uniquePrefix)`, shown by the prefix it was made from. For a prefix
without syntax characters the pattern is well formed and matches one or two dashes followed
by the prefix. A prefix with a syntax character gives another pattern, which the
constructor rejects with a SyntaxError (as it does for an opening parenthesis) or accepts
with another meaning (as for a dot); the pattern language is not followed here, and the
rejection is shown for all of them. -/
def flagRegExp (uniquePrefix : Str) : Except Thrown Str :=
  if uniquePrefix.any isSyntaxCharacter then
    Except.error (Thrown.invalidRegExp ("^--?".toList ++ uniquePrefix))
  else Except.ok uniquePrefix

/-- `Parameter.prototype.isKnownAs(name)`: `this.regexp.test(name)` with
`regexp = new RegExp('^--?' + uniquePrefix)`, for a `uniquePrefix` without syntax
characters, the only kind `flagRegExp` lets through: one or two dashes, then the unique
prefix. -/
def Parameter.isKnownAs (p : Parameter) (name : Str) : Bool :=
  ('-' :: p.uniquePrefix).isPrefixOf name || ('-' :: '-' :: p.uniquePrefix).isPrefixOf name

/-- `Parameter.prototype.isDataRequired`. -/
def Parameter.isDataRequired (p : Parameter) : Bool :=
  p.defaultValue.isNone

/-- `Parameter.prototype.isPositionalAllowed`. -/
def Parameter.isPositionalAllowed (p : Parameter) : Bool :=
  p.groupName.isNone

/-- The inner `while` of the unique-prefix search: `k` is `uniquePrefix.length`, and the
prefix is lengthened while it is a prefix of `testName` and is not the whole `name`. -/
def lengthenPrefix (name testName : Str) : Nat → Nat → Nat
  | 0, k => k
  | fuel + 1, k =>
    if (name.take k).isPrefixOf testName ∧ name.take k ≠ name then
      lengthenPrefix name testName fuel (k + 1)
    else k

/-- The `for` loop of the unique-prefix search over `paramNames`; an entry `none` is an
`undefined` name, whose `indexOf` cannot be read. The result is `uniquePrefix.length`. -/
def uniquePrefixLoop (name : Str) : List (Option Str) → Nat → Except Thrown Nat
  | [], k => Except.ok k
  | none :: _, _ => Except.error (Thrown.typeError "paramNames[i] is undefined".toList)
  | some testName :: rest, k =>
    let k' := lengthenPrefix name testName name.length k
    if name.take k' = name then Except.ok k' else uniquePrefixLoop name rest k'

/-- The `uniquePrefix` the Parameter constructor computes for `name` among `paramNames`. -/
def computeUniquePrefix (name : Str) (paramNames : List (Option Str)) : Except Thrown Str :=
  (uniquePrefixLoop name paramNames 1).map (fun k => name.take k)

/-- A parameter spec: `name = none` is a missing name, `type = none` a type that
`types.getType` does not find. -/
structure ParamSpec where
  name : Option Str
  type : Option GType
  defaultValue : Option Literal
deriving DecidableEq, Repr

/-- One entry of `params`: a parameter spec, or a group spec (`group`, its own `name`, which
is usually absent, and its `params`). -/
inductive ParamItem where
  | param (spec : ParamSpec)
  | group (group : Str) (name : Option Str) (params : List ParamSpec)
deriving DecidableEq, Repr

/-- The `params` member of a command spec. -/
inductive ParamsField where
  | absent
  | notArray
  | array (items : List ParamItem)
deriving DecidableEq, Repr

/-- A command spec in object form. -/
structure CommandSpec where
  name : Option Str
  params : ParamsField
  exec : Option Nat
deriving DecidableEq, Repr

/-- `new Parameter(paramSpec, command, paramNames, groupName)`; `commandName` is
`command.name`. The message for a type that is not found ends with the JSON text of the
type spec, which is not shown. -/
def Parameter.new (spec : ParamSpec) (commandName : Str) (paramNames : List (Option Str))
    (groupName : Option Str) : Except Thrown Parameter :=
  match spec.name with
  | none =>
    Except.error (Thrown.error ("In ".toList ++ commandName ++
      ": all params must have a name".toList))
  | some [] =>
    Except.error (Thrown.error ("In ".toList ++ commandName ++
      ": all params must have a name".toList))
  | some (c :: cs) =>
    match computeUniquePrefix (c :: cs) paramNames with
    | Except.error e => Except.error e
    | Except.ok uniquePrefix =>
      match flagRegExp uniquePrefix with
      | Except.error e => Except.error e
      | Except.ok _ =>
        match spec.type with
        | none =>
          Except.error (Thrown.error ("In ".toList ++ commandName ++ "/".toList ++ (c :: cs) ++
            ": can't find type for: ".toList))
        | some type =>
          Except.ok
            { name := c :: cs, type := type,
              defaultValue := if type = GType.boolean then some (Literal.bool false)
                              else spec.defaultValue,
              groupName := groupName, uniquePrefix := uniquePrefix }

/-- The first `paramSpecs.forEach` of the Command constructor: the list of names. -/
def collectParamNames : List ParamItem → List (Option Str)
  | [] => []
  | ParamItem.param spec :: rest => spec.name :: collectParamNames rest
  | ParamItem.group _ name params :: rest =>
    params.map ParamSpec.name ++ name :: collectParamNames rest

/-- The second `paramSpecs.forEach` of the Command constructor; `usingGroups` is set by the
first group, and a plain parameter after a group is ignored. -/
def buildParams (commandName : Str) (paramNames : List (Option Str)) :
    List ParamItem → Bool → Except Thrown (List Parameter)
  | [], _ => Except.ok []
  | ParamItem.param spec :: rest, usingGroups =>
    if usingGroups then buildParams commandName paramNames rest usingGroups
    else
      match Parameter.new spec commandName paramNames none with
      | Except.error e => Except.error e
      | Except.ok param =>
        (buildParams commandName paramNames rest usingGroups).map (fun ps => param :: ps)
  | ParamItem.group group _ params :: rest, _ =>
    match params.mapM (fun ispec => Parameter.new ispec commandName paramNames (some group)) with
    | Except.error e => Except.error e
    | Except.ok ps => (buildParams commandName paramNames rest true).map (fun qs => ps ++ qs)

/-- `new Command(commandSpec)`. -/
def Command.new (spec : CommandSpec) : Except Thrown Command :=
  match spec.name with
  | none => Except.error (Thrown.error "All registered commands must have a name".toList)
  | some [] => Except.error (Thrown.error "All registered commands must have a name".toList)
  | some (c :: cs) =>
    match spec.params with
    | ParamsField.notArray =>
      Except.error (Thrown.error ("command.params must be an array in ".toList ++ (c :: cs)))
    | ParamsField.absent => Except.ok { name := c :: cs, params := [], exec := spec.exec }
    | ParamsField.array items =>
      (buildParams (c :: cs) (collectParamNames items) items false).map
        (fun params => { name := c :: cs, params := params, exec := spec.exec })

/-- `a < b` for strings, as `Array.prototype.sort` compares them: by code units. -/
def strLt : Str → Str → Bool
  | [], [] => false
  | [], _ :: _ => true
  | _ :: _, [] => false
  | a :: as, b :: bs => a.toNat < b.toNat || (a = b && strLt as bs)

/-- Insertion of a name into a sorted list of names. -/
def insertSorted (name : Str) : List Str → List Str
  | [] => [name]
  | n :: rest => if strLt name n then name :: n :: rest else n :: insertSorted name rest

/-- `commandNames.sort()`. -/
def sortNames (names : List Str) : List Str :=
  names.foldr insertSorted []

/-- What is passed to `canon.addCommand`: a function (with its `metadata`, if any) or a
spec object. -/
inductive CommandInput where
  | function (metadata : Option CommandSpec) (action : Nat)
  | object (spec : CommandSpec)
deriving DecidableEq, Repr

/-- `canon.addCommand(commandSpec, name)`; `name = none` when the second argument is
missing. -/
def Canon.addCommand (canon : Canon) (commandSpec : CommandInput) (name : Option Str) :
    Except Thrown Canon :=
  let normalized : Except Thrown CommandSpec :=
    match commandSpec with
    | CommandInput.function none _ =>
      Except.error (Thrown.error "Commands registered as functions need metdata".toList)
    | CommandInput.function (some metadata) action =>
      if metadata.name.getD [] = [] then
        if name.getD [] = [] then
          Except.error (Thrown.error "All registered commands must have a name".toList)
        else Except.ok { metadata with name := name, exec := some action }
      else Except.ok { metadata with exec := some action }
    | CommandInput.object spec =>
      Except.ok { spec with name := if name.getD [] = [] then spec.name else name }
  match normalized with
  | Except.error e => Except.error e
  | Except.ok spec =>
    match Command.new spec with
    | Except.error e => Except.error e
    | Except.ok command =>
      Except.ok
        { commands := JSObject.set canon.commands command.name command,
          commandNames := sortNames (canon.commandNames ++ [command.name]) }

/-- `delete o[key]`. -/
def JSObject.delete {α : Type} (o : JSObject α) (key : Str) : JSObject α :=
  o.filter (fun p => p.1 ≠ key)

/-- What is passed to `canon.removeCommand`: a name, or a command (or spec) object with its
`name` member. -/
inductive CommandOrName where
  | name (s : Str)
  | command (name : Option Str)
deriving DecidableEq, Repr

/-- `canon.removeCommand(commandOrName)`. The test `typeof command === 'string'` reads a
variable `command` that is not declared in the module, so its `typeof` is `'undefined'` and
`name` is always `commandOrName.name`; for a string that member is `undefined`. Deleting the
key `undefined` and filtering out `undefined` remove nothing unless a command is registered
under the name `undefined`. -/
def Canon.removeCommand (canon : Canon) (commandOrName : CommandOrName) : Canon :=
  let name : Option Str :=
    match commandOrName with
    | CommandOrName.name _ => none
    | CommandOrName.command n => n
  { commands := JSObject.delete canon.commands (name.getD "undefined".toList),
    commandNames := canon.commandNames.filter (fun test => some test ≠ name) }

/-- `canon.getCommand(name)`: `commands[name]`, own entries only (an inherited member of
`Object.prototype` is not a command and is shown as `none`). -/
def Canon.getCommand (canon : Canon) (name : Str) : Option Command :=
  JSObject.own canon.commands name

/-- `canon.getCommandNames()`. -/
def Canon.getCommandNames (canon : Canon) : List Str :=
  canon.commandNames

/-! ## gcli/canon: ReportList -/

/-- A report of one execution. `output` is the value the action returned or threw. -/
structure Report where
  command : Value
  typed : Str
  completed : Bool
  error : Option Bool
  output : Option Value
deriving DecidableEq, Repr

/-- `ReportList`: the reports held, oldest first. -/
structure ReportList where
  _reports : List Report
  maxRequestLength : Nat
deriving DecidableEq, Repr

/-- `ReportList.prototype.addReport`. The list is an Array, and `shiftObject` is defined
nowhere in the program, so the call in the `while` body throws a TypeError. -/
def ReportList.addReport (l : ReportList) (report : Report) : Except Thrown ReportList :=
  let pushed := l._reports ++ [report]
  if pushed.length > l.maxRequestLength then
    Except.error (Thrown.typeError "this._reports.shiftObject is not a function".toList)
  else
    Except.ok { l with _reports := pushed }

/-! ## gcli/cli: assignments -/

/-- The assignment an argument object points to through `arg.assignment`: the command
assignment, the assignment of the parameter with the given index, or the unassigned one. -/
inductive Owner where
  | command
  | param (paramIndex : Nat)
  | unassigned
deriving DecidableEq, Repr

/-- One Argument object of the live list `_args`: its identity `id`, its `text`, `prefix`
and `suffix`, and the members other code attaches to it (`assignment` by `assign`,
`conversion` by `ArrayType.prototype.parse`). -/
structure ArgSlot where
  id : Nat
  arg : Argument
  assignment : Option Owner
  conversion : Option Conversion
deriving DecidableEq, Repr

/-- `Assignment`: a parameter, its index and the current conversion. -/
structure Assignment where
  param : Parameter
  paramIndex : Int
  conversion : AnyConversion
deriving DecidableEq, Repr

/-- What `conversion.value` is: a value, or the array of an ArrayConversion. -/
inductive AnyValue where
  | single (v : Value)
  | array (vs : List Value)
deriving DecidableEq, Repr

/-- `conversion.value`. -/
def AnyConversion.value : AnyConversion → AnyValue
  | AnyConversion.simple c => AnyValue.single c.value
  | AnyConversion.array c => AnyValue.array c.value

/-- Truthiness of a value (`!value` is its negation). -/
def Value.truthy : Value → Bool
  | Value.undefined => false
  | Value.null => false
  | Value.bool b => b
  | Value.number n => n ≠ 0
  | Value.NaN => false
  | Value.string s => !s.isEmpty
  | _ => true

/-- Truthiness of `conversion.value`; an array is truthy. -/
def AnyValue.truthy : AnyValue → Bool
  | AnyValue.single v => v.truthy
  | AnyValue.array _ => true

/-- Truthiness of `value.exec`: only a command with an `exec` function has one. -/
def Value.hasExec : Value → Bool
  | Value.command c => c.exec.isSome
  | _ => false

/-- Truthiness of `conversion.value.exec`. -/
def AnyValue.hasExec : AnyValue → Bool
  | AnyValue.single v => v.hasExec
  | AnyValue.array _ => false

/-- `str.trim() === ''`. -/
def trimIsEmpty (str : Str) : Bool :=
  str.all isWhiteSpace

/-- `Argument.prototype.isBlank`. An ArrayArgument has no `text`, so it is never blank. -/
def Arg.isBlank : Arg → Bool
  | Arg.array _ => false
  | a => a.members.text.isEmpty && trimIsEmpty a.members.prefix_ && trimIsEmpty a.members.suffix

/-- `arg.text !== ''`; the `text` of an ArrayArgument is `undefined`. -/
def Arg.textProvided : Arg → Bool
  | Arg.array _ => true
  | a => !a.members.text.isEmpty

/-- `isDataProvided` of Conversion and of ArrayConversion. -/
def AnyConversion.isDataProvided : AnyConversion → Bool
  | AnyConversion.simple c => c.value ≠ Value.undefined || c.arg.textProvided
  | AnyConversion.array c => c.conversions.length > 0

/-- `getStatus(arg)` of Conversion and of ArrayConversion; `arg = none` when no argument
is passed. -/
def AnyConversion.getStatus (c : AnyConversion) (arg : Option ArgSlot) : Status :=
  match c with
  | AnyConversion.simple c => c.getStatus
  | AnyConversion.array c =>
    match arg with
    | some slot =>
      match slot.conversion with
      | some sub => sub.getStatus
      | none => c._status
    | none => c._status

/-- `Assignment.prototype.getStatus(arg)`. -/
def Assignment.getStatus (a : Assignment) (arg : Option ArgSlot) : Status :=
  if a.param.isDataRequired ∧ ¬ a.conversion.isDataProvided then Status.ERROR
  else if ¬ a.param.isDataRequired ∧ a.conversion.arg.isBlank then Status.VALID
  else a.conversion.getStatus arg

/-- `CommandAssignment.prototype.getStatus(arg)`. -/
def CommandAssignment.getStatus (a : Assignment) (arg : Option ArgSlot) : Status :=
  Status.combine
    [CombineArg.status (Assignment.getStatus a arg),
     CombineArg.status
      (if a.conversion.value.truthy ∧ ¬ a.conversion.value.hasExec
       then Status.INCOMPLETE else Status.VALID)]

/-- `UnassignedAssignment.prototype.getStatus(arg)`. -/
def UnassignedAssignment.getStatus (_a : Assignment) (_arg : Option ArgSlot) : Status :=
  Status.ERROR

/-- `equals` of the argument classes: the class of `this` decides which class `that` must
have; a plain Argument accepts every class that has a `text`. -/
def Arg.equals (this that : Arg) : Bool :=
  let same := decide (this.members = that.members)
  match this, that with
  | Arg.array xs, Arg.array ys =>
    xs.length = ys.length &&
      (List.zip xs ys).all (fun p =>
        match p.1, p.2 with
        | ArrayMember.named _ _, ArrayMember.token _ => false
        | x, y => decide (x.toArg.members = y.toArg.members))
  | Arg.array _, _ => false
  | _, Arg.array _ => false
  | Arg.fresh _, _ => same
  | Arg.token _, _ => same
  | Arg.merged _, Arg.merged _ => same
  | Arg.trueNamed _ _, Arg.trueNamed _ _ => same
  | Arg.falseNamed, Arg.falseNamed => same
  | Arg.named _ _, Arg.named _ _ => same
  | _, _ => false

/-- `valueEquals` of Conversion and of ArrayConversion (which throws when `that` is not an
ArrayConversion). Two arrays are never the same object. -/
def AnyConversion.valueEquals (this that : AnyConversion) : Except Thrown Bool :=
  match this, that with
  | AnyConversion.simple a, AnyConversion.simple b => Except.ok (a.value.strictEquals b.value)
  | AnyConversion.simple _, AnyConversion.array _ => Except.ok false
  | AnyConversion.array _, AnyConversion.simple _ =>
    Except.error (Thrown.error "Can't compare values with non ArrayConversion".toList)
  | AnyConversion.array a, AnyConversion.array b =>
    Except.ok (a.value.length = b.value.length &&
      (List.zip a.conversions b.conversions).all (fun p => p.1.value.strictEquals p.2.value))

/-- `Conversion.prototype.argEquals`. -/
def AnyConversion.argEquals (this that : AnyConversion) : Bool :=
  this.arg.equals that.arg

/-- `Conversion.prototype.equals(that)`; `that = none` is `undefined`. The shortcut
`this === that` is not taken: the conversion passed is a new object. -/
def AnyConversion.equals (this : AnyConversion) (that : Option AnyConversion) :
    Except Thrown Bool :=
  match that with
  | none => Except.ok false
  | some that =>
    match this.valueEquals that with
    | Except.error e => Except.error e
    | Except.ok v => Except.ok (v && this.argEquals that)

/-- The event object of `assignmentChange`. -/
structure AssignmentChange where
  conversion : AnyConversion
  oldConversion : Option AnyConversion
deriving DecidableEq, Repr

/-- `Assignment.prototype.setConversion(conversion)` on an assignment whose current
conversion is `a.conversion`: the assignment afterwards, and the `assignmentChange` event if
one is raised. (Marking the argument's tokens is done by the requisition.) -/
def Assignment.setConversion (a : Assignment) (conversion : AnyConversion) :
    Except Thrown (Assignment × Option AssignmentChange) :=
  match conversion.equals (some a.conversion) with
  | Except.error e => Except.error e
  | Except.ok true => Except.ok ({ a with conversion := conversion }, none)
  | Except.ok false =>
    Except.ok ({ a with conversion := conversion }, some ⟨conversion, some a.conversion⟩)

/-- `type.getDefault`, where the type has one. -/
def GType.getDefault : GType → Option AnyConversion
  | GType.boolean =>
    some (AnyConversion.simple (Conversion.valid (Value.bool false) (Arg.fresh ⟨[], [], []⟩)))
  | GType.array _ => some (AnyConversion.array ⟨[], Arg.array []⟩)
  | _ => none

/-- The conversion `Assignment.prototype.setDefault` installs. -/
def defaultConversion (canon : Canon) (param : Parameter) : Except Thrown AnyConversion :=
  match param.type.getDefault with
  | some c => Except.ok c
  | none => GType.parse canon param.type (Arg.fresh Argument.empty)

/-- `new Assignment(param, paramIndex)`. -/
def Assignment.new (canon : Canon) (param : Parameter) (paramIndex : Int) :
    Except Thrown Assignment :=
  (defaultConversion canon param).map (fun c => ⟨param, paramIndex, c⟩)

/-- The parameter of the command assignment. -/
def commandParam : Parameter :=
  { name := "__command".toList, type := GType.command, defaultValue := none,
    groupName := none, uniquePrefix := "__command".toList }

/-- The parameter of the unassigned assignment. -/
def unassignedParam : Parameter :=
  { name := "__unassigned".toList, type := GType.string, defaultValue := none,
    groupName := none, uniquePrefix := "__unassigned".toList }

/-! ## gcli/cli: Requisition -/

/-- The `input` of `update`: `typed` (`none`: `null` or `undefined`) and the `start` of the
cursor (`none`: no cursor was given, and `update` stores the `undefined` of `input.length`
for it). -/
structure Input where
  typed : Option Str
  cursorStart : Option Nat
deriving DecidableEq, Repr

/-- `Requisition`: the command assignment, the parameter assignments by name, the live
argument list (`none` before the first `update`), the unassigned assignment, the `start` of
the stored cursor, and the report list. -/
structure Requisition where
  commandAssignment : Assignment
  _assignments : JSObject Assignment
  _args : Option (List ArgSlot)
  _unassigned : Assignment
  cursorStart : Option Nat
  reportList : ReportList
deriving DecidableEq, Repr

/-- `new Requisition(env)`. The command assignment starts with the conversion that the
prototype got when gcli/cli started (an empty Argument parsed with the commands registered
then, `startup`); the unassigned assignment starts with an empty string. -/
def Requisition.new (startup : Canon) : Requisition :=
  { commandAssignment :=
      ⟨commandParam, -1, AnyConversion.simple
        (SelectionType.parse GType.command (commandLookup startup) (Arg.fresh Argument.empty))⟩,
    _assignments := [],
    _args := none,
    _unassigned :=
      ⟨unassignedParam, -1, AnyConversion.simple (StringType.parse (Arg.fresh Argument.empty))⟩,
    cursorStart := none,
    reportList := ⟨[], 100⟩ }

/-- `assignmentCount`. -/
def Requisition.assignmentCount (r : Requisition) : Nat :=
  (JSObject.keys r._assignments).length

/-- `getAssignment(number)`. -/
def Requisition.getAssignment (r : Requisition) (i : Nat) : Option Assignment :=
  (r._assignments.map Prod.snd)[i]?

/-- The tokens of the argument(s) of a conversion, as `conversion.assign` reaches them. -/
def AnyConversion.tokens : AnyConversion → List Tok
  | AnyConversion.simple c => c.arg.tokens
  | AnyConversion.array c => (c.conversions.map (fun m => m.arg.tokens)).flatten

/-- The `conversion` members that `ArrayType.prototype.parse` attaches to the members of
its ArrayArgument: for a member that is a token, its id and the conversion. -/
def AnyConversion.attached : AnyConversion → List (Nat × Conversion)
  | AnyConversion.simple _ => []
  | AnyConversion.array c =>
    (c.conversions.filterMap (fun m =>
      match m.arg with
      | Arg.token t => some (t.idx, m)
      | _ => none))

/-- `conversion.assign(assignment)` seen from the live list: every token of the conversion
gets `assignment = owner`, and the tokens that are members of an ArrayArgument carry their
`conversion`. -/
def assignSlots (slots : List ArgSlot) (c : AnyConversion) (owner : Owner) : List ArgSlot :=
  slots.map (fun slot =>
    let slot :=
      if c.tokens.any (fun t => t.idx = slot.id) then { slot with assignment := some owner }
      else slot
    match (c.attached.find? (fun p => p.1 = slot.id)) with
    | some p => { slot with conversion := some p.2 }
    | none => slot)

/-- `conversion.assign(assignment)` on the requisition. -/
def Requisition.assign (r : Requisition) (c : AnyConversion) (owner : Owner) : Requisition :=
  { r with _args := r._args.map (fun slots => assignSlots slots c owner) }

/-- The body of the loop in `_onCommandAssignmentChange`: a new Assignment per parameter,
stored under the parameter's name. -/
def buildAssignments (canon : Canon) :
    List Parameter → Nat → JSObject Assignment → Except Thrown (JSObject Assignment)
  | [], _, acc => Except.ok acc
  | param :: rest, i, acc =>
    match Assignment.new canon param i with
    | Except.error e => Except.error e
    | Except.ok a => buildAssignments canon rest (i + 1) (JSObject.set acc param.name a)

/-- `_onCommandAssignmentChange`: the assignments for the new value of the command
assignment. A value without `params` (a member inherited from `Object.prototype`) makes
`command.params.length` throw. -/
def commandAssignments (canon : Canon) (value : Value) : Except Thrown (JSObject Assignment) :=
  if value.truthy then
    match value with
    | Value.command c => buildAssignments canon c.params 0 []
    | _ => Except.error (Thrown.typeError "command.params is undefined".toList)
  else Except.ok []

/-- `this.commandAssignment.setConversion(conversion)`, with the listener
`_onCommandAssignmentChange` run when the event is raised. -/
def Requisition.setCommandConversion (canon : Canon) (r : Requisition) (conversion : Conversion) :
    Except Thrown Requisition :=
  match r.commandAssignment.setConversion (AnyConversion.simple conversion) with
  | Except.error e => Except.error e
  | Except.ok (a, event) =>
    let r := Requisition.assign { r with commandAssignment := a }
      (AnyConversion.simple conversion) Owner.command
    match event with
    | none => Except.ok r
    | some _ =>
      match commandAssignments canon conversion.value with
      | Except.error e => Except.error e
      | Except.ok assignments => Except.ok { r with _assignments := assignments }

/-- `assignment.setConversion(conversion)` for the parameter assignment stored under `key`,
while `_structuralChangeInProgress` is set: the listener `_onAssignmentChange` returns at
once, so only the assignment and the argument owners change. -/
def Requisition.setParamConversion (r : Requisition) (key : Str) (conversion : AnyConversion) :
    Except Thrown Requisition :=
  match JSObject.own r._assignments key with
  | none => Except.error (Thrown.typeError "assignment is undefined".toList)
  | some a =>
    match a.setConversion conversion with
    | Except.error e => Except.error e
    | Except.ok (a', _) =>
      Except.ok (Requisition.assign { r with _assignments := JSObject.set r._assignments key a' }
        conversion (Owner.param a.paramIndex.toNat))

/-- `this._unassigned.setConversion(conversion)`. -/
def Requisition.setUnassignedConversion (r : Requisition) (conversion : AnyConversion) :
    Except Thrown Requisition :=
  match r._unassigned.setConversion conversion with
  | Except.error e => Except.error e
  | Except.ok (a', _) =>
    Except.ok (Requisition.assign { r with _unassigned := a' } conversion Owner.unassigned)

/-- `assignment.setDefault()` for the parameter assignment stored under `key`. -/
def Requisition.setParamDefault (canon : Canon) (r : Requisition) (key : Str) :
    Except Thrown Requisition :=
  match JSObject.own r._assignments key with
  | none => Except.error (Thrown.typeError "assignment is undefined".toList)
  | some a =>
    match defaultConversion canon a.param with
    | Except.error e => Except.error e
    | Except.ok c => Requisition.setParamConversion r key c

/-- `this._unassigned.setDefault()`. -/
def Requisition.setUnassignedDefault (canon : Canon) (r : Requisition) :
    Except Thrown Requisition :=
  match defaultConversion canon r._unassigned.param with
  | Except.error e => Except.error e
  | Except.ok c => Requisition.setUnassignedConversion r c

/-- `UnassignedAssignment.prototype.setUnassigned(args)`. -/
def Requisition.setUnassigned (canon : Canon) (r : Requisition) (args : List Tok) :
    Except Thrown Requisition :=
  match args with
  | [] => Requisition.setUnassignedDefault canon r
  | _ :: _ =>
    match MergedArgument.new args with
    | Except.error e => Except.error e
    | Except.ok arg =>
      match GType.parse canon r._unassigned.param.type arg with
      | Except.error e => Except.error e
      | Except.ok c => Requisition.setUnassignedConversion r c

/-- `setDefaultArguments()`: `setDefault` on every parameter assignment, in order. -/
def Requisition.setDefaultArguments (canon : Canon) (r : Requisition) :
    List Str → Except Thrown Requisition
  | [] => Except.ok r
  | key :: rest =>
    match Requisition.setParamDefault canon r key with
    | Except.error e => Except.error e
    | Except.ok r' => Requisition.setDefaultArguments canon r' rest

/-- The `while` loop of `_split`. `used` are the `argsUsed` leading tokens being tried and
`rest` the tokens after them; the result is the final `argsUsed` and the last conversion. -/
def splitLoop (canon : Canon) : List Tok → List Tok → Except Thrown (Nat × Conversion)
  | used, rest =>
    let arg : Except Thrown Arg :=
      match used with
      | [t] => Except.ok (Arg.token t)
      | _ => MergedArgument.new used
    match arg with
    | Except.error e => Except.error e
    | Except.ok arg =>
      let conversion := SelectionType.parse GType.command (commandLookup canon) arg
      if ¬ conversion.value.truthy ∨ conversion.value.hasExec then
        Except.ok (used.length, conversion)
      else
        match rest with
        | [] => Except.ok (used.length + 1, conversion)
        | t :: rest' => splitLoop canon (used ++ [t]) rest'

/-- `Requisition.prototype._split(args)`: the requisition afterwards and what is left of
`args`. With no token at all the conversion stays `undefined` and `setConversion` throws. -/
def Requisition._split (canon : Canon) (r : Requisition) (args : List Tok) :
    Except Thrown (Requisition × List Tok) :=
  match args with
  | [] => Except.error (Thrown.typeError "this.conversion is undefined".toList)
  | t :: rest =>
    match splitLoop canon [t] rest with
    | Except.error e => Except.error e
    | Except.ok (argsUsed, conversion) =>
      match Requisition.setCommandConversion canon r conversion with
      | Except.error e => Except.error e
      | Except.ok r' => Except.ok (r', args.drop argsUsed)

/-- The local variables of `_assign` that change while it runs. -/
structure AssignWork where
  r : Requisition
  names : List Str
  arrayArgs : JSObject (List ArrayMember)
deriving DecidableEq, Repr

/-- `arrayArgs[name]` created if missing, then `addArgument` / `addArguments`. -/
def addArrayArgs (arrayArgs : JSObject (List ArrayMember)) (name : Str)
    (members : List ArrayMember) : JSObject (List ArrayMember) :=
  JSObject.set arrayArgs name ((JSObject.own arrayArgs name).getD [] ++ members)

/-- `var conversion = assignment.param.type.parse(arg); assignment.setConversion(conversion)`
for the assignment stored under `key`. -/
def parseAndSet (canon : Canon) (r : Requisition) (key : Str) (type : GType) (arg : Arg) :
    Except Thrown Requisition :=
  match GType.parse canon type arg with
  | Except.error e => Except.error e
  | Except.ok c => Requisition.setParamConversion r key c

/-- The `while (i < args.length)` loop of the named pass for one assignment. `before` is
`args[0..i)` and the second list is `args[i..]`; the result is `args` after the loop. -/
def namedLoop (canon : Canon) (key : Str) (param : Parameter) :
    List Tok → List Tok → AssignWork → Except Thrown (List Tok × AssignWork)
  | before, [], w => Except.ok (before, w)
  | before, t :: rest, w =>
    if param.isKnownAs t.arg.text then
      let w := { w with names := w.names.filter (fun test => test ≠ param.name) }
      if param.type = GType.boolean then
        match parseAndSet canon w.r key param.type (Arg.trueNamed none (some t)) with
        | Except.error e => Except.error e
        | Except.ok r' => namedLoop canon key param before rest { w with r := r' }
      else
        -- `i + 1 >= args.length` holds when at most one token is left from index `i` on
        let valueArg : Option Tok :=
          match rest with
          | [v] => some v
          | _ => none
        match NamedArgument.new t valueArg with
        | Except.error e => Except.error e
        | Except.ok arg =>
          match param.type, arg with
          | GType.array _, Arg.named n v =>
            Except.ok (before,
              { w with arrayArgs := addArrayArgs w.arrayArgs param.name [ArrayMember.named n v] })
          | _, _ =>
            match parseAndSet canon w.r key param.type arg with
            | Except.error e => Except.error e
            | Except.ok r' => Except.ok (before, { w with r := r' })
    else namedLoop canon key param (before ++ [t]) rest w

/-- The named pass: `getAssignments(false).forEach(...)` over the assignment keys. -/
def namedPass (canon : Canon) :
    List Str → List Tok → AssignWork → Except Thrown (List Tok × AssignWork)
  | [], args, w => Except.ok (args, w)
  | key :: keys, args, w =>
    match JSObject.own w.r._assignments key with
    | none => Except.error (Thrown.typeError "assignment is undefined".toList)
    | some a =>
      match namedLoop canon key a.param [] args w with
      | Except.error e => Except.error e
      | Except.ok (args', w') => namedPass canon keys args' w'

/-- The body of the positional pass for one parameter name: the tokens left and the
working state afterwards. -/
def positionalStep (canon : Canon) (name : Str) (args : List Tok) (w : AssignWork) :
    Except Thrown (List Tok × AssignWork) :=
  match JSObject.own w.r._assignments name with
  | none => Except.error (Thrown.typeError "assignment is undefined".toList)
  | some a =>
    if ¬ a.param.isPositionalAllowed then
      match Requisition.setParamDefault canon w.r name with
      | Except.error e => Except.error e
      | Except.ok r' => Except.ok (args, { w with r := r' })
    else
      match a.param.type with
      | GType.array _ =>
        Except.ok ([],
          { w with arrayArgs :=
              addArrayArgs w.arrayArgs a.param.name (args.map ArrayMember.token) })
      | type =>
        let arg : Arg :=
          match args with
          | t :: _ => Arg.token t
          | [] => Arg.fresh Argument.empty
        match parseAndSet canon w.r name type arg with
        | Except.error e => Except.error e
        | Except.ok r' => Except.ok (args.tail, { w with r := r' })

/-- The positional pass: `names.forEach(...)`. -/
def positionalPass (canon : Canon) :
    List Str → List Tok → AssignWork → Except Thrown (List Tok × AssignWork)
  | [], args, w => Except.ok (args, w)
  | name :: names, args, w =>
    match positionalStep canon name args w with
    | Except.error e => Except.error e
    | Except.ok (args', w') => positionalPass canon names args' w'

/-- The array pass: `Object.keys(arrayArgs).forEach(...)`. -/
def arrayPass (canon : Canon) :
    List (Str × List ArrayMember) → Requisition → Except Thrown Requisition
  | [], r => Except.ok r
  | (name, members) :: rest, r =>
    match JSObject.own r._assignments name with
    | none => Except.error (Thrown.typeError "assignment is undefined".toList)
    | some a =>
      match parseAndSet canon r name a.param.type (Arg.array members) with
      | Except.error e => Except.error e
      | Except.ok r' => arrayPass canon rest r'

/-- `Requisition.prototype._assign(args)`. -/
def Requisition._assign (canon : Canon) (r : Requisition) (args : List Tok) :
    Except Thrown Requisition :=
  if ¬ r.commandAssignment.conversion.value.truthy then
    Requisition.setUnassigned canon r args
  else if args.length = 0 then
    match Requisition.setDefaultArguments canon r (JSObject.keys r._assignments) with
    | Except.error e => Except.error e
    | Except.ok r' => Requisition.setUnassignedDefault canon r'
  else if r.assignmentCount = 0 then
    Requisition.setUnassigned canon r args
  else
    let single : Option (Str × Assignment) :=
      match r._assignments with
      | [(key, a)] => if a.param.type = GType.string then some (key, a) else none
      | _ => none
    match single with
    | some (key, a) =>
      let arg : Except Thrown Arg :=
        match args with
        | [t] => Except.ok (Arg.token t)
        | _ => MergedArgument.new args
      match arg with
      | Except.error e => Except.error e
      | Except.ok arg =>
        match parseAndSet canon r key a.param.type arg with
        | Except.error e => Except.error e
        | Except.ok r' => Requisition.setUnassignedDefault canon r'
    | none =>
      let keys := JSObject.keys r._assignments
      match namedPass canon keys args ⟨r, keys, []⟩ with
      | Except.error e => Except.error e
      | Except.ok (args1, w1) =>
        match positionalPass canon w1.names args1 w1 with
        | Except.error e => Except.error e
        | Except.ok (args2, w2) =>
          match arrayPass canon w2.arrayArgs w2.r with
          | Except.error e => Except.error e
          | Except.ok r3 =>
            if args2.length > 0 then Requisition.setUnassigned canon r3 args2
            else Requisition.setUnassignedDefault canon r3

/-- The token list as the live list: each Argument with its position as identity. -/
def toSlots (args : List Argument) : List ArgSlot :=
  (List.range args.length).zipWith (fun i a => ⟨i, a, none, none⟩) args

/-- The clone `this._args.slice(0)` that `_split` and `_assign` work on. -/
def toToks (args : List Argument) : List Tok :=
  (List.range args.length).zipWith (fun i a => ⟨i, a⟩) args

/-- `Requisition.prototype.update(input)`. -/
def Requisition.update (canon : Canon) (r : Requisition) (input : Input) :
    Except Thrown Requisition :=
  let args := _tokenize input.typed
  let r := { r with cursorStart := input.cursorStart, _args := some (toSlots args) }
  match Requisition._split canon r (toToks args) with
  | Except.error e => Except.error e
  | Except.ok (r', rest) => Requisition._assign canon r' rest

/-! ## gcli/cli: queries on a requisition -/

/-- `assignment.paramIndex` of the assignment an owner stands for. -/
def Owner.paramIndex : Owner → Int
  | Owner.command => -1
  | Owner.param i => i
  | Owner.unassigned => -1

/-- `arg.assignment.getStatus(arg)` for a slot of the live list; it throws when the slot has
no `assignment`. -/
def Requisition.slotStatus (r : Requisition) (slot : ArgSlot) : Except Thrown Status :=
  match slot.assignment with
  | none => Except.error (Thrown.typeError "arg.assignment is undefined".toList)
  | some Owner.command => Except.ok (CommandAssignment.getStatus r.commandAssignment (some slot))
  | some Owner.unassigned => Except.ok (UnassignedAssignment.getStatus r._unassigned (some slot))
  | some (Owner.param i) =>
    match r.getAssignment i with
    | none => Except.error (Thrown.typeError "assignment is undefined".toList)
    | some a => Except.ok (a.getStatus (some slot))

/-- `Requisition.prototype.getStatus()`: the loop over `getAssignments(true)`, the command
assignment first. -/
def Requisition.getStatus (r : Requisition) : Status :=
  ((CommandAssignment.getStatus r.commandAssignment none) ::
      r._assignments.map (fun p => p.2.getStatus none)).foldl
    (fun status assignStatus =>
      if assignStatus.valueOf > status.valueOf then assignStatus else status)
    Status.VALID

/-- The `part` of an argument trace. -/
inductive Part where
  | prefix_
  | text
  | suffix
deriving DecidableEq, Repr

/-- One element of `createInputArgTrace()`. -/
structure ArgTrace where
  arg : ArgSlot
  char : Char
  part : Part
deriving DecidableEq, Repr

/-- The traces of one argument: its prefix, text and suffix characters. -/
def slotTraces (slot : ArgSlot) : List ArgTrace :=
  slot.arg.prefix_.map (fun c => ⟨slot, c, Part.prefix_⟩) ++
  slot.arg.text.map (fun c => ⟨slot, c, Part.text⟩) ++
  slot.arg.suffix.map (fun c => ⟨slot, c, Part.suffix⟩)

/-- `Requisition.prototype.createInputArgTrace()`. -/
def Requisition.createInputArgTrace (r : Requisition) : Except Thrown (List ArgTrace) :=
  match r._args with
  | none => Except.error (Thrown.error "createInputMap requires a command line".toList)
  | some slots => Except.ok (slots.map slotTraces).flatten

/-- The status pushed for one trace in `getInputStatusMarkup`; `cTrace = none` is the
`undefined` read from a position outside the traces. -/
def traceStatus (r : Requisition) (cTrace : Option ArgTrace) (argTrace : ArgTrace) :
    Except Thrown Status :=
  if argTrace.part = Part.text then
    match r.slotStatus argTrace.arg with
    | Except.error e => Except.error e
    | Except.ok status =>
      if status = Status.INCOMPLETE then
        match cTrace with
        | none => Except.error (Thrown.typeError "cTrace is undefined".toList)
        | some cTrace =>
          if argTrace.arg.id ≠ cTrace.arg.id ∨ cTrace.part ≠ Part.text then
            if argTrace.arg.assignment ≠ some Owner.command then Except.ok Status.ERROR
            else Except.ok status
          else Except.ok status
      else Except.ok status
  else Except.ok Status.VALID

/-- `Requisition.prototype.getInputStatusMarkup()`. With no cursor stored, `cursor.start - 1`
is `NaN` and `cTrace` is `undefined`. -/
def Requisition.getInputStatusMarkup (r : Requisition) : Except Thrown (List Status) :=
  match r.createInputArgTrace with
  | Except.error e => Except.error e
  | Except.ok argTraces =>
    let cTrace : Option ArgTrace :=
      match r.cursorStart with
      | none => none
      | some start => argTraces[if start = 0 then 0 else start - 1]?
    argTraces.mapM (traceStatus r cTrace)

/-- The entries `getAssignmentAt` pushes for the argument at index `i`. -/
def assignForArg (r : Requisition) (slots : List ArgSlot) (i : Nat) (slot : ArgSlot) :
    List (Option Owner) :=
  let assignment := slot.assignment
  let next : Option Owner :=
    if slots.length > i + 1 then (slots[i + 1]?).bind ArgSlot.assignment
    else
      match assignment with
      | some o =>
        if o.paramIndex + 1 < r.assignmentCount then some (Owner.param (o.paramIndex + 1).toNat)
        else assignment
      | none => assignment
  List.replicate slot.arg.prefix_.length assignment ++
  List.replicate slot.arg.text.length assignment ++
  List.replicate slot.arg.suffix.length next

/-- The array `assignForPos` of `getAssignmentAt`. -/
def Requisition.assignForPos (r : Requisition) (slots : List ArgSlot) : List (Option Owner) :=
  ((List.range slots.length).zipWith (fun i slot => assignForArg r slots i slot) slots).flatten

/-- `Requisition.prototype.getAssignmentAt(cursor)`: the owner found, `none` for
`undefined`. -/
def Requisition.getAssignmentAt (r : Requisition) (cursor : Nat) :
    Except Thrown (Option Owner) :=
  match r._args with
  | none => Except.error (Thrown.error "Missing args".toList)
  | some slots =>
    if cursor = 0 then Except.ok (some Owner.command)
    else Except.ok ((r.assignForPos slots)[cursor - 1]?).join

/-- `Requisition.prototype.toString()` once `_args` is set; `none` stands for the canonical
string used before the first `update`. -/
def Requisition.toString (r : Requisition) : Option Str :=
  r._args.map (fun slots => joinArgs (slots.map ArgSlot.arg))

/-! ## The commands of gcli/tests/commands -/

namespace TestCommands

/-- `tsr`: one string parameter `text`. -/
def tsrSpec : CommandSpec :=
  ⟨some "tsr".toList, ParamsField.array [ParamItem.param ⟨some "text".toList, some GType.string, none⟩],
    none⟩

/-- `tsu`: one number parameter `num`. -/
def tsuSpec : CommandSpec :=
  ⟨some "tsu".toList,
    ParamsField.array [ParamItem.param ⟨some "num".toList, some (GType.number none none), none⟩],
    none⟩

/-- The metadata of the sub-commands of `tsn`: one string parameter `text`. -/
def tsnSubSpec : CommandSpec :=
  ⟨none, ParamsField.array [ParamItem.param ⟨some "text".toList, some GType.string, none⟩], none⟩

/-- `tsv`. Its two types are custom types of the test module that keep state: `optionType`
is a selection given by the lookup of the two option objects (which have no `name`) and
records the last option parsed, and `optionValue` is a deferred type that follows the type
of that option. They are shown in the state they have while no option has been parsed:
`optionValue` defers to the blank type. Inputs that give `tsv` a complete option name are
therefore not covered. -/
def tsvSpec : CommandSpec :=
  ⟨some "tsv".toList,
    ParamsField.array
      [ParamItem.param ⟨some "optionType".toList,
          some (GType.lookup [("option1".toList, 1), ("option2".toList, 2)]), none⟩,
       ParamItem.param ⟨some "optionValue".toList,
          some (GType.deferred GType.blank), none⟩],
    some 0⟩

/-- `tselarr`: a selection `num` over 1, 2, 3 and an array of strings `arr`. -/
def tselarrSpec : CommandSpec :=
  ⟨some "tselarr".toList,
    ParamsField.array
      [ParamItem.param ⟨some "num".toList,
          some (GType.selection
            [SelOption.string ['1'], SelOption.string ['2'], SelOption.string ['3']]), none⟩,
       ParamItem.param ⟨some "arr".toList, some (GType.array GType.string), none⟩],
    some 8⟩

/-- `tsm`: a selection `abc` over a, b, c, a string `txt` and a number `num` from 0 to 42. -/
def tsmSpec : CommandSpec :=
  ⟨some "tsm".toList,
    ParamsField.array
      [ParamItem.param ⟨some "abc".toList,
          some (GType.selection
            [SelOption.string ['a'], SelOption.string ['b'], SelOption.string ['c']]), none⟩,
       ParamItem.param ⟨some "txt".toList, some GType.string, none⟩,
       ParamItem.param ⟨some "num".toList, some (GType.number (some 0) (some 42)), none⟩],
    some 9⟩

/-- The calls of `commands.setup()`, in order. -/
def registrations : List (CommandInput × Option Str) :=
  [(CommandInput.object tsvSpec, none),
   (CommandInput.function (some tsrSpec) 1, none),
   (CommandInput.function (some tsuSpec) 2, none),
   (CommandInput.object ⟨none, ParamsField.absent, none⟩, some "tsn".toList),
   (CommandInput.function (some tsnSubSpec) 3, some "tsn dif".toList),
   (CommandInput.function (some tsnSubSpec) 4, some "tsn ext".toList),
   (CommandInput.function (some tsnSubSpec) 5, some "tsn exte".toList),
   (CommandInput.function (some tsnSubSpec) 6, some "tsn exten".toList),
   (CommandInput.function (some tsnSubSpec) 7, some "tsn extend".toList),
   (CommandInput.object tselarrSpec, none),
   (CommandInput.object tsmSpec, none)]

/-- `addCommand` for each registration in turn. -/
def register : List (CommandInput × Option Str) → Canon → Except Thrown Canon
  | [], canon => Except.ok canon
  | (input, name) :: rest, canon =>
    match Canon.addCommand canon input name with
    | Except.error e => Except.error e
    | Except.ok canon' => register rest canon'

/-- The registry after `commands.setup()`, starting from an empty one. -/
def canon : Canon :=
  match register registrations ⟨[], []⟩ with
  | Except.ok c => c
  | Except.error _ => ⟨[], []⟩

/-- The command registered under `name` (`canon.getCommand(name)`). -/
def command (name : Str) : Command :=
  match Canon.getCommand canon name with
  | some c => c
  | none => ⟨name, [], none⟩

/-- The `update(input)` of gcli/tests/testCli on a new requisition: `typed` with the cursor
at `cursor`. -/
def update (typed : String) (cursor : Nat) : Except Thrown Requisition :=
  Requisition.update canon (Requisition.new ⟨[], []⟩) ⟨some typed.toList, some cursor⟩

/-- The requisition and the working list after the `_split` step of `update` on a new
requisition. -/
def split (typed : String) : Requisition × List Tok :=
  match Requisition._split canon
      { Requisition.new ⟨[], []⟩ with _args := some (toSlots (_tokenize (some typed.toList))) }
      (toToks (_tokenize (some typed.toList))) with
  | Except.ok p => p
  | Except.error _ => (Requisition.new ⟨[], []⟩, [])

/-- The requisition after `update(input)` on a new requisition. -/
def updated (typed : String) (cursor : Nat) : Requisition :=
  match update typed cursor with
  | Except.ok r => r
  | Except.error _ => Requisition.new ⟨[], []⟩

end TestCommands

/-! ## Notions used to state the claims -/

/-- A registry as `addCommand` builds it: every command is stored under its own name, once. -/
def Canon.WellFormed (canon : Canon) : Prop :=
  (JSObject.keys canon.commands).Nodup ∧ ∀ p ∈ canon.commands, p.2.name = p.1

/-- Words joined by single spaces. -/
def joinWords : List Str → Str
  | [] => []
  | w :: ws => ws.foldl (fun acc v => acc ++ [' '] ++ v) w

/-- Tokens typed without quotes and separated by single spaces: every suffix is empty and
every prefix but the first is one space. -/
def plainWords : List Tok → Prop
  | [] => True
  | t :: rest => t.arg.suffix = [] ∧ ∀ u ∈ rest, u.arg.prefix_ = [' '] ∧ u.arg.suffix = []

/-- The argument `_split` and `_assign` build for the tokens `used`: the token itself when
there is one, a MergedArgument otherwise. -/
def splitArg (used : List Tok) : Arg :=
  match used with
  | [t] => Arg.token t
  | _ => Arg.merged used

/-- Whether a property name is a decimal numeral in canonical form (`0`, `7`, `42`).
`Object.keys` lists such keys first and in numeric order, whatever the order they were
created in; all other keys follow in the order of their creation, which is the order
`JSObject.keys` gives. -/
def isIntegerKey (key : Str) : Bool :=
  !key.isEmpty && key.all Char.isDigit && (key == ['0'] || key.head? != some '0')

/-- Whether `type instanceof ArrayType`. -/
def GType.isArray : GType → Bool
  | GType.array _ => true
  | _ => false

/-- The types whose `parse` accepts an Argument that is not an ArrayArgument: every type but
the array types, a deferred type counted as the type it resolves to. -/
def GType.takesArgument : GType → Bool
  | GType.array _ => false
  | GType.deferred t => GType.takesArgument t
  | _ => true

/-- An array type whose members are parsed by a type that accepts an Argument. -/
def GType.isArrayOfPlain : GType → Bool
  | GType.array subtype => subtype.takesArgument
  | _ => false

/-- Whether a conversion is an ArrayConversion. -/
def AnyConversion.isArray : AnyConversion → Bool
  | AnyConversion.array _ => true
  | AnyConversion.simple _ => false

/-- The tokens left for the parameters after the one of `a`, when `args` are left for it: a
parameter that is not positionally assignable takes none, an array parameter takes all, any
other takes the first. -/
def restAfter (a : Assignment) (args : List Tok) : List Tok :=
  if ¬ a.param.isPositionalAllowed then args
  else if a.param.type.isArray then []
  else args.tail

/-- The conversion the parameter of `a` gets when `args` are left for it: its default when it
is not positionally assignable; for an array parameter the array of all of `args`; for any
other the first of `args`, or an empty Argument when none is left. -/
def boundConversion (canon : Canon) (a : Assignment) (args : List Tok) :
    Except Thrown AnyConversion :=
  if ¬ a.param.isPositionalAllowed then defaultConversion canon a.param
  else if a.param.type.isArray then
    GType.parse canon a.param.type (Arg.array (args.map ArrayMember.token))
  else
    GType.parse canon a.param.type
      (match args with
       | t :: _ => Arg.token t
       | [] => Arg.fresh Argument.empty)

/-- The binding of tokens to parameters in declaration order, by parameter name. -/
def positionalBinding (canon : Canon) :
    List (Str × Assignment) → List Tok → List (Str × Except Thrown AnyConversion)
  | [], _ => []
  | (key, a) :: rest, args =>
    (key, boundConversion canon a args) :: positionalBinding canon rest (restAfter a args)

/-- The tokens that are left when every parameter has had its turn. -/
def positionalRest : List (Str × Assignment) → List Tok → List Tok
  | [], args => args
  | (_, a) :: rest, args => positionalRest rest (restAfter a args)

/-- The assignment `a` with the conversion `result`, when there is one. -/
def Assignment.withResult (a : Assignment) (result : Except Thrown AnyConversion) : Assignment :=
  match result with
  | Except.ok c => { a with conversion := c }
  | Except.error _ => a

/-- Whether the parameter of `a` is a positional array parameter, which the positional pass
of `_assign` only notes in `arrayArgs`. -/
def Assignment.takesRest (a : Assignment) : Bool :=
  a.param.isPositionalAllowed && a.param.type.isArray

/-- The assignments after the positional pass of `_assign`: the positional array parameters
are still as they were. -/
def afterPositional (canon : Canon) :
    List (Str × Assignment) → List Tok → List (Str × Assignment)
  | [], _ => []
  | (key, a) :: rest, args =>
    (key, if a.takesRest then a else a.withResult (boundConversion canon a args))
      :: afterPositional canon rest (restAfter a args)

/-- The `arrayArgs` the positional pass of `_assign` collects. -/
def pendingArrays : List (Str × Assignment) → List Tok → List (Str × List ArrayMember)
  | [], _ => []
  | (_, a) :: rest, args =>
    if a.takesRest then
      (a.param.name, args.map ArrayMember.token) :: pendingArrays rest (restAfter a args)
    else pendingArrays rest (restAfter a args)

/-- The assignments after the array pass of `_assign`. -/
def afterArrays (canon : Canon) :
    List (Str × Assignment) → List Tok → List (Str × Assignment)
  | [], _ => []
  | (key, a) :: rest, args =>
    (key, a.withResult (boundConversion canon a args))
      :: afterArrays canon rest (restAfter a args)

/-- The conversions of the parameter assignments, by parameter name. -/
def Requisition.conversions (r : Requisition) : List (Str × Except Thrown AnyConversion) :=
  r._assignments.map (fun p => (p.1, Except.ok p.2.conversion))

/-- The text after the first token's text: for each later token the previous suffix, its
prefix and its text. -/
def joinedRest : Str → List Argument → Str
  | _, [] => []
  | suffix, b :: rest => suffix ++ b.prefix_ ++ b.text ++ joinedRest b.suffix rest

/-- The text of tokens joined with the separators that stood between them. -/
def joinedText : List Argument → Str
  | [] => []
  | a :: rest => a.text ++ joinedRest a.suffix rest

/-- The status of one character in the markup, in the words of the specification: a prefix
or suffix character is VALID; a text character has the status of its owning assignment,
with INCOMPLETE promoted to ERROR when the character's argument is not the one the cursor is
in the text of and the owner is not the command assignment. -/
def markupStatus (status : Status) (part : Part) (cursorInText : Bool) (ownerIsCommand : Bool) :
    Status :=
  if part ≠ Part.text then Status.VALID
  else if status = Status.INCOMPLETE ∧ cursorInText = false ∧ ownerIsCommand = false then
    Status.ERROR
  else status

/-- The owner of the suffix characters of a token, in the words of the specification: the
assignment of the next token; for the last token the assignment of the next parameter (the
one with the index after the owner's `paramIndex`) when there is one, else the token's
own. -/
def suffixOwner (r : Requisition) (slot : ArgSlot) (after : List ArgSlot) : Option Owner :=
  match after with
  | next :: _ => next.assignment
  | [] =>
    match slot.assignment with
    | some o =>
      if o.paramIndex + 1 < r.assignmentCount then some (Owner.param (o.paramIndex + 1).toNat)
      else some o
    | none => none

/-! ## The `help` command of gcli/commands/help -/

namespace HelpCommand

/-- The spec of `help`: a string `search` with the default `null`, and the group `Options`
with the boolean `hidden`. -/
def spec : CommandSpec :=
  ⟨some "help".toList,
    ParamsField.array
      [ParamItem.param ⟨some "search".toList, some GType.string, some Literal.null⟩,
       ParamItem.group "Options".toList none
        [⟨some "hidden".toList, some GType.boolean, none⟩]],
    some 10⟩

/-- The registry with `help` alone. -/
def canon : Canon :=
  match Canon.addCommand ⟨[], []⟩ (CommandInput.object spec) none with
  | Except.ok c => c
  | Except.error _ => ⟨[], []⟩

/-- `update` on a new requisition with `help` registered. -/
def update (typed : String) (cursor : Nat) : Except Thrown Requisition :=
  Requisition.update canon (Requisition.new ⟨[], []⟩) ⟨some typed.toList, some cursor⟩

end HelpCommand

/-- The identities of the tokens of the command argument, of every parameter's current
argument and of the unassigned argument, in this order. -/
def Requisition.argumentTokens (r : Requisition) : List Nat :=
  (r.commandAssignment.conversion.tokens ++
    (r._assignments.map (fun p => p.2.conversion.tokens)).flatten ++
    r._unassigned.conversion.tokens).map Tok.idx

/-- A flat list of parameter specs, each with a known type and a name that is not empty and
has no character with a meaning in a regular expression. -/
def wellFormedParams (items : List ParamItem) : Prop :=
  ∀ item ∈ items, ∃ spec name type, item = ParamItem.param spec ∧ spec.name = some name ∧
    name ≠ [] ∧ name.any isSyntaxCharacter = false ∧ spec.type = some type

/-! ## gcli/cli: setting a conversion from outside `update` -/

/-- An identity no argument object of the list has yet. -/
def freshId (slots : List ArgSlot) : Nat :=
  (slots.map ArgSlot.id).foldl max 0 + 1

/-- The Argument that `beget('', options)`, with `options.prefixSpace` set, returns in
`ensureVisibleArgument`: the text is empty, so it is put between two single quotes.
The value of `prefixSpace` is `this.param instanceof CommandAssignment`, which is false for every
parameter, so no space is put before the quote. -/
def visiblePlaceholder : Argument := ⟨[], "'".toList, "'".toList⟩

/-- `Assignment.prototype.ensureVisibleArgument()`: the assignment afterwards and the value
returned. `wrap` says how the new Argument object is referred to: as a new object, or as an
entry of the token list when it is pushed there. -/
def Assignment.ensureVisibleWith (canon : Canon) (a : Assignment) (wrap : Argument → Arg) :
    Except Thrown (Assignment × Bool) :=
  if ¬ a.conversion.arg.isBlank then Except.ok (a, false)
  else
    match GType.parse canon a.param.type (wrap visiblePlaceholder) with
    | Except.error e => Except.error e
    | Except.ok c => Except.ok ({ a with conversion := c }, true)

/-- `Assignment.prototype.ensureVisibleArgument()` on its own. -/
def Assignment.ensureVisibleArgument (canon : Canon) (a : Assignment) :
    Except Thrown (Assignment × Bool) :=
  Assignment.ensureVisibleWith canon a Arg.fresh

/-- The body of the loop over the preceding assignments in `_onAssignmentChange`, for the
parameter assignment with index `i`: `ensureVisibleArgument()`, followed by
`this._args.push(assignment.getArg())` when it returns true. -/
def Requisition.ensureVisibleArgument (canon : Canon) (r : Requisition) (i : Nat) :
    Except Thrown Requisition :=
  match r._assignments[i]? with
  | none => Except.error (Thrown.typeError "assignment is undefined".toList)
  | some (key, a) =>
    if a.param.isPositionalAllowed then
      let id := freshId (r._args.getD [])
      match a.ensureVisibleWith canon (fun arg => Arg.token ⟨id, arg⟩) with
      | Except.error e => Except.error e
      | Except.ok (_, false) => Except.ok r
      | Except.ok (a', true) =>
        match r._args with
        | none => Except.error (Thrown.typeError "this._args is null".toList)
        | some slots =>
          Except.ok
            { r with
              _assignments := JSObject.set r._assignments key a',
              _args := some (slots ++ [⟨id, visiblePlaceholder, some (Owner.param i), none⟩]) }
    else Except.ok r

/-- The loop over the preceding assignments in `_onAssignmentChange`. -/
def Requisition.ensureVisibleArguments (canon : Canon) :
    Requisition → List Nat → Except Thrown Requisition
  | r, [] => Except.ok r
  | r, i :: rest =>
    match Requisition.ensureVisibleArgument canon r i with
    | Except.error e => Except.error e
    | Except.ok r' => Requisition.ensureVisibleArguments canon r' rest

/-- `arg.getArgs()`: for each member its identity, when it is an Argument of the token
list, and its `text`, `prefix` and `suffix`. A TrueNamedArgument returns itself and the
argument it wraps; the members of an ArrayArgument are returned as they are. -/
def Arg.getArgs : Arg → List (Option Nat × Argument)
  | Arg.fresh a => [(none, a)]
  | Arg.token t => [(some t.idx, t.arg)]
  | Arg.merged args => args.map (fun t => (some t.idx, t.arg))
  | Arg.trueNamed name arg =>
    (none, (Arg.trueNamed name arg).members) :: arg.toList.map (fun t => (some t.idx, t.arg))
  | Arg.falseNamed => []
  | Arg.named nameArg valueArg =>
    [(some nameArg.idx, nameArg.arg), (some valueArg.idx, valueArg.arg)]
  | Arg.array args =>
    args.map (fun m =>
      match m with
      | ArrayMember.token t => (some t.idx, t.arg)
      | ArrayMember.named n v => (none, NamedArgument.members n.arg v.arg))

/-- The argument objects `members` as entries of the live list, owned by `owner`; an object
that is not of the token list `old` gets a new identity, and one that is keeps the
`conversion` attached to it. -/
def newSlots (old : List ArgSlot) (owner : Owner) :
    List (Option Nat × Argument) → Nat → List ArgSlot
  | [], _ => []
  | (some id, a) :: rest, next =>
    ⟨id, a, some owner, (old.find? (fun s => s.id = id)).bind ArgSlot.conversion⟩ ::
      newSlots old owner rest next
  | (none, a) :: rest, next =>
    ⟨next, a, some owner, none⟩ :: newSlots old owner rest (next + 1)

/-- The part of `_onAssignmentChange` that puts the new argument in the list: the arguments
of the assignment are removed, and the members of the new argument are spliced in where the
first of them was; when there was none, the new argument itself is pushed. -/
def replaceArgs (slots : List ArgSlot) (owner : Owner) (arg : Arg) : List ArgSlot :=
  let kept := slots.filter (fun s => s.assignment ≠ some owner)
  match slots.findIdx? (fun s => s.assignment = some owner) with
  | none => kept ++ newSlots slots owner [(none, arg.members)] (freshId slots)
  | some index =>
    kept.take index ++ newSlots slots owner arg.getArgs (freshId slots) ++ kept.drop index

/-- `Requisition.prototype._onAssignmentChange(ev)` outside a structural change, for the
parameter assignment `a` (after `setConversion`). -/
def Requisition._onAssignmentChange (canon : Canon) (r : Requisition) (a : Assignment)
    (ev : AssignmentChange) : Except Thrown Requisition :=
  let unchanged : Except Thrown Bool :=
    match ev.oldConversion with
    | none => Except.ok false
    | some old => ev.conversion.valueEquals old
  match unchanged with
  | Except.error e => Except.error e
  | Except.ok true => Except.ok r
  | Except.ok false =>
    match ev.oldConversion with
    | none => Except.error (Thrown.typeError "that is undefined".toList)
    | some old =>
      if ev.conversion.argEquals old then Except.ok r
      else
        let visible :=
          if a.param.isPositionalAllowed then
            Requisition.ensureVisibleArguments canon r (List.range a.paramIndex.toNat)
          else Except.ok r
        match visible with
        | Except.error e => Except.error e
        | Except.ok r' =>
          match r'._args with
          | none => Except.error (Thrown.typeError "this._args is null".toList)
          | some slots =>
            let owner := Owner.param a.paramIndex.toNat
            Except.ok
              (Requisition.assign
                { r' with _args := some (replaceArgs slots owner ev.conversion.arg) }
                ev.conversion owner)

/-- `assignment.setConversion(conversion)` called from outside `update` for the parameter
assignment stored under `key`: the listener `_onAssignmentChange` runs on the event. -/
def Requisition.setConversion (canon : Canon) (r : Requisition) (key : Str)
    (conversion : AnyConversion) : Except Thrown Requisition :=
  match JSObject.own r._assignments key with
  | none => Except.error (Thrown.typeError "assignment is undefined".toList)
  | some a =>
    match a.setConversion conversion with
    | Except.error e => Except.error e
    | Except.ok (a', event) =>
      let r' := Requisition.assign
        { r with _assignments := JSObject.set r._assignments key a' }
        conversion (Owner.param a.paramIndex.toNat)
      match event with
      | none => Except.ok r'
      | some ev => Requisition._onAssignmentChange canon r' a' ev

/-! ## gcli/cli: exec -/

/-- A default value as a value; `none` is `undefined`. -/
def Literal.toValue : Option Literal → Value
  | none => Value.undefined
  | some Literal.null => Value.null
  | some (Literal.bool b) => Value.bool b
  | some (Literal.number n) => Value.number n
  | some (Literal.string s) => Value.string s
  | some (Literal.object name) => Value.object name

/-- `assignment.getValue() !== assignment.param.defaultValue`; an array is a new object and
differs from every default. -/
def AnyValue.differsFrom (v : AnyValue) (defaultValue : Option Literal) : Bool :=
  match v with
  | AnyValue.single x => !(x.strictEquals (Literal.toValue defaultValue))
  | AnyValue.array _ => true

/-- `type.stringify(assignment.getValue())` as `toCanonicalString` calls it; `none` is
`undefined`. On an array a type that is not an array type uses the array's `toString`
(string, number and boolean type) or reads its `name`. -/
def GType.stringifyAny : GType → AnyValue → Except Thrown (Option Str)
  | GType.deferred t, v => GType.stringifyAny t v
  | GType.array _, AnyValue.array vs => Except.ok (some (ArrayType.stringify vs))
  | t, AnyValue.single v => GType.stringify t v
  | GType.blank, AnyValue.array _ => Except.ok (some [])
  | GType.selection _, AnyValue.array _ => Except.ok none
  | GType.lookup _, AnyValue.array _ => Except.ok none
  | GType.command, AnyValue.array _ => Except.ok none
  | _, AnyValue.array vs =>
    Except.ok (some
      (List.intersperse [','] (vs.map (fun v => if v.isNullish then [] else v.toStr))).flatten)

/-- The loop of `toCanonicalString` over the assignments: the pieces pushed on `line`. -/
def canonicalPieces : List (Str × Assignment) → Except Thrown (List Str)
  | [] => Except.ok []
  | (_, a) :: rest =>
    if a.conversion.value.differsFrom a.param.defaultValue then
      match GType.stringifyAny a.param.type a.conversion.value with
      | Except.error e => Except.error e
      | Except.ok s => (canonicalPieces rest).map (fun ps => [' '] :: s.getD [] :: ps)
    else canonicalPieces rest

/-- The command found by `exec` seen as one value; the value of the command assignment is
never an array. -/
def AnyValue.toValue : AnyValue → Value
  | AnyValue.single v => v
  | AnyValue.array _ => Value.object "Array".toList

/-- `Requisition.prototype.toCanonicalString()`; `join` writes `undefined` as the empty
string. -/
def Requisition.toCanonicalString (r : Requisition) : Except Thrown Str :=
  let value := r.commandAssignment.conversion.value.toValue
  let cmd : Except Thrown (Option Str) :=
    if value.truthy then value.getName
    else Except.ok (some r.commandAssignment.conversion.arg.text)
  match cmd with
  | Except.error e => Except.error e
  | Except.ok cmd =>
    (canonicalPieces r._assignments).map (fun ps => cmd.getD [] ++ ps.flatten)

/-- What an action does when `exec` calls it: it returns a value that is not a promise, it
throws, or it returns a promise (whose callbacks run after `exec` has returned). -/
inductive ActionOutcome where
  | returns (reply : Value)
  | throws (ex : Value)
  | promise
deriving DecidableEq, Repr

/-- The `input` of `exec`: nothing, `{ typed, cursor }`, or `{ typed, args, visible }` with
`args` not null (`visible = none`: the member is absent). -/
inductive ExecInput where
  | absent
  | typed (input : Input)
  | args (typed : Option Str) (visible : Option Bool)
deriving DecidableEq, Repr

/-- `canon.getCommand(name)` as `exec` reads it: `commands[name]`, which also finds the
members inherited from `Object.prototype`. -/
def Canon.getCommandValue (canon : Canon) (name : Str) : Value :=
  match JSObject.own canon.commands name with
  | some c => Value.command c
  | none => if name ∈ objectPrototypeKeys then Value.builtin name else Value.undefined

/-- The result of `exec`: what it returned, the requisition afterwards, and the actions it
invoked. -/
structure ExecResult where
  returned : Bool
  requisition : Requisition
  invoked : List Nat
deriving DecidableEq, Repr

/-- The call of the action in the `try` block: its outcome and the actions invoked. A
command without an `exec` function makes the call itself throw a TypeError. -/
def callAction (actions : Nat → ActionOutcome) (command : Value) : ActionOutcome × List Nat :=
  match command with
  | Value.command c =>
    match c.exec with
    | some k => (actions k, [k])
    | none => (ActionOutcome.throws (Value.object "TypeError".toList), [])
  | _ => (ActionOutcome.throws (Value.object "TypeError".toList), [])

/-- `Requisition.prototype.exec(input)`, with the actions of the commands given by
`actions`. -/
def Requisition.exec (canon : Canon) (actions : Nat → ActionOutcome) (r : Requisition)
    (input : ExecInput) : Except Thrown ExecResult :=
  let start : Except Thrown (Requisition × Value × Bool) :=
    match input with
    | ExecInput.absent => Except.ok (r, Value.undefined, true)
    | ExecInput.typed inp => (Requisition.update canon r inp).map (fun r' => (r', Value.undefined, true))
    | ExecInput.args typed visible =>
      Except.ok (r, Canon.getCommandValue canon (typed.getD "undefined".toList),
        visible.getD false)
  match start with
  | Except.error e => Except.error e
  | Except.ok (r, found, visible) =>
    let command :=
      if found.truthy then found else r.commandAssignment.conversion.value.toValue
    if ¬ command.truthy then Except.ok ⟨false, r, []⟩
    else
      match r.toCanonicalString with
      | Except.error e => Except.error e
      | Except.ok typed =>
        let report : Report := ⟨command, typed, false, none, none⟩
        let (outcome, invoked) := callAction actions command
        let report : Report :=
          match outcome with
          | ActionOutcome.returns reply =>
            if visible then { report with error := some false, output := some reply,
                                          completed := true }
            else report
          | ActionOutcome.throws ex =>
            if visible then { report with error := some true, output := some ex,
                                          completed := true }
            else report
          | ActionOutcome.promise => report
        match r.reportList.addReport report with
        | Except.error e => Except.error e
        | Except.ok l => Except.ok ⟨true, { r with reportList := l }, invoked⟩

/-! ## gcli/types: increment and decrement -/

/-- `NumberType.prototype.increment(value)` for a number: `value + 1` is the sum in double
precision. -/
def NumberType.increment (max : Option Int) (value : Int) : Int :=
  match max with
  | some M => if roundInt53 (value + 1) ≤ M then roundInt53 (value + 1) else value
  | none => value

/-- `NumberType.prototype.decrement(value)` for a number: `value - 1` is the difference in
double precision. -/
def NumberType.decrement (min : Option Int) (value : Int) : Int :=
  match min with
  | some m => if roundInt53 (value - 1) ≥ m then roundInt53 (value - 1) else value
  | none => value

/-- `data.indexOf(name)`: the search compares with `===`, so a name (a string, or
`undefined`: `none`) is found only at an option that is that string; -1 when there is
none. -/
def indexOfName (data : List SelOption) (name : Option Str) : Int :=
  match name with
  | none => -1
  | some n =>
    if data.indexOf (SelOption.string n) < data.length then (data.indexOf (SelOption.string n) : Nat)
    else -1

/-- `this.fromString(data[index])`: the option at `index`, `undefined` outside the array. -/
def optionAt (data : List SelOption) (index : Int) : Value :=
  if index < 0 then Value.undefined
  else
    match data[index.toNat]? with
    | some o => o.toValue
    | none => Value.undefined

/-- `SelectionType.prototype.increment(value)` for a selection over the array `data`. -/
def SelectionType.increment (data : List SelOption) (value : Value) : Except Thrown Value :=
  if value.isNullish then Except.ok (optionAt data 0)
  else
    match SelectionType.stringify value with
    | Except.error e => Except.error e
    | Except.ok name =>
      let index := indexOfName data name
      Except.ok (optionAt data (if index = (data.length : Int) - 1 then 0 else index + 1))

/-- `SelectionType.prototype.decrement(value)` for a selection over the array `data`. -/
def SelectionType.decrement (data : List SelOption) (value : Value) : Except Thrown Value :=
  if value.isNullish then Except.ok (optionAt data ((data.length : Int) - 1))
  else
    match SelectionType.stringify value with
    | Except.error e => Except.error e
    | Except.ok name =>
      let index := indexOfName data name
      Except.ok (optionAt data (if index = 0 then (data.length : Int) - 1 else index - 1))

/-! ## gcli/util: createEvent -/

/-- A handler of an event, the object with the members `func` and `scope`: the identities of
the function and of the scope object; `scope = none` is `undefined`. -/
structure Handler where
  func : Nat
  scope : Option Nat
deriving DecidableEq, Repr

/-- The `handlers` array of an event made by `createEvent()`. -/
abbrev Event := List Handler

/-- `createEvent()`: no handlers. -/
def Event.create : Event := []

/-- `event.add(func, scope)`. -/
def Event.add (e : Event) (func : Nat) (scope : Option Nat) : Event :=
  e ++ [⟨func, scope⟩]

/-- `event.remove(func, scope)`: the filter keeps a handler when
`test.func !== func && test.scope !== scope`. -/
def Event.remove (e : Event) (func : Nat) (scope : Option Nat) : Event :=
  e.filter (fun test => decide (test.func ≠ func ∧ test.scope ≠ scope))

/-- `event.removeAll()`. -/
def Event.removeAll (_e : Event) : Event := []

/-- `event(ev)`: the calls `handler.func.apply(handler.scope, [ ev ])` it makes, in order. -/
def Event.fire (e : Event) : List (Nat × Option Nat) :=
  e.map (fun handler => (handler.func, handler.scope))

/-! ## Notions used to state the tokenizer theorems -/

/-- A unit that is none of the three private-use placeholders. -/
def notPlaceholder (c : Char) : Prop :=
  c ≠ escSpace ∧ c ≠ escSingle ∧ c ≠ escDouble

/-- A unit with no special meaning for the tokenizer: not a space, quote, backslash or
placeholder. -/
def plainUnit (c : Char) : Prop :=
  c ≠ ' ' ∧ c ≠ '"' ∧ c ≠ '\'' ∧ c ≠ '\\' ∧ notPlaceholder c

/-- One piece of an unquoted word: a plain unit, or an escaped space, single quote or double
quote. -/
inductive Piece where
  | plain (c : Char)
  | space
  | single
  | double
deriving DecidableEq, Repr

/-- How a piece is typed. -/
def Piece.typed : Piece → Str
  | Piece.plain c => [c]
  | Piece.space => ['\\', ' ']
  | Piece.single => ['\\', '\'']
  | Piece.double => ['\\', '"']

/-- The unit a piece stands for. -/
def Piece.unit : Piece → Char
  | Piece.plain c => c
  | Piece.space => ' '
  | Piece.single => '\''
  | Piece.double => '"'

/-- A piece whose plain unit has no special meaning. -/
def Piece.wellFormed : Piece → Prop
  | Piece.plain c => plainUnit c
  | _ => True

/-- The unit the scanner reads for a piece: the placeholder for an escaped space or
quote. -/
def Piece.scanned : Piece → Char
  | Piece.plain c => c
  | Piece.space => escSpace
  | Piece.single => escSingle
  | Piece.double => escDouble

/-- A piece whose plain unit is not a backslash; it may be a space or a quote. -/
def Piece.noBackslash : Piece → Prop
  | Piece.plain c => c ≠ '\\'
  | _ => True

/-- The effect on a piece of one `replace` call of the chain, the one that turns a backslash
followed by `x` into `r`. -/
def Piece.replace (x r : Char) : Piece → Piece
  | Piece.plain c => Piece.plain c
  | Piece.space => if x = ' ' then Piece.plain r else Piece.space
  | Piece.single => if x = '\'' then Piece.plain r else Piece.single
  | Piece.double => if x = '"' then Piece.plain r else Piece.double

/-- The string typed for a list of pieces. -/
def typedPieces (ps : List Piece) : Str :=
  (ps.map Piece.typed).flatten

/-- A piece inside a section delimited by `quote`: a plain unit other than that quote, a
backslash and the placeholders (spaces and the other quote are allowed), or an escape. -/
def Piece.quotedIn (quote : Char) : Piece → Prop
  | Piece.plain c => c ≠ quote ∧ c ≠ '\\' ∧ notPlaceholder c
  | _ => True

/-- One token as typed: an unquoted word, or a section between single or between double
quotes. -/
inductive Item where
  | word (ps : List Piece)
  | single (ps : List Piece)
  | double (ps : List Piece)
deriving DecidableEq, Repr

/-- The pieces between the delimiters of an item. -/
def Item.pieces : Item → List Piece
  | Item.word ps => ps
  | Item.single ps => ps
  | Item.double ps => ps

/-- An item the way it is typed, written as pieces: the quotes are plain units. -/
def Item.allPieces : Item → List Piece
  | Item.word ps => ps
  | Item.single ps => Piece.plain '\'' :: (ps ++ [Piece.plain '\''])
  | Item.double ps => Piece.plain '"' :: (ps ++ [Piece.plain '"'])

/-- A word is not empty and has no plain space, quote, backslash or placeholder; a quoted
section has no plain unit equal to its own quote, a backslash or a placeholder. -/
def Item.wellFormed : Item → Prop
  | Item.word ps => ps ≠ [] ∧ ∀ p ∈ ps, p.wellFormed
  | Item.single ps => ∀ p ∈ ps, p.quotedIn '\''
  | Item.double ps => ∀ p ∈ ps, p.quotedIn '"'

/-- The pieces of a line of items separated by single spaces. -/
def linePieces : List Item → List Piece
  | [] => []
  | [it] => it.allPieces
  | it :: it2 :: rest => it.allPieces ++ Piece.plain ' ' :: linePieces (it2 :: rest)

/-- The token expected for an item typed after `pre`: the units its pieces stand for as
text, the quotes in the prefix and the suffix. -/
def Item.token (pre : Str) : Item → Argument
  | Item.word ps => ⟨ps.map Piece.unit, pre, []⟩
  | Item.single ps => ⟨ps.map Piece.unit, pre ++ ['\''], ['\'']⟩
  | Item.double ps => ⟨ps.map Piece.unit, pre ++ ['"'], ['"']⟩

/-- The tokens expected for the items of a line, the first typed after `pre` and each later
one after a space. -/
def lineTokens (pre : Str) : List Item → List Argument
  | [] => []
  | it :: rest => it.token pre :: rest.map (Item.token [' '])

/-- The invariant of the scanner loop on `typed`: the input up to `start` is the text of
the arguments pushed so far followed by the pending prefix, which is empty outside a
token. -/
def TokState.inv (typed : Str) (st : TokState) : Prop :=
  st.start ≤ st.i ∧ joinArgs st.args ++ st.prefix_ = typed.take st.start ∧
    (st.mode = Mode.OUTSIDE → st.prefix_ = [])

/-- The argument objects of the live list, without the members other code attaches to
them: identity, text, prefix and suffix. -/
def Requisition.argsView (r : Requisition) : Option (List (Nat × Argument)) :=
  r._args.map (fun slots => slots.map (fun s => (s.id, s.arg)))
/-! ## Theorems -/

/-! ### Status.combine -/

theorem Status.valueOf_injective : ∀ a b : Status, a.valueOf = b.valueOf → a = b := by
  intro a b h
  cases a <;> cases b <;> simp_all [Status.valueOf]

theorem Status.maxValue_append (xs ys : List Status) :
    Status.maxValue (xs ++ ys) = max (Status.maxValue xs) (Status.maxValue ys) := by
  induction xs with
  | nil => simp [Status.maxValue]
  | cons x xs ih =>
    simp only [Status.maxValue, List.cons_append, List.map_cons, List.foldr_cons] at ih ⊢
    rw [ih, max_assoc]

theorem Status.maxValue_perm {xs ys : List Status} (h : xs.Perm ys) :
    Status.maxValue xs = Status.maxValue ys := by
  induction h with
  | nil => rfl
  | cons x _ ih =>
    simp only [Status.maxValue, List.map_cons, List.foldr_cons] at ih ⊢
    rw [ih]
  | swap x y l =>
    simp only [Status.maxValue, List.map_cons, List.foldr_cons]
    rw [← max_assoc, ← max_assoc, max_comm y.valueOf]
  | trans _ _ ih1 ih2 => exact ih1.trans ih2

mutual
theorem Status.combineFrom_valueOf (c : Status) :
    ∀ args : List CombineArg,
      (Status.combineFrom c args).valueOf
        = max c.valueOf (Status.maxValue (CombineArg.flattenList args))
  | [] => by simp [Status.combineFrom, CombineArg.flattenList, Status.maxValue]
  | a :: rest => by
    rw [Status.combineFrom, CombineArg.flattenList, Status.maxValue_append]
    have h1 := CombineArg.resolve_valueOf a
    rw [Status.combineFrom_valueOf _ rest, ← h1]
    split <;> omega
theorem CombineArg.resolve_valueOf :
    ∀ a : CombineArg, (CombineArg.resolve a).valueOf = Status.maxValue (CombineArg.flatten a)
  | CombineArg.status s => by
    simp [CombineArg.resolve, CombineArg.flatten, Status.maxValue]
  | CombineArg.array xs => by
    rw [CombineArg.resolve, CombineArg.flatten, Status.combineFrom_valueOf Status.VALID xs]
    simp [Status.valueOf]
end

theorem Status.combine_valueOf (args : List CombineArg) :
    (Status.combine args).valueOf = Status.maxValue (CombineArg.flattenList args) := by
  rw [Status.combine, Status.combineFrom_valueOf]
  simp [Status.valueOf]

/-- C3: `Status.combine` of any list of statuses, given one by one or in arrays nested to
any depth, has the largest `valueOf` among all of them (VALID < INCOMPLETE < ERROR), and is
VALID when there is none; `combine(VALID, INCOMPLETE, ERROR)` is ERROR; two calls whose
arguments hold the same statuses, in any order and any grouping, give the same result. -/
theorem Status.combine_is_maximum :
    (∀ args : List CombineArg,
        (Status.combine args).valueOf = Status.maxValue (CombineArg.flattenList args)) ∧
    Status.combine [] = Status.VALID ∧
    Status.combine [CombineArg.status Status.VALID, CombineArg.status Status.INCOMPLETE,
        CombineArg.status Status.ERROR] = Status.ERROR ∧
    (∀ args args' : List CombineArg,
        (CombineArg.flattenList args).Perm (CombineArg.flattenList args') →
        Status.combine args = Status.combine args') := by
  refine ⟨Status.combine_valueOf, by decide, by decide, ?_⟩
  intro args args' h
  apply Status.valueOf_injective
  rw [Status.combine_valueOf, Status.combine_valueOf, Status.maxValue_perm h]

/-- C3 at a concrete input: `combine([ERROR, [VALID]], INCOMPLETE)` and
`combine(INCOMPLETE, VALID, [[ERROR]])` hold the same statuses and agree. -/
theorem Status.combine_is_maximum_witness :
    (CombineArg.flattenList [CombineArg.array [CombineArg.status Status.ERROR,
        CombineArg.array [CombineArg.status Status.VALID]],
        CombineArg.status Status.INCOMPLETE]).Perm
      (CombineArg.flattenList [CombineArg.status Status.INCOMPLETE,
        CombineArg.status Status.VALID,
        CombineArg.array [CombineArg.array [CombineArg.status Status.ERROR]]]) ∧
    Status.combine [CombineArg.array [CombineArg.status Status.ERROR,
        CombineArg.array [CombineArg.status Status.VALID]],
        CombineArg.status Status.INCOMPLETE]
      = Status.combine [CombineArg.status Status.INCOMPLETE, CombineArg.status Status.VALID,
        CombineArg.array [CombineArg.array [CombineArg.status Status.ERROR]]] :=
  ⟨by decide, Status.combine_is_maximum.2.2.2 _ _ (by decide)⟩

/-! ### The tokenizer -/

theorem replaceEscape_ne_nil (x r : Char) : ∀ s : Str, s ≠ [] → replaceEscape x r s ≠ []
  | [], h => absurd rfl h
  | [c], _ => by simp [replaceEscape]
  | c :: d :: rest, _ => by
    rw [replaceEscape]
    split <;> simp

theorem unescape_ne_nil (s : Str) (h : s ≠ []) : unescape s ≠ [] := by
  unfold unescape
  repeat apply replaceEscape_ne_nil
  exact h

/-- While the scanner is outside a token and has produced none, `start` is still 0; one step
keeps this, and leaves `i` positive. -/
theorem tokenizeStep_outside (typed : Str) (c : Char) (st : TokState)
    (h : st.mode = Mode.OUTSIDE → st.args = [] → st.start = 0) :
    (tokenizeStep typed c st).mode = Mode.OUTSIDE → (tokenizeStep typed c st).args = [] →
      (tokenizeStep typed c st).start = 0 ∧ (tokenizeStep typed c st).i ≠ 0 := by
  obtain ⟨mode, i, start, pre, args⟩ := st
  cases mode <;> simp only [tokenizeStep] <;> repeat' split
  all_goals simp_all

theorem tokenizeFinish_ne_nil (typed : Str) (st : TokState)
    (h : st.mode = Mode.OUTSIDE → st.args = [] → st.start = 0 ∧ st.i ≠ 0) :
    tokenizeFinish typed st ≠ [] := by
  unfold tokenizeFinish
  split
  · simp
  · split
    · simp only []
      split <;> simp
    · rename_i hm hi
      intro hargs
      have := h (by simpa using hm) hargs
      omega

theorem tokenizeLoop_ne_nil (typed : Str) :
    ∀ (rest : Str) (st : TokState),
      (st.mode = Mode.OUTSIDE → st.args = [] → st.start = 0 ∧ (rest = [] → st.i ≠ 0)) →
      tokenizeLoop typed rest st ≠ []
  | [], st, h => by
    rw [tokenizeLoop]
    exact tokenizeFinish_ne_nil typed st (fun hm ha => ⟨(h hm ha).1, (h hm ha).2 rfl⟩)
  | c :: rest, st, h => by
    rw [tokenizeLoop]
    apply tokenizeLoop_ne_nil typed rest
    intro hm ha
    have := tokenizeStep_outside typed c st (fun hm' ha' => (h hm' ha').1) hm ha
    exact ⟨this.1, fun _ => this.2⟩

/-- C1 (the code at a failing input): the four units `a`, backslash, space, `b` tokenize to
the single Argument with text `a b` and empty prefix and suffix, so joining
`prefix + text + suffix` over the tokens gives the three units `a b`, not the input. -/
theorem tokenize_escaped_space_not_reconstructed :
    _tokenize (some ['a', '\\', ' ', 'b']) = [⟨['a', ' ', 'b'], [], []⟩] ∧
    joinArgs (_tokenize (some ['a', '\\', ' ', 'b'])) = ['a', ' ', 'b'] ∧
    joinArgs (_tokenize (some ['a', '\\', ' ', 'b'])) ≠ ['a', '\\', ' ', 'b'] := by
  decide

/-- C2: `_tokenize` returns a non-empty list for every input (`null`, the empty string or
any string), and for `null` and for the empty string the list is exactly one Argument whose
text, prefix and suffix are all empty. -/
theorem tokenize_nonempty :
    (∀ typed : Option Str, _tokenize typed ≠ []) ∧
    _tokenize none = [⟨[], [], []⟩] ∧
    _tokenize (some []) = [⟨[], [], []⟩] := by
  refine ⟨?_, rfl, rfl⟩
  intro typed
  match typed with
  | none => simp [_tokenize]
  | some [] => simp [_tokenize]
  | some (c :: cs) =>
    simp only [_tokenize]
    split
    · simp
    · apply tokenizeLoop_ne_nil
      intro _ _
      exact ⟨rfl, fun h => absurd h (unescape_ne_nil _ (by simp))⟩

/-! ### NumberType -/

theorem dropWhile_isWhiteSpace_append (ws s : Str) (hws : ∀ c ∈ ws, isWhiteSpace c = true)
    (hs : ∀ c, s.head? = some c → isWhiteSpace c = false) :
    (ws ++ s).dropWhile isWhiteSpace = s := by
  induction ws with
  | nil =>
    cases s with
    | nil => rfl
    | cons c cs => simp [List.dropWhile_cons, hs c rfl]
  | cons w ws ih =>
    have hw : isWhiteSpace w = true := hws w (List.mem_cons_self _ _)
    simp only [List.cons_append, List.dropWhile_cons, hw, if_true]
    exact ih (fun c hc => hws c (List.mem_cons_of_mem _ hc))

theorem takeWhile_isDigit_append (ds rest : Str) (hds : ∀ c ∈ ds, isDigit c = true)
    (hrest : ∀ c, rest.head? = some c → isDigit c = false) :
    (ds ++ rest).takeWhile isDigit = ds := by
  induction ds with
  | nil =>
    cases rest with
    | nil => rfl
    | cons c cs => simp [List.takeWhile_cons, hrest c rfl]
  | cons d ds ih =>
    have hd : isDigit d = true := hds d (List.mem_cons_self _ _)
    simp only [List.cons_append, List.takeWhile_cons, hd, if_true]
    rw [ih (fun c hc => hds c (List.mem_cons_of_mem _ hc))]

theorem isDigit_not_sign_or_space (c : Char) (h : isDigit c = true) :
    c ≠ '-' ∧ c ≠ '+' ∧ isWhiteSpace c = false := by
  refine ⟨?_, ?_, ?_⟩
  · rintro rfl; revert h; decide
  · rintro rfl; revert h; decide
  · simp only [isDigit, Bool.and_eq_true, decide_eq_true_eq] at h
    simp only [isWhiteSpace, Bool.or_eq_false_iff, decide_eq_false_iff_not, Bool.and_eq_false_imp,
      decide_eq_true_eq]
    omega

theorem splitSign_of_not_sign (c : Char) (cs : Str) (h1 : c ≠ '-') (h2 : c ≠ '+') :
    splitSign (c :: cs) = (1, c :: cs) := by
  unfold splitSign
  split
  · rename_i heq; simp only [List.cons.injEq] at heq; exact absurd heq.1 h1
  · rename_i heq; simp only [List.cons.injEq] at heq; exact absurd heq.1 h2
  · rfl

theorem splitSign_minus (r : Str) : splitSign ('-' :: r) = (-1, r) := rfl

theorem splitSign_plus (r : Str) : splitSign ('+' :: r) = (1, r) := rfl

/-- `readInteger` on a text made of white space, a run of digits and a rest that does not go on
with a digit. -/
theorem readInteger_unsigned (ws ds rest : Str) (hws : ∀ c ∈ ws, isWhiteSpace c = true)
    (hds : ∀ c ∈ ds, isDigit c = true) (hne : ds ≠ [])
    (hrest : ∀ c, rest.head? = some c → isDigit c = false) :
    readInteger (ws ++ ds ++ rest) = some (digitsValue 0 ds : Nat) := by
  obtain ⟨d, ds', rfl⟩ := List.exists_cons_of_ne_nil hne
  have hd := isDigit_not_sign_or_space d (hds d (List.mem_cons_self _ _))
  have h1 : (ws ++ (d :: ds') ++ rest).dropWhile isWhiteSpace = d :: (ds' ++ rest) := by
    rw [List.append_assoc]
    refine dropWhile_isWhiteSpace_append ws _ hws ?_
    intro c hc
    simp only [List.cons_append, List.head?_cons, Option.some.injEq] at hc
    subst hc
    exact hd.2.2
  have h2 := takeWhile_isDigit_append (d :: ds') rest hds hrest
  simp only [List.cons_append] at h2
  unfold readInteger
  simp only [h1, splitSign_of_not_sign d _ hd.1 hd.2.1, h2]
  simp

/-- `readInteger` on a text made of white space, a sign, a run of digits and a rest that does
not go on with a digit. -/
theorem readInteger_signed (ws ds rest : Str) (sign : Char) (hsign : sign = '-' ∨ sign = '+')
    (hws : ∀ c ∈ ws, isWhiteSpace c = true)
    (hds : ∀ c ∈ ds, isDigit c = true) (hne : ds ≠ [])
    (hrest : ∀ c, rest.head? = some c → isDigit c = false) :
    readInteger (ws ++ sign :: ds ++ rest)
      = some ((if sign = '-' then (-1 : Int) else 1) * (digitsValue 0 ds : Nat)) := by
  have hs : isWhiteSpace sign = false := by rcases hsign with rfl | rfl <;> decide
  have h1 : (ws ++ sign :: ds ++ rest).dropWhile isWhiteSpace = sign :: (ds ++ rest) := by
    rw [List.append_assoc]
    refine dropWhile_isWhiteSpace_append ws _ hws ?_
    intro c hc
    simp only [List.cons_append, List.head?_cons, Option.some.injEq] at hc
    subst hc
    exact hs
  have h2 := takeWhile_isDigit_append ds rest hds hrest
  unfold readInteger
  simp only [h1]
  rcases hsign with rfl | rfl
  · simp only [splitSign_minus, h2, if_neg hne, if_true]
  · simp only [splitSign_plus, h2, if_neg hne]
    rfl

/-- `readInteger` on a text in which no digit follows the white space and the optional sign. -/
theorem readInteger_nan (ws sign rest : Str) (hws : ∀ c ∈ ws, isWhiteSpace c = true)
    (hsign : sign = [] ∨ sign = ['-'] ∨ sign = ['+'])
    (hrest : ∀ c, rest.head? = some c → isDigit c = false)
    (hrest' : sign = [] → ∀ c, rest.head? = some c →
      c ≠ '-' ∧ c ≠ '+' ∧ isWhiteSpace c = false) :
    readInteger (ws ++ sign ++ rest) = none := by
  have h2 : rest.takeWhile isDigit = [] := by
    cases rest with
    | nil => rfl
    | cons c cs => simp [List.takeWhile_cons, hrest c rfl]
  unfold readInteger
  rcases hsign with rfl | rfl | rfl
  · have h1 : (ws ++ [] ++ rest).dropWhile isWhiteSpace = rest := by
      rw [List.append_nil]
      exact dropWhile_isWhiteSpace_append ws _ hws (fun c hc => (hrest' rfl c hc).2.2)
    have h3 : splitSign rest = (1, rest) := by
      cases rest with
      | nil => rfl
      | cons c cs =>
        exact splitSign_of_not_sign c cs (hrest' rfl c rfl).1 (hrest' rfl c rfl).2.1
    simp only [h1, h3, h2, if_true]
  · have h1 : (ws ++ ['-'] ++ rest).dropWhile isWhiteSpace = '-' :: rest := by
      rw [List.append_assoc]
      refine dropWhile_isWhiteSpace_append ws _ hws ?_
      intro c hc
      simp only [List.singleton_append, List.head?_cons, Option.some.injEq] at hc
      subst hc
      decide
    simp only [h1, splitSign_minus, h2, if_true]
  · have h1 : (ws ++ ['+'] ++ rest).dropWhile isWhiteSpace = '+' :: rest := by
      rw [List.append_assoc]
      refine dropWhile_isWhiteSpace_append ws _ hws ?_
      intro c hc
      simp only [List.singleton_append, List.head?_cons, Option.some.injEq] at hc
      subst hc
      decide
    simp only [h1, splitSign_plus, h2, if_true]

/-- The factor a sign read by `readInteger` stands for. -/
theorem readInteger_digits (ws sign ds rest : Str) (hws : ∀ c ∈ ws, isWhiteSpace c = true)
    (hsign : sign = [] ∨ sign = ['-'] ∨ sign = ['+'])
    (hds : ∀ c ∈ ds, isDigit c = true) (hne : ds ≠ [])
    (hrest : ∀ c, rest.head? = some c → isDigit c = false) :
    readInteger (ws ++ sign ++ ds ++ rest)
      = some ((if sign = ['-'] then (-1 : Int) else 1) * (digitsValue 0 ds : Nat)) := by
  rcases hsign with rfl | rfl | rfl
  · rw [List.append_nil, readInteger_unsigned ws ds rest hws hds hne hrest]
    simp
  · have := readInteger_signed ws ds rest '-' (Or.inl rfl) hws hds hne hrest
    simpa using this
  · have := readInteger_signed ws ds rest '+' (Or.inr rfl) hws hds hne hrest
    simpa using this

theorem filter_not_whiteSpace_eq_nil (text : Str) :
    (text.filter (fun c => !isWhiteSpace c)).length = 0 ↔ ∀ c ∈ text, isWhiteSpace c = true := by
  simp [List.filter_eq_nil_iff]

theorem NumberType.parse_blank (min max : Option Int) (arg : Arg)
    (h : ∀ c ∈ arg.text, isWhiteSpace c = true) :
    NumberType.parse min max arg = ⟨Value.null, arg, Status.INCOMPLETE, some [], none⟩ := by
  unfold NumberType.parse
  rw [if_pos ((filter_not_whiteSpace_eq_nil _).2 h)]

theorem Value.ofInteger_ne_NaN (z : Int) : Value.ofInteger z ≠ Value.NaN := by
  unfold Value.ofInteger
  split <;> simp

theorem roundTo53_small (n : Nat) (h : n ≤ 2 ^ 53) : roundTo53 n = n := by
  unfold roundTo53
  rw [if_pos h]

theorem roundInt53_small (z : Int) (h : z.natAbs ≤ 2 ^ 53) : roundInt53 z = z := by
  unfold roundInt53
  rw [roundTo53_small _ h]
  split <;> omega

theorem doubleLimit_gt : 2 ^ 53 < doubleLimit := by
  unfold doubleLimit
  norm_num

/-- Up to 2^53 in magnitude the Number value for an integer is the integer itself. -/
theorem Value.ofInteger_small (z : Int) (h : z.natAbs ≤ 2 ^ 53) :
    Value.ofInteger z = Value.number z := by
  unfold Value.ofInteger
  rw [roundTo53_small _ h, if_pos (Nat.lt_of_le_of_lt h doubleLimit_gt), roundInt53_small z h]

theorem NumberType.parse_nan (min max : Option Int) (arg : Arg)
    (hnb : ¬ ∀ c ∈ arg.text, isWhiteSpace c = true) (h : readInteger arg.text = none) :
    NumberType.parse min max arg = ⟨Value.NaN, arg, Status.ERROR,
      some ("Can't convert \"".toList ++ arg.text ++ "\" to a number.".toList), none⟩ := by
  unfold NumberType.parse parseInt
  rw [if_neg (fun hf => hnb ((filter_not_whiteSpace_eq_nil _).1 hf)), h]
  rfl

theorem NumberType.parse_number (min max : Option Int) (arg : Arg) (n : Int)
    (hnb : ¬ ∀ c ∈ arg.text, isWhiteSpace c = true) (h : readInteger arg.text = some n) :
    (((∃ M, max = some M ∧ (Value.ofInteger n).greaterThan M = true) ∨
        (∃ m, min = some m ∧ (Value.ofInteger n).lessThan m = true)) →
      (NumberType.parse min max arg).getStatus = Status.ERROR ∧
      (NumberType.parse min max arg).value = Value.ofInteger n ∧
      ∃ msg, (NumberType.parse min max arg).message = some msg ∧ msg ≠ []) ∧
    (¬ ((∃ M, max = some M ∧ (Value.ofInteger n).greaterThan M = true) ∨
        (∃ m, min = some m ∧ (Value.ofInteger n).lessThan m = true)) →
      NumberType.parse min max arg = Conversion.valid (Value.ofInteger n) arg) := by
  unfold NumberType.parse parseInt
  rw [if_neg (fun hf => hnb ((filter_not_whiteSpace_eq_nil _).1 hf)), h]
  simp only [if_neg (Value.ofInteger_ne_NaN n)]
  cases max <;> cases min <;>
    simp only [Option.isSome_none, Option.isSome_some, Option.getD_none, Option.getD_some,
      false_and, true_and, if_false, reduceCtorEq, exists_false, or_false, false_or,
      Option.some.injEq, exists_eq_left', Bool.false_eq_true]
  · simp
  · constructor
    · intro hlt
      simp [hlt, Conversion.getStatus]
    · intro hlt
      simp [hlt]
  · constructor
    · intro hlt
      simp [hlt, Conversion.getStatus]
    · intro hlt
      simp [hlt]
  · constructor
    · rename_i M m
      intro hlt
      by_cases hM : (Value.ofInteger n).greaterThan M = true
      · simp [hM, Conversion.getStatus]
      · rcases hlt with hlt | hlt
        · exact absurd hlt hM
        · simp [hM, hlt, Conversion.getStatus]
    · intro hlt
      simp only [not_or] at hlt
      simp [hlt.1, hlt.2]

/-- C5 (as stated, refuted): with min = 0 and max = 42 the text `6x` is not a number, yet
`NumberType.parse` returns a VALID conversion with value 6 for it. -/
theorem NumberType.parse_trailing_text_is_valid :
    isNumeralText ['6', 'x'] = false ∧
    (NumberType.parse (some 0) (some 42) (Arg.fresh ⟨['6', 'x'], [], []⟩)).getStatus
      = Status.VALID ∧
    (NumberType.parse (some 0) (some 42) (Arg.fresh ⟨['6', 'x'], [], []⟩)).value
      = Value.number 6 := by
  decide

/-- C5 (amended): `NumberType.parse` classifies every argument text. Blank text (empty or
white space only) gives INCOMPLETE with a null value. A text in which no decimal digit
follows the leading white space and one optional sign gives ERROR with a non-empty message.
Otherwise the number of the text is the Number value for the integer spelled by that sign
and the digits that follow it, whatever comes after the digits: the integer itself up to
2^53 in magnitude, the nearest double beyond that (9007199254740993 gives
9007199254740992), and Infinity or -Infinity when that is 2^1024 or more. When the number is
greater than the configured max or smaller than the configured min the result is ERROR, and
in every other case it is VALID with that number as value. With min = 0 and max = 42: `6`
is VALID with value 6, `50` is ERROR, the empty text is INCOMPLETE and `x` is ERROR. -/
theorem NumberType.parse_classifies (min max : Option Int) (arg : Arg) :
    ((∀ c ∈ arg.text, isWhiteSpace c = true) →
      NumberType.parse min max arg = ⟨Value.null, arg, Status.INCOMPLETE, some [], none⟩) ∧
    (∀ ws sign rest : Str, arg.text = ws ++ sign ++ rest →
      (∀ c ∈ ws, isWhiteSpace c = true) →
      (sign = ['-'] ∨ sign = ['+'] ∨
        (sign = [] ∧ ∃ c, rest.head? = some c ∧ c ≠ '-' ∧ c ≠ '+' ∧ isWhiteSpace c = false)) →
      (∀ c, rest.head? = some c → isDigit c = false) →
      (NumberType.parse min max arg).getStatus = Status.ERROR ∧
      (NumberType.parse min max arg).value = Value.NaN ∧
      ∃ msg, (NumberType.parse min max arg).message = some msg ∧ msg ≠ []) ∧
    (∀ ws sign ds rest : Str, arg.text = ws ++ sign ++ ds ++ rest →
      (∀ c ∈ ws, isWhiteSpace c = true) →
      (sign = [] ∨ sign = ['-'] ∨ sign = ['+']) →
      (∀ c ∈ ds, isDigit c = true) → ds ≠ [] →
      (∀ c, rest.head? = some c → isDigit c = false) →
      ∀ n : Int, n = (if sign = ['-'] then (-1 : Int) else 1) * (digitsValue 0 ds : Nat) →
        (((∃ M, max = some M ∧ (Value.ofInteger n).greaterThan M = true) ∨
            (∃ m, min = some m ∧ (Value.ofInteger n).lessThan m = true)) →
          (NumberType.parse min max arg).getStatus = Status.ERROR ∧
          (NumberType.parse min max arg).value = Value.ofInteger n ∧
          ∃ msg, (NumberType.parse min max arg).message = some msg ∧ msg ≠ []) ∧
        (¬ ((∃ M, max = some M ∧ (Value.ofInteger n).greaterThan M = true) ∨
            (∃ m, min = some m ∧ (Value.ofInteger n).lessThan m = true)) →
          NumberType.parse min max arg = Conversion.valid (Value.ofInteger n) arg)) ∧
    ((∀ n : Int, n.natAbs ≤ 2 ^ 53 → Value.ofInteger n = Value.number n) ∧
      (∀ n : Int, 2 ^ 53 < n.natAbs →
        Value.ofInteger n
          = if roundTo53 n.natAbs < doubleLimit then Value.number (roundInt53 n)
            else Value.infinity (decide (n < 0))) ∧
      Value.ofInteger 9007199254740993 = Value.number 9007199254740992) ∧
    (NumberType.parse (some 0) (some 42) (Arg.fresh ⟨['6'], [], []⟩)
        = Conversion.valid (Value.number 6) (Arg.fresh ⟨['6'], [], []⟩) ∧
      (NumberType.parse (some 0) (some 42) (Arg.fresh ⟨['5', '0'], [], []⟩)).getStatus
        = Status.ERROR ∧
      (NumberType.parse (some 0) (some 42) (Arg.fresh ⟨[], [], []⟩)).getStatus
        = Status.INCOMPLETE ∧
      (NumberType.parse (some 0) (some 42) (Arg.fresh ⟨['x'], [], []⟩)).getStatus
        = Status.ERROR) := by
  refine ⟨NumberType.parse_blank min max arg, ?_, ?_,
    ⟨Value.ofInteger_small, fun n _ => rfl, by decide⟩, by decide⟩
  · intro ws sign rest htext hws hsign hrest
    have hnb : ¬ ∀ c ∈ arg.text, isWhiteSpace c = true := by
      intro hall
      rcases hsign with rfl | rfl | ⟨rfl, c, hc, _, _, hcw⟩
      · have := hall '-' (by rw [htext]; simp)
        revert this; decide
      · have := hall '+' (by rw [htext]; simp)
        revert this; decide
      · cases rest with
        | nil => simp at hc
        | cons r rs =>
          simp only [List.head?_cons, Option.some.injEq] at hc
          subst hc
          have := hall r (by rw [htext]; simp)
          rw [hcw] at this
          exact absurd this (by decide)
    have hnan : readInteger arg.text = none := by
      rw [htext]
      refine readInteger_nan ws sign rest hws ?_ hrest ?_
      · rcases hsign with h | h | ⟨h, _⟩
        · exact Or.inr (Or.inl h)
        · exact Or.inr (Or.inr h)
        · exact Or.inl h
      · intro hs c hc
        rcases hsign with h | h | ⟨_, c', hc', h1, h2, h3⟩
        · rw [h] at hs; exact absurd hs (by simp)
        · rw [h] at hs; exact absurd hs (by simp)
        · rw [hc] at hc'
          simp only [Option.some.injEq] at hc'
          subst hc'
          exact ⟨h1, h2, h3⟩
    rw [NumberType.parse_nan min max arg hnb hnan]
    exact ⟨rfl, rfl, _, rfl, by simp⟩
  · intro ws sign ds rest htext hws hsign hds hne hrest n hn
    obtain ⟨d, ds', rfl⟩ := List.exists_cons_of_ne_nil hne
    have hnb : ¬ ∀ c ∈ arg.text, isWhiteSpace c = true := by
      intro hall
      have h1 := hall d (by rw [htext]; simp)
      have h2 := (isDigit_not_sign_or_space d (hds d (List.mem_cons_self _ _))).2.2
      rw [h2] at h1
      exact absurd h1 (by decide)
    have hp : readInteger arg.text = some n := by
      rw [htext, hn]
      exact readInteger_digits ws sign (d :: ds') rest hws hsign hds hne hrest
    exact NumberType.parse_number min max arg n hnb hp

/-- C5 at a concrete input: with min = 0 and max = 42 the text ` -6x` (white space, sign,
one digit, a rest) has the number -6, below the minimum, and is an ERROR. -/
theorem NumberType.parse_classifies_witness :
    (NumberType.parse (some 0) (some 42) (Arg.fresh ⟨[' ', '-', '6', 'x'], [], []⟩)).getStatus
      = Status.ERROR ∧
    (NumberType.parse (some 0) (some 42) (Arg.fresh ⟨[' ', '-', '6', 'x'], [], []⟩)).value
      = Value.number (-6) :=
  have h := ((NumberType.parse_classifies (some 0) (some 42)
      (Arg.fresh ⟨[' ', '-', '6', 'x'], [], []⟩)).2.2.1
      [' '] ['-'] ['6'] ['x'] rfl (by decide) (by decide) (by decide) (by decide) (by decide)
      (-6) (by decide)).1 (Or.inr ⟨0, rfl, by decide⟩)
  ⟨h.1, h.2.1.trans (by decide)⟩

/-! ### stringify followed by parse -/

theorem digitChar_toNat : ∀ d, d < 10 → (Char.ofNat (48 + d)).toNat = 48 + d := by
  decide

theorem digitChar_isDigit : ∀ d, d < 10 → isDigit (Char.ofNat (48 + d)) = true := by
  decide

theorem digitsValue_append (acc : Nat) (xs : Str) (c : Char) :
    digitsValue acc (xs ++ [c]) = 10 * digitsValue acc xs + (c.toNat - 48) := by
  simp [digitsValue, List.foldl_append]

/-- With enough fuel the digits printed for `n` are decimal digits, at least one, and spell
`n`. -/
theorem natToStringAux_spec :
    ∀ (fuel n : Nat), n < fuel →
      (∀ c ∈ natToStringAux fuel n, isDigit c = true) ∧ natToStringAux fuel n ≠ [] ∧
      digitsValue 0 (natToStringAux fuel n) = n
  | 0, n, h => absurd h (Nat.not_lt_zero n)
  | fuel + 1, n, h => by
    rw [natToStringAux]
    split
    · rename_i hn
      refine ⟨?_, by simp, ?_⟩
      · intro c hc
        simp only [List.mem_singleton] at hc
        subst hc
        exact digitChar_isDigit n hn
      · simp [digitsValue, digitChar_toNat n hn]
    · rename_i hn
      have hlt : n / 10 < fuel := by omega
      obtain ⟨h1, h2, h3⟩ := natToStringAux_spec fuel (n / 10) hlt
      have hm : n % 10 < 10 := Nat.mod_lt _ (by decide)
      refine ⟨?_, by simp, ?_⟩
      · intro c hc
        simp only [List.mem_append, List.mem_singleton] at hc
        rcases hc with hc | hc
        · exact h1 c hc
        · subst hc
          exact digitChar_isDigit _ hm
      · rw [digitsValue_append, h3, digitChar_toNat _ hm]
        omega

theorem natToString_spec (n : Nat) :
    (∀ c ∈ natToString n, isDigit c = true) ∧ natToString n ≠ [] ∧
    digitsValue 0 (natToString n) = n :=
  natToStringAux_spec (n + 1) n (Nat.lt_succ_self n)

/-- The integer read from the digits printed for `n` is `n`. -/
theorem readInteger_intToString (n : Int) : readInteger (intToString n) = some n := by
  cases n with
  | ofNat k =>
    obtain ⟨h1, h2, h3⟩ := natToString_spec k
    have := readInteger_digits [] [] (natToString k) [] (by simp) (Or.inl rfl) h1 h2 (by simp)
    simp only [List.nil_append, List.append_nil] at this
    rw [intToString, this, h3]
    simp
  | negSucc k =>
    obtain ⟨h1, h2, h3⟩ := natToString_spec (k + 1)
    have := readInteger_digits [] ['-'] (natToString (k + 1)) [] (by simp) (Or.inr (Or.inl rfl))
      h1 h2 (by simp)
    simp only [List.nil_append, List.append_nil, List.singleton_append] at this
    rw [intToString, this, h3]
    simp [Int.negSucc_eq]

theorem intToString_not_blank (n : Int) : ¬ ∀ c ∈ intToString n, isWhiteSpace c = true := by
  intro hall
  cases n with
  | ofNat k =>
    obtain ⟨h1, h2, _⟩ := natToString_spec k
    obtain ⟨d, ds, hd⟩ := List.exists_cons_of_ne_nil h2
    have hmem : d ∈ natToString k := by rw [hd]; exact List.mem_cons_self _ _
    have := hall d hmem
    rw [(isDigit_not_sign_or_space d (h1 d hmem)).2.2] at this
    exact absurd this (by decide)
  | negSucc k =>
    have := hall '-' (List.mem_cons_self _ _)
    revert this
    decide

theorem bitLengthAux_spec : ∀ (fuel n : Nat), n ≤ fuel → 0 < n →
    2 ^ (bitLengthAux fuel n - 1) ≤ n ∧ n < 2 ^ (bitLengthAux fuel n) ∧
      0 < bitLengthAux fuel n
  | 0, n, h, hp => by omega
  | fuel + 1, n, h, hp => by
    unfold bitLengthAux
    rw [if_neg (by omega)]
    by_cases h1 : n / 2 = 0
    · have hn : n = 1 := by omega
      subst hn
      have h0 : bitLengthAux fuel (1 / 2) = 0 := by cases fuel <;> simp [bitLengthAux]
      rw [h0]
      simp
    · obtain ⟨a, b, c⟩ := bitLengthAux_spec fuel (n / 2) (by omega) (by omega)
      generalize bitLengthAux fuel (n / 2) = k at a b c
      obtain ⟨j, rfl⟩ : ∃ j, k = j + 1 := ⟨k - 1, by omega⟩
      simp only [Nat.add_sub_cancel] at a ⊢
      rw [Nat.pow_succ] at b ⊢
      rw [Nat.pow_succ]
      refine ⟨by omega, by omega, by omega⟩

theorem bitLength_spec (n : Nat) (hp : 0 < n) :
    2 ^ (bitLength n - 1) ≤ n ∧ n < 2 ^ (bitLength n) ∧ 0 < bitLength n :=
  bitLengthAux_spec n n (Nat.le_refl n) hp

/-- A number between 2^a and 2^(a+1) has a + 1 binary digits. -/
theorem bitLength_eq (n a : Nat) (h1 : 2 ^ a ≤ n) (h2 : n < 2 ^ (a + 1)) :
    bitLength n = a + 1 := by
  have hp : 0 < n := Nat.lt_of_lt_of_le ((by positivity)) h1
  obtain ⟨l, u, p⟩ := bitLength_spec n hp
  have hlt1 : bitLength n - 1 < a + 1 :=
    (Nat.pow_lt_pow_iff_right (by decide : 1 < 2)).1 (Nat.lt_of_le_of_lt l h2)
  have hlt2 : a < bitLength n :=
    (Nat.pow_lt_pow_iff_right (by decide : 1 < 2)).1 (Nat.lt_of_le_of_lt h1 u)
  omega

/-- A number with at most 53 significant binary digits is its own rounding. -/
theorem roundTo53_mantissa (q e : Nat) (h1 : 2 ^ 52 ≤ q) (h2 : q ≤ 2 ^ 53) :
    roundTo53 (q * 2 ^ e) = q * 2 ^ e := by
  unfold roundTo53
  by_cases hs : q * 2 ^ e ≤ 2 ^ 53
  · rw [if_pos hs]
  · rw [if_neg hs]
    have he : 0 < 2 ^ e := (by positivity)
    by_cases hq : q < 2 ^ 53
    · have hb : bitLength (q * 2 ^ e) = 52 + e + 1 := by
        apply bitLength_eq
        · rw [Nat.pow_add]; exact Nat.mul_le_mul_right _ h1
        · have : 52 + e + 1 = 53 + e := by omega
          rw [this, Nat.pow_add]
          exact Nat.mul_lt_mul_of_pos_right hq he
      have hE : bitLength (q * 2 ^ e) - 53 = e := by omega
      simp only [hE, Nat.mul_mod_left, Nat.mul_div_cancel _ he]
      rw [if_neg]
      intro h
      rcases h with h | ⟨h, _⟩ <;> omega
    · have hq2 : q = 2 ^ 52 * 2 := by omega
      have hy : q * 2 ^ e = 2 ^ 52 * 2 ^ (e + 1) := by
        rw [hq2, Nat.pow_succ]; ring
      have hb : bitLength (q * 2 ^ e) = 52 + (e + 1) + 1 := by
        apply bitLength_eq
        · rw [hy, Nat.pow_add]
        · have e2 : 2 ^ (52 + (e + 1) + 1) = 2 ^ 52 * 2 ^ (e + 1) * 2 := by
            rw [Nat.pow_succ, Nat.pow_add]
          have : 0 < 2 ^ 52 * 2 ^ (e + 1) := by positivity
          rw [hy, e2]
          omega
      have hE : bitLength (q * 2 ^ e) - 53 = e + 1 := by omega
      have he1 : 0 < 2 ^ (e + 1) := by positivity
      simp only [hE]
      rw [hy]
      simp only [Nat.mul_mod_left, Nat.mul_div_cancel _ he1]
      rw [if_neg]
      intro h
      rcases h with h | ⟨h, _⟩ <;> omega

/-- The rounding of a number above 2^53 has at most 53 significant binary digits. -/
theorem roundTo53_form (n : Nat) (h : 2 ^ 53 < n) :
    ∃ q e, roundTo53 n = q * 2 ^ e ∧ 2 ^ 52 ≤ q ∧ q ≤ 2 ^ 53 := by
  unfold roundTo53
  rw [if_neg (by omega)]
  have hp : 0 < n := by omega
  obtain ⟨l, u, p⟩ := bitLength_spec n hp
  have hk : 53 < bitLength n := by
    have : 2 ^ 53 < 2 ^ bitLength n := Nat.lt_trans h u
    exact (Nat.pow_lt_pow_iff_right (by decide : 1 < 2)).1 this
  obtain ⟨e, he⟩ : ∃ e, bitLength n = 53 + e + 1 := ⟨bitLength n - 54, by omega⟩
  have hE : bitLength n - 53 = e + 1 := by omega
  have hl : 2 ^ 52 * 2 ^ (e + 1) ≤ n := by
    have : bitLength n - 1 = 52 + (e + 1) := by omega
    rw [this, Nat.pow_add] at l
    exact l
  have hu : n < 2 ^ 53 * 2 ^ (e + 1) := by
    have : bitLength n = 53 + (e + 1) := by omega
    rw [this, Nat.pow_add] at u
    exact u
  have he1 : 0 < 2 ^ (e + 1) := (by positivity)
  have hq1 : 2 ^ 52 ≤ n / 2 ^ (e + 1) := (Nat.le_div_iff_mul_le he1).2 hl
  have hq2 : n / 2 ^ (e + 1) < 2 ^ 53 := (Nat.div_lt_iff_lt_mul he1).2 hu
  simp only [hE]
  split
  · exact ⟨n / 2 ^ (e + 1) + 1, e + 1, rfl, by omega, by omega⟩
  · exact ⟨n / 2 ^ (e + 1), e + 1, rfl, hq1, by omega⟩

/-- Rounding twice is rounding once. -/
theorem roundTo53_idem (n : Nat) : roundTo53 (roundTo53 n) = roundTo53 n := by
  by_cases h : n ≤ 2 ^ 53
  · rw [roundTo53_small n h, roundTo53_small n h]
  · obtain ⟨q, e, hr, h1, h2⟩ := roundTo53_form n (by omega)
    rw [hr]
    exact roundTo53_mantissa q e h1 h2

theorem shortestAt_spec (m p t : Nat) (h : shortestAt m p = some t) :
    roundTo53 t = m ∧ (t = m / 10 ^ p * 10 ^ p ∨ t = m / 10 ^ p * 10 ^ p + 10 ^ p) := by
  unfold shortestAt at h
  simp only at h
  split at h
  · rename_i hl
    split at h
    · rename_i hu
      split at h
      · simp only [Option.some.injEq] at h; subst h; exact ⟨hl, Or.inl rfl⟩
      · split at h
        · simp only [Option.some.injEq] at h; subst h; exact ⟨hu, Or.inr rfl⟩
        · split at h
          · simp only [Option.some.injEq] at h; subst h; exact ⟨hl, Or.inl rfl⟩
          · simp only [Option.some.injEq] at h; subst h; exact ⟨hu, Or.inr rfl⟩
    · simp only [Option.some.injEq] at h; subst h; exact ⟨hl, Or.inl rfl⟩
  · split at h
    · rename_i hu
      simp only [Option.some.injEq] at h; subst h; exact ⟨hu, Or.inr rfl⟩
    · exact absurd h (by simp)

/-- The numeral found for a double `m` below `10 ^ B` denotes `m` and is at most `10 ^ B`. -/
theorem shortestFrom_spec (m B : Nat) (hm : roundTo53 m = m) (hB : m < 10 ^ B) :
    ∀ p, p ≤ B → roundTo53 (shortestFrom m p) = m ∧ shortestFrom m p ≤ 10 ^ B
  | 0, _ => ⟨hm, Nat.le_of_lt hB⟩
  | p + 1, hp => by
    cases hs : shortestAt m (p + 1) with
    | none =>
      simp only [shortestFrom, hs]
      exact shortestFrom_spec m B hm hB p (by omega)
    | some t =>
      simp only [shortestFrom, hs]
      obtain ⟨hr, ht⟩ := shortestAt_spec m (p + 1) t hs
      refine ⟨hr, ?_⟩
      have hpos : 0 < 10 ^ (p + 1) := by positivity
      have hle : m / 10 ^ (p + 1) * 10 ^ (p + 1) ≤ m := Nat.div_mul_le_self _ _
      rcases ht with rfl | rfl
      · omega
      · obtain ⟨d, hd⟩ : ∃ d, B = d + (p + 1) := ⟨B - (p + 1), by omega⟩
        have hBd : 10 ^ B = 10 ^ d * 10 ^ (p + 1) := by rw [hd, Nat.pow_add]
        have hk : m / 10 ^ (p + 1) < 10 ^ d := by
          apply (Nat.div_lt_iff_lt_mul hpos).2
          rw [← hBd]
          exact hB
        have : (m / 10 ^ (p + 1) + 1) * 10 ^ (p + 1) ≤ 10 ^ d * 10 ^ (p + 1) :=
          Nat.mul_le_mul_right _ hk
        rw [hBd]
        calc m / 10 ^ (p + 1) * 10 ^ (p + 1) + 10 ^ (p + 1)
            = (m / 10 ^ (p + 1) + 1) * 10 ^ (p + 1) := by ring
          _ ≤ 10 ^ d * 10 ^ (p + 1) := this

theorem natToStringAux_length :
    ∀ (fuel n k : Nat), n < fuel → n < 10 ^ k → 0 < k → (natToStringAux fuel n).length ≤ k
  | 0, n, _, h, _, _ => absurd h (Nat.not_lt_zero n)
  | fuel + 1, n, k, h, hk, hpos => by
    rw [natToStringAux]
    split
    · simpa using hpos
    · rename_i hn
      obtain ⟨j, rfl⟩ : ∃ j, k = j + 1 := ⟨k - 1, by omega⟩
      have hj : 0 < j := by
        rcases Nat.eq_zero_or_pos j with rfl | h0
        · simp at hk; omega
        · exact h0
      have hdiv : n / 10 < 10 ^ j := by
        apply (Nat.div_lt_iff_lt_mul (by decide)).2
        rw [Nat.pow_succ] at hk
        exact hk
      have := natToStringAux_length fuel (n / 10) j (by omega) hdiv hj
      simp only [List.length_append, List.length_singleton]
      omega

theorem natToString_length (n k : Nat) (hk : n < 10 ^ k) (hpos : 0 < k) :
    (natToString n).length ≤ k :=
  natToStringAux_length (n + 1) n k (Nat.lt_succ_self n) hk hpos

/-- The string of a double below 10^21 is the string of digits of a natural number that is
rounded to it. -/
theorem natNumberToString_spec (m : Nat) (hm : roundTo53 m = m) (hlt : m < 10 ^ 21) :
    ∃ t, natNumberToString m = natToString t ∧ roundTo53 t = m := by
  unfold natNumberToString
  by_cases hs : m ≤ 2 ^ 53
  · rw [if_pos hs]
    exact ⟨m, rfl, hm⟩
  · rw [if_neg hs]
    have hL := natToString_length m 21 hlt (by decide)
    obtain ⟨hr, hle⟩ := shortestFrom_spec m 21 hm hlt (natToString m).length hL
    have hne : shortestFrom m (natToString m).length ≠ 10 ^ 21 := by
      intro he
      rw [he] at hr
      have h21 : roundTo53 (10 ^ 21) = 10 ^ 21 := by decide
      omega
    have hlt2 : shortestFrom m (natToString m).length < 10 ^ 21 := by omega
    have hlen := natToString_length _ 21 hlt2 (by decide)
    simp only [hlen, if_true]
    exact ⟨_, rfl, hr⟩

theorem roundInt53_natAbs (z : Int) : (roundInt53 z).natAbs = roundTo53 z.natAbs := by
  unfold roundInt53
  split <;> simp

theorem roundInt53_idem (z : Int) : roundInt53 (roundInt53 z) = roundInt53 z := by
  have h := roundTo53_idem z.natAbs
  have h0 : roundTo53 0 = 0 := by decide
  unfold roundInt53
  by_cases hz : z < 0
  · simp only [hz, if_true]
    by_cases hr : roundTo53 z.natAbs = 0
    · rw [hr]; simp [h0]
    · have : -(roundTo53 z.natAbs : Int) < 0 := by omega
      simp only [this, if_true, Int.natAbs_neg, Int.natAbs_ofNat, h]
  · simp only [hz, if_false]
    have : ¬ ((roundTo53 z.natAbs : Int) < 0) := by omega
    simp only [this, if_false, Int.natAbs_ofNat, h]

/-- The string of a number below 10^21 in magnitude is the string of digits of an integer
whose Number value is that number. -/
theorem numberToString_spec (n : Int) (hn : roundInt53 n = n) (hlt : n.natAbs < 10 ^ 21) :
    ∃ z : Int, numberToString n = intToString z ∧ Value.ofInteger z = Value.number n := by
  have hm : roundTo53 n.natAbs = n.natAbs := by
    rw [← roundInt53_natAbs, hn]
  have hlim : (10 : Nat) ^ 21 < doubleLimit := by
    unfold doubleLimit
    norm_num
  obtain ⟨t, ht, hr⟩ := natNumberToString_spec n.natAbs hm hlt
  cases n with
  | ofNat k =>
    simp only [Int.natAbs_ofNat, Int.ofNat_eq_coe] at ht hr hlt
    refine ⟨(t : Int), ?_, ?_⟩
    · show natNumberToString k = intToString (Int.ofNat t)
      rw [ht]; rfl
    · unfold Value.ofInteger roundInt53
      simp only [Int.natAbs_ofNat, hr]
      rw [if_pos (by omega), if_neg (by omega)]
      rfl
  | negSucc k =>
    have hk : (Int.negSucc k).natAbs = k + 1 := rfl
    rw [hk] at ht hr hlt
    have htpos : t ≠ 0 := by
      intro h0
      rw [h0] at hr
      have : roundTo53 0 = 0 := by decide
      omega
    obtain ⟨j, rfl⟩ : ∃ j, t = j + 1 := ⟨t - 1, by omega⟩
    refine ⟨Int.negSucc j, ?_, ?_⟩
    · show '-' :: natNumberToString (k + 1) = '-' :: natToString (j + 1)
      rw [ht]
    · unfold Value.ofInteger roundInt53
      have hj : (Int.negSucc j).natAbs = j + 1 := rfl
      simp only [hj, hr]
      rw [if_pos (by omega), if_pos (Int.negSucc_lt_zero j)]
      simp [Int.negSucc_eq]

/-- A VALID result of `NumberType.parse` has a number as value, or an infinity; and the
string of a number below 10^21 in magnitude parses to a VALID conversion with the same
value. -/
theorem NumberType.number_roundtrip (min max : Option Int) (arg : Arg)
    (hvalid : (NumberType.parse min max arg).getStatus = Status.VALID) :
    (∃ n, (NumberType.parse min max arg).value = Value.number n ∧
      (n.natAbs < 10 ^ 21 →
        NumberType.parse min max (Arg.fresh ⟨numberToString n, [], []⟩)
          = Conversion.valid (Value.number n) (Arg.fresh ⟨numberToString n, [], []⟩))) ∨
    (∃ negative, (NumberType.parse min max arg).value = Value.infinity negative) := by
  by_cases hb : ∀ c ∈ arg.text, isWhiteSpace c = true
  · rw [NumberType.parse_blank min max arg hb] at hvalid
    exact absurd hvalid (by simp [Conversion.getStatus])
  · cases hp : readInteger arg.text with
    | none =>
      rw [NumberType.parse_nan min max arg hb hp] at hvalid
      exact absurd hvalid (by simp [Conversion.getStatus])
    | some z =>
      have h := NumberType.parse_number min max arg z hb hp
      by_cases hout : (∃ M, max = some M ∧ (Value.ofInteger z).greaterThan M = true) ∨
          (∃ m, min = some m ∧ (Value.ofInteger z).lessThan m = true)
      · rw [(h.1 hout).1] at hvalid
        exact absurd hvalid (by decide)
      · rw [h.2 hout]
        by_cases hfin : roundTo53 z.natAbs < doubleLimit
        · left
          have hv : Value.ofInteger z = Value.number (roundInt53 z) := by
            unfold Value.ofInteger; rw [if_pos hfin]
          refine ⟨roundInt53 z, by rw [hv]; rfl, ?_⟩
          intro hlt
          obtain ⟨w, hw1, hw2⟩ := numberToString_spec (roundInt53 z) (roundInt53_idem z) hlt
          have hnb : ¬ ∀ c ∈ (Arg.fresh ⟨numberToString (roundInt53 z), [], []⟩).text,
              isWhiteSpace c = true := by
            show ¬ ∀ c ∈ numberToString (roundInt53 z), isWhiteSpace c = true
            rw [hw1]
            exact intToString_not_blank w
          have hread : readInteger (Arg.fresh ⟨numberToString (roundInt53 z), [], []⟩).text
              = some w := by
            show readInteger (numberToString (roundInt53 z)) = some w
            rw [hw1]
            exact readInteger_intToString w
          have h2 := (NumberType.parse_number min max _ w hnb hread).2
          rw [hw2, ← hv] at h2
          rw [← hv]
          exact h2 hout
        · right
          refine ⟨decide (z < 0), ?_⟩
          unfold Value.ofInteger; rw [if_neg hfin]; rfl

/-! ### Objects used as maps, and the completions of a selection -/

theorem JSObject.own_set {α : Type} (o : JSObject α) (k k' : Str) (v : α) :
    JSObject.own (JSObject.set o k v) k' = if k = k' then some v else JSObject.own o k' := by
  induction o with
  | nil => simp [JSObject.set, JSObject.own]
  | cons p rest ih =>
    obtain ⟨a, w⟩ := p
    simp only [JSObject.set]
    by_cases hak : a = k
    · subst hak
      simp only [if_true, JSObject.own]
      by_cases hk : a = k' <;> simp [hk]
    · simp only [hak, if_false, JSObject.own, ih]
      by_cases hk : a = k'
      · subst hk
        simp [Ne.symm hak]
      · simp [hk]

theorem JSObject.own_eq_none_iff {α : Type} (o : JSObject α) (k : Str) :
    JSObject.own o k = none ↔ k ∉ JSObject.keys o := by
  induction o with
  | nil =>
    simp only [JSObject.own, JSObject.keys, List.map_nil, List.not_mem_nil, not_false_eq_true]
  | cons p rest ih =>
    obtain ⟨a, w⟩ := p
    simp only [JSObject.own, JSObject.keys, List.map_cons, List.mem_cons, not_or] at ih ⊢
    by_cases hak : a = k
    · subst hak
      simp only [if_true, reduceCtorEq, not_true_eq_false, false_and]
    · simp only [hak, if_false, ih, Ne.symm hak, not_false_eq_true, true_and]

theorem JSObject.set_of_not_mem {α : Type} (o : JSObject α) (k : Str) (v : α)
    (h : k ∉ JSObject.keys o) : JSObject.set o k v = o ++ [(k, v)] := by
  induction o with
  | nil => rfl
  | cons p rest ih =>
    obtain ⟨a, w⟩ := p
    simp only [JSObject.keys, List.map_cons, List.mem_cons, not_or] at h
    have hak : a ≠ k := fun e => h.1 e.symm
    simp only [JSObject.set, hak, if_false, List.cons_append]
    rw [ih h.2]

theorem JSObject.own_of_mem {α : Type} (o : JSObject α) (k : Str) (v : α)
    (hnd : (JSObject.keys o).Nodup) (h : (k, v) ∈ o) : JSObject.own o k = some v := by
  induction o with
  | nil => simp at h
  | cons p rest ih =>
    obtain ⟨a, w⟩ := p
    simp only [JSObject.keys, List.map_cons, List.nodup_cons] at hnd
    simp only [List.mem_cons, Prod.mk.injEq] at h
    rcases h with ⟨rfl, rfl⟩ | h
    · simp [JSObject.own]
    · have hak : a ≠ k := by
        rintro rfl
        exact hnd.1 (List.mem_map.2 ⟨(a, v), h, rfl⟩)
      simp only [JSObject.own, hak, if_false]
      exact ih hnd.2 h

theorem JSObject.keys_set_nodup {α : Type} (o : JSObject α) (k : Str) (v : α)
    (hnd : (JSObject.keys o).Nodup) : (JSObject.keys (JSObject.set o k v)).Nodup := by
  induction o with
  | nil => simp [JSObject.set, JSObject.keys]
  | cons p rest ih =>
    obtain ⟨a, w⟩ := p
    simp only [JSObject.keys, List.map_cons, List.nodup_cons] at hnd
    simp only [JSObject.set]
    by_cases hak : a = k
    · simp only [hak, if_true, JSObject.keys, List.map_cons, List.nodup_cons]
      rw [← hak]
      exact hnd
    · simp only [hak, if_false, JSObject.keys, List.map_cons, List.nodup_cons]
      refine ⟨?_, ih hnd.2⟩
      intro hmem
      have h1 : JSObject.own (JSObject.set rest k v) a ≠ none := by
        rw [Ne, JSObject.own_eq_none_iff]
        exact fun h => h hmem
      rw [JSObject.own_set] at h1
      simp only [Ne.symm hak, if_false] at h1
      rw [Ne, JSObject.own_eq_none_iff] at h1
      exact h1 hnd.1

/-- The loop of `_findCompletions` over names that are distinct and not yet present adds
exactly the names that start with `text`, in order. -/
theorem findCompletions_fold (lookup : Lookup) (text : Str) :
    ∀ (names : List Str) (acc : Lookup), names.Nodup →
      (∀ n ∈ names, n ∉ JSObject.keys acc) →
      names.foldl
        (fun completions name =>
          if text.isPrefixOf name then JSObject.set completions name (Lookup.get lookup name)
          else completions) acc
      = acc ++ (names.filter (fun n => text.isPrefixOf n)).map
          (fun n => (n, Lookup.get lookup n))
  | [], acc, _, _ => by simp
  | n :: names, acc, hnd, hdis => by
    simp only [List.nodup_cons] at hnd
    simp only [List.foldl_cons]
    by_cases hp : text.isPrefixOf n = true
    · simp only [hp, if_true, List.filter_cons_of_pos, List.map_cons]
      rw [JSObject.set_of_not_mem acc n _ (hdis n (List.mem_cons_self _ _))]
      rw [findCompletions_fold lookup text names _ hnd.2]
      · simp
      · intro m hm
        simp only [JSObject.keys, List.map_append, List.map_cons, List.map_nil, List.mem_append,
          List.mem_singleton, not_or]
        refine ⟨hdis m (List.mem_cons_of_mem _ hm), ?_⟩
        rintro rfl
        exact hnd.1 hm
    · simp only [hp, Bool.false_eq_true, if_false]
      rw [List.filter_cons_of_neg (by simpa using hp)]
      exact findCompletions_fold lookup text names acc hnd.2
        (fun m hm => hdis m (List.mem_cons_of_mem _ hm))

theorem Lookup.get_of_mem (lookup : Lookup) (k : Str) (v : Value)
    (hnd : (JSObject.keys lookup).Nodup) (h : (k, v) ∈ lookup) : Lookup.get lookup k = v := by
  simp [Lookup.get, JSObject.own_of_mem lookup k v hnd h]

theorem filter_keys_map_get (lookup : Lookup) (text : Str)
    (hnd : (JSObject.keys lookup).Nodup) :
    ((JSObject.keys lookup).filter (fun n => text.isPrefixOf n)).map
        (fun n => (n, Lookup.get lookup n))
      = lookup.filter (fun p => text.isPrefixOf p.1) := by
  have key : ∀ (l : Lookup), (∀ p ∈ l, Lookup.get lookup p.1 = p.2) →
      ((JSObject.keys l).filter (fun n => text.isPrefixOf n)).map
          (fun n => (n, Lookup.get lookup n))
        = l.filter (fun p => text.isPrefixOf p.1) := by
    intro l
    induction l with
    | nil => intro _; rfl
    | cons p rest ih =>
      intro h
      obtain ⟨a, w⟩ := p
      have hw : Lookup.get lookup a = w := h (a, w) (List.mem_cons_self _ _)
      have ih' := ih (fun q hq => h q (List.mem_cons_of_mem _ hq))
      simp only [JSObject.keys, List.map_cons] at ih' ⊢
      by_cases hp : text.isPrefixOf a = true
      · simp only [List.filter_cons, hp, if_true, List.map_cons, hw, ih']
      · simp only [List.filter_cons, hp, Bool.false_eq_true, if_false, ih']
  exact key lookup (fun p hp => Lookup.get_of_mem lookup p.1 p.2 hnd hp)

/-- `_findCompletions` on a lookup (its keys are distinct, as those of every object are):
the single entry for `text` when `lookup[text]` is defined, and otherwise the entries whose
name starts with `text`, in the order of the lookup. -/
theorem findCompletions_eq (lookup : Lookup) (text : Str)
    (hnd : (JSObject.keys lookup).Nodup) :
    _findCompletions lookup text =
      if Lookup.get lookup text = Value.undefined
      then lookup.filter (fun p => text.isPrefixOf p.1)
      else [(text, Lookup.get lookup text)] := by
  unfold _findCompletions
  split
  · rename_i h
    rw [if_pos h, findCompletions_fold lookup text _ [] hnd
      (fun n _ => by simp only [JSObject.keys, List.map_nil]; exact List.not_mem_nil n)]
    simp only [List.nil_append]
    exact filter_keys_map_get lookup text hnd
  · rename_i v hv
    rw [if_neg (fun h => hv h)]
    rfl

theorem dataToLookup_fold_nodup (data : List SelOption) :
    ∀ acc : Lookup, (JSObject.keys acc).Nodup →
      (JSObject.keys (data.foldl
        (fun lookup option => JSObject.set lookup option.name option.toValue) acc)).Nodup := by
  induction data with
  | nil => intro acc h; exact h
  | cons o rest ih =>
    intro acc h
    exact ih _ (JSObject.keys_set_nodup acc _ _ h)

theorem dataToLookup_nodup (data : List SelOption) :
    (JSObject.keys (_dataToLookup data)).Nodup :=
  dataToLookup_fold_nodup data [] (by simp [JSObject.keys])

theorem entriesToLookup_nodup (entries : List (Str × Nat)) :
    (JSObject.keys (entriesToLookup entries)).Nodup := by
  unfold entriesToLookup
  have key : ∀ acc : Lookup, (JSObject.keys acc).Nodup →
      (JSObject.keys (entries.foldl
        (fun lookup entry => JSObject.set lookup entry.1 (Value.plain entry.2)) acc)).Nodup := by
    induction entries with
    | nil => intro acc h; exact h
    | cons c rest ih =>
      intro acc h
      exact ih _ (JSObject.keys_set_nodup acc _ _ h)
  exact key [] (by simp [JSObject.keys])

theorem commandLookup_nodup (canon : Canon) : (JSObject.keys (commandLookup canon)).Nodup := by
  unfold commandLookup
  generalize canon.getCommands = cs
  have key : ∀ acc : Lookup, (JSObject.keys acc).Nodup →
      (JSObject.keys (cs.foldl
        (fun lookup command => JSObject.set lookup command.name (Value.command command))
        acc)).Nodup := by
    induction cs with
    | nil => intro acc h; exact h
    | cons c rest ih =>
      intro acc h
      exact ih _ (JSObject.keys_set_nodup acc _ _ h)
  exact key [] (by simp [JSObject.keys])

theorem JSObject.own_filter {α : Type} (o : JSObject α) (p : Str → Bool) (k : Str)
    (hk : p k = true) :
    JSObject.own (o.filter (fun e => p e.1)) k = JSObject.own o k := by
  induction o with
  | nil => rfl
  | cons e rest ih =>
    obtain ⟨a, w⟩ := e
    by_cases hpa : p a = true
    · simp only [List.filter_cons, hpa, if_true, JSObject.own, ih]
    · have hak : a ≠ k := by
        rintro rfl
        exact hpa hk
      simp only [List.filter_cons, hpa, Bool.false_eq_true, if_false, JSObject.own, hak, ih]

theorem isPrefixOf_self (text : Str) : text.isPrefixOf text = true := by
  induction text with
  | nil => rfl
  | cons c cs ih => simp [List.isPrefixOf, ih]

theorem Lookup.get_filter_self (lookup : Lookup) (text : Str) :
    Lookup.get (lookup.filter (fun p => text.isPrefixOf p.1)) text = Lookup.get lookup text := by
  unfold Lookup.get
  rw [JSObject.own_filter lookup (fun n => text.isPrefixOf n) text (isPrefixOf_self text)]

theorem Lookup.get_single (text : Str) (v : Value) : Lookup.get [(text, v)] text = v := by
  simp [Lookup.get, JSObject.own]

/-- The three outcomes of `SelectionType.parse`, by what `lookup[arg.text]` is. -/
theorem SelectionType.parse_cases (self : GType) (lookup : Lookup) (arg : Arg)
    (hnd : (JSObject.keys lookup).Nodup) :
    (Lookup.get lookup arg.text = Value.undefined →
      SelectionType.parse self lookup arg =
        if 0 < (lookup.filter (fun p => arg.text.isPrefixOf p.1)).length
        then ⟨Value.null, arg, Status.INCOMPLETE, some [], some self⟩
        else ⟨Value.null, arg, Status.ERROR,
          some ("Can't use '".toList ++ arg.text ++ "'.".toList), some self⟩) ∧
    (Lookup.get lookup arg.text = Value.null →
      SelectionType.parse self lookup arg
        = ⟨Value.null, arg, Status.INCOMPLETE, some [], some self⟩) ∧
    (Lookup.get lookup arg.text ≠ Value.undefined → Lookup.get lookup arg.text ≠ Value.null →
      SelectionType.parse self lookup arg
        = Conversion.valid (Lookup.get lookup arg.text) arg) := by
  unfold SelectionType.parse
  rw [findCompletions_eq lookup arg.text hnd]
  refine ⟨?_, ?_, ?_⟩
  · intro h
    rw [if_pos h]
    simp only [Lookup.get_filter_self, h, Value.isNullish, JSObject.keys,
      List.length_map, and_false, if_false, Bool.true_eq_false, gt_iff_lt]
  · intro h
    have hne : Lookup.get lookup arg.text ≠ Value.undefined := by rw [h]; simp
    rw [if_neg hne]
    simp only [Lookup.get_single, h, Value.isNullish, JSObject.keys, List.map_cons,
      List.map_nil, List.length_singleton, and_false, if_false, Bool.true_eq_false, gt_iff_lt,
      Nat.zero_lt_one, if_true]
  · intro h1 h2
    have hn : (Lookup.get lookup arg.text).isNullish = false := by
      cases hv : Lookup.get lookup arg.text <;> simp_all [Value.isNullish]
    rw [if_neg h1]
    simp only [Lookup.get_single, hn, JSObject.keys, List.map_cons, List.map_nil,
      List.length_singleton, and_self, if_true]

theorem dataToLookup_names (data : List SelOption) :
    ∀ (k : Str) (v : Value), JSObject.own (_dataToLookup data) k = some v →
      SelectionType.stringify v = Except.ok (some k) := by
  unfold _dataToLookup
  have key : ∀ (acc : Lookup),
      (∀ k v, JSObject.own acc k = some v → SelectionType.stringify v = Except.ok (some k)) →
      ∀ k v, JSObject.own (data.foldl
          (fun lookup option => JSObject.set lookup option.name option.toValue) acc) k = some v →
        SelectionType.stringify v = Except.ok (some k) := by
    induction data with
    | nil => intro acc h; exact h
    | cons o rest ih =>
      intro acc h
      apply ih
      intro k v hkv
      rw [JSObject.own_set] at hkv
      by_cases hk : o.name = k
      · simp only [hk, if_true, Option.some.injEq] at hkv
        subst hkv
        subst hk
        cases o <;> rfl
      · simp only [hk, if_false] at hkv
        exact h k v hkv
  exact key [] (fun k v h => by simp [JSObject.own] at h)

theorem Lookup.own_of_get (lookup : Lookup) (text : Str)
    (h1 : Lookup.get lookup text ≠ Value.undefined)
    (h2 : ∀ key, Lookup.get lookup text ≠ Value.builtin key) :
    JSObject.own lookup text = some (Lookup.get lookup text) := by
  unfold Lookup.get at h1 h2 ⊢
  cases hown : JSObject.own lookup text with
  | some v => rfl
  | none =>
    rw [hown] at h1 h2
    by_cases hk : text ∈ objectPrototypeKeys
    · simp only [hk, if_true] at h2
      exact absurd rfl (h2 text)
    · simp only [hk, if_false] at h1
      exact absurd rfl h1

theorem SelectionType.status_valid (self : GType) (lookup : Lookup) (arg : Arg)
    (hnd : (JSObject.keys lookup).Nodup)
    (hvalid : (SelectionType.parse self lookup arg).getStatus = Status.VALID) :
    Lookup.get lookup arg.text ≠ Value.undefined ∧ Lookup.get lookup arg.text ≠ Value.null := by
  obtain ⟨h1, h2, _⟩ := SelectionType.parse_cases self lookup arg hnd
  constructor
  · intro h
    rw [h1 h] at hvalid
    split at hvalid <;> simp [Conversion.getStatus] at hvalid
  · intro h
    rw [h2 h] at hvalid
    simp [Conversion.getStatus] at hvalid

/-- A VALID result of a selection's parse whose value is an own entry of the lookup is found
again from the name of that entry. -/
theorem SelectionType.selection_roundtrip (self : GType) (lookup : Lookup) (arg : Arg)
    (hnd : (JSObject.keys lookup).Nodup)
    (hvalid : (SelectionType.parse self lookup arg).getStatus = Status.VALID) :
    (SelectionType.parse self lookup arg).value = Lookup.get lookup arg.text ∧
    ∀ arg' : Arg, arg'.text = arg.text →
      SelectionType.parse self lookup arg'
        = Conversion.valid (SelectionType.parse self lookup arg).value arg' := by
  obtain ⟨hu, hn⟩ := SelectionType.status_valid self lookup arg hnd hvalid
  have h := (SelectionType.parse_cases self lookup arg hnd).2.2 hu hn
  refine ⟨by rw [h]; rfl, ?_⟩
  intro arg' ht
  rw [h]
  have h' := (SelectionType.parse_cases self lookup arg' hnd).2.2
    (by rw [ht]; exact hu) (by rw [ht]; exact hn)
  rw [h', ht]
  rfl

theorem GType.parse_scalar (canon : Canon) :
    ∀ (t : GType) (arg : Arg), t.isScalar = true →
      GType.parse canon t arg = (GType.parseSimple canon t arg).map AnyConversion.simple
  | GType.string, arg, _ => by cases arg <;> rfl
  | GType.number _ _, arg, _ => by cases arg <;> rfl
  | GType.boolean, arg, _ => by cases arg <;> rfl
  | GType.blank, arg, _ => by cases arg <;> rfl
  | GType.selection _, arg, _ => by cases arg <;> rfl
  | GType.deferred t, arg, h => by
    rw [GType.parse, GType.parseSimple]
    exact GType.parse_scalar canon t arg h
  | GType.array _, _, h => by simp [GType.isScalar] at h
  | GType.command, _, h => by simp [GType.isScalar] at h

theorem BooleanType.boolean_roundtrip (arg : Arg)
    (hvalid : (BooleanType.parse arg).getStatus = Status.VALID)
    (hown : ∀ key, (BooleanType.parse arg).value ≠ Value.builtin key) :
    ∃ b : Bool, (BooleanType.parse arg).value = Value.bool b ∧
      BooleanType.parse (Arg.fresh ⟨(Value.bool b).toStr, [], []⟩)
        = Conversion.valid (Value.bool b) (Arg.fresh ⟨(Value.bool b).toStr, [], []⟩) := by
  have hsel : ∀ a : Arg,
      BooleanType.parse a = SelectionType.parse GType.boolean BooleanType.lookup a →
      (BooleanType.parse a).getStatus = Status.VALID →
      (∀ key, (BooleanType.parse a).value ≠ Value.builtin key) →
      ∃ b : Bool, (BooleanType.parse a).value = Value.bool b := by
    intro a ha hv ho
    rw [ha] at hv ho ⊢
    have hnd : (JSObject.keys BooleanType.lookup).Nodup := by decide
    obtain ⟨hval, _⟩ := SelectionType.selection_roundtrip GType.boolean BooleanType.lookup a hnd hv
    obtain ⟨hu, _⟩ := SelectionType.status_valid GType.boolean BooleanType.lookup a hnd hv
    rw [hval] at ho ⊢
    have hown := Lookup.own_of_get BooleanType.lookup a.text hu ho
    generalize Lookup.get BooleanType.lookup a.text = v at hown ⊢
    simp only [BooleanType.lookup, JSObject.own] at hown
    split at hown
    · simp only [Option.some.injEq] at hown
      exact ⟨true, hown.symm⟩
    · split at hown
      · simp only [Option.some.injEq] at hown
        exact ⟨false, hown.symm⟩
      · simp at hown
  have hfinal : ∀ b : Bool,
      BooleanType.parse (Arg.fresh ⟨(Value.bool b).toStr, [], []⟩)
        = Conversion.valid (Value.bool b) (Arg.fresh ⟨(Value.bool b).toStr, [], []⟩) := by
    decide
  cases arg with
  | trueNamed name a => exact ⟨true, rfl, hfinal true⟩
  | falseNamed => exact ⟨false, rfl, hfinal false⟩
  | fresh a =>
    obtain ⟨b, hb⟩ := hsel (Arg.fresh a) rfl hvalid hown
    exact ⟨b, hb, hfinal b⟩
  | token t =>
    obtain ⟨b, hb⟩ := hsel (Arg.token t) rfl hvalid hown
    exact ⟨b, hb, hfinal b⟩
  | merged ts =>
    obtain ⟨b, hb⟩ := hsel (Arg.merged ts) rfl hvalid hown
    exact ⟨b, hb, hfinal b⟩
  | named n v =>
    obtain ⟨b, hb⟩ := hsel (Arg.named n v) rfl hvalid hown
    exact ⟨b, hb, hfinal b⟩
  | array ms =>
    obtain ⟨b, hb⟩ := hsel (Arg.array ms) rfl hvalid hown
    exact ⟨b, hb, hfinal b⟩

theorem GType.roundtrip_simple (canon : Canon) :
    ∀ (t : GType) (arg : Arg) (c : Conversion), t.isScalar = true →
      GType.parseSimple canon t arg = Except.ok c →
      c.getStatus = Status.VALID →
      (∀ key, c.value ≠ Value.builtin key) →
      (∀ n, c.value = Value.number n → n.natAbs < 10 ^ 21) →
      (∀ negative, c.value ≠ Value.infinity negative) →
      ∃ s, GType.stringify t c.value = Except.ok (some s) ∧
        GType.parseSimple canon t (Arg.fresh ⟨s, [], []⟩)
          = Except.ok (Conversion.valid c.value (Arg.fresh ⟨s, [], []⟩))
  | GType.string, arg, c, _, hp, _, _, _, _ => by
    simp only [GType.parseSimple, Except.ok.injEq] at hp
    subst hp
    exact ⟨arg.text, rfl, rfl⟩
  | GType.number min max, arg, c, _, hp, hv, _, hbound, hfin => by
    simp only [GType.parseSimple, Except.ok.injEq] at hp
    subst hp
    rcases NumberType.number_roundtrip min max arg hv with ⟨n, hn, hr⟩ | ⟨negative, hinf⟩
    · refine ⟨numberToString n, ?_, ?_⟩
      · rw [hn]; rfl
      · rw [hn]
        simp only [GType.parseSimple, hr (hbound n hn)]
    · exact absurd hinf (hfin negative)
  | GType.boolean, arg, c, _, hp, hv, ho, _, _ => by
    simp only [GType.parseSimple, Except.ok.injEq] at hp
    subst hp
    obtain ⟨b, hb, hr⟩ := BooleanType.boolean_roundtrip arg hv ho
    refine ⟨(Value.bool b).toStr, ?_, ?_⟩
    · rw [hb]; rfl
    · rw [hb]
      simp only [GType.parseSimple, hr]
  | GType.blank, arg, c, _, hp, _, _, _, _ => by
    simp only [GType.parseSimple, Except.ok.injEq] at hp
    subst hp
    exact ⟨[], rfl, rfl⟩
  | GType.selection data, arg, c, _, hp, hv, ho, _, _ => by
    simp only [GType.parseSimple, Except.ok.injEq] at hp
    subst hp
    have hnd := dataToLookup_nodup data
    obtain ⟨hval, hr⟩ := SelectionType.selection_roundtrip (GType.selection data) _ arg hnd hv
    obtain ⟨hu, _⟩ := SelectionType.status_valid (GType.selection data) _ arg hnd hv
    have hown := Lookup.own_of_get (_dataToLookup data) arg.text hu (by rw [← hval]; exact ho)
    rw [← hval] at hown
    refine ⟨arg.text, dataToLookup_names data _ _ hown, ?_⟩
    simp only [GType.parseSimple]
    rw [hr (Arg.fresh ⟨arg.text, [], []⟩) rfl]
  | GType.lookup _, _, _, h, _, _, _, _, _ => by simp [GType.isScalar] at h
  | GType.deferred t, arg, c, ht, hp, hv, ho, hbound, hfin => by
    rw [GType.parseSimple] at hp
    obtain ⟨s, h1, h2⟩ := GType.roundtrip_simple canon t arg c ht hp hv ho hbound hfin
    exact ⟨s, by rw [GType.stringify]; exact h1, by rw [GType.parseSimple]; exact h2⟩
  | GType.array _, _, _, h, _, _, _, _, _ => by simp [GType.isScalar] at h
  | GType.command, _, _, h, _, _, _, _, _ => by simp [GType.isScalar] at h

set_option maxRecDepth 100000 in
/-- C4 (as stated, refuted), four values that `parse` produces and that do not come back.
`NumberType.parse` produces `null` for a blank text, and the empty text that `stringify`
gives for it parses to an INCOMPLETE conversion. It produces the number 10^21 for its 22
digits; `stringify` writes that number as `1e+21`, which parses to 1. It produces
`Infinity` for a 1 followed by 309 zeros; `stringify` writes `Infinity`, which parses to an
ERROR. And a selection given by a lookup object whose options have no `name` produces the
option stored under `option1`, for which `stringify` gives `undefined`. -/
theorem values_that_do_not_round_trip :
    (GType.parse ⟨[], []⟩ (GType.number none none) (Arg.fresh ⟨[' '], [], []⟩)
        = Except.ok (AnyConversion.simple
            ⟨Value.null, Arg.fresh ⟨[' '], [], []⟩, Status.INCOMPLETE, some [], none⟩) ∧
      GType.stringify (GType.number none none) Value.null = Except.ok (some []) ∧
      GType.parse ⟨[], []⟩ (GType.number none none) (Arg.fresh ⟨[], [], []⟩)
        = Except.ok (AnyConversion.simple
            ⟨Value.null, Arg.fresh ⟨[], [], []⟩, Status.INCOMPLETE, some [], none⟩)) ∧
    (NumberType.parse none none (Arg.fresh ⟨"1000000000000000000000".toList, [], []⟩)
        = Conversion.valid (Value.number (10 ^ 21))
            (Arg.fresh ⟨"1000000000000000000000".toList, [], []⟩) ∧
      GType.stringify (GType.number none none) (Value.number (10 ^ 21))
        = Except.ok (some "1e+21".toList) ∧
      NumberType.parse none none (Arg.fresh ⟨"1e+21".toList, [], []⟩)
        = Conversion.valid (Value.number 1) (Arg.fresh ⟨"1e+21".toList, [], []⟩)) ∧
    ((NumberType.parse none none (Arg.fresh ⟨'1' :: List.replicate 309 '0', [], []⟩)).value
        = Value.infinity false ∧
      (NumberType.parse none none
          (Arg.fresh ⟨'1' :: List.replicate 309 '0', [], []⟩)).getStatus = Status.VALID ∧
      GType.stringify (GType.number none none) (Value.infinity false)
        = Except.ok (some "Infinity".toList) ∧
      (NumberType.parse none none (Arg.fresh ⟨"Infinity".toList, [], []⟩)).getStatus
        = Status.ERROR) ∧
    (GType.parse ⟨[], []⟩ (GType.lookup [("option1".toList, 1), ("option2".toList, 2)])
          (Arg.fresh ⟨"option1".toList, [], []⟩)
        = Except.ok (AnyConversion.simple
            (Conversion.valid (Value.plain 1) (Arg.fresh ⟨"option1".toList, [], []⟩))) ∧
      GType.stringify (GType.lookup [("option1".toList, 1), ("option2".toList, 2)])
          (Value.plain 1) = Except.ok none) := by
  refine ⟨⟨rfl, rfl, rfl⟩, ⟨by decide, ?_, by decide⟩, ⟨by decide, by decide, rfl, by decide⟩,
    ⟨rfl, rfl⟩⟩
  have h : numberToString (10 ^ 21) = "1e+21".toList := by decide
  exact congrArg (fun s => Except.ok (some s)) h

/-- C4 (amended): for the string, number, boolean and blank types, for a selection over a
`data` array (of strings and of objects that have a name), and for a deferred type that
resolves to one of them, every value `v` of a VALID conversion that `parse` returns comes
back, when `v` is not a member inherited from `Object.prototype` and, if it is a number, is
finite and below 10^21 in magnitude: `stringify(v)` is a string, and `parse` of an Argument
with that text is the VALID conversion with value `v`. `ArrayType.parse` throws on such an
Argument. -/
theorem stringify_parse_roundtrip :
    (∀ (canon : Canon) (t : GType) (arg : Arg) (c : Conversion),
      t.isScalar = true →
      GType.parse canon t arg = Except.ok (AnyConversion.simple c) →
      c.getStatus = Status.VALID →
      (∀ key, c.value ≠ Value.builtin key) →
      (∀ n, c.value = Value.number n → n.natAbs < 10 ^ 21) →
      (∀ negative, c.value ≠ Value.infinity negative) →
      ∃ s, GType.stringify t c.value = Except.ok (some s) ∧
        GType.parse canon t (Arg.fresh ⟨s, [], []⟩)
          = Except.ok (AnyConversion.simple
              (Conversion.valid c.value (Arg.fresh ⟨s, [], []⟩)))) ∧
    (∀ (canon : Canon) (subtype : GType) (s : Str),
      GType.parse canon (GType.array subtype) (Arg.fresh ⟨s, [], []⟩)
        = Except.error (Thrown.error "non ArrayArgument to ArrayType.parse".toList)) := by
  constructor
  · intro canon t arg c ht hp hv ho hbound hfin
    rw [GType.parse_scalar canon t arg ht] at hp
    cases hps : GType.parseSimple canon t arg with
    | error e => rw [hps] at hp; simp [Except.map] at hp
    | ok c0 =>
      rw [hps] at hp
      simp only [Except.map, Except.ok.injEq, AnyConversion.simple.injEq] at hp
      subst hp
      obtain ⟨s, h1, h2⟩ := GType.roundtrip_simple canon t arg c0 ht hps hv ho hbound hfin
      refine ⟨s, h1, ?_⟩
      rw [GType.parse_scalar canon t _ ht, h2]
      rfl
  · intro canon subtype s
    rfl

/-- C4 at concrete inputs: the selection over `a`, `b`, `c` parses `b` to the option `b`,
which is printed as `b` and parsed back to itself; and the number type parses
`123456789012345678901` to the double 123456789012345683968, which is printed as
`123456789012345680000` and parsed back to itself. -/
theorem stringify_parse_roundtrip_witness :
    (∃ s, GType.stringify
        (GType.selection [SelOption.string ['a'], SelOption.string ['b'], SelOption.string ['c']])
        (Value.string ['b']) = Except.ok (some s) ∧
      GType.parse ⟨[], []⟩
        (GType.selection [SelOption.string ['a'], SelOption.string ['b'], SelOption.string ['c']])
        (Arg.fresh ⟨s, [], []⟩)
        = Except.ok (AnyConversion.simple
            (Conversion.valid (Value.string ['b']) (Arg.fresh ⟨s, [], []⟩)))) ∧
    (∃ s, GType.stringify (GType.number none none) (Value.number 123456789012345683968)
        = Except.ok (some s) ∧
      GType.parse ⟨[], []⟩ (GType.number none none) (Arg.fresh ⟨s, [], []⟩)
        = Except.ok (AnyConversion.simple
            (Conversion.valid (Value.number 123456789012345683968)
              (Arg.fresh ⟨s, [], []⟩)))) :=
  ⟨stringify_parse_roundtrip.1 ⟨[], []⟩
    (GType.selection [SelOption.string ['a'], SelOption.string ['b'], SelOption.string ['c']])
    (Arg.fresh ⟨['b'], [], []⟩) (Conversion.valid (Value.string ['b']) (Arg.fresh ⟨['b'], [], []⟩))
    (by decide) rfl rfl (fun _ h => Value.noConfusion h) (fun _ h => Value.noConfusion h)
    (fun _ h => Value.noConfusion h),
   stringify_parse_roundtrip.1 ⟨[], []⟩ (GType.number none none)
    (Arg.fresh ⟨"123456789012345678901".toList, [], []⟩)
    (Conversion.valid (Value.number 123456789012345683968)
      (Arg.fresh ⟨"123456789012345678901".toList, [], []⟩))
    (by decide)
    (congrArg (fun c => Except.ok (AnyConversion.simple c))
      (by decide : NumberType.parse none none
          (Arg.fresh ⟨"123456789012345678901".toList, [], []⟩)
        = Conversion.valid (Value.number 123456789012345683968)
            (Arg.fresh ⟨"123456789012345678901".toList, [], []⟩)))
    rfl (fun _ h => Value.noConfusion h)
    (fun n h => by
      simp only [Conversion.valid, Value.number.injEq] at h
      subst h
      decide)
    (fun _ h => Value.noConfusion h)⟩

/-! ### SelectionType: parse and predictions -/

/-- C6 (the code at a failing input): for the selection over `a`, `b`, `c` the text
`constructor` equals no option name and is a prefix of none, yet `parse` returns a VALID
conversion, whose value is the `constructor` member that the lookup object inherits from
`Object.prototype`. The same selection classifies `a`, the empty text and `q` as the claim
says. -/
theorem SelectionType.parse_inherited_member_is_valid :
    (([SelOption.string ['a'], SelOption.string ['b'], SelOption.string ['c']].map
        SelOption.name).all (fun n => !("constructor".toList.isPrefixOf n))) = true ∧
    SelectionType.parse
        (GType.selection [SelOption.string ['a'], SelOption.string ['b'], SelOption.string ['c']])
        (_dataToLookup [SelOption.string ['a'], SelOption.string ['b'], SelOption.string ['c']])
        (Arg.fresh ⟨"constructor".toList, [], []⟩)
      = Conversion.valid (Value.builtin "constructor".toList)
          (Arg.fresh ⟨"constructor".toList, [], []⟩) ∧
    (SelectionType.parse
        (GType.selection [SelOption.string ['a'], SelOption.string ['b'], SelOption.string ['c']])
        (_dataToLookup [SelOption.string ['a'], SelOption.string ['b'], SelOption.string ['c']])
        (Arg.fresh ⟨['a'], [], []⟩)).getStatus = Status.VALID ∧
    (SelectionType.parse
        (GType.selection [SelOption.string ['a'], SelOption.string ['b'], SelOption.string ['c']])
        (_dataToLookup [SelOption.string ['a'], SelOption.string ['b'], SelOption.string ['c']])
        (Arg.fresh ⟨[], [], []⟩)).getStatus = Status.INCOMPLETE ∧
    (SelectionType.parse
        (GType.selection [SelOption.string ['a'], SelOption.string ['b'], SelOption.string ['c']])
        (_dataToLookup [SelOption.string ['a'], SelOption.string ['b'], SelOption.string ['c']])
        (Arg.fresh ⟨['q'], [], []⟩)).getStatus = Status.ERROR := by
  decide

/-- For every text that is not the name of a member inherited from `Object.prototype`,
`SelectionType.parse` over a `data` array classifies as C6 says: an option name gives VALID
with that option, otherwise a prefix of some option name gives INCOMPLETE with a null value,
otherwise ERROR with a null value. -/
theorem SelectionType.parse_classifies_own_names (data : List SelOption) (arg : Arg)
    (hproto : arg.text ∉ objectPrototypeKeys) :
    (∀ v, JSObject.own (_dataToLookup data) arg.text = some v →
      SelectionType.parse (GType.selection data) (_dataToLookup data) arg
        = Conversion.valid v arg) ∧
    (JSObject.own (_dataToLookup data) arg.text = none →
      (∃ p ∈ _dataToLookup data, arg.text.isPrefixOf p.1 = true) →
      (SelectionType.parse (GType.selection data) (_dataToLookup data) arg).getStatus
          = Status.INCOMPLETE ∧
        (SelectionType.parse (GType.selection data) (_dataToLookup data) arg).value
          = Value.null) ∧
    (JSObject.own (_dataToLookup data) arg.text = none →
      (¬ ∃ p ∈ _dataToLookup data, arg.text.isPrefixOf p.1 = true) →
      (SelectionType.parse (GType.selection data) (_dataToLookup data) arg).getStatus
          = Status.ERROR ∧
        (SelectionType.parse (GType.selection data) (_dataToLookup data) arg).value
          = Value.null) := by
  have hnd := dataToLookup_nodup data
  obtain ⟨h1, _, h3⟩ := SelectionType.parse_cases (GType.selection data) (_dataToLookup data)
    arg hnd
  refine ⟨?_, ?_, ?_⟩
  · intro v hv
    have hget : Lookup.get (_dataToLookup data) arg.text = v := by simp [Lookup.get, hv]
    have hs := dataToLookup_names data arg.text v hv
    rw [hget] at h3
    apply h3
    · rintro rfl; simp [SelectionType.stringify, Value.getName] at hs
    · rintro rfl; simp [SelectionType.stringify, Value.getName] at hs
  · intro hnone hex
    have hget : Lookup.get (_dataToLookup data) arg.text = Value.undefined := by
      simp [Lookup.get, hnone, hproto]
    rw [h1 hget]
    have hpos : 0 < ((_dataToLookup data).filter (fun p => arg.text.isPrefixOf p.1)).length := by
      obtain ⟨p, hp, hpre⟩ := hex
      exact List.length_pos_of_mem (List.mem_filter.2 ⟨hp, hpre⟩)
    rw [if_pos hpos]
    exact ⟨rfl, rfl⟩
  · intro hnone hex
    have hget : Lookup.get (_dataToLookup data) arg.text = Value.undefined := by
      simp [Lookup.get, hnone, hproto]
    rw [h1 hget]
    have hpos : ¬ 0 < ((_dataToLookup data).filter (fun p => arg.text.isPrefixOf p.1)).length := by
      intro hlen
      obtain ⟨p, hp⟩ := List.exists_mem_of_length_pos hlen
      rw [List.mem_filter] at hp
      exact hex ⟨p, hp.1, hp.2⟩
    rw [if_neg hpos]
    exact ⟨rfl, rfl⟩

theorem GType.getLookup_nodup (canon : Canon) :
    ∀ t : GType, (JSObject.keys (GType.getLookup canon t)).Nodup
  | GType.selection data => dataToLookup_nodup data
  | GType.lookup entries => entriesToLookup_nodup entries
  | GType.boolean => by
    show (JSObject.keys BooleanType.lookup).Nodup
    decide
  | GType.command => commandLookup_nodup canon
  | GType.deferred t => by
    rw [GType.getLookup]
    exact GType.getLookup_nodup canon t
  | GType.string => by simp [GType.getLookup, JSObject.keys]
  | GType.number _ _ => by simp [GType.getLookup, JSObject.keys]
  | GType.blank => by simp [GType.getLookup, JSObject.keys]
  | GType.array _ => by simp [GType.getLookup, JSObject.keys]

theorem SelectionType.completer_of_not_valid (self : GType) (lookup : Lookup) (arg : Arg)
    (h : (SelectionType.parse self lookup arg).getStatus ≠ Status.VALID) :
    (SelectionType.parse self lookup arg).completer = some self ∧
    (SelectionType.parse self lookup arg).arg = arg := by
  unfold SelectionType.parse at h ⊢
  simp only []
  split
  · rename_i hc
    rw [if_pos hc] at h
    exact absurd rfl h
  · split <;> exact ⟨rfl, rfl⟩

theorem dataToLookup_get_ne_null (data : List SelOption) (text : Str) :
    Lookup.get (_dataToLookup data) text ≠ Value.null := by
  intro h
  unfold Lookup.get at h
  cases hown : JSObject.own (_dataToLookup data) text with
  | some v =>
    rw [hown] at h
    simp only at h
    subst h
    have := dataToLookup_names data text Value.null hown
    simp [SelectionType.stringify, Value.getName] at this
  | none =>
    rw [hown] at h
    simp only at h
    split at h <;> simp at h

/-- C7 (as stated, refuted): the command selection parses `ext` while only `exte` is
registered, which gives an INCOMPLETE conversion. When `ext` has been registered too and
`getPredictions` is called, the options whose names start with `ext` are both commands, but
the prediction returned is the command `ext` alone. -/
theorem getPredictions_exact_match_alone :
    (SelectionType.parse GType.command
        (commandLookup ⟨[("exte".toList, ⟨"exte".toList, [], some 1⟩)], ["exte".toList]⟩)
        (Arg.fresh ⟨"ext".toList, [], []⟩)).getStatus = Status.INCOMPLETE ∧
    Conversion.getPredictions
        ⟨[("exte".toList, ⟨"exte".toList, [], some 1⟩), ("ext".toList, ⟨"ext".toList, [], some 2⟩)],
          ["ext".toList, "exte".toList]⟩
        (SelectionType.parse GType.command
          (commandLookup ⟨[("exte".toList, ⟨"exte".toList, [], some 1⟩)], ["exte".toList]⟩)
          (Arg.fresh ⟨"ext".toList, [], []⟩))
      = [Value.command ⟨"ext".toList, [], some 2⟩] ∧
    ((commandLookup
        ⟨[("exte".toList, ⟨"exte".toList, [], some 1⟩), ("ext".toList, ⟨"ext".toList, [], some 2⟩)],
          ["ext".toList, "exte".toList]⟩).filter
        (fun p => "ext".toList.isPrefixOf p.1)).map Prod.snd
      = [Value.command ⟨"exte".toList, [], some 1⟩, Value.command ⟨"ext".toList, [], some 2⟩] := by
  decide

/-- C7 (amended): a conversion of a selection that is not VALID carries a completer, and
`getPredictions()` runs it on the lookup the selection has when it is called: when that
lookup has an entry under the argument text, the prediction is that entry alone; otherwise
the predictions are exactly the options whose names have the argument text as a prefix, in
the order of the lookup. For a selection over a fixed `data` array the second case always
applies. For the selection over a, b, c the empty text gives INCOMPLETE with the predictions
a, b and c, and `q` gives ERROR with no prediction. -/
theorem getPredictions_spec :
    (∀ (self : GType) (lookup : Lookup) (arg : Arg),
      (SelectionType.parse self lookup arg).getStatus ≠ Status.VALID →
      (SelectionType.parse self lookup arg).completer = some self) ∧
    (∀ (canon : Canon) (c : Conversion) (t : GType), c.completer = some t →
      (Lookup.get (GType.getLookup canon t) c.arg.text ≠ Value.undefined →
        Conversion.getPredictions canon c = [Lookup.get (GType.getLookup canon t) c.arg.text]) ∧
      (Lookup.get (GType.getLookup canon t) c.arg.text = Value.undefined →
        Conversion.getPredictions canon c
          = ((GType.getLookup canon t).filter
              (fun p => c.arg.text.isPrefixOf p.1)).map Prod.snd)) ∧
    (∀ (canon : Canon) (data : List SelOption) (arg : Arg),
      (SelectionType.parse (GType.selection data) (_dataToLookup data) arg).getStatus
        ≠ Status.VALID →
      Conversion.getPredictions canon
          (SelectionType.parse (GType.selection data) (_dataToLookup data) arg)
        = ((_dataToLookup data).filter (fun p => arg.text.isPrefixOf p.1)).map Prod.snd) ∧
    ((SelectionType.parse
          (GType.selection [SelOption.string ['a'], SelOption.string ['b'], SelOption.string ['c']])
          (_dataToLookup [SelOption.string ['a'], SelOption.string ['b'], SelOption.string ['c']])
          (Arg.fresh ⟨[], [], []⟩)).getStatus = Status.INCOMPLETE ∧
      Conversion.getPredictions ⟨[], []⟩
          (SelectionType.parse
            (GType.selection
              [SelOption.string ['a'], SelOption.string ['b'], SelOption.string ['c']])
            (_dataToLookup
              [SelOption.string ['a'], SelOption.string ['b'], SelOption.string ['c']])
            (Arg.fresh ⟨[], [], []⟩))
        = [Value.string ['a'], Value.string ['b'], Value.string ['c']] ∧
      (SelectionType.parse
          (GType.selection [SelOption.string ['a'], SelOption.string ['b'], SelOption.string ['c']])
          (_dataToLookup [SelOption.string ['a'], SelOption.string ['b'], SelOption.string ['c']])
          (Arg.fresh ⟨['q'], [], []⟩)).getStatus = Status.ERROR ∧
      Conversion.getPredictions ⟨[], []⟩
          (SelectionType.parse
            (GType.selection
              [SelOption.string ['a'], SelOption.string ['b'], SelOption.string ['c']])
            (_dataToLookup
              [SelOption.string ['a'], SelOption.string ['b'], SelOption.string ['c']])
            (Arg.fresh ⟨['q'], [], []⟩))
        = []) := by
  have hgen : ∀ (canon : Canon) (c : Conversion) (t : GType), c.completer = some t →
      (Lookup.get (GType.getLookup canon t) c.arg.text ≠ Value.undefined →
        Conversion.getPredictions canon c = [Lookup.get (GType.getLookup canon t) c.arg.text]) ∧
      (Lookup.get (GType.getLookup canon t) c.arg.text = Value.undefined →
        Conversion.getPredictions canon c
          = ((GType.getLookup canon t).filter
              (fun p => c.arg.text.isPrefixOf p.1)).map Prod.snd) := by
    intro canon c t hc
    unfold Conversion.getPredictions
    rw [hc]
    simp only []
    rw [findCompletions_eq _ _ (GType.getLookup_nodup canon t)]
    constructor
    · intro h
      rw [if_neg h]
      rfl
    · intro h
      rw [if_pos h]
  refine ⟨fun self lookup arg h => (SelectionType.completer_of_not_valid self lookup arg h).1,
    hgen, ?_, by decide⟩
  intro canon data arg h
  obtain ⟨hc, harg⟩ := SelectionType.completer_of_not_valid _ _ arg h
  have hund : Lookup.get (_dataToLookup data) arg.text = Value.undefined := by
    by_contra hne
    have hv := (SelectionType.parse_cases (GType.selection data) (_dataToLookup data) arg
      (dataToLookup_nodup data)).2.2 hne (dataToLookup_get_ne_null data arg.text)
    rw [hv] at h
    exact h rfl
  have := (hgen canon _ _ hc).2
  rw [harg] at this
  exact this hund

/-- C7 at a concrete input: the command selection, parsed on `tsn e` with the test commands
registered, predicts exactly the commands whose names start with `tsn e` when asked with the
same registry. -/
theorem getPredictions_spec_witness :
    Conversion.getPredictions TestCommands.canon
        (SelectionType.parse GType.command (commandLookup TestCommands.canon)
          (Arg.fresh ⟨"tsn e".toList, [], []⟩))
      = ((GType.getLookup TestCommands.canon GType.command).filter
          (fun p => "tsn e".toList.isPrefixOf p.1)).map Prod.snd :=
  (getPredictions_spec.2.1 TestCommands.canon
    (SelectionType.parse GType.command (commandLookup TestCommands.canon)
      (Arg.fresh ⟨"tsn e".toList, [], []⟩)) GType.command (by decide)).2 (by decide)

/-! ### The command registry and `_split` -/

theorem foldl_set_fresh {α β : Type} (f : β → Str) (g : β → α) :
    ∀ (l : List β) (acc : JSObject α), (l.map f).Nodup →
      (∀ b ∈ l, f b ∉ JSObject.keys acc) →
      l.foldl (fun o b => JSObject.set o (f b) (g b)) acc = acc ++ l.map (fun b => (f b, g b))
  | [], acc, _, _ => by simp
  | b :: l, acc, hnd, hdis => by
    simp only [List.map_cons, List.nodup_cons] at hnd
    simp only [List.foldl_cons, List.map_cons]
    rw [JSObject.set_of_not_mem acc (f b) (g b) (hdis b (List.mem_cons_self _ _))]
    rw [foldl_set_fresh f g l _ hnd.2]
    · simp
    · intro c hc
      simp only [JSObject.keys, List.map_append, List.map_cons, List.map_nil, List.mem_append,
        List.mem_singleton, not_or]
      refine ⟨hdis c (List.mem_cons_of_mem _ hc), ?_⟩
      intro heq
      exact hnd.1 (heq ▸ List.mem_map_of_mem f hc)

theorem commandLookup_eq (canon : Canon) (hwf : canon.WellFormed) :
    commandLookup canon = canon.commands.map (fun p => (p.1, Value.command p.2)) := by
  obtain ⟨hnd, hname⟩ := hwf
  unfold commandLookup Canon.getCommands
  have hkeys : (canon.commands.map Prod.snd).map Command.name = JSObject.keys canon.commands := by
    simp only [JSObject.keys, List.map_map]
    exact List.map_congr_left (fun p hp => hname p hp)
  rw [foldl_set_fresh Command.name Value.command _ [] (by rw [hkeys]; exact hnd)
    (fun b _ => by simp only [JSObject.keys, List.map_nil]; exact List.not_mem_nil _)]
  simp only [List.nil_append, List.map_map]
  exact List.map_congr_left (fun p hp => by simp [hname p hp])

theorem commandLookup_get (canon : Canon) (hwf : canon.WellFormed) (name : Str) (c : Command)
    (h : (name, c) ∈ canon.commands) :
    Lookup.get (commandLookup canon) name = Value.command c := by
  apply Lookup.get_of_mem _ _ _ (commandLookup_nodup canon)
  rw [commandLookup_eq canon hwf]
  exact List.mem_map.2 ⟨(name, c), h, rfl⟩

/-- The command type parses the name of a registered command to that command. -/
theorem commandType_parse_registered (canon : Canon) (hwf : canon.WellFormed) (arg : Arg)
    (c : Command) (h : (arg.text, c) ∈ canon.commands) :
    SelectionType.parse GType.command (commandLookup canon) arg
      = Conversion.valid (Value.command c) arg := by
  have hget := commandLookup_get canon hwf arg.text c h
  have := (SelectionType.parse_cases GType.command (commandLookup canon) arg
    (commandLookup_nodup canon)).2.2
  rw [hget] at this
  exact this (by simp) (by simp)

theorem splitLoop_unfold (canon : Canon) (used rest : List Tok) (hne : used ≠ []) :
    splitLoop canon used rest =
      if ¬ (SelectionType.parse GType.command (commandLookup canon) (splitArg used)).value.truthy ∨
          (SelectionType.parse GType.command (commandLookup canon) (splitArg used)).value.hasExec
      then Except.ok (used.length,
        SelectionType.parse GType.command (commandLookup canon) (splitArg used))
      else
        match rest with
        | [] => Except.ok (used.length + 1,
            SelectionType.parse GType.command (commandLookup canon) (splitArg used))
        | t :: rest' => splitLoop canon (used ++ [t]) rest' := by
  match used, hne with
  | [t], _ =>
    conv_lhs => unfold splitLoop
    rfl
  | t :: u :: more, _ =>
    conv_lhs => unfold splitLoop
    rfl

/-- The loop of `_split` on leading tokens that spell parent commands up to a terminal
command: it stops having used exactly these tokens, with the terminal command as value. -/
theorem splitLoop_resolves (canon : Canon) (hwf : canon.WellFormed) (cmd : Command) :
    ∀ (more used rest : List Tok), used ≠ [] →
      (∀ i, i ≤ more.length → ∃ c, ((splitArg (used ++ more.take i)).text, c) ∈ canon.commands ∧
        (i < more.length → c.exec = none) ∧ (i = more.length → c.exec.isSome ∧ c = cmd)) →
      splitLoop canon used (more ++ rest)
        = Except.ok ((used ++ more).length,
            Conversion.valid (Value.command cmd) (splitArg (used ++ more)))
  | [], used, rest, hne, h => by
    obtain ⟨c, hc, _, hterm⟩ := h 0 (Nat.le_refl _)
    obtain ⟨hexec, rfl⟩ := hterm rfl
    simp only [List.take_nil, List.append_nil] at hc
    rw [splitLoop_unfold canon used _ hne, commandType_parse_registered canon hwf _ c hc]
    simp [Conversion.valid, Value.truthy, Value.hasExec, hexec]
  | t :: more, used, rest, hne, h => by
    obtain ⟨c, hc, hpar, _⟩ := h 0 (Nat.zero_le _)
    simp only [List.take_zero, List.append_nil] at hc
    have hexec : c.exec = none := hpar (by simp)
    rw [splitLoop_unfold canon used _ hne, commandType_parse_registered canon hwf _ c hc]
    simp only [Conversion.valid, Value.truthy, Value.hasExec, hexec, Option.isSome_none,
      not_true_eq_false, Bool.false_eq_true, or_self, if_false, List.cons_append]
    have ih := splitLoop_resolves canon hwf cmd more (used ++ [t]) rest (by simp) (by
      intro i hi
      obtain ⟨c', hc', h1, h2⟩ := h (i + 1) (by simp; omega)
      refine ⟨c', ?_, ?_, ?_⟩
      · simpa using hc'
      · intro hlt; exact h1 (by simp; omega)
      · intro heq; exact h2 (by simp; omega))
    rw [ih]
    simp [Conversion.valid]

theorem foldl_merge_members (ts : List Argument) :
    ∀ (a : Argument) (text : Str), a.text = text → a.suffix = [] →
      (∀ u ∈ ts, u.prefix_ = [' '] ∧ u.suffix = []) →
      (ts.foldl Argument.merge a).text = (ts.map Argument.text).foldl
          (fun acc v => acc ++ [' '] ++ v) text ∧
        (ts.foldl Argument.merge a).suffix = [] := by
  induction ts with
  | nil => intro a text ht hs _; exact ⟨ht, hs⟩
  | cons u ts ih =>
    intro a text ht hs hu
    simp only [List.foldl_cons, List.map_cons]
    have h1 := hu u (List.mem_cons_self _ _)
    apply ih
    · simp [Argument.merge, ht, hs, h1.1]
    · simp [Argument.merge, h1.2]
    · intro v hv; exact hu v (List.mem_cons_of_mem _ hv)

theorem plainWords_take (ts : List Tok) (h : plainWords ts) (j : Nat) :
    plainWords (ts.take j) := by
  cases ts with
  | nil => simp [plainWords]
  | cons t rest =>
    cases j with
    | zero => simp [plainWords]
    | succ j =>
      simp only [List.take_succ_cons, plainWords] at h ⊢
      exact ⟨h.1, fun u hu => h.2 u (List.mem_of_mem_take hu)⟩

/-- The text `_split` parses for plain words is the words joined by single spaces. -/
theorem splitArg_text_of_plainWords (ts : List Tok) (h : plainWords ts) (hne : ts ≠ []) :
    (splitArg ts).text = joinWords (ts.map (fun t => t.arg.text)) := by
  match ts, hne with
  | [t], _ => rfl
  | t :: u :: more, _ =>
    simp only [plainWords] at h
    have := (foldl_merge_members ((u :: more).map Tok.arg) t.arg t.arg.text rfl h.1 (by
      intro v hv
      obtain ⟨w, hw, rfl⟩ := List.mem_map.1 hv
      exact h.2 w hw)).1
    simp only [splitArg, Arg.text, Arg.members, Argument.mergeAll, List.map_cons, Option.getD_some,
      joinWords] at this ⊢
    rw [this]
    simp only [List.foldl_cons, List.map_map]
    rfl

theorem buildAssignments_ok (canon : Canon) :
    ∀ (params : List Parameter) (i : Nat) (acc : JSObject Assignment),
      (∀ p ∈ params, (defaultConversion canon p).isOk = true) →
      ∃ a, buildAssignments canon params i acc = Except.ok a
  | [], _, acc, _ => ⟨acc, rfl⟩
  | p :: rest, i, acc, h => by
    obtain ⟨d, hd⟩ : ∃ d, defaultConversion canon p = Except.ok d := by
      have := h p (List.mem_cons_self _ _)
      cases hc : defaultConversion canon p with
      | error e => rw [hc] at this; exact absurd this (by simp [Except.isOk, Except.toBool])
      | ok d => exact ⟨d, rfl⟩
    simp only [buildAssignments, Assignment.new, hd, Except.map]
    exact buildAssignments_ok canon rest _ _ (fun q hq => h q (List.mem_cons_of_mem _ hq))

theorem Assignment.setConversion_simple (a : Assignment) (c : Conversion) :
    ∃ event, a.setConversion (AnyConversion.simple c)
      = Except.ok ({ a with conversion := AnyConversion.simple c }, event) := by
  unfold Assignment.setConversion AnyConversion.equals
  cases hold : a.conversion with
  | simple b =>
    simp only [AnyConversion.valueEquals]
    cases (c.value.strictEquals b.value && (AnyConversion.simple c).argEquals (AnyConversion.simple b))
    · exact ⟨_, rfl⟩
    · exact ⟨_, rfl⟩
  | array b =>
    simp only [AnyConversion.valueEquals, Bool.false_and]
    exact ⟨_, rfl⟩

theorem Value.strictEquals_eq (a b : Value) (h : a.strictEquals b = true) : a = b := by
  unfold Value.strictEquals at h
  split at h
  · exact absurd h (by simp)
  · exact absurd h (by simp)
  · exact of_decide_eq_true h

/-- When `setConversion` raises no event the value is the one the assignment had. -/
theorem Assignment.setConversion_simple_cases (a : Assignment) (c : Conversion) :
    (a.setConversion (AnyConversion.simple c)
        = Except.ok ({ a with conversion := AnyConversion.simple c }, none) ∧
      a.conversion.value = AnyValue.single c.value) ∨
    ∃ ev, a.setConversion (AnyConversion.simple c)
        = Except.ok ({ a with conversion := AnyConversion.simple c }, some ev) := by
  unfold Assignment.setConversion AnyConversion.equals
  cases hold : a.conversion with
  | simple b =>
    simp only [AnyConversion.valueEquals]
    cases hv : c.value.strictEquals b.value
    · exact Or.inr ⟨_, rfl⟩
    · cases (AnyConversion.simple c).argEquals (AnyConversion.simple b)
      · exact Or.inr ⟨_, rfl⟩
      · exact Or.inl ⟨rfl, by simp [AnyConversion.value, Value.strictEquals_eq _ _ hv]⟩
  | array b =>
    simp only [AnyConversion.valueEquals, Bool.false_and]
    exact Or.inr ⟨_, rfl⟩

/-- Setting the command assignment to a command whose parameters all have a default
conversion succeeds and installs the conversion. -/
theorem Requisition.setCommandConversion_command (canon : Canon) (r : Requisition)
    (cmd : Command) (arg : Arg)
    (hdef : ∀ p ∈ cmd.params, (defaultConversion canon p).isOk = true) :
    ∃ r', Requisition.setCommandConversion canon r (Conversion.valid (Value.command cmd) arg)
        = Except.ok r' ∧
      r'.commandAssignment.conversion
        = AnyConversion.simple (Conversion.valid (Value.command cmd) arg) := by
  obtain ⟨event, hev⟩ := Assignment.setConversion_simple r.commandAssignment
    (Conversion.valid (Value.command cmd) arg)
  obtain ⟨assignments, hb⟩ := buildAssignments_ok canon cmd.params 0 [] hdef
  unfold Requisition.setCommandConversion
  rw [hev]
  cases event with
  | none => exact ⟨_, rfl, rfl⟩
  | some ev =>
    simp only [commandAssignments, Conversion.valid, Value.truthy, if_true, hb]
    exact ⟨_, rfl, rfl⟩

/-- C8: when the leading tokens of the input, typed unquoted and separated by single
spaces, spell a registered multi-word terminal command whose shorter word-prefixes are
registered parent commands (commands without `exec`), `_split` sets the command assignment
to that terminal command and removes exactly those leading tokens from the working list,
leaving the remaining tokens in order. (The registry stores every command under its own
name, as `addCommand` does, and the parameters of the command have default conversions.) -/
theorem split_resolves_terminal_command (canon : Canon) (hwf : canon.WellFormed)
    (r : Requisition) (cmd : Command) (lead rest : List Tok)
    (hne : lead ≠ []) (hplain : plainWords lead)
    (hcmds : ∀ j, 1 ≤ j → j ≤ lead.length →
      ∃ c, (joinWords ((lead.take j).map (fun t => t.arg.text)), c) ∈ canon.commands ∧
        (j < lead.length → c.exec = none) ∧ (j = lead.length → c.exec.isSome ∧ c = cmd))
    (hdef : ∀ p ∈ cmd.params, (defaultConversion canon p).isOk = true) :
    ∃ r', Requisition._split canon r (lead ++ rest) = Except.ok (r', rest) ∧
      r'.commandAssignment.conversion
        = AnyConversion.simple (Conversion.valid (Value.command cmd) (splitArg lead)) := by
  match lead, hne with
  | t :: more, _ =>
    have hloop := splitLoop_resolves canon hwf cmd more [t] rest (by simp) (by
      intro i hi
      obtain ⟨c, hc, h1, h2⟩ := hcmds (i + 1) (by omega) (by simp; omega)
      refine ⟨c, ?_, fun hlt => h1 (by simp; omega), fun heq => h2 (by simp; omega)⟩
      have htake : [t] ++ more.take i = (t :: more).take (i + 1) := by simp
      rw [htake, splitArg_text_of_plainWords _ (plainWords_take _ hplain _) (by simp)]
      exact hc)
    obtain ⟨r', hset, hconv⟩ := Requisition.setCommandConversion_command canon r cmd
      (splitArg (t :: more)) hdef
    refine ⟨r', ?_, hconv⟩
    simp only [Requisition._split, List.cons_append]
    simp only [List.singleton_append] at hloop
    rw [hloop]
    simp only [hset]
    simp

theorem TestCommands.canon_wellFormed : TestCommands.canon.WellFormed := by
  unfold Canon.WellFormed
  decide

/-- The examples of C8: 'tsn dif x' resolves to 'tsn dif' with x left, and 'tsv a b'
resolves to 'tsv' with a and b left. -/
theorem split_resolves_terminal_command_witness :
    (∃ r', Requisition._split TestCommands.canon (Requisition.new ⟨[], []⟩)
        (toToks (_tokenize (some "tsn dif x".toList)))
          = Except.ok (r', [⟨2, ⟨['x'], [' '], []⟩⟩]) ∧
      r'.commandAssignment.conversion
        = AnyConversion.simple (Conversion.valid
            (Value.command (TestCommands.command "tsn dif".toList))
            (Arg.merged [⟨0, ⟨"tsn".toList, [], []⟩⟩, ⟨1, ⟨"dif".toList, [' '], []⟩⟩]))) ∧
    (∃ r', Requisition._split TestCommands.canon (Requisition.new ⟨[], []⟩)
        (toToks (_tokenize (some "tsv a b".toList)))
          = Except.ok (r', [⟨1, ⟨['a'], [' '], []⟩⟩, ⟨2, ⟨['b'], [' '], []⟩⟩]) ∧
      r'.commandAssignment.conversion
        = AnyConversion.simple (Conversion.valid
            (Value.command (TestCommands.command "tsv".toList))
            (Arg.token ⟨0, ⟨"tsv".toList, [], []⟩⟩))) :=
  ⟨split_resolves_terminal_command TestCommands.canon TestCommands.canon_wellFormed
      (Requisition.new ⟨[], []⟩) (TestCommands.command "tsn dif".toList)
      [⟨0, ⟨"tsn".toList, [], []⟩⟩, ⟨1, ⟨"dif".toList, [' '], []⟩⟩] [⟨2, ⟨['x'], [' '], []⟩⟩]
      (by decide) (by unfold plainWords; decide)
      (by
        intro j h1 h2
        have h3 : j = 1 ∨ j = 2 := by simp at h2; omega
        rcases h3 with rfl | rfl
        · exact ⟨TestCommands.command "tsn".toList, by decide, fun _ => by decide,
            fun h => absurd h (by decide)⟩
        · exact ⟨TestCommands.command "tsn dif".toList, by decide,
            fun h => absurd h (by decide), fun _ => ⟨by decide, rfl⟩⟩)
      (by decide),
   split_resolves_terminal_command TestCommands.canon TestCommands.canon_wellFormed
      (Requisition.new ⟨[], []⟩) (TestCommands.command "tsv".toList)
      [⟨0, ⟨"tsv".toList, [], []⟩⟩] [⟨1, ⟨['a'], [' '], []⟩⟩, ⟨2, ⟨['b'], [' '], []⟩⟩]
      (by decide) (by unfold plainWords; decide)
      (by
        intro j h1 h2
        have h3 : j = 1 := by simp at h2; omega
        subst h3
        exact ⟨TestCommands.command "tsv".toList, by decide,
            fun h => absurd h (by decide), fun _ => ⟨by decide, rfl⟩⟩)
      (by decide)⟩

/-! ### A parent command followed by a token that names no child -/

theorem commandLookup_keys (canon : Canon) (hwf : canon.WellFormed) :
    JSObject.keys (commandLookup canon) = JSObject.keys canon.commands := by
  rw [commandLookup_eq canon hwf]
  simp [JSObject.keys, List.map_map, Function.comp]

theorem commandLookup_get_undefined (canon : Canon) (hwf : canon.WellFormed) (text : Str)
    (hown : JSObject.own canon.commands text = none) (hproto : text ∉ objectPrototypeKeys) :
    Lookup.get (commandLookup canon) text = Value.undefined := by
  have : JSObject.own (commandLookup canon) text = none := by
    rw [JSObject.own_eq_none_iff, commandLookup_keys canon hwf, ← JSObject.own_eq_none_iff]
    exact hown
  simp [Lookup.get, this, hproto]

/-- The conversion the command type gives for a text that names no command. -/
theorem commandType_parse_unknown (canon : Canon) (hwf : canon.WellFormed) (arg : Arg)
    (hown : JSObject.own canon.commands arg.text = none)
    (hproto : arg.text ∉ objectPrototypeKeys) :
    SelectionType.parse GType.command (commandLookup canon) arg
      = ⟨Value.null, arg,
         if 0 < ((commandLookup canon).filter (fun p => arg.text.isPrefixOf p.1)).length
         then Status.INCOMPLETE else Status.ERROR,
         if 0 < ((commandLookup canon).filter (fun p => arg.text.isPrefixOf p.1)).length
         then some [] else some ("Can't use '".toList ++ arg.text ++ "'.".toList),
         some GType.command⟩ := by
  have h := (SelectionType.parse_cases GType.command (commandLookup canon) arg
    (commandLookup_nodup canon)).1 (commandLookup_get_undefined canon hwf _ hown hproto)
  rw [h]
  split <;> rfl

/-- The two marks `_split` and `_assign` leave on the live list when the first two tokens go
to the command assignment and the others to the unassigned assignment. -/
theorem assignSlots_command_unassigned (slots : List ArgSlot) (c : Conversion) (t u : Tok)
    (rest : List Tok) (hc : c.arg = Arg.merged [t, u]) (arg2 : Arg) (h2 : arg2.tokens = rest) :
    assignSlots (assignSlots slots (AnyConversion.simple c) Owner.command)
        (AnyConversion.simple (StringType.parse arg2)) Owner.unassigned
      = slots.map (fun slot =>
          if rest.any (fun v => v.idx = slot.id) then
            { slot with assignment := some Owner.unassigned }
          else if t.idx = slot.id ∨ u.idx = slot.id then
            { slot with assignment := some Owner.command }
          else slot) := by
  unfold assignSlots
  rw [List.map_map]
  apply List.map_congr_left
  intro slot _
  have hc1 : c.arg.tokens = [t, u] := by rw [hc]; rfl
  have hc2 : (StringType.parse arg2).arg.tokens = rest := h2
  simp only [Function.comp, AnyConversion.tokens, AnyConversion.attached, List.find?_nil, hc1,
    hc2, List.any_cons, List.any_nil, Bool.or_false, Bool.or_eq_true, decide_eq_true_eq]
  by_cases h1 : t.idx = slot.id ∨ u.idx = slot.id
  · by_cases h3 : rest.any (fun v => v.idx = slot.id) = true
    · simp [h1, h3]
    · simp [h1, h3]
  · by_cases h3 : rest.any (fun v => v.idx = slot.id) = true
    · simp [h1, h3]
    · simp [h1, h3]

/-- `setUnassigned(args)` for a string-typed unassigned assignment: the tokens merged, or the
empty argument when there is none. -/
theorem Requisition.setUnassigned_spec (canon : Canon) (r : Requisition) (rest : List Tok)
    (hun : r._unassigned.param.type = GType.string) :
    ∃ (r' : Requisition) (arg : Arg), Requisition.setUnassigned canon r rest = Except.ok r' ∧
      arg = (match rest with
             | [] => Arg.fresh Argument.empty
             | _ :: _ => Arg.merged rest) ∧
      arg.tokens = rest ∧
      r'._unassigned.conversion = AnyConversion.simple (StringType.parse arg) ∧
      r'._assignments = r._assignments ∧ r'.commandAssignment = r.commandAssignment ∧
      r'.cursorStart = r.cursorStart ∧
      r'._args = r._args.map (fun slots =>
        assignSlots slots (AnyConversion.simple (StringType.parse arg)) Owner.unassigned) := by
  cases rest with
  | nil =>
    obtain ⟨event, hev⟩ := Assignment.setConversion_simple r._unassigned
      (StringType.parse (Arg.fresh Argument.empty))
    refine ⟨Requisition.assign
      { r with _unassigned := { r._unassigned with
          conversion := AnyConversion.simple (StringType.parse (Arg.fresh Argument.empty)) } }
      (AnyConversion.simple (StringType.parse (Arg.fresh Argument.empty))) Owner.unassigned,
      Arg.fresh Argument.empty, ?_, rfl, rfl, ?_⟩
    · simp only [Requisition.setUnassigned, Requisition.setUnassignedDefault, defaultConversion,
        hun, GType.getDefault, GType.parse, GType.parseSimple, Except.map,
        Requisition.setUnassignedConversion, hev]
    · exact ⟨rfl, rfl, rfl, rfl, rfl⟩
  | cons t rest =>
    obtain ⟨event, hev⟩ := Assignment.setConversion_simple r._unassigned
      (StringType.parse (Arg.merged (t :: rest)))
    refine ⟨Requisition.assign
      { r with _unassigned := { r._unassigned with
          conversion := AnyConversion.simple (StringType.parse (Arg.merged (t :: rest))) } }
      (AnyConversion.simple (StringType.parse (Arg.merged (t :: rest)))) Owner.unassigned,
      Arg.merged (t :: rest), ?_, rfl, rfl, ?_⟩
    · simp only [Requisition.setUnassigned, MergedArgument.new, hun, GType.parse,
        GType.parseSimple, Except.map, Requisition.setUnassignedConversion, hev]
    · exact ⟨rfl, rfl, rfl, rfl, rfl⟩

/-- `_split` on a parent command followed by a token that names no child: both tokens go to
the command assignment, and no parameter assignment is left. -/
theorem Requisition.split_parent_unknown_child (canon : Canon) (hwf : canon.WellFormed)
    (r : Requisition) (t u : Tok) (rest : List Tok) (c : Command)
    (hparent : (t.arg.text, c) ∈ canon.commands) (hexec : c.exec = none)
    (hown : JSObject.own canon.commands (Arg.merged [t, u]).text = none)
    (hproto : (Arg.merged [t, u]).text ∉ objectPrototypeKeys)
    (hinv : r.commandAssignment.conversion.value = AnyValue.single Value.null →
      r._assignments = []) :
    ∃ r', Requisition._split canon r (t :: u :: rest) = Except.ok (r', rest) ∧
      r'.commandAssignment.conversion
        = AnyConversion.simple
            (SelectionType.parse GType.command (commandLookup canon) (Arg.merged [t, u])) ∧
      r'._unassigned = r._unassigned ∧ r'._assignments = [] ∧
      r'.cursorStart = r.cursorStart ∧
      r'._args = r._args.map (fun slots => assignSlots slots (AnyConversion.simple
        (SelectionType.parse GType.command (commandLookup canon) (Arg.merged [t, u])))
        Owner.command) := by
  have hfirst := commandType_parse_registered canon hwf (Arg.token t) c hparent
  have hsecond := commandType_parse_unknown canon hwf (Arg.merged [t, u]) hown hproto
  have hval : (SelectionType.parse GType.command (commandLookup canon)
      (Arg.merged [t, u])).value = Value.null := by
    rw [hsecond]
  have hloop : splitLoop canon [t] (u :: rest)
      = Except.ok (2, SelectionType.parse GType.command (commandLookup canon)
          (Arg.merged [t, u])) := by
    rw [splitLoop_unfold canon [t] _ (by simp)]
    have h1 : splitArg [t] = Arg.token t := rfl
    rw [h1, hfirst]
    simp only [Conversion.valid, Value.truthy, Value.hasExec, hexec, Option.isSome_none,
      not_true_eq_false, Bool.false_eq_true, or_self, if_false, List.singleton_append]
    rw [splitLoop_unfold canon [t, u] _ (by simp)]
    have h2 : splitArg [t, u] = Arg.merged [t, u] := rfl
    rw [h2, hval]
    simp [Value.truthy]
  rcases Assignment.setConversion_simple_cases r.commandAssignment
    (SelectionType.parse GType.command (commandLookup canon) (Arg.merged [t, u]))
    with ⟨hev, hold⟩ | ⟨ev, hev⟩
  · simp only [Requisition._split, hloop, Requisition.setCommandConversion, hev]
    refine ⟨_, rfl, rfl, rfl, ?_, rfl, rfl⟩
    simp only [Requisition.assign]
    exact hinv (by rw [hold, hval])
  · simp only [Requisition._split, hloop, Requisition.setCommandConversion, hev,
      commandAssignments, hval, Value.truthy, Bool.false_eq_true, if_false]
    exact ⟨_, rfl, rfl, rfl, rfl, rfl, rfl⟩

/-- C9 (as stated, refuted): on the input 'tsn x' the command assignment does not hold the
parent command `tsn` with INCOMPLETE status: its conversion is over the merged argument
'tsn x', has the value `null` and the status ERROR; the unassigned bucket holds the empty
argument, not `x`, and there is no parameter assignment. Both tokens are marked ERROR. -/
theorem update_parent_unknown_child_is_error :
    ∃ r, TestCommands.update "tsn x" 5 = Except.ok r ∧
      r.commandAssignment.conversion
        = AnyConversion.simple
            ⟨Value.null,
             Arg.merged [⟨0, ⟨"tsn".toList, [], []⟩⟩, ⟨1, ⟨['x'], [' '], []⟩⟩],
             Status.ERROR, some "Can't use 'tsn x'.".toList, some GType.command⟩ ∧
      r._unassigned.conversion
        = AnyConversion.simple (Conversion.valid (Value.string []) (Arg.fresh ⟨[], [], []⟩)) ∧
      r._assignments = [] ∧
      r.getInputStatusMarkup
        = Except.ok [Status.ERROR, Status.ERROR, Status.ERROR, Status.VALID, Status.ERROR] :=
  ⟨_, rfl, rfl, rfl, rfl, rfl⟩

/-- C9 (amended): when the first token of the input names a parent command (a command
without `exec`) and the text of the first two tokens merged is neither the name of a
registered command nor of a member inherited from `Object.prototype`, `update` resolves no
command. The command assignment holds the conversion of the merged argument of both tokens:
its value is `null`, and its status is INCOMPLETE when the merged text is a prefix of some
command name and ERROR otherwise. There is no parameter assignment. The tokens after the
second are merged into the unassigned bucket, which holds the empty string when there is
none. In the live list the first two tokens are owned by the command assignment and the
others by the unassigned assignment. (The requisition is one whose unassigned assignment
has the string type and that has no parameter assignments while its command is `null`, as
every requisition has.) On 'tsn x' the status is ERROR and the markup is ERROR for `tsn`
and for `x`; on 'tsn e' it is INCOMPLETE for both; on 'tsn x y' the bucket holds `y`. -/
theorem update_parent_unknown_child (canon : Canon) (hwf : canon.WellFormed) (r : Requisition)
    (input : Input) (t u : Tok) (rest : List Tok) (c : Command)
    (htokens : toToks (_tokenize input.typed) = t :: u :: rest)
    (hparent : (t.arg.text, c) ∈ canon.commands) (hexec : c.exec = none)
    (hown : JSObject.own canon.commands (Arg.merged [t, u]).text = none)
    (hproto : (Arg.merged [t, u]).text ∉ objectPrototypeKeys)
    (hun : r._unassigned.param.type = GType.string)
    (hinv : r.commandAssignment.conversion.value = AnyValue.single Value.null →
      r._assignments = []) :
    (∃ r', Requisition.update canon r input = Except.ok r' ∧
      r'.commandAssignment.conversion
        = AnyConversion.simple
            ⟨Value.null, Arg.merged [t, u],
             if 0 < ((commandLookup canon).filter
                 (fun p => (Arg.merged [t, u]).text.isPrefixOf p.1)).length
             then Status.INCOMPLETE else Status.ERROR,
             if 0 < ((commandLookup canon).filter
                 (fun p => (Arg.merged [t, u]).text.isPrefixOf p.1)).length
             then some [] else some ("Can't use '".toList ++ (Arg.merged [t, u]).text ++ "'.".toList),
             some GType.command⟩ ∧
      r'._assignments = [] ∧
      r'._unassigned.conversion
        = AnyConversion.simple (Conversion.valid
            (Value.string (match rest with
              | [] => []
              | _ :: _ => (Arg.merged rest).text))
            (match rest with
              | [] => Arg.fresh Argument.empty
              | _ :: _ => Arg.merged rest)) ∧
      r'._args = some ((toSlots (_tokenize input.typed)).map (fun slot =>
          if rest.any (fun v => v.idx = slot.id) then
            { slot with assignment := some Owner.unassigned }
          else if t.idx = slot.id ∨ u.idx = slot.id then
            { slot with assignment := some Owner.command }
          else slot))) ∧
    (TestCommands.update "tsn x" 5).map (fun r => (r.getStatus, r.getInputStatusMarkup))
      = Except.ok (Status.ERROR,
          Except.ok [Status.ERROR, Status.ERROR, Status.ERROR, Status.VALID, Status.ERROR]) ∧
    (TestCommands.update "tsn e" 5).map (fun r => (r.getStatus, r.getInputStatusMarkup))
      = Except.ok (Status.INCOMPLETE,
          Except.ok [Status.INCOMPLETE, Status.INCOMPLETE, Status.INCOMPLETE, Status.VALID,
            Status.INCOMPLETE]) ∧
    (TestCommands.update "tsn x y" 7).map
        (fun r => (r._unassigned.conversion.value, r.getInputStatusMarkup))
      = Except.ok (AnyValue.single (Value.string ['y']),
          Except.ok [Status.ERROR, Status.ERROR, Status.ERROR, Status.VALID, Status.ERROR,
            Status.VALID, Status.ERROR]) := by
  refine ⟨?_, rfl, rfl, rfl⟩
  obtain ⟨r1, hsplit, hcmd1, hun1, hasg1, _, hargs1⟩ :=
    Requisition.split_parent_unknown_child canon hwf
      { r with cursorStart := input.cursorStart,
               _args := some (toSlots (_tokenize input.typed)) }
      t u rest c hparent hexec hown hproto hinv
  have hsecond := commandType_parse_unknown canon hwf (Arg.merged [t, u]) hown hproto
  obtain ⟨r2, arg, hset, harg, htok, hun2, hasg2, hcmd2, _, hargs2⟩ :=
    Requisition.setUnassigned_spec canon r1 rest (by rw [hun1]; exact hun)
  have hfalsy : r1.commandAssignment.conversion.value.truthy = false := by
    rw [hcmd1, hsecond]; rfl
  refine ⟨r2, ?_, ?_, ?_, ?_, ?_⟩
  · simp only [Requisition.update, htokens, hsplit, Requisition._assign, hfalsy,
      Bool.false_eq_true, not_false_eq_true, if_true]
    exact hset
  · rw [hcmd2, hcmd1, hsecond]
  · rw [hasg2, hasg1]
  · rw [hun2, harg]
    cases rest <;> rfl
  · rw [hargs2, hargs1]
    simp only [Option.map_some']
    rw [assignSlots_command_unassigned _ _ t u rest (by rw [hsecond]) arg htok]

/-- C9 at a concrete input: 'tsn x y' with the test commands. -/
theorem update_parent_unknown_child_witness :
    ∃ r', TestCommands.update "tsn x y" 7 = Except.ok r' ∧
      r'.commandAssignment.conversion
        = AnyConversion.simple
            ⟨Value.null, Arg.merged [⟨0, ⟨"tsn".toList, [], []⟩⟩, ⟨1, ⟨['x'], [' '], []⟩⟩],
             Status.ERROR, some "Can't use 'tsn x'.".toList, some GType.command⟩ ∧
      r'._assignments = [] ∧
      r'._unassigned.conversion
        = AnyConversion.simple (Conversion.valid (Value.string ['y'])
            (Arg.merged [⟨2, ⟨['y'], [' '], []⟩⟩])) ∧
      r'._args = some
        [⟨0, ⟨"tsn".toList, [], []⟩, some Owner.command, none⟩,
         ⟨1, ⟨['x'], [' '], []⟩, some Owner.command, none⟩,
         ⟨2, ⟨['y'], [' '], []⟩, some Owner.unassigned, none⟩] :=
  have h := (update_parent_unknown_child TestCommands.canon TestCommands.canon_wellFormed
    (Requisition.new ⟨[], []⟩) ⟨some "tsn x y".toList, some 7⟩
    ⟨0, ⟨"tsn".toList, [], []⟩⟩ ⟨1, ⟨['x'], [' '], []⟩⟩ [⟨2, ⟨['y'], [' '], []⟩⟩]
    (TestCommands.command "tsn".toList) (by decide) (by decide) (by decide) (by decide)
    (by decide) rfl (fun _ => rfl)).1
  match h with
  | ⟨r', h1, h2, h3, h4, h5⟩ => ⟨r', h1, h2.trans rfl, h3, h4.trans rfl, h5.trans rfl⟩

/-! ### Named arguments -/

/-- C10 (the code at a failing input): in 'tsm --txt hello 5' the token `--txt` is the flag
of the string parameter `txt` and two tokens follow it; `_assign` does not bind `--txt` and
`hello` to `txt` but throws a TypeError, because it builds the NamedArgument with a `null`
value. With exactly one token after the flag, 'tsm --txt hello', the flag and the token are
bound to `txt` as a NamedArgument with the value text `hello`. -/
theorem named_argument_with_further_tokens_throws :
    TestCommands.update "tsm --txt hello 5" 17
      = Except.error (Thrown.typeError "valueArg is null or undefined".toList) ∧
    (TestCommands.update "tsm --txt hello" 15).map
        (fun r => (JSObject.own r._assignments "txt".toList).map (fun a => a.conversion))
      = Except.ok (some (AnyConversion.simple (Conversion.valid (Value.string "hello".toList)
          (Arg.named ⟨1, ⟨"--txt".toList, [' '], []⟩⟩ ⟨2, ⟨"hello".toList, [' '], []⟩⟩)))) :=
  ⟨rfl, rfl⟩

/-- C11 (the code at failing inputs): `update` throws a TypeError on 'tsm --txt' (a flag with
no value), on 'tsm --txt hello 5' (a flag followed by several tokens) and on 'constructor'
(an unknown command whose name is a member inherited from `Object.prototype`). -/
theorem update_throws_on_malformed_input :
    TestCommands.update "tsm --txt" 9
      = Except.error (Thrown.typeError "valueArg is null or undefined".toList) ∧
    TestCommands.update "tsm --txt hello 5" 17
      = Except.error (Thrown.typeError "valueArg is null or undefined".toList) ∧
    TestCommands.update "constructor" 11
      = Except.error (Thrown.typeError "command.params is undefined".toList) :=
  ⟨rfl, rfl, rfl⟩

/-! ### Positional arguments -/

theorem JSObject.own_append_cons {α : Type} (done todo : JSObject α) (k : Str) (a : α)
    (h : k ∉ JSObject.keys done) : JSObject.own (done ++ (k, a) :: todo) k = some a := by
  induction done with
  | nil => simp [JSObject.own]
  | cons p rest ih =>
    obtain ⟨k', v⟩ := p
    simp only [JSObject.keys, List.map_cons, List.mem_cons, not_or] at h
    simp only [List.cons_append, JSObject.own, Ne.symm h.1, if_false]
    exact ih h.2

theorem JSObject.set_append_cons {α : Type} (done todo : JSObject α) (k : Str) (a b : α)
    (h : k ∉ JSObject.keys done) :
    JSObject.set (done ++ (k, a) :: todo) k b = done ++ (k, b) :: todo := by
  induction done with
  | nil => simp [JSObject.set]
  | cons p rest ih =>
    obtain ⟨k', v⟩ := p
    simp only [JSObject.keys, List.map_cons, List.mem_cons, not_or] at h
    simp only [List.cons_append, JSObject.set, Ne.symm h.1, if_false]
    exact congrArg (fun l => (k', v) :: l) (ih h.2)

theorem GType.parseSimple_scalar (canon : Canon) :
    ∀ (t : GType) (arg : Arg), t.isScalar = true → ∃ c, GType.parseSimple canon t arg = Except.ok c
  | GType.string, _, _ => ⟨_, rfl⟩
  | GType.number _ _, _, _ => ⟨_, rfl⟩
  | GType.boolean, _, _ => ⟨_, rfl⟩
  | GType.blank, _, _ => ⟨_, rfl⟩
  | GType.selection _, _, _ => ⟨_, rfl⟩
  | GType.lookup _, _, h => by simp [GType.isScalar] at h
  | GType.deferred t, arg, h => by
    rw [GType.parseSimple]
    exact GType.parseSimple_scalar canon t arg h
  | GType.array _, _, h => by simp [GType.isScalar] at h
  | GType.command, _, h => by simp [GType.isScalar] at h

theorem GType.parse_scalar_ok (canon : Canon) (t : GType) (arg : Arg) (h : t.isScalar = true) :
    ∃ c, GType.parse canon t arg = Except.ok (AnyConversion.simple c) := by
  obtain ⟨c, hc⟩ := GType.parseSimple_scalar canon t arg h
  exact ⟨c, by rw [GType.parse_scalar canon t arg h, hc]; rfl⟩

/-- A type that accepts an Argument parses every argument without throwing. -/
theorem GType.parseSimple_takesArgument (canon : Canon) :
    ∀ (t : GType) (arg : Arg), t.takesArgument = true →
      ∃ c, GType.parseSimple canon t arg = Except.ok c
  | GType.string, _, _ => ⟨_, rfl⟩
  | GType.number _ _, _, _ => ⟨_, rfl⟩
  | GType.boolean, _, _ => ⟨_, rfl⟩
  | GType.blank, _, _ => ⟨_, rfl⟩
  | GType.selection _, _, _ => ⟨_, rfl⟩
  | GType.lookup _, _, _ => ⟨_, rfl⟩
  | GType.command, _, _ => ⟨_, rfl⟩
  | GType.deferred t, arg, h => by
    rw [GType.parseSimple]
    exact GType.parseSimple_takesArgument canon t arg h
  | GType.array _, _, h => by simp [GType.takesArgument] at h

theorem GType.parse_takesArgument (canon : Canon) :
    ∀ (t : GType) (arg : Arg), t.takesArgument = true →
      ∃ c, GType.parse canon t arg = Except.ok (AnyConversion.simple c)
  | GType.string, _, _ => ⟨_, rfl⟩
  | GType.number _ _, _, _ => ⟨_, rfl⟩
  | GType.boolean, _, _ => ⟨_, rfl⟩
  | GType.blank, _, _ => ⟨_, rfl⟩
  | GType.selection _, _, _ => ⟨_, rfl⟩
  | GType.lookup _, _, _ => ⟨_, rfl⟩
  | GType.command, _, _ => ⟨_, rfl⟩
  | GType.deferred t, arg, h => by
    rw [GType.parse]
    exact GType.parse_takesArgument canon t arg h
  | GType.array _, _, h => by simp [GType.takesArgument] at h

theorem mapM_exists_ok {α β : Type} (f : α → Except Thrown β) :
    ∀ l : List α, (∀ x ∈ l, ∃ y, f x = Except.ok y) → ∃ ys, l.mapM f = Except.ok ys
  | [], _ => ⟨[], rfl⟩
  | x :: l, h => by
    obtain ⟨y, hy⟩ := h x (List.mem_cons_self _ _)
    obtain ⟨ys, hys⟩ := mapM_exists_ok f l (fun z hz => h z (List.mem_cons_of_mem _ hz))
    refine ⟨y :: ys, ?_⟩
    rw [List.mapM_cons, hy, hys]
    rfl

/-- An array type over a type that accepts an Argument parses every ArrayArgument. -/
theorem GType.parse_arrayOfPlain (canon : Canon) (t : GType) (members : List ArrayMember)
    (h : t.isArrayOfPlain = true) :
    ∃ c, GType.parse canon t (Arg.array members) = Except.ok (AnyConversion.array c) := by
  cases t with
  | array subtype =>
    obtain ⟨ys, hys⟩ := mapM_exists_ok (fun m => GType.parseSimple canon subtype m.toArg) members
      (fun m _ => GType.parseSimple_takesArgument canon subtype m.toArg h)
    exact ⟨⟨ys, Arg.array members⟩, by rw [GType.parse, hys]; rfl⟩
  | _ => simp [GType.isArrayOfPlain] at h

theorem GType.isArray_of_arrayOfPlain (t : GType) (h : t.isArrayOfPlain = true) :
    t.isArray = true := by
  cases t with
  | array s => rfl
  | _ => simp [GType.isArrayOfPlain] at h

theorem GType.takesArgument_not_array (t : GType) (h : t.takesArgument = true) :
    t.isArray = false := by
  cases t with
  | array s => simp [GType.takesArgument] at h
  | _ => rfl

theorem Assignment.setConversion_array (a : Assignment) (c : ArrayConversion)
    (h : a.conversion.isArray = true) :
    ∃ event, a.setConversion (AnyConversion.array c)
      = Except.ok ({ a with conversion := AnyConversion.array c }, event) := by
  unfold Assignment.setConversion AnyConversion.equals
  cases hold : a.conversion with
  | simple b => rw [hold] at h; simp [AnyConversion.isArray] at h
  | array b =>
    simp only [AnyConversion.valueEquals]
    cases (decide (c.value.length = b.value.length) &&
        (List.zip c.conversions b.conversions).all (fun p => p.1.value.strictEquals p.2.value) &&
        (AnyConversion.array c).argEquals (AnyConversion.array b))
    · exact ⟨_, rfl⟩
    · exact ⟨_, rfl⟩

theorem defaultConversion_plain (canon : Canon) (p : Parameter)
    (h : p.type.takesArgument = true) :
    ∃ c, defaultConversion canon p = Except.ok (AnyConversion.simple c) := by
  obtain ⟨name, type, dv, g, up⟩ := p
  cases type with
  | array s => simp [GType.takesArgument] at h
  | deferred t =>
    exact GType.parse_takesArgument canon (GType.deferred t) (Arg.fresh Argument.empty) h
  | _ => exact ⟨_, rfl⟩

theorem defaultConversion_array (canon : Canon) (p : Parameter)
    (h : p.type.isArrayOfPlain = true) :
    ∃ c, defaultConversion canon p = Except.ok (AnyConversion.array c) := by
  obtain ⟨name, type, dv, g, up⟩ := p
  cases type with
  | array s => exact ⟨_, rfl⟩
  | _ => simp [GType.isArrayOfPlain] at h

/-- The kinds of parameter assignment `_assign` works on without throwing: a type that
accepts an Argument, or an array type over such a type whose assignment holds an
ArrayConversion (as it does from its creation on). -/
theorem boundConversion_ok (canon : Canon) (a : Assignment) (args : List Tok)
    (hkind : a.param.type.takesArgument = true ∨
      (a.param.type.isArrayOfPlain = true ∧ a.conversion.isArray = true)) :
    ∃ c, boundConversion canon a args = Except.ok c ∧
      ∃ event, a.setConversion c = Except.ok ({ a with conversion := c }, event) := by
  unfold boundConversion
  cases hpos : a.param.isPositionalAllowed with
  | true =>
    simp only [not_true_eq_false, if_false]
    rcases hkind with hplain | ⟨harr, hconv⟩
    · rw [GType.takesArgument_not_array _ hplain]
      simp only [Bool.false_eq_true, if_false]
      obtain ⟨c, hc⟩ := GType.parse_takesArgument canon a.param.type
        (match args with
         | t :: _ => Arg.token t
         | [] => Arg.fresh Argument.empty) hplain
      exact ⟨_, hc, Assignment.setConversion_simple a c⟩
    · rw [GType.isArray_of_arrayOfPlain _ harr]
      simp only [if_true]
      obtain ⟨c, hc⟩ := GType.parse_arrayOfPlain canon a.param.type
        (args.map ArrayMember.token) harr
      exact ⟨_, hc, Assignment.setConversion_array a c hconv⟩
  | false =>
    simp only [Bool.false_eq_true, not_false_eq_true, if_true]
    rcases hkind with hplain | ⟨harr, hconv⟩
    · obtain ⟨c, hc⟩ := defaultConversion_plain canon a.param hplain
      exact ⟨_, hc, Assignment.setConversion_simple a c⟩
    · obtain ⟨c, hc⟩ := defaultConversion_array canon a.param harr
      exact ⟨_, hc, Assignment.setConversion_array a c hconv⟩

/-- Setting the conversion of the assignment stored under `k`, when `setConversion` accepts
it: only that assignment and the owners of the tokens change. -/
theorem Requisition.setParamConversion_of_set (r : Requisition)
    (done todo : List (Str × Assignment)) (k : Str) (a : Assignment) (c : AnyConversion)
    (hr : r._assignments = done ++ (k, a) :: todo) (hk : k ∉ JSObject.keys done)
    (hset : ∃ event, a.setConversion c = Except.ok ({ a with conversion := c }, event)) :
    ∃ r', Requisition.setParamConversion r k c = Except.ok r' ∧
      r'._assignments = done ++ (k, { a with conversion := c }) :: todo ∧
      r'._unassigned = r._unassigned ∧ r'.commandAssignment = r.commandAssignment := by
  obtain ⟨event, hev⟩ := hset
  unfold Requisition.setParamConversion
  rw [hr, JSObject.own_append_cons done todo k a hk]
  simp only [hev]
  exact ⟨_, rfl, by simp [Requisition.assign, JSObject.set_append_cons done todo k a _ hk],
    rfl, rfl⟩

/-- Setting the conversion of the assignment stored under `k` to a simple conversion: only
that assignment and the owners of the tokens change. -/
theorem Requisition.setParamConversion_simple (r : Requisition)
    (done todo : List (Str × Assignment)) (k : Str) (a : Assignment) (c : Conversion)
    (hr : r._assignments = done ++ (k, a) :: todo) (hk : k ∉ JSObject.keys done) :
    ∃ r', Requisition.setParamConversion r k (AnyConversion.simple c) = Except.ok r' ∧
      r'._assignments = done ++ (k, { a with conversion := AnyConversion.simple c }) :: todo ∧
      r'._unassigned = r._unassigned ∧ r'.commandAssignment = r.commandAssignment :=
  Requisition.setParamConversion_of_set r done todo k a _ hr hk
    (Assignment.setConversion_simple a c)

theorem positionalStep_default (canon : Canon) (name : Str) (args : List Tok)
    (w : AssignWork) (a : Assignment) (hown : JSObject.own w.r._assignments name = some a)
    (hpos : a.param.isPositionalAllowed = false) :
    positionalStep canon name args w =
      match boundConversion canon a args with
      | Except.error e => Except.error e
      | Except.ok c =>
        match Requisition.setParamConversion w.r name c with
        | Except.error e => Except.error e
        | Except.ok r' => Except.ok (args, { w with r := r' }) := by
  unfold positionalStep Requisition.setParamDefault boundConversion
  simp only [hown, hpos, Bool.false_eq_true, not_false_eq_true, if_true]
  cases defaultConversion canon a.param <;> rfl

theorem positionalStep_array (canon : Canon) (name : Str) (args : List Tok)
    (w : AssignWork) (a : Assignment) (hown : JSObject.own w.r._assignments name = some a)
    (hpos : a.param.isPositionalAllowed = true) (harr : a.param.type.isArray = true) :
    positionalStep canon name args w =
      Except.ok ([],
        { w with
          arrayArgs := addArrayArgs w.arrayArgs a.param.name (args.map ArrayMember.token) }) := by
  unfold positionalStep
  simp only [hown, hpos, not_true_eq_false, if_false]
  cases htype : a.param.type with
  | array s => rfl
  | _ => rw [htype] at harr; simp [GType.isArray] at harr

theorem positionalStep_plain (canon : Canon) (name : Str) (args : List Tok)
    (w : AssignWork) (a : Assignment) (hown : JSObject.own w.r._assignments name = some a)
    (hpos : a.param.isPositionalAllowed = true) (hplain : a.param.type.isArray = false) :
    positionalStep canon name args w =
      match boundConversion canon a args with
      | Except.error e => Except.error e
      | Except.ok c =>
        match Requisition.setParamConversion w.r name c with
        | Except.error e => Except.error e
        | Except.ok r' => Except.ok (args.tail, { w with r := r' }) := by
  unfold positionalStep boundConversion parseAndSet
  simp only [hown, hpos, hplain, not_true_eq_false, Bool.false_eq_true, if_false]
  cases htype : a.param.type with
  | array s => rw [htype] at hplain; simp [GType.isArray] at hplain
  | _ =>
    dsimp only
    generalize GType.parse canon _ _ = res
    cases res <;> rfl

theorem afterPositional_keys (canon : Canon) :
    ∀ (todo : List (Str × Assignment)) (args : List Tok),
      JSObject.keys (afterPositional canon todo args) = JSObject.keys todo
  | [], _ => rfl
  | (k, a) :: todo, args => by
    simp only [afterPositional, JSObject.keys, List.map_cons]
    exact congrArg (fun l => k :: l) (afterPositional_keys canon todo _)

/-- The positional pass of `_assign`: the parameters that are not positional arrays get
their conversion, the positional arrays are noted in `arrayArgs`. -/
theorem positionalPass_spec (canon : Canon) :
    ∀ (todo done : List (Str × Assignment)) (args : List Tok) (w : AssignWork),
      w.r._assignments = done ++ todo →
      (JSObject.keys (done ++ todo)).Nodup →
      (∀ n ∈ JSObject.keys w.arrayArgs, n ∈ JSObject.keys done) →
      (∀ p ∈ todo, p.1 = p.2.param.name) →
      (∀ p ∈ todo, p.2.param.type.takesArgument = true ∨
        (p.2.param.type.isArrayOfPlain = true ∧ p.2.conversion.isArray = true)) →
      ∃ w', positionalPass canon (JSObject.keys todo) args w
          = Except.ok (positionalRest todo args, w') ∧
        w'.arrayArgs = w.arrayArgs ++ pendingArrays todo args ∧
        w'.r._assignments = done ++ afterPositional canon todo args ∧
        w'.r._unassigned = w.r._unassigned ∧
        w'.r.commandAssignment = w.r.commandAssignment
  | [], done, args, w, hr, _, _, _, _ => by
    refine ⟨w, by simp [JSObject.keys, positionalPass, positionalRest], ?_, ?_, rfl, rfl⟩
    · simp [pendingArrays]
    · simpa [afterPositional] using hr
  | (k, a) :: todo, done, args, w, hr, hnd, harrs, hname, hkind => by
    have hk : k ∉ JSObject.keys done := by
      simp only [JSObject.keys, List.map_append, List.map_cons] at hnd
      have := (List.nodup_append.1 hnd).2.2
      intro hmem
      exact this hmem (List.mem_cons_self _ _)
    have hown : JSObject.own w.r._assignments k = some a := by
      rw [hr]; exact JSObject.own_append_cons done todo k a hk
    have hka : k = a.param.name := hname (k, a) (List.mem_cons_self _ _)
    obtain ⟨c, hc, hset⟩ := boundConversion_ok canon a args
      (hkind (k, a) (List.mem_cons_self _ _))
    have hnd' : ∀ a' : Assignment, (JSObject.keys ((done ++ [(k, a')]) ++ todo)).Nodup := by
      intro a'
      simpa [JSObject.keys] using hnd
    have hname' : ∀ p ∈ todo, p.1 = p.2.param.name :=
      fun p hp => hname p (List.mem_cons_of_mem _ hp)
    have hkind' : ∀ p ∈ todo, p.2.param.type.takesArgument = true ∨
        (p.2.param.type.isArrayOfPlain = true ∧ p.2.conversion.isArray = true) :=
      fun p hp => hkind p (List.mem_cons_of_mem _ hp)
    cases hpos : a.param.isPositionalAllowed with
    | false =>
      obtain ⟨r', hr1, hr2, hun, hcmd⟩ :=
        Requisition.setParamConversion_of_set w.r done todo k a c hr hk hset
      have hstep := positionalStep_default canon k args w a hown hpos
      simp only [hc, hr1] at hstep
      have hrest : restAfter a args = args := by simp [restAfter, hpos]
      have htr : a.takesRest = false := by simp [Assignment.takesRest, hpos]
      obtain ⟨w', hpass, harr, hasg, hun', hcmd'⟩ := positionalPass_spec canon todo
        (done ++ [(k, { a with conversion := c })]) args { w with r := r' }
        (by simp [hr2]) (hnd' _)
        (fun n hn => by
          have := harrs n hn
          simp only [JSObject.keys, List.map_append, List.mem_append] at this ⊢
          exact Or.inl this)
        hname' hkind'
      refine ⟨w', ?_, ?_, ?_, hun'.trans hun, hcmd'.trans hcmd⟩
      · simp only [JSObject.keys, List.map_cons, positionalPass, hstep, positionalRest, hrest]
        exact hpass
      · simp only [pendingArrays, htr, Bool.false_eq_true, if_false, hrest]
        exact harr
      · rw [hasg]
        simp [afterPositional, htr, hrest, hc, Assignment.withResult]
    | true =>
      cases harray : a.param.type.isArray with
      | true =>
        have hstep := positionalStep_array canon k args w a hown hpos harray
        have hrest : restAfter a args = [] := by simp [restAfter, hpos, harray]
        have htr : a.takesRest = true := by simp [Assignment.takesRest, hpos, harray]
        have hfresh : a.param.name ∉ JSObject.keys w.arrayArgs := by
          intro hmem
          exact hk (hka ▸ harrs _ hmem)
        have hadd : addArrayArgs w.arrayArgs a.param.name (args.map ArrayMember.token)
            = w.arrayArgs ++ [(a.param.name, args.map ArrayMember.token)] := by
          unfold addArrayArgs
          rw [(JSObject.own_eq_none_iff _ _).2 hfresh, JSObject.set_of_not_mem _ _ _ hfresh]
          rfl
        obtain ⟨w', hpass, harr, hasg, hun', hcmd'⟩ := positionalPass_spec canon todo
          (done ++ [(k, a)]) []
          { w with
            arrayArgs := (addArrayArgs w.arrayArgs a.param.name (args.map ArrayMember.token)) }
          (by simp [hr]) (hnd' _)
          (fun n hn => by
            rw [hadd] at hn
            simp only [JSObject.keys, List.map_append, List.mem_append, List.map_cons,
              List.map_nil, List.mem_singleton] at hn ⊢
            rcases hn with hn | hn
            · exact Or.inl (harrs n hn)
            · exact Or.inr (hn.trans hka.symm))
          hname' hkind'
        refine ⟨w', ?_, ?_, ?_, hun', hcmd'⟩
        · simp only [JSObject.keys, List.map_cons, positionalPass, hstep, positionalRest, hrest]
          exact hpass
        · simp only [pendingArrays, htr, if_true, hrest]
          rw [harr, hadd]
          simp
        · rw [hasg]
          simp [afterPositional, htr, hrest]
      | false =>
        obtain ⟨r', hr1, hr2, hun, hcmd⟩ :=
          Requisition.setParamConversion_of_set w.r done todo k a c hr hk hset
        have hstep := positionalStep_plain canon k args w a hown hpos harray
        simp only [hc, hr1] at hstep
        have hrest : restAfter a args = args.tail := by simp [restAfter, hpos, harray]
        have htr : a.takesRest = false := by simp [Assignment.takesRest, hpos, harray]
        obtain ⟨w', hpass, harr, hasg, hun', hcmd'⟩ := positionalPass_spec canon todo
          (done ++ [(k, { a with conversion := c })]) args.tail { w with r := r' }
          (by simp [hr2]) (hnd' _)
          (fun n hn => by
            have := harrs n hn
            simp only [JSObject.keys, List.map_append, List.mem_append] at this ⊢
            exact Or.inl this)
          hname' hkind'
        refine ⟨w', ?_, ?_, ?_, hun'.trans hun, hcmd'.trans hcmd⟩
        · simp only [JSObject.keys, List.map_cons, positionalPass, hstep, positionalRest, hrest]
          exact hpass
        · simp only [pendingArrays, htr, Bool.false_eq_true, if_false, hrest]
          exact harr
        · rw [hasg]
          simp [afterPositional, htr, hrest, hc, Assignment.withResult]

/-- The array pass of `_assign`: each positional array parameter gets the conversion of the
tokens noted for it. -/
theorem arrayPass_spec (canon : Canon) :
    ∀ (todo done : List (Str × Assignment)) (args : List Tok) (r : Requisition),
      r._assignments = done ++ afterPositional canon todo args →
      (JSObject.keys (done ++ todo)).Nodup →
      (∀ p ∈ todo, p.1 = p.2.param.name) →
      (∀ p ∈ todo, p.2.param.type.takesArgument = true ∨
        (p.2.param.type.isArrayOfPlain = true ∧ p.2.conversion.isArray = true)) →
      ∃ r', arrayPass canon (pendingArrays todo args) r = Except.ok r' ∧
        r'._assignments = done ++ afterArrays canon todo args ∧
        r'._unassigned = r._unassigned ∧
        r'.commandAssignment = r.commandAssignment
  | [], done, args, r, hr, _, _, _ => by
    refine ⟨r, by simp [pendingArrays, arrayPass], ?_, rfl, rfl⟩
    simpa [afterPositional, afterArrays] using hr
  | (k, a) :: todo, done, args, r, hr, hnd, hname, hkind => by
    have hk : k ∉ JSObject.keys done := by
      simp only [JSObject.keys, List.map_append, List.map_cons] at hnd
      have := (List.nodup_append.1 hnd).2.2
      intro hmem
      exact this hmem (List.mem_cons_self _ _)
    have hka : k = a.param.name := hname (k, a) (List.mem_cons_self _ _)
    have hnd' : ∀ a' : Assignment, (JSObject.keys ((done ++ [(k, a')]) ++ todo)).Nodup := by
      intro a'
      simpa [JSObject.keys] using hnd
    have hname' : ∀ p ∈ todo, p.1 = p.2.param.name :=
      fun p hp => hname p (List.mem_cons_of_mem _ hp)
    have hkind' : ∀ p ∈ todo, p.2.param.type.takesArgument = true ∨
        (p.2.param.type.isArrayOfPlain = true ∧ p.2.conversion.isArray = true) :=
      fun p hp => hkind p (List.mem_cons_of_mem _ hp)
    cases htr : a.takesRest with
    | false =>
      obtain ⟨r', hpass, hasg, hun, hcmd⟩ := arrayPass_spec canon todo
        (done ++ [(k, a.withResult (boundConversion canon a args))]) (restAfter a args) r
        (by rw [hr]; simp [afterPositional, htr]) (hnd' _) hname' hkind'
      refine ⟨r', ?_, ?_, hun, hcmd⟩
      · simp only [pendingArrays, htr, Bool.false_eq_true, if_false]
        exact hpass
      · rw [hasg]
        simp [afterArrays]
    | true =>
      obtain ⟨c, hc, hset⟩ := boundConversion_ok canon a args
        (hkind (k, a) (List.mem_cons_self _ _))
      have hpa : a.param.isPositionalAllowed = true ∧ a.param.type.isArray = true := by
        simpa [Assignment.takesRest] using htr
      have hparse : GType.parse canon a.param.type (Arg.array (args.map ArrayMember.token))
          = Except.ok c := by
        rw [← hc]
        simp [boundConversion, hpa.1, hpa.2]
      have hr0 : r._assignments = done ++ (k, a) :: afterPositional canon todo (restAfter a args) := by
        rw [hr]; simp [afterPositional, htr]
      have hown : JSObject.own r._assignments a.param.name = some a := by
        rw [hr0, ← hka]; exact JSObject.own_append_cons done _ k a hk
      obtain ⟨r1, hr1, hr2, hun, hcmd⟩ :=
        Requisition.setParamConversion_of_set r done _ k a c hr0 hk hset
      obtain ⟨r', hpass, hasg, hun', hcmd'⟩ := arrayPass_spec canon todo
        (done ++ [(k, { a with conversion := c })]) (restAfter a args) r1
        (by simp [hr2]) (hnd' _) hname' hkind'
      refine ⟨r', ?_, ?_, hun'.trans hun, hcmd'.trans hcmd⟩
      · simp only [pendingArrays, htr, if_true, arrayPass, hown, parseAndSet, hparse]
        rw [← hka, hr1]
        exact hpass
      · rw [hasg]
        simp [afterArrays, hc, Assignment.withResult]

theorem afterArrays_conversions (canon : Canon) :
    ∀ (todo : List (Str × Assignment)) (args : List Tok),
      (∀ p ∈ todo, p.2.param.type.takesArgument = true ∨
        (p.2.param.type.isArrayOfPlain = true ∧ p.2.conversion.isArray = true)) →
      (afterArrays canon todo args).map (fun p => (p.1, Except.ok p.2.conversion))
        = positionalBinding canon todo args
  | [], _, _ => rfl
  | (k, a) :: todo, args, hkind => by
    obtain ⟨c, hc, _⟩ := boundConversion_ok canon a args
      (hkind (k, a) (List.mem_cons_self _ _))
    simp only [afterArrays, positionalBinding, List.map_cons, hc, Assignment.withResult]
    exact congrArg (fun l => (k, Except.ok c) :: l)
      (afterArrays_conversions canon todo _ (fun p hp => hkind p (List.mem_cons_of_mem _ hp)))

theorem namedLoop_no_flag (canon : Canon) (key : Str) (param : Parameter) :
    ∀ (rest before : List Tok) (w : AssignWork),
      (∀ t ∈ rest, param.isKnownAs t.arg.text = false) →
      namedLoop canon key param before rest w = Except.ok (before ++ rest, w)
  | [], before, w, _ => by simp [namedLoop]
  | t :: rest, before, w, h => by
    conv_lhs => unfold namedLoop
    simp only [h t (List.mem_cons_self _ _), Bool.false_eq_true, if_false]
    rw [namedLoop_no_flag canon key param rest (before ++ [t]) w
      (fun u hu => h u (List.mem_cons_of_mem _ hu))]
    simp

theorem namedPass_no_flag (canon : Canon) (args : List Tok) (w : AssignWork) :
    ∀ (todo : List (Str × Assignment)),
      (∀ p ∈ todo, JSObject.own w.r._assignments p.1 = some p.2) →
      (∀ p ∈ todo, ∀ t ∈ args, p.2.param.isKnownAs t.arg.text = false) →
      namedPass canon (JSObject.keys todo) args w = Except.ok (args, w)
  | [], _, _ => by simp [JSObject.keys, namedPass]
  | (k, a) :: todo, hown, h => by
    simp only [JSObject.keys, List.map_cons, namedPass, hown (k, a) (List.mem_cons_self _ _)]
    rw [namedLoop_no_flag canon k a.param args [] w (h (k, a) (List.mem_cons_self _ _))]
    simp only [List.nil_append]
    exact namedPass_no_flag canon args w todo
      (fun p hp => hown p (List.mem_cons_of_mem _ hp))
      (fun p hp => h p (List.mem_cons_of_mem _ hp))

theorem Requisition.setUnassignedConversion_simple (r : Requisition) (c : Conversion) :
    ∃ r', Requisition.setUnassignedConversion r (AnyConversion.simple c) = Except.ok r' ∧
      r'._unassigned = { r._unassigned with conversion := AnyConversion.simple c } ∧
      r'._assignments = r._assignments ∧ r'.commandAssignment = r.commandAssignment := by
  obtain ⟨event, hev⟩ := Assignment.setConversion_simple r._unassigned c
  unfold Requisition.setUnassignedConversion
  rw [hev]
  exact ⟨_, rfl, rfl, rfl, rfl⟩

/-- What `_assign` does with the tokens no parameter took: merged into the unassigned
bucket, or the bucket reset to the empty string when there is none. -/
theorem Requisition.setUnassigned_rest (canon : Canon) (r : Requisition) (rest : List Tok)
    (hun : r._unassigned.param.type = GType.string) :
    ∃ r', (if rest.length > 0 then Requisition.setUnassigned canon r rest
        else Requisition.setUnassignedDefault canon r) = Except.ok r' ∧
      r'._unassigned.conversion
        = AnyConversion.simple (StringType.parse
            (match rest with
             | [] => Arg.fresh Argument.empty
             | _ :: _ => Arg.merged rest)) ∧
      r'._assignments = r._assignments ∧ r'.commandAssignment = r.commandAssignment := by
  cases rest with
  | nil =>
    obtain ⟨r', h, h1, h2, h3⟩ := Requisition.setUnassignedConversion_simple r
      (StringType.parse (Arg.fresh Argument.empty))
    refine ⟨r', ?_, by rw [h1], h2, h3⟩
    simp only [List.length_nil, gt_iff_lt, Nat.lt_irrefl, if_false,
      Requisition.setUnassignedDefault, defaultConversion, hun, GType.getDefault]
    exact h
  | cons t rest =>
    obtain ⟨r', h, h1, h2, h3⟩ := Requisition.setUnassignedConversion_simple r
      (StringType.parse (Arg.merged (t :: rest)))
    refine ⟨r', ?_, by rw [h1], h2, h3⟩
    simp only [List.length_cons, gt_iff_lt, Nat.zero_lt_succ, if_true,
      Requisition.setUnassigned, MergedArgument.new, hun]
    exact h

/-- C12 (as stated, refuted): `tselarr` has the parameters `num` and `arr`, and in
'tselarr 1 a b' no token is a flag. The third token `b` lies beyond the last parameter, yet
it is not put in the unassigned bucket: the array parameter `arr` takes both `a` and `b`,
and the unassigned bucket holds the empty argument. -/
theorem assign_array_parameter_takes_the_rest :
    (TestCommands.update "tselarr 1 a b" 13).map
        (fun r => ((JSObject.own r._assignments "arr".toList).map (fun a => a.conversion.value),
          r._unassigned.conversion))
      = Except.ok
          (some (AnyValue.array [Value.string ['a'], Value.string ['b']]),
           AnyConversion.simple (Conversion.valid (Value.string []) (Arg.fresh ⟨[], [], []⟩))) :=
  rfl

theorem positionalRest_plain :
    ∀ (todo : List (Str × Assignment)) (args : List Tok),
      (∀ p ∈ todo, p.2.param.isPositionalAllowed = true ∧ p.2.param.type.isArray = false) →
      positionalRest todo args = args.drop todo.length
  | [], args, _ => rfl
  | (k, a) :: todo, args, h => by
    obtain ⟨h1, h2⟩ := h (k, a) (List.mem_cons_self _ _)
    simp only [positionalRest, restAfter, h1, h2, not_true_eq_false, Bool.false_eq_true,
      if_false, List.length_cons]
    rw [positionalRest_plain todo args.tail (fun p hp => h p (List.mem_cons_of_mem _ hp))]
    cases args <;> simp

theorem positionalBinding_plain (canon : Canon) :
    ∀ (todo : List (Str × Assignment)) (args : List Tok),
      (∀ p ∈ todo, p.2.param.isPositionalAllowed = true ∧ p.2.param.type.isArray = false) →
      ∀ (i : Nat) (p : Str × Assignment), todo[i]? = some p →
        (positionalBinding canon todo args)[i]? = some (p.1, GType.parse canon p.2.param.type
          (match args[i]? with
           | some t => Arg.token t
           | none => Arg.fresh Argument.empty))
  | [], _, _, i, p, hp => by simp at hp
  | (k, a) :: todo, args, h, 0, p, hp => by
    obtain ⟨h1, h2⟩ := h (k, a) (List.mem_cons_self _ _)
    simp only [List.getElem?_cons_zero, Option.some.injEq] at hp
    subst hp
    simp only [positionalBinding, boundConversion, h1, h2, not_true_eq_false,
      Bool.false_eq_true, if_false, List.getElem?_cons_zero]
    cases args <;> simp
  | (k, a) :: todo, args, h, i + 1, p, hp => by
    obtain ⟨h1, h2⟩ := h (k, a) (List.mem_cons_self _ _)
    simp only [List.getElem?_cons_succ] at hp
    have ih := positionalBinding_plain canon todo args.tail
      (fun q hq => h q (List.mem_cons_of_mem _ hq)) i p hp
    simp only [positionalBinding, restAfter, h1, h2, not_true_eq_false, Bool.false_eq_true,
      if_false, List.getElem?_cons_succ]
    rw [ih]
    cases args <;> simp

/-- C12 (amended): when a command is resolved and has two or more parameters, at least one
token remains and no remaining token is a flag of a parameter, `_assign` gives the
parameters their turn in declaration order. A parameter that is not positionally assignable
gets its default and takes no token; a positionally assignable parameter of an array type
takes every token that is left; any other parameter takes the first token that is left, or
parses an empty Argument when none is left. The tokens left after the last parameter are
merged into the unassigned bucket, which is reset to the empty string when there is none.
So when every parameter is positionally assignable and none is of an array type, the i-th
token goes to the i-th parameter and the tokens beyond the last parameter are unassigned.
(The parameters are those of a command: stored under their names, which are not decimal
numerals, with flags whose prefix has no regular-expression syntax character, with types
that `parse` accepts, an array parameter holding an ArrayConversion.) -/
theorem assign_binds_positionally (canon : Canon) :
    (∀ (r : Requisition) (args : List Tok),
      r.commandAssignment.conversion.value.truthy = true →
      args ≠ [] →
      2 ≤ r._assignments.length →
      (JSObject.keys r._assignments).Nodup →
      (∀ p ∈ r._assignments, p.1 = p.2.param.name ∧ isIntegerKey p.1 = false) →
      (∀ p ∈ r._assignments, p.2.param.type.takesArgument = true ∨
        (p.2.param.type.isArrayOfPlain = true ∧ p.2.conversion.isArray = true)) →
      (∀ p ∈ r._assignments, p.2.param.uniquePrefix.any isSyntaxCharacter = false ∧
        ∀ t ∈ args, p.2.param.isKnownAs t.arg.text = false) →
      r._unassigned.param.type = GType.string →
      ∃ r', Requisition._assign canon r args = Except.ok r' ∧
        r'.conversions = positionalBinding canon r._assignments args ∧
        r'._unassigned.conversion
          = AnyConversion.simple (StringType.parse
              (match positionalRest r._assignments args with
               | [] => Arg.fresh Argument.empty
               | _ :: _ => Arg.merged (positionalRest r._assignments args)))) ∧
    (∀ (todo : List (Str × Assignment)) (args : List Tok),
      (∀ p ∈ todo, p.2.param.isPositionalAllowed = true ∧ p.2.param.type.isArray = false) →
      positionalRest todo args = args.drop todo.length ∧
      ∀ (i : Nat) (p : Str × Assignment), todo[i]? = some p →
        (positionalBinding canon todo args)[i]? = some (p.1, GType.parse canon p.2.param.type
          (match args[i]? with
           | some t => Arg.token t
           | none => Arg.fresh Argument.empty))) := by
  refine ⟨?_, fun todo args h =>
    ⟨positionalRest_plain todo args h, positionalBinding_plain canon todo args h⟩⟩
  intro r args hcmd hargs hcount hnd hkeys hkind hflags hun
  have hnamed := namedPass_no_flag canon args ⟨r, JSObject.keys r._assignments, []⟩
    r._assignments (fun p hp => JSObject.own_of_mem _ p.1 p.2 hnd hp)
    (fun p hp => (hflags p hp).2)
  obtain ⟨w', hpass, harr, hasg1, hun1, _⟩ := positionalPass_spec canon r._assignments []
    args ⟨r, JSObject.keys r._assignments, []⟩ rfl hnd
    (fun n hn => by simp [JSObject.keys] at hn) (fun p hp => (hkeys p hp).1) hkind
  obtain ⟨r3, harrays, hasg3, hun3, _⟩ := arrayPass_spec canon r._assignments [] args w'.r
    hasg1 hnd (fun p hp => (hkeys p hp).1) hkind
  obtain ⟨r', hset, hconv', hasg, _⟩ := Requisition.setUnassigned_rest canon r3
    (positionalRest r._assignments args) (by rw [hun3, hun1]; exact hun)
  refine ⟨r', ?_, ?_, hconv'⟩
  · unfold Requisition._assign
    have hlen : args.length ≠ 0 := fun h => hargs (List.length_eq_zero.1 h)
    have hcnt : r.assignmentCount ≠ 0 := by
      simp only [Requisition.assignmentCount, JSObject.keys, List.length_map]; omega
    simp only [hcmd, not_true_eq_false, if_false, hlen, hcnt]
    split
    · rename_i heq
      split at heq
      · rename_i hone
        rw [hone] at hcount
        simp at hcount
      · exact absurd heq (by simp)
    · simp only [hnamed, hpass]
      rw [harr]
      simp only [List.nil_append, harrays]
      exact hset
  · simp only [Requisition.conversions]
    rw [hasg, hasg3]
    simp only [List.nil_append]
    exact afterArrays_conversions canon r._assignments args hkind

/-- C12 at concrete inputs. After `_split` of 'tsm a hello 6' the tokens `a`, `hello` and `6`
are left, and `_assign` binds them to `abc`, `txt` and `num`: the option `a`, the string
`hello` and the number 6. After `_split` of 'tselarr 1 a b' the tokens `1`, `a` and `b` are
left; `num` takes the first and the array parameter `arr` takes the other two. -/
theorem assign_binds_positionally_witness :
    ((TestCommands.split "tsm a hello 6").2
      = [⟨1, ⟨['a'], [' '], []⟩⟩, ⟨2, ⟨"hello".toList, [' '], []⟩⟩, ⟨3, ⟨['6'], [' '], []⟩⟩] ∧
    ∃ r', Requisition._assign TestCommands.canon (TestCommands.split "tsm a hello 6").1
          (TestCommands.split "tsm a hello 6").2 = Except.ok r' ∧
      r'.conversions
        = [("abc".toList, Except.ok (AnyConversion.simple
            (Conversion.valid (Value.string ['a']) (Arg.token ⟨1, ⟨['a'], [' '], []⟩⟩)))),
           ("txt".toList, Except.ok (AnyConversion.simple
            (Conversion.valid (Value.string "hello".toList)
              (Arg.token ⟨2, ⟨"hello".toList, [' '], []⟩⟩)))),
           ("num".toList, Except.ok (AnyConversion.simple
            (Conversion.valid (Value.number 6) (Arg.token ⟨3, ⟨['6'], [' '], []⟩⟩))))] ∧
      r'._unassigned.conversion
        = AnyConversion.simple (Conversion.valid (Value.string []) (Arg.fresh ⟨[], [], []⟩))) ∧
    (∃ r', Requisition._assign TestCommands.canon (TestCommands.split "tselarr 1 a b").1
          (TestCommands.split "tselarr 1 a b").2 = Except.ok r' ∧
      r'.conversions.map (fun p => (p.1, p.2.map AnyConversion.value))
        = [("num".toList, Except.ok (AnyValue.single (Value.string ['1']))),
           ("arr".toList, Except.ok
              (AnyValue.array [Value.string ['a'], Value.string ['b']]))] ∧
      r'._unassigned.conversion
        = AnyConversion.simple (Conversion.valid (Value.string []) (Arg.fresh ⟨[], [], []⟩))) :=
  ⟨⟨by decide,
    match (assign_binds_positionally TestCommands.canon).1
      (TestCommands.split "tsm a hello 6").1 (TestCommands.split "tsm a hello 6").2
      (by decide) (by decide) (by decide) (by decide) (by decide) (by decide) (by decide)
      (by decide) with
    | ⟨r', h1, h2, h3⟩ => ⟨r', h1, h2.trans rfl, h3.trans rfl⟩⟩,
   match (assign_binds_positionally TestCommands.canon).1
      (TestCommands.split "tselarr 1 a b").1 (TestCommands.split "tselarr 1 a b").2
      (by decide) (by decide) (by decide) (by decide) (by decide) (by decide) (by decide)
      (by decide) with
   | ⟨r', h1, h2, h3⟩ => ⟨r', h1, (congrArg _ h2).trans rfl, h3.trans rfl⟩⟩

/-! ### A single string parameter, and no command -/

theorem foldl_merge_text (rest : List Argument) :
    ∀ a : Argument, (rest.foldl Argument.merge a).text = a.text ++ joinedRest a.suffix rest := by
  induction rest with
  | nil => intro a; simp [joinedRest]
  | cons b rest ih =>
    intro a
    simp only [List.foldl_cons, joinedRest]
    rw [ih]
    simp [Argument.merge]

theorem merged_text (args : List Tok) (hne : args ≠ []) :
    (splitArg args).text = joinedText (args.map Tok.arg) := by
  match args, hne with
  | [t], _ => simp [splitArg, Arg.text, Arg.members, joinedText, joinedRest]
  | t :: u :: rest, _ =>
    simp only [splitArg, Arg.text, Arg.members, Argument.mergeAll, List.map_cons,
      Option.getD_some, joinedText]
    exact foldl_merge_text _ _

/-- C13: when a command is resolved whose only parameter is string-typed and at least one
token remains, `_assign` binds all remaining tokens, merged into one Argument, to that
parameter; the value is the text of the tokens joined with the separators that stood between
them (the first text, then for each later token the previous suffix, its prefix and its
text), and the unassigned bucket is reset to the empty string. -/
theorem assign_single_string_parameter (canon : Canon) (r : Requisition) (args : List Tok)
    (key : Str) (a : Assignment)
    (hcmd : r.commandAssignment.conversion.value.truthy = true)
    (hargs : args ≠ [])
    (hone : r._assignments = [(key, a)]) (hstring : a.param.type = GType.string)
    (hun : r._unassigned.param.type = GType.string) :
    ∃ r', Requisition._assign canon r args = Except.ok r' ∧
      r'.conversions
        = [(key, Except.ok (AnyConversion.simple
            (Conversion.valid (Value.string (joinedText (args.map Tok.arg)))
              (splitArg args))))] ∧
      r'._unassigned.conversion
        = AnyConversion.simple (Conversion.valid (Value.string []) (Arg.fresh Argument.empty)) := by
  obtain ⟨r1, hset, hasg, hun1, _⟩ := Requisition.setParamConversion_simple r [] [] key a
    (StringType.parse (splitArg args)) hone (by simp [JSObject.keys])
  obtain ⟨r', hset', hconv', hasg', _⟩ := Requisition.setUnassigned_rest canon r1 []
    (by rw [hun1]; exact hun)
  simp only [List.length_nil, gt_iff_lt, Nat.lt_irrefl, if_false] at hset'
  refine ⟨r', ?_, ?_, hconv'⟩
  · unfold Requisition._assign
    have hlen : args.length ≠ 0 := fun h => hargs (List.length_eq_zero.1 h)
    have harg : (match args with
        | [t] => (Except.ok (Arg.token t) : Except Thrown Arg)
        | _ => MergedArgument.new args) = Except.ok (splitArg args) := by
      match args, hargs with
      | [t], _ => rfl
      | t :: u :: rest, _ => rfl
    have hparse : ∀ arg, GType.parse canon GType.string arg
        = Except.ok (AnyConversion.simple (StringType.parse arg)) := by
      intro arg; cases arg <;> rfl
    simp only [hcmd, not_true_eq_false, if_false, hlen, Requisition.assignmentCount, hone,
      JSObject.keys, List.map_cons, List.map_nil, List.length_singleton, one_ne_zero, hstring,
      if_true, harg, parseAndSet, hparse, hset]
    exact hset'
  · simp only [Requisition.conversions, hasg', hasg, List.nil_append, List.map_cons,
      List.map_nil, StringType.parse]
    rw [merged_text args hargs]

/-- C13 at a concrete input: 'tsr h h h' gives the value 'h h h'. -/
theorem assign_single_string_parameter_witness :
    ∃ r', Requisition._assign TestCommands.canon (TestCommands.split "tsr h h h").1
          (TestCommands.split "tsr h h h").2 = Except.ok r' ∧
      r'.conversions
        = [("text".toList, Except.ok (AnyConversion.simple
            (Conversion.valid (Value.string "h h h".toList)
              (Arg.merged [⟨1, ⟨['h'], [' '], []⟩⟩, ⟨2, ⟨['h'], [' '], []⟩⟩,
                ⟨3, ⟨['h'], [' '], []⟩⟩]))))] :=
  match assign_single_string_parameter TestCommands.canon (TestCommands.split "tsr h h h").1
      (TestCommands.split "tsr h h h").2 "text".toList
      ⟨⟨"text".toList, GType.string, none, none, "text".toList⟩, 0,
        AnyConversion.simple (Conversion.valid (Value.string []) (Arg.fresh ⟨[], [], []⟩))⟩
      (by decide) (by decide) (by decide) rfl (by decide) with
  | ⟨r', h1, h2, _⟩ => ⟨r', h1, h2.trans rfl⟩

theorem Arg.text_of_merged (args : List Tok) :
    (Arg.merged args).text = joinedText (args.map Tok.arg) := by
  cases args with
  | nil => rfl
  | cons t rest =>
    simp only [Arg.text, Arg.members, Argument.mergeAll, List.map_cons, Option.getD_some,
      joinedText]
    exact foldl_merge_text _ _

/-- C14: when the split resolves no command (the conversion it gives the command assignment
has a falsy value), `_assign` places every remaining token, merged in order, in the
unassigned bucket, whose status is ERROR, and the requisition has no parameter assignments.
(The requisition before the split has no parameter assignments whenever it has no command,
as every requisition built by `update` has.) -/
theorem no_command_all_unassigned (canon : Canon) (r : Requisition) (conv : Conversion)
    (args : List Tok)
    (hconv : conv.value.truthy = false)
    (hinv : r.commandAssignment.conversion.value.truthy = false → r._assignments = [])
    (hun : r._unassigned.param.type = GType.string) :
    ∃ r1 r', Requisition.setCommandConversion canon r conv = Except.ok r1 ∧
      Requisition._assign canon r1 args = Except.ok r' ∧
      r'.commandAssignment.conversion = AnyConversion.simple conv ∧
      r'._assignments = [] ∧
      r'._unassigned.conversion
        = AnyConversion.simple (StringType.parse
            (match args with
             | [] => Arg.fresh Argument.empty
             | _ :: _ => Arg.merged args)) ∧
      (args ≠ [] → r'._unassigned.conversion.value
        = AnyValue.single (Value.string (joinedText (args.map Tok.arg)))) ∧
      UnassignedAssignment.getStatus r'._unassigned none = Status.ERROR := by
  have hsplit : ∃ r1, Requisition.setCommandConversion canon r conv = Except.ok r1 ∧
      r1.commandAssignment.conversion = AnyConversion.simple conv ∧ r1._assignments = [] ∧
      r1._unassigned = r._unassigned := by
    unfold Requisition.setCommandConversion
    rcases Assignment.setConversion_simple_cases r.commandAssignment conv with ⟨h, hval⟩ | ⟨ev, h⟩
    · rw [h]
      refine ⟨_, rfl, rfl, ?_, rfl⟩
      simp only [Requisition.assign]
      exact hinv (by rw [hval]; exact hconv)
    · rw [h]
      simp only [commandAssignments, hconv, Bool.false_eq_true, if_false]
      exact ⟨_, rfl, rfl, rfl, rfl⟩
  obtain ⟨r1, h1, hc1, ha1, hu1⟩ := hsplit
  obtain ⟨r', hset, hconv', hasg, hcmd'⟩ := Requisition.setUnassigned_rest canon r1 args
    (by rw [hu1]; exact hun)
  refine ⟨r1, r', h1, ?_, by rw [hcmd', hc1], by rw [hasg, ha1], hconv', ?_, rfl⟩
  · unfold Requisition._assign
    have hfalsy : r1.commandAssignment.conversion.value.truthy = false := by
      rw [hc1]; exact hconv
    simp only [hfalsy, Bool.false_eq_true, not_false_eq_true, if_true]
    cases args with
    | nil => simpa using hset
    | cons t rest => simpa using hset
  · intro hne
    rw [hconv']
    cases args with
    | nil => exact absurd rfl hne
    | cons t rest =>
      simp only [AnyConversion.value, StringType.parse, Conversion.valid]
      rw [Arg.text_of_merged]

/-- C14 at a concrete input: 'fred one' leaves `fred` as the text of the command argument
and `one` as the text of the unassigned argument. -/
theorem no_command_all_unassigned_witness :
    ∃ r1 r', Requisition.setCommandConversion TestCommands.canon
          { Requisition.new ⟨[], []⟩ with
            _args := some (toSlots (_tokenize (some "fred one".toList))) }
          (SelectionType.parse GType.command (commandLookup TestCommands.canon)
            (Arg.token ⟨0, ⟨"fred".toList, [], []⟩⟩)) = Except.ok r1 ∧
      Requisition._assign TestCommands.canon r1 [⟨1, ⟨"one".toList, [' '], []⟩⟩]
        = Except.ok r' ∧
      r'.commandAssignment.conversion.arg.text = "fred".toList ∧
      r'._assignments = [] ∧
      r'._unassigned.conversion.arg.text = "one".toList :=
  match no_command_all_unassigned TestCommands.canon
      { Requisition.new ⟨[], []⟩ with
        _args := some (toSlots (_tokenize (some "fred one".toList))) }
      (SelectionType.parse GType.command (commandLookup TestCommands.canon)
        (Arg.token ⟨0, ⟨"fred".toList, [], []⟩⟩))
      [⟨1, ⟨"one".toList, [' '], []⟩⟩] (by decide) (by decide) (by decide) with
  | ⟨r1, r', h1, h2, h3, h4, h5, _⟩ =>
    ⟨r1, r', h1, h2, by rw [h3]; decide, h4, by rw [h5]; decide⟩

/-! ### Unique prefixes of parameter names -/

/-- C15 (the code at a failing input): for the sibling parameters `abc` and `txt` the
computed unique prefixes are the whole names `abc` and `txt`, not `a` and `t`: the list of
names the prefix is lengthened against holds the parameter's own name. The parameters of
the test command `tsm` (`abc`, `txt`, `num`) get their whole names too, so `-t` is not
accepted as a flag of `txt`. -/
theorem uniquePrefix_is_whole_name :
    computeUniquePrefix "abc".toList [some "abc".toList, some "txt".toList]
      = Except.ok "abc".toList ∧
    computeUniquePrefix "txt".toList [some "abc".toList, some "txt".toList]
      = Except.ok "txt".toList ∧
    (TestCommands.command "tsm".toList).params.map (fun p => (p.name, p.uniquePrefix))
      = [("abc".toList, "abc".toList), ("txt".toList, "txt".toList),
         ("num".toList, "num".toList)] ∧
    (TestCommands.command "tsm".toList).params.map (fun p => p.isKnownAs "-t".toList)
      = [false, false, false] :=
  ⟨rfl, rfl, by decide, by decide⟩

/-! ### The status of a requisition -/

theorem getStatus_fold (ss : List Status) :
    ∀ init : Status,
      (ss.foldl (fun status assignStatus =>
        if assignStatus.valueOf > status.valueOf then assignStatus else status) init).valueOf
        = max init.valueOf (Status.maxValue ss) := by
  induction ss with
  | nil => intro init; simp [Status.maxValue]
  | cons s ss ih =>
    intro init
    simp only [List.foldl_cons, Status.maxValue, List.map_cons, List.foldr_cons] at ih ⊢
    rw [ih]
    split <;> omega

/-- C16 (as stated, refuted): after `update` on 'tsn' there is no parameter assignment, so
the worst status over the parameter assignments is VALID; `getStatus()` returns INCOMPLETE,
the status of the command assignment, which it always includes. -/
theorem getStatus_includes_command :
    (TestCommands.update "tsn" 3).map
        (fun r => (r._assignments.map (fun p => p.2.getStatus none), r.getStatus,
          CommandAssignment.getStatus r.commandAssignment none))
      = Except.ok ([], Status.INCOMPLETE, Status.INCOMPLETE) :=
  rfl

/-- C16 (amended): `Requisition.getStatus()` returns the worst (maximum) status over the
command assignment and the parameter assignments; the unassigned bucket is not
considered. -/
theorem getStatus_is_maximum (r : Requisition) :
    r.getStatus.valueOf
      = Status.maxValue (CommandAssignment.getStatus r.commandAssignment none ::
          r._assignments.map (fun p => p.2.getStatus none)) := by
  unfold Requisition.getStatus
  rw [getStatus_fold]
  simp [Status.valueOf]

/-! ### Assignment.setConversion and Assignment.getStatus -/

/-- C17 (as stated, refuted): an assignment holds the number 6 parsed from the text `6`;
setting the conversion with the same value 6 and the argument text `06` raises the
`assignmentChange` event. -/
theorem setConversion_same_value_other_text_raises :
    Assignment.setConversion
        ⟨⟨"num".toList, GType.number none none, none, none, "num".toList⟩, 0,
          AnyConversion.simple (Conversion.valid (Value.number 6) (Arg.fresh ⟨['6'], [], []⟩))⟩
        (AnyConversion.simple
          (Conversion.valid (Value.number 6) (Arg.fresh ⟨['0', '6'], [], []⟩)))
      = Except.ok
          (⟨⟨"num".toList, GType.number none none, none, none, "num".toList⟩, 0,
            AnyConversion.simple
              (Conversion.valid (Value.number 6) (Arg.fresh ⟨['0', '6'], [], []⟩))⟩,
           some ⟨AnyConversion.simple
              (Conversion.valid (Value.number 6) (Arg.fresh ⟨['0', '6'], [], []⟩)),
             some (AnyConversion.simple
              (Conversion.valid (Value.number 6) (Arg.fresh ⟨['6'], [], []⟩)))⟩) :=
  rfl

/-- C17 (amended): `setConversion(c)` on an assignment that holds the conversion `old`
stores `c` and raises the `assignmentChange` event, with `c` and `old` in it, if and only
if `c` does not equal `old`, that is, if the value of `c` is not strictly equal to the value
of `old` or the argument of `c` does not equal the argument of `old`. This is so when both
are plain conversions; for a plain `c` and an array conversion `old` the event is always
raised. -/
theorem setConversion_raises_iff_not_equal (param : Parameter) (paramIndex : Int)
    (c old : Conversion) (oldArray : ArrayConversion) :
    (∃ event,
      Assignment.setConversion ⟨param, paramIndex, AnyConversion.simple old⟩
          (AnyConversion.simple c)
        = Except.ok (⟨param, paramIndex, AnyConversion.simple c⟩, event) ∧
      (event = none ↔ (c.value.strictEquals old.value = true ∧ c.arg.equals old.arg = true)) ∧
      (event ≠ none →
        event = some ⟨AnyConversion.simple c, some (AnyConversion.simple old)⟩)) ∧
    Assignment.setConversion ⟨param, paramIndex, AnyConversion.array oldArray⟩
        (AnyConversion.simple c)
      = Except.ok (⟨param, paramIndex, AnyConversion.simple c⟩,
          some ⟨AnyConversion.simple c, some (AnyConversion.array oldArray)⟩) := by
  refine ⟨?_, rfl⟩
  unfold Assignment.setConversion AnyConversion.equals
  simp only [AnyConversion.valueEquals, AnyConversion.argEquals, AnyConversion.arg]
  cases hv : c.value.strictEquals old.value <;> cases ha : c.arg.equals old.arg
  · exact ⟨_, rfl, by simp, fun _ => rfl⟩
  · exact ⟨_, rfl, by simp, fun _ => rfl⟩
  · exact ⟨_, rfl, by simp, fun _ => rfl⟩
  · exact ⟨_, rfl, by simp, fun h => absurd rfl h⟩

/-- C18: `Assignment.getStatus(arg)` returns VALID when the parameter does not require data
and its argument is blank; it returns ERROR when the parameter requires data and the
conversion provides none; in every other case it returns the status of the conversion,
which for an array conversion and a sub-argument that carries a conversion is the status of
that sub-argument's conversion. -/
theorem Assignment.getStatus_spec (a : Assignment) (arg : Option ArgSlot) :
    (a.param.isDataRequired = false ∧ a.conversion.arg.isBlank = true →
      a.getStatus arg = Status.VALID) ∧
    (a.param.isDataRequired = true ∧ a.conversion.isDataProvided = false →
      a.getStatus arg = Status.ERROR) ∧
    (¬ (a.param.isDataRequired = false ∧ a.conversion.arg.isBlank = true) →
      ¬ (a.param.isDataRequired = true ∧ a.conversion.isDataProvided = false) →
      a.getStatus arg = a.conversion.getStatus arg) ∧
    (∀ (c : Conversion), a.conversion = AnyConversion.simple c →
      a.conversion.getStatus arg = c.getStatus) ∧
    (∀ (c : ArrayConversion) (slot : ArgSlot) (sub : Conversion),
      a.conversion = AnyConversion.array c → arg = some slot → slot.conversion = some sub →
      a.conversion.getStatus arg = sub.getStatus) := by
  refine ⟨?_, ?_, ?_, ?_, ?_⟩
  · rintro ⟨h1, h2⟩
    simp [Assignment.getStatus, h1, h2]
  · rintro ⟨h1, h2⟩
    simp [Assignment.getStatus, h1, h2]
  · intro h1 h2
    unfold Assignment.getStatus
    cases hreq : a.param.isDataRequired <;> cases hblank : a.conversion.arg.isBlank <;>
      cases hprov : a.conversion.isDataProvided <;> simp_all
  · intro c hc
    rw [hc]; rfl
  · intro c slot sub hc harg hsub
    rw [hc, harg]
    simp [AnyConversion.getStatus, hsub]

/-- C18 at a concrete input: a required number parameter whose conversion is the VALID
number 6 has the status of that conversion. -/
theorem Assignment.getStatus_spec_witness :
    Assignment.getStatus
        ⟨⟨"num".toList, GType.number none none, none, none, "num".toList⟩, 0,
          AnyConversion.simple (Conversion.valid (Value.number 6) (Arg.fresh ⟨['6'], [], []⟩))⟩
        none
      = Status.VALID :=
  ((Assignment.getStatus_spec
      ⟨⟨"num".toList, GType.number none none, none, none, "num".toList⟩, 0,
        AnyConversion.simple (Conversion.valid (Value.number 6) (Arg.fresh ⟨['6'], [], []⟩))⟩
      none).2.2.1 (by decide) (by decide)).trans rfl

/-! ### The status markup of the input -/

theorem mapM_ok {α β : Type} (f : α → Except Thrown β) (g : α → β) :
    ∀ l : List α, (∀ x ∈ l, f x = Except.ok (g x)) → l.mapM f = Except.ok (l.map g)
  | [], _ => rfl
  | x :: l, h => by
    rw [List.mapM_cons, h x (List.mem_cons_self _ _),
      mapM_ok f g l (fun y hy => h y (List.mem_cons_of_mem _ hy))]
    rfl

theorem mem_slotTraces {slot : ArgSlot} {t : ArgTrace} (h : t ∈ slotTraces slot) :
    t.arg = slot := by
  simp only [slotTraces, List.mem_append, List.mem_map] at h
  rcases h with (⟨_, _, rfl⟩ | ⟨_, _, rfl⟩) | ⟨_, _, rfl⟩ <;> rfl

/-- C19 (as stated, refuted): on 'ts x' with the cursor at 4 the cursor is in the text of
`x`. The two characters of `ts` lie outside the argument under the cursor and their status
is INCOMPLETE (several command names start with `ts`), yet they are not promoted to ERROR,
because they belong to the command assignment: the markup is I, I, V, E. -/
theorem markup_incomplete_command_outside_cursor :
    (TestCommands.update "ts x" 4).map (fun r => r.getInputStatusMarkup)
      = Except.ok (Except.ok
          [Status.INCOMPLETE, Status.INCOMPLETE, Status.VALID, Status.ERROR]) :=
  rfl

set_option maxHeartbeats 1000000 in
/-- On 'tsv option ' with the cursor at 11 the cursor is in the suffix of `option`, not in its
text, and the INCOMPLETE text `option` is promoted to ERROR: the markup the repository's
test expects. -/
theorem markup_incomplete_promoted_at_suffix :
    (TestCommands.update "tsv option " 11).map (fun r => r.getInputStatusMarkup)
      = Except.ok (Except.ok
          [Status.VALID, Status.VALID, Status.VALID, Status.VALID, Status.ERROR, Status.ERROR,
           Status.ERROR, Status.ERROR, Status.ERROR, Status.ERROR, Status.VALID]) :=
  rfl

/-- C19 (amended): in the array returned by `getInputStatusMarkup()` every prefix and
suffix character is VALID and every text character carries the status of its owning
assignment, except that INCOMPLETE is promoted to ERROR when the owner is not the command
assignment and the cursor (the character before it, or the first character) is not in the
text of the same argument. -/
theorem getInputStatusMarkup_spec (r : Requisition) (slots : List ArgSlot) (start : Nat)
    (cTrace : ArgTrace) (statusOf : ArgSlot → Status)
    (hargs : r._args = some slots) (hcursor : r.cursorStart = some start)
    (hctrace : ((slots.map slotTraces).flatten)[if start = 0 then 0 else start - 1]?
      = some cTrace)
    (hstatus : ∀ slot ∈ slots, r.slotStatus slot = Except.ok (statusOf slot)) :
    r.getInputStatusMarkup
      = Except.ok (((slots.map slotTraces).flatten).map (fun t =>
          markupStatus (statusOf t.arg) t.part
            (decide (t.arg.id = cTrace.arg.id ∧ cTrace.part = Part.text))
            (decide (t.arg.assignment = some Owner.command)))) := by
  unfold Requisition.getInputStatusMarkup Requisition.createInputArgTrace
  simp only [hargs, hcursor, hctrace]
  apply mapM_ok
  intro t ht
  obtain ⟨l, hl, htl⟩ := List.mem_flatten.1 ht
  obtain ⟨slot, hslot, rfl⟩ := List.mem_map.1 hl
  have harg : t.arg = slot := mem_slotTraces htl
  have hs := hstatus slot hslot
  rw [← harg] at hs
  unfold traceStatus markupStatus
  by_cases hpart : t.part = Part.text
  · simp only [hpart, if_true, hs, ne_eq, not_true_eq_false, if_false]
    by_cases hinc : statusOf t.arg = Status.INCOMPLETE
    · by_cases hid : t.arg.id = cTrace.arg.id <;> by_cases hcp : cTrace.part = Part.text <;>
        by_cases hown : t.arg.assignment = some Owner.command <;> simp [hinc, hid, hcp, hown]
    · simp [hinc]
  · simp [hpart]

/-- C19 at a concrete input: on 'tsv o 6' with the cursor at 7 the cursor is in the text of
`6`; the text `o` is an INCOMPLETE option name outside the cursor and is marked ERROR. -/
theorem getInputStatusMarkup_spec_witness :
    (TestCommands.updated "tsv o 6" 7).getInputStatusMarkup
      = Except.ok [Status.VALID, Status.VALID, Status.VALID, Status.VALID, Status.ERROR,
          Status.VALID, Status.VALID] :=
  (getInputStatusMarkup_spec (TestCommands.updated "tsv o 6" 7)
    [⟨0, ⟨"tsv".toList, [], []⟩, some Owner.command, none⟩,
     ⟨1, ⟨['o'], [' '], []⟩, some (Owner.param 0), none⟩,
     ⟨2, ⟨['6'], [' '], []⟩, some (Owner.param 1), none⟩]
    7 ⟨⟨2, ⟨['6'], [' '], []⟩, some (Owner.param 1), none⟩, '6', Part.text⟩
    (fun slot => if slot.id = 1 then Status.INCOMPLETE else Status.VALID)
    (by decide) (by decide) (by decide)
    (by
      intro slot h
      simp only [List.mem_cons, List.mem_singleton, List.not_mem_nil, or_false] at h
      rcases h with rfl | rfl | rfl <;> rfl)).trans rfl

/-! ### The assignment at a cursor position -/

theorem assignFor_flatten_cons (g : Nat → ArgSlot → List (Option Owner)) (k : Nat)
    (a : ArgSlot) (l : List ArgSlot) :
    ((List.range' k (a :: l).length).zipWith g (a :: l)).flatten
      = g k a ++ ((List.range' (k + 1) l.length).zipWith g l).flatten := by
  simp [List.range'_succ]

theorem assignFor_flatten_append (g : Nat → ArgSlot → List (Option Owner)) :
    ∀ (l1 l2 : List ArgSlot) (k : Nat),
      ((List.range' k (l1 ++ l2).length).zipWith g (l1 ++ l2)).flatten
        = ((List.range' k l1.length).zipWith g l1).flatten ++
          ((List.range' (k + l1.length) l2.length).zipWith g l2).flatten
  | [], l2, k => by simp
  | a :: l1, l2, k => by
    rw [List.cons_append, assignFor_flatten_cons, assignFor_flatten_cons,
      assignFor_flatten_append g l1 l2 (k + 1)]
    simp [Nat.add_assoc, Nat.add_comm 1]

theorem assignFor_flatten_length (g : Nat → ArgSlot → List (Option Owner))
    (hg : ∀ i s, (g i s).length = s.arg.toString.length) :
    ∀ (l : List ArgSlot) (k : Nat),
      ((List.range' k l.length).zipWith g l).flatten.length
        = (joinArgs (l.map ArgSlot.arg)).length
  | [], k => by simp [joinArgs]
  | a :: l, k => by
    rw [assignFor_flatten_cons, List.length_append, hg, assignFor_flatten_length g hg l (k + 1)]
    simp [joinArgs]

theorem assignForArg_length (r : Requisition) (slots : List ArgSlot) (i : Nat) (s : ArgSlot) :
    (assignForArg r slots i s).length = s.arg.toString.length := by
  simp [assignForArg, Argument.toString, Nat.add_assoc]

theorem assignForArg_at (r : Requisition) (before after : List ArgSlot) (slot : ArgSlot) :
    assignForArg r (before ++ slot :: after) before.length slot
      = List.replicate slot.arg.prefix_.length slot.assignment ++
        List.replicate slot.arg.text.length slot.assignment ++
        List.replicate slot.arg.suffix.length (suffixOwner r slot after) := by
  unfold assignForArg suffixOwner
  cases after with
  | nil =>
    simp only [List.length_append, List.length_cons, List.length_nil, gt_iff_lt,
      Nat.lt_irrefl, if_false]
    cases slot.assignment <;> rfl
  | cons next rest =>
    have h1 : (before ++ slot :: next :: rest).length > before.length + 1 := by simp
    have h2 : (before ++ slot :: next :: rest)[before.length + 1]? = some next := by
      rw [List.getElem?_append_right (by omega)]
      simp
    simp only [h1, if_true, h2, Option.bind]

/-- The array `assignForPos` around one token. -/
theorem assignForPos_split (r : Requisition) (before after : List ArgSlot) (slot : ArgSlot) :
    ∃ front back, front.length = (joinArgs (before.map ArgSlot.arg)).length ∧
      r.assignForPos (before ++ slot :: after)
        = front ++ ((List.replicate slot.arg.prefix_.length slot.assignment ++
            List.replicate slot.arg.text.length slot.assignment ++
            List.replicate slot.arg.suffix.length (suffixOwner r slot after)) ++ back) := by
  refine ⟨((List.range' 0 before.length).zipWith
      (assignForArg r (before ++ slot :: after)) before).flatten,
    ((List.range' (0 + before.length + 1) after.length).zipWith
      (assignForArg r (before ++ slot :: after)) after).flatten,
    assignFor_flatten_length _ (assignForArg_length r (before ++ slot :: after)) before 0, ?_⟩
  unfold Requisition.assignForPos
  rw [List.range_eq_range', assignFor_flatten_append, assignFor_flatten_cons,
    Nat.zero_add, assignForArg_at]

/-- C20: `getAssignmentAt(0)` is the command assignment; for a position `c` from 1 to the
length of the input it is the assignment that owns character `c - 1`: the prefix and text
characters of a token belong to that token's assignment, and its suffix characters to the
next token's assignment or, for the last token, to the next parameter's assignment when one
exists (the parameter whose index follows the owner's `paramIndex`, which is -1 for the
command and for the unassigned bucket). -/
theorem getAssignmentAt_spec (r : Requisition) (before after : List ArgSlot) (slot : ArgSlot)
    (h : r._args = some (before ++ slot :: after)) :
    r.getAssignmentAt 0 = Except.ok (some Owner.command) ∧
    (∀ j, j < slot.arg.prefix_.length + slot.arg.text.length →
      r.getAssignmentAt ((joinArgs (before.map ArgSlot.arg)).length + j + 1)
        = Except.ok slot.assignment) ∧
    (∀ j, j < slot.arg.suffix.length →
      r.getAssignmentAt ((joinArgs (before.map ArgSlot.arg)).length +
          (slot.arg.prefix_.length + slot.arg.text.length) + j + 1)
        = Except.ok (suffixOwner r slot after)) := by
  obtain ⟨front, back, hlen, hpos⟩ := assignForPos_split r before after slot
  refine ⟨by simp [Requisition.getAssignmentAt, h], ?_, ?_⟩
  · intro j hj
    simp only [Requisition.getAssignmentAt, h, Nat.add_one_ne_zero, if_false,
      Nat.add_sub_cancel, hpos, ← hlen]
    rw [List.getElem?_append_right (by omega), Nat.add_sub_cancel_left,
      List.getElem?_append_left (by simp; omega),
      List.getElem?_append_left (by simp; omega), ← List.replicate_add,
      List.getElem?_replicate]
    simp [hj]
  · intro j hj
    simp only [Requisition.getAssignmentAt, h, Nat.add_one_ne_zero, if_false,
      Nat.add_sub_cancel, hpos, ← hlen]
    rw [Nat.add_assoc front.length, List.getElem?_append_right (by omega),
      Nat.add_sub_cancel_left, List.getElem?_append_left (by simp; omega),
      ← List.replicate_add, List.getElem?_append_right (by simp),
      List.getElem?_replicate]
    simp [hj]

/-- C20 at a concrete input: for 'tsv ' position 4 belongs to parameter 0 and position 2 to
the command. -/
theorem getAssignmentAt_spec_witness :
    (TestCommands.updated "tsv " 4).getAssignmentAt 4 = Except.ok (some (Owner.param 0)) ∧
    (TestCommands.updated "tsv " 4).getAssignmentAt 2 = Except.ok (some Owner.command) :=
  ⟨(getAssignmentAt_spec (TestCommands.updated "tsv " 4) []
      [] ⟨0, ⟨"tsv".toList, [], [' ']⟩, some Owner.command, none⟩ (by decide)).2.2 0
      (by decide),
   (getAssignmentAt_spec (TestCommands.updated "tsv " 4) []
      [] ⟨0, ⟨"tsv".toList, [], [' ']⟩, some Owner.command, none⟩ (by decide)).2.1 1
      (by decide)⟩

/-! ### The tokens of the live list and the arguments of the assignments -/

/-- C21 (the code at a failing input): after `update` on 'help --hidden --hidden' (the
`help` command has the boolean parameter `hidden`) every token of the live list has an
owner, but the list is not the tokens of the current arguments: the first `--hidden` is
owned by the `hidden` assignment and is in no argument, the current argument of `hidden`
being the second `--hidden` alone. -/
theorem update_repeated_flag_token_in_no_argument :
    (HelpCommand.update "help --hidden --hidden" 22).map
        (fun r => (r._args.map (fun slots => slots.map (fun s => (s.id, s.assignment))),
          r.argumentTokens,
          (JSObject.own r._assignments "hidden".toList).map (fun a => a.conversion.tokens)))
      = Except.ok
          (some [(0, some Owner.command), (1, some (Owner.param 1)), (2, some (Owner.param 1))],
           [0, 2],
           some [⟨2, ⟨"--hidden".toList, [' '], []⟩⟩]) :=
  rfl

theorem assignSlots_arg (slots : List ArgSlot) (c : AnyConversion) (owner : Owner) :
    (assignSlots slots c owner).map (fun s => (s.id, s.arg))
      = slots.map (fun s => (s.id, s.arg)) := by
  unfold assignSlots
  rw [List.map_map]
  apply List.map_congr_left
  intro s _
  simp only [Function.comp]
  split <;> split <;> rfl

theorem Requisition.assign_args (r : Requisition) (c : AnyConversion) (owner : Owner) :
    (Requisition.assign r c owner)._args.map (fun slots => slots.map (fun s => (s.id, s.arg)))
      = r._args.map (fun slots => slots.map (fun s => (s.id, s.arg))) := by
  unfold Requisition.assign
  cases r._args with
  | none => rfl
  | some slots => simp [assignSlots_arg]

theorem Requisition.toString_of_args (r r' : Requisition)
    (h : r'._args.map (fun slots => slots.map (fun s => (s.id, s.arg)))
      = r._args.map (fun slots => slots.map (fun s => (s.id, s.arg)))) :
    r'.toString = r.toString := by
  unfold Requisition.toString
  have key : ∀ o : Option (List ArgSlot),
      o.map (fun slots => joinArgs (slots.map ArgSlot.arg))
        = (o.map (fun slots => slots.map (fun s => (s.id, s.arg)))).map
            (fun l => joinArgs (l.map Prod.snd)) := by
    intro o
    cases o with
    | none => rfl
    | some slots =>
      simp only [Option.map_some', List.map_map]
      rfl
  rw [key, key, h]

/-- C22: setting the conversion of a parameter assignment, from outside `update`, to a
conversion that equals the current one (an equal value and an equal argument) raises no
event: the conversion is stored, the token list `_args` holds the same argument objects in
the same order, and `toString()` returns the same string. -/
theorem setConversion_equal_keeps_args (canon : Canon) (r : Requisition) (key : Str)
    (a : Assignment) (conversion : AnyConversion)
    (hown : JSObject.own r._assignments key = some a)
    (hequal : conversion.equals (some a.conversion) = Except.ok true) :
    ∃ r', Requisition.setConversion canon r key conversion = Except.ok r' ∧
      JSObject.own r'._assignments key = some { a with conversion := conversion } ∧
      r'._args.map (fun slots => slots.map (fun s => (s.id, s.arg)))
        = r._args.map (fun slots => slots.map (fun s => (s.id, s.arg))) ∧
      r'.toString = r.toString := by
  have hset : a.setConversion conversion
      = Except.ok ({ a with conversion := conversion }, none) := by
    unfold Assignment.setConversion
    rw [hequal]
  have hargs := Requisition.assign_args
    { r with _assignments := JSObject.set r._assignments key { a with conversion := conversion } }
    conversion (Owner.param a.paramIndex.toNat)
  refine ⟨_, by simp only [Requisition.setConversion, hown, hset], ?_, hargs, ?_⟩
  · simp only [Requisition.assign]
    rw [JSObject.own_set]
    simp
  · exact Requisition.toString_of_args _ _ hargs

/-- C22 at a concrete input: after 'tsu 6' the parameter `num` holds 6 over the token ` 6`;
setting it to the number 6 over a new Argument ` 6` keeps the input 'tsu 6'. -/
theorem setConversion_equal_keeps_args_witness :
    ∃ r', Requisition.setConversion TestCommands.canon (TestCommands.updated "tsu 6" 5)
          "num".toList
          (AnyConversion.simple (Conversion.valid (Value.number 6) (Arg.fresh ⟨['6'], [' '], []⟩)))
        = Except.ok r' ∧
      r'.toString = some "tsu 6".toList :=
  match setConversion_equal_keeps_args TestCommands.canon (TestCommands.updated "tsu 6" 5)
      "num".toList
      ⟨⟨"num".toList, GType.number none none, none, none, "num".toList⟩, 0,
        AnyConversion.simple
          (Conversion.valid (Value.number 6) (Arg.token ⟨1, ⟨['6'], [' '], []⟩⟩))⟩
      (AnyConversion.simple (Conversion.valid (Value.number 6) (Arg.fresh ⟨['6'], [' '], []⟩)))
      (by decide) rfl with
  | ⟨r', h1, _, _, h4⟩ => ⟨r', h1, h4.trans (by decide)⟩

/-! ### exec and the report list -/

/-- C23 (the code at failing inputs): `exec` on the typed input 'tsm --txt hello 5' throws the
TypeError of `update`, and on 'tsm', which resolves the command `tsm`, it throws a TypeError
while building the canonical string (the selection parameter `abc` has the value `null`);
in both cases it neither returns false nor invokes the action and returns true. On 'tsn',
which resolves a command without an action, it returns true having invoked nothing. On
'fred', which resolves no command, it returns false and adds no report. -/
theorem exec_throws_with_command_resolved (actions : Nat → ActionOutcome) :
    Requisition.exec TestCommands.canon actions (Requisition.new ⟨[], []⟩)
        (ExecInput.typed ⟨some "tsm --txt hello 5".toList, some 17⟩)
      = Except.error (Thrown.typeError "valueArg is null or undefined".toList) ∧
    Requisition.exec TestCommands.canon actions (Requisition.new ⟨[], []⟩)
        (ExecInput.typed ⟨some "tsm".toList, some 3⟩)
      = Except.error (Thrown.typeError "value is null".toList) ∧
    (Requisition.exec TestCommands.canon actions (Requisition.new ⟨[], []⟩)
        (ExecInput.typed ⟨some "tsn".toList, some 3⟩)).map
        (fun e => (e.returned, e.invoked, e.requisition.reportList._reports.length))
      = Except.ok (true, [], 1) ∧
    (Requisition.exec TestCommands.canon actions (Requisition.new ⟨[], []⟩)
        (ExecInput.typed ⟨some "fred".toList, some 4⟩)).map
        (fun e => (e.returned, e.invoked, e.requisition.reportList._reports.length))
      = Except.ok (false, [], 0) :=
  ⟨rfl, rfl, rfl, rfl⟩

/-- While the report list has room: when `update` on the typed input resolves a command
whose action throws, `exec` does not propagate what the action threw: it returns true,
having invoked the action once, and the report it adds has `completed = true`,
`error = true` and the thrown value as `output`. (The canonical string of the requisition can
be built and the report list holds fewer than `maxRequestLength` reports.) -/
theorem exec_action_throws (canon : Canon) (actions : Nat → ActionOutcome) (r r1 : Requisition)
    (input : Input) (c : Command) (k : Nat) (ex : Value) (typed : Str)
    (hupdate : Requisition.update canon r input = Except.ok r1)
    (hcmd : r1.commandAssignment.conversion.value = AnyValue.single (Value.command c))
    (hexec : c.exec = some k) (hthrows : actions k = ActionOutcome.throws ex)
    (htyped : r1.toCanonicalString = Except.ok typed)
    (hroom : r1.reportList._reports.length < r1.reportList.maxRequestLength) :
    Requisition.exec canon actions r (ExecInput.typed input)
      = Except.ok
          ⟨true,
           { r1 with reportList :=
              { r1.reportList with
                _reports := r1.reportList._reports ++
                  [⟨Value.command c, typed, true, some true, some ex⟩] } },
           [k]⟩ := by
  have hadd : ReportList.addReport r1.reportList
      ⟨Value.command c, typed, true, some true, some ex⟩
      = Except.ok { r1.reportList with
          _reports := r1.reportList._reports ++
            [⟨Value.command c, typed, true, some true, some ex⟩] } := by
    unfold ReportList.addReport
    simp only [List.length_append, List.length_singleton]
    rw [if_neg (by omega)]
  simp only [Requisition.exec, hupdate, Except.map, Value.truthy, Bool.false_eq_true, if_false,
    hcmd, AnyValue.toValue, not_true_eq_false, htyped, callAction, hexec, hthrows, if_true,
    hadd]

/-- With room in the report list: 'tsr x' with an action that throws the string `boom`. -/
theorem exec_action_throws_witness :
    (Requisition.exec TestCommands.canon
        (fun _ => ActionOutcome.throws (Value.string "boom".toList))
        (Requisition.new ⟨[], []⟩) (ExecInput.typed ⟨some "tsr x".toList, some 5⟩)).map
        (fun e => (e.returned, e.invoked,
          e.requisition.reportList._reports.map (fun p => (p.completed, p.error, p.output))))
      = Except.ok (true, [1], [(true, some true, some (Value.string "boom".toList))]) :=
  (congrArg (fun x => x.map (fun e => (e.returned, e.invoked,
      e.requisition.reportList._reports.map (fun p => (p.completed, p.error, p.output)))))
    (exec_action_throws TestCommands.canon
      (fun _ => ActionOutcome.throws (Value.string "boom".toList))
      (Requisition.new ⟨[], []⟩) (TestCommands.updated "tsr x" 5) ⟨some "tsr x".toList, some 5⟩
      (TestCommands.command "tsr".toList) 1 (Value.string "boom".toList) "tsr x".toList
      rfl (by decide) (by decide) rfl rfl (by decide))).trans rfl

/-- C24 (the code at a failing input): with 100 reports held by the report list, `exec` on
'tsr x' with an action that throws the string `boom` does not return true: `addReport` is
called after the `try` block and throws a TypeError, which `exec` propagates. With 99
reports held the same call returns true and the report added has `completed = true`,
`error = true` and `boom` as output. -/
theorem exec_action_throws_on_full_list :
    Requisition.exec TestCommands.canon
        (fun _ => ActionOutcome.throws (Value.string "boom".toList))
        { Requisition.new ⟨[], []⟩ with
          reportList := ⟨List.replicate 100 ⟨Value.null, [], true, some false, none⟩, 100⟩ }
        (ExecInput.typed ⟨some "tsr x".toList, some 5⟩)
      = Except.error (Thrown.typeError "this._reports.shiftObject is not a function".toList) ∧
    (Requisition.exec TestCommands.canon
        (fun _ => ActionOutcome.throws (Value.string "boom".toList))
        { Requisition.new ⟨[], []⟩ with
          reportList := ⟨List.replicate 99 ⟨Value.null, [], true, some false, none⟩, 100⟩ }
        (ExecInput.typed ⟨some "tsr x".toList, some 5⟩)).map
        (fun e => (e.returned, e.invoked, e.requisition.reportList._reports.length,
          (e.requisition.reportList._reports.getLast?).map
            (fun p => (p.completed, p.error, p.output))))
      = Except.ok (true, [1], 100, some (true, some true, some (Value.string "boom".toList))) :=
  ⟨rfl, rfl⟩

/-- C25 (the code at a failing input): adding a report to a list that holds 100 reports
(the default `maxRequestLength`) does not drop the oldest and succeed: it throws a
TypeError, because `shiftObject` is not a function of the array. Below that number the
report is appended. -/
theorem addReport_on_full_list_throws :
    ReportList.addReport
        ⟨List.replicate 100 ⟨Value.null, [], true, some false, none⟩, 100⟩
        ⟨Value.null, ['x'], true, some false, none⟩
      = Except.error (Thrown.typeError "this._reports.shiftObject is not a function".toList) ∧
    ReportList.addReport
        ⟨List.replicate 99 ⟨Value.null, [], true, some false, none⟩, 100⟩
        ⟨Value.null, ['x'], true, some false, none⟩
      = Except.ok
          ⟨List.replicate 99 ⟨Value.null, [], true, some false, none⟩ ++
            [⟨Value.null, ['x'], true, some false, none⟩], 100⟩ :=
  ⟨rfl, rfl⟩

/-- C26 (the code at a failing input): `exec` called with pre-parsed `args` for the command
`tsu`, with `visible` absent or false, invokes the action and adds a report to the report
list; the report is left with `completed = false`. -/
theorem exec_invisible_adds_report :
    (Requisition.exec TestCommands.canon (fun _ => ActionOutcome.returns Value.undefined)
        (Requisition.new ⟨[], []⟩) (ExecInput.args (some "tsu".toList) none)).map
        (fun e => (e.returned, e.invoked,
          e.requisition.reportList._reports.map (fun p => (p.completed, p.error, p.output))))
      = Except.ok (true, [2], [(false, none, none)]) ∧
    (Requisition.exec TestCommands.canon (fun _ => ActionOutcome.returns Value.undefined)
        (Requisition.new ⟨[], []⟩) (ExecInput.args (some "tsu".toList) (some false))).map
        (fun e => (e.returned, e.invoked,
          e.requisition.reportList._reports.map (fun p => (p.completed, p.error, p.output))))
      = Except.ok (true, [2], [(false, none, none)]) :=
  ⟨rfl, rfl⟩

/-! ### The registry: removeCommand and addCommand -/

/-- C27 (the code at a failing input): `removeCommand('tsv')`, called with the name of a
registered command, removes nothing: `getCommand('tsv')` still returns the command and
`tsv` is still among `getCommandNames()`. Called with the command object it removes the
command and leaves the others. -/
theorem removeCommand_by_name_removes_nothing :
    Canon.removeCommand TestCommands.canon (CommandOrName.name "tsv".toList)
      = TestCommands.canon ∧
    (Canon.removeCommand TestCommands.canon (CommandOrName.name "tsv".toList)).getCommand
        "tsv".toList
      = some (TestCommands.command "tsv".toList) ∧
    "tsv".toList ∈
      (Canon.removeCommand TestCommands.canon (CommandOrName.name "tsv".toList)).getCommandNames ∧
    (Canon.removeCommand TestCommands.canon
        (CommandOrName.command (some "tsv".toList))).getCommand "tsv".toList = none ∧
    (Canon.removeCommand TestCommands.canon
        (CommandOrName.command (some "tsv".toList))).getCommandNames
      = TestCommands.canon.getCommandNames.filter (fun n => n ≠ "tsv".toList) := by
  decide

theorem uniquePrefixLoop_ok (name : Str) :
    ∀ (paramNames : List (Option Str)) (k : Nat), (∀ n ∈ paramNames, n ≠ none) →
      ∃ k', uniquePrefixLoop name paramNames k = Except.ok k'
  | [], k, _ => ⟨k, rfl⟩
  | none :: _, _, h => absurd rfl (h none (List.mem_cons_self _ _))
  | some testName :: rest, k, h => by
    simp only [uniquePrefixLoop]
    split
    · exact ⟨_, rfl⟩
    · exact uniquePrefixLoop_ok name rest _ (fun n hn => h n (List.mem_cons_of_mem _ hn))

theorem any_take_false {p : Char → Bool} (name : Str) (k : Nat) (h : name.any p = false) :
    (name.take k).any p = false := by
  rw [List.any_eq_false] at h ⊢
  intro c hc
  exact h c (List.mem_of_mem_take hc)

/-- A parameter spec with a known type and a name without syntax characters, among names
that are all present, gives a parameter with that name and type. -/
theorem Parameter.new_ok (spec : ParamSpec) (commandName : Str) (paramNames : List (Option Str))
    (groupName : Option Str) (name : Str) (type : GType)
    (hname : spec.name = some name) (hne : name ≠ [])
    (hplainName : name.any isSyntaxCharacter = false) (htype : spec.type = some type)
    (hnames : ∀ n ∈ paramNames, n ≠ none) :
    ∃ p, Parameter.new spec commandName paramNames groupName = Except.ok p ∧ p.name = name ∧
      p.type = type := by
  obtain ⟨k, hk⟩ := uniquePrefixLoop_ok name paramNames 1 hnames
  have hflag : flagRegExp (name.take k) = Except.ok (name.take k) := by
    simp [flagRegExp, any_take_false name k hplainName]
  cases name with
  | nil => exact absurd rfl hne
  | cons c cs =>
    simp only [Parameter.new, hname, computeUniquePrefix, hk, Except.map, hflag, htype]
    exact ⟨_, rfl, rfl, rfl⟩

theorem buildParams_ok (commandName : Str) (paramNames : List (Option Str))
    (hnames : ∀ n ∈ paramNames, n ≠ none) :
    ∀ items : List ParamItem, wellFormedParams items →
      ∃ ps, buildParams commandName paramNames items false = Except.ok ps ∧
        ps.length = items.length
  | [], _ => ⟨[], rfl, rfl⟩
  | item :: rest, h => by
    obtain ⟨spec, name, type, rfl, hname, hne, hplainName, htype⟩ :=
      h item (List.mem_cons_self _ _)
    obtain ⟨p, hp, _, _⟩ :=
      Parameter.new_ok spec commandName paramNames none name type hname hne hplainName htype hnames
    obtain ⟨ps, hps, hlen⟩ := buildParams_ok commandName paramNames hnames rest
      (fun i hi => h i (List.mem_cons_of_mem _ hi))
    refine ⟨p :: ps, ?_, by simp [hlen]⟩
    simp only [buildParams, Bool.false_eq_true, if_false, hp, hps, Except.map]

theorem collectParamNames_wellFormed :
    ∀ items : List ParamItem, wellFormedParams items →
      ∀ n ∈ collectParamNames items, n ≠ none
  | [], _ => by simp [collectParamNames]
  | item :: rest, h => by
    obtain ⟨spec, name, type, rfl, hname, _, _, _⟩ := h item (List.mem_cons_self _ _)
    intro n hn
    simp only [collectParamNames, List.mem_cons] at hn
    rcases hn with rfl | hn
    · rw [hname]; simp
    · exact collectParamNames_wellFormed rest (fun i hi => h i (List.mem_cons_of_mem _ hi)) n hn

theorem mem_insertSorted (x n : Str) : ∀ l : List Str, x ∈ insertSorted n l ↔ x = n ∨ x ∈ l
  | [] => by simp [insertSorted]
  | m :: rest => by
    simp only [insertSorted]
    split
    · simp
    · simp only [List.mem_cons, mem_insertSorted x n rest]
      constructor
      · rintro (h | h | h)
        · exact Or.inr (Or.inl h)
        · exact Or.inl h
        · exact Or.inr (Or.inr h)
      · rintro (h | h | h)
        · exact Or.inr (Or.inl h)
        · exact Or.inl h
        · exact Or.inr (Or.inr h)

theorem mem_sortNames (x : Str) : ∀ l : List Str, x ∈ sortNames l ↔ x ∈ l
  | [] => by simp [sortNames]
  | n :: rest => by
    have ih := mem_sortNames x rest
    simp only [sortNames, List.foldr_cons] at ih ⊢
    rw [mem_insertSorted, ih]
    simp

/-- C28: `addCommand` throws when the spec has no name and no name argument is supplied, and
when its `params` member is present but is not an array; the registry is written only after
`new Command` has returned, so a throw leaves `getCommand` and `getCommandNames` as they
were. A spec with a name and a flat list of parameters that each have a known type and a
name that is not empty and has no regular-expression syntax character is registered without
throwing: `getCommand(name)` is the new command and `name` is among `getCommandNames()`.
(A parameter named with an opening parenthesis makes `new RegExp` throw, and nothing is
registered.) -/
theorem addCommand_spec (canon : Canon) :
    (∀ (params : ParamsField) (exec : Option Nat),
      Canon.addCommand canon (CommandInput.object ⟨none, params, exec⟩) none
        = Except.error (Thrown.error "All registered commands must have a name".toList)) ∧
    (∀ (params : ParamsField) (exec : Option Nat) (action : Nat),
      Canon.addCommand canon (CommandInput.function (some ⟨none, params, exec⟩) action) none
        = Except.error (Thrown.error "All registered commands must have a name".toList)) ∧
    (∀ (name : Str) (exec : Option Nat), name ≠ [] →
      Canon.addCommand canon (CommandInput.object ⟨some name, ParamsField.notArray, exec⟩) none
        = Except.error (Thrown.error ("command.params must be an array in ".toList ++ name))) ∧
    (∀ (name : Str) (items : List ParamItem) (exec : Option Nat), name ≠ [] →
      wellFormedParams items →
      ∃ canon' cmd,
        Canon.addCommand canon (CommandInput.object ⟨some name, ParamsField.array items, exec⟩)
          none = Except.ok canon' ∧
        canon'.getCommand name = some cmd ∧ cmd.name = name ∧ cmd.exec = exec ∧
        cmd.params.length = items.length ∧ name ∈ canon'.getCommandNames) ∧
    Canon.addCommand canon
        (CommandInput.object ⟨some ['c'],
          ParamsField.array [ParamItem.param ⟨some ['('], some GType.string, none⟩], none⟩) none
      = Except.error (Thrown.invalidRegExp "^--?(".toList) := by
  refine ⟨fun _ _ => rfl, fun _ _ _ => rfl, ?_, ?_, rfl⟩
  · intro name exec hne
    cases name with
    | nil => exact absurd rfl hne
    | cons c cs => rfl
  · intro name items exec hne hwf
    obtain ⟨ps, hps, hlen⟩ := buildParams_ok name (collectParamNames items)
      (collectParamNames_wellFormed items hwf) items hwf
    cases name with
    | nil => exact absurd rfl hne
    | cons c cs =>
      refine ⟨⟨JSObject.set canon.commands (c :: cs) ⟨c :: cs, ps, exec⟩,
          sortNames (canon.commandNames ++ [c :: cs])⟩, ⟨c :: cs, ps, exec⟩,
        ?_, ?_, rfl, rfl, hlen, ?_⟩
      · simp only [Canon.addCommand, Option.getD_none, if_true, Command.new, hps, Except.map]
      · simp only [Canon.getCommand, JSObject.own_set, if_true]
      · simp only [Canon.getCommandNames, mem_sortNames, List.mem_append, List.mem_singleton,
          or_true]

/-- C28 at a concrete input: the spec of `tsm` (three named parameters of known types) is
registered in an empty registry. -/
theorem addCommand_spec_witness :
    ∃ canon' cmd,
      Canon.addCommand ⟨[], []⟩ (CommandInput.object TestCommands.tsmSpec) none
        = Except.ok canon' ∧
      canon'.getCommand "tsm".toList = some cmd ∧ cmd.name = "tsm".toList ∧
      cmd.exec = some 9 ∧ cmd.params.length = 3 ∧ "tsm".toList ∈ canon'.getCommandNames :=
  (addCommand_spec ⟨[], []⟩).2.2.2.1 "tsm".toList
    [ParamItem.param ⟨some "abc".toList,
        some (GType.selection
          [SelOption.string ['a'], SelOption.string ['b'], SelOption.string ['c']]), none⟩,
     ParamItem.param ⟨some "txt".toList, some GType.string, none⟩,
     ParamItem.param ⟨some "num".toList, some (GType.number (some 0) (some 42)), none⟩]
    (some 9) (by decide)
    (by
      intro item h
      simp only [List.mem_cons, List.mem_singleton, List.not_mem_nil, or_false] at h
      rcases h with rfl | rfl | rfl
      · exact ⟨_, "abc".toList, _, rfl, rfl, by decide, by decide, rfl⟩
      · exact ⟨_, "txt".toList, _, rfl, rfl, by decide, by decide, rfl⟩
      · exact ⟨_, "num".toList, _, rfl, rfl, by decide, by decide, rfl⟩)

/-! ### increment and decrement -/

/-- C29 (as stated, refuted): with `max` 2^53 + 2, `increment(2^53)` is 2^53, not
`min(2^53 + 1, max)` = 2^53 + 1: the sum 2^53 + 1 is not a double and is rounded to 2^53.
And with `min` -(2^53 + 2), `decrement(-2^53)` is -2^53. -/
theorem NumberType.increment_beyond_two_pow_53 :
    NumberType.increment (some 9007199254740994) 9007199254740992 = 9007199254740992 ∧
    min ((9007199254740992 : Int) + 1) 9007199254740994 = 9007199254740993 ∧
    NumberType.decrement (some (-9007199254740994)) (-9007199254740992) = -9007199254740992 ∧
    max ((-9007199254740992 : Int) - 1) (-9007199254740994) = -9007199254740993 := by
  decide

/-- C29 (amended): for a number type with `min` and `max` configured and every integer `v`
with `min <= v <= max` and `|v| < 2^53`, `increment(v)` is `min(v + 1, max)` and
`decrement(v)` is `max(v - 1, min)`, so both stay within `[min, max]`. -/
theorem NumberType.increment_decrement_clamp (lo hi v : Int) (h1 : lo ≤ v) (h2 : v ≤ hi)
    (hv : v.natAbs < 2 ^ 53) :
    NumberType.increment (some hi) v = min (v + 1) hi ∧
    NumberType.decrement (some lo) v = max (v - 1) lo ∧
    lo ≤ NumberType.increment (some hi) v ∧ NumberType.increment (some hi) v ≤ hi ∧
    lo ≤ NumberType.decrement (some lo) v ∧ NumberType.decrement (some lo) v ≤ hi := by
  have hup : roundInt53 (v + 1) = v + 1 := roundInt53_small _ (by omega)
  have hdown : roundInt53 (v - 1) = v - 1 := roundInt53_small _ (by omega)
  simp only [NumberType.increment, NumberType.decrement, hup, hdown]
  refine ⟨?_, ?_, ?_, ?_, ?_, ?_⟩ <;> split <;> omega

/-- C29 at a concrete input: with min 0 and max 42, `increment(42)` is 42 and
`decrement(42)` is 41. -/
theorem NumberType.increment_decrement_clamp_witness :
    NumberType.increment (some 42) 42 = 42 ∧ NumberType.decrement (some 0) 42 = 41 :=
  ⟨(NumberType.increment_decrement_clamp 0 42 42 (by decide) (by decide)
      (by decide)).1.trans (by decide),
   (NumberType.increment_decrement_clamp 0 42 42 (by decide) (by decide)
      (by decide)).2.1.trans (by decide)⟩

/-- C30 (the code at a failing input): for the selection over the option objects named `a`,
`b`, `c`, `increment` of the option `b` returns the option `a`, not `c`, and `decrement` of
`b` returns `undefined`, not `a`; so `decrement(increment(b))` is not `b`. Over the strings
`a`, `b`, `c` both work and wrap around. -/
theorem SelectionType.increment_of_object_option :
    SelectionType.increment
        [SelOption.object ['a'], SelOption.object ['b'], SelOption.object ['c']]
        (Value.object ['b'])
      = Except.ok (Value.object ['a']) ∧
    SelectionType.decrement
        [SelOption.object ['a'], SelOption.object ['b'], SelOption.object ['c']]
        (Value.object ['b'])
      = Except.ok Value.undefined ∧
    SelectionType.decrement
        [SelOption.object ['a'], SelOption.object ['b'], SelOption.object ['c']]
        (Value.object ['a'])
      = Except.ok Value.undefined ∧
    SelectionType.increment
        [SelOption.string ['a'], SelOption.string ['b'], SelOption.string ['c']]
        (Value.string ['c'])
      = Except.ok (Value.string ['a']) ∧
    SelectionType.decrement
        [SelOption.string ['a'], SelOption.string ['b'], SelOption.string ['c']]
        (Value.string ['a'])
      = Except.ok (Value.string ['c']) :=
  ⟨rfl, rfl, rfl, rfl, rfl⟩

/-! ### BooleanType.parse -/

theorem Lookup.get_undefined_iff (lookup : Lookup) (text : Str)
    (hnull : ∀ p ∈ lookup, p.2 ≠ Value.undefined) :
    Lookup.get lookup text = Value.undefined ↔
      text ∉ JSObject.keys lookup ∧ text ∉ objectPrototypeKeys := by
  unfold Lookup.get
  cases hown : JSObject.own lookup text with
  | none =>
    have hk := (JSObject.own_eq_none_iff lookup text).1 hown
    by_cases hp : text ∈ objectPrototypeKeys <;> simp [hp, hk]
  | some v =>
    have hk : ¬ text ∉ JSObject.keys lookup := by
      rw [← JSObject.own_eq_none_iff, hown]; simp
    have hmem : (text, v) ∈ lookup := by
      clear hk
      induction lookup with
      | nil => simp [JSObject.own] at hown
      | cons p rest ih =>
        obtain ⟨k, w⟩ := p
        simp only [JSObject.own] at hown
        by_cases hkt : k = text
        · simp only [hkt, if_true, Option.some.injEq] at hown
          subst hown; subst hkt
          exact List.mem_cons_self _ _
        · simp only [hkt, if_false] at hown
          exact List.mem_cons_of_mem _
            (ih (fun p hp => hnull p (List.mem_cons_of_mem _ hp)) hown)
    have hv := hnull (text, v) hmem
    simp only [hk, false_and, iff_false]
    exact hv

theorem filter_prefix_length (lookup : Lookup) (text : Str) :
    (lookup.filter (fun p => text.isPrefixOf p.1)).length
      = ((JSObject.keys lookup).filter (fun n => text.isPrefixOf n)).length := by
  induction lookup with
  | nil => rfl
  | cons p rest ih =>
    simp only [JSObject.keys, List.map_cons, List.filter_cons] at ih ⊢
    split <;> simp [ih]

/-- The status `SelectionType.parse` gives depends only on the names of the lookup, when no
name is stored with `undefined` or `null`. -/
theorem SelectionType.parse_status_of_keys (self1 self2 : GType) (lookup1 lookup2 : Lookup)
    (arg : Arg)
    (hkeys : JSObject.keys lookup1 = JSObject.keys lookup2)
    (hnd : (JSObject.keys lookup1).Nodup)
    (h1 : ∀ p ∈ lookup1, p.2 ≠ Value.undefined ∧ p.2 ≠ Value.null)
    (h2 : ∀ p ∈ lookup2, p.2 ≠ Value.undefined ∧ p.2 ≠ Value.null) :
    (SelectionType.parse self1 lookup1 arg).getStatus
      = (SelectionType.parse self2 lookup2 arg).getStatus := by
  have hc1 := SelectionType.parse_cases self1 lookup1 arg hnd
  have hc2 := SelectionType.parse_cases self2 lookup2 arg (hkeys ▸ hnd)
  have hu1 := Lookup.get_undefined_iff lookup1 arg.text (fun p hp => (h1 p hp).1)
  have hu2 := Lookup.get_undefined_iff lookup2 arg.text (fun p hp => (h2 p hp).1)
  have hnn : ∀ (lookup : Lookup), (∀ p ∈ lookup, p.2 ≠ Value.undefined ∧ p.2 ≠ Value.null) →
      Lookup.get lookup arg.text ≠ Value.null := by
    intro lookup h hget
    unfold Lookup.get at hget
    cases hown : JSObject.own lookup arg.text with
    | none =>
      rw [hown] at hget
      by_cases hp : arg.text ∈ objectPrototypeKeys <;> simp [hp] at hget
    | some v =>
      rw [hown] at hget
      simp only at hget
      subst hget
      have hmem : ∃ p ∈ lookup, p.2 = Value.null := by
        clear hc1 hc2 hu1 hu2
        induction lookup with
        | nil => simp [JSObject.own] at hown
        | cons p rest ih =>
          obtain ⟨k, w⟩ := p
          simp only [JSObject.own] at hown
          by_cases hkt : k = arg.text
          · simp only [hkt, if_true, Option.some.injEq] at hown
            exact ⟨(k, w), List.mem_cons_self _ _, hown⟩
          · simp only [hkt, if_false] at hown
            obtain ⟨p, hp, hpn⟩ := ih (fun p hp => h p (List.mem_cons_of_mem _ hp)) hown
            exact ⟨p, List.mem_cons_of_mem _ hp, hpn⟩
      obtain ⟨p, hp, hpn⟩ := hmem
      exact (h p hp).2 hpn
  by_cases hund : Lookup.get lookup1 arg.text = Value.undefined
  · have hund2 : Lookup.get lookup2 arg.text = Value.undefined := by
      rw [hu2, ← hkeys, ← hu1]; exact hund
    rw [hc1.1 hund, hc2.1 hund2, filter_prefix_length, filter_prefix_length, hkeys]
    split <;> rfl
  · have hund2 : Lookup.get lookup2 arg.text ≠ Value.undefined := by
      rw [Ne, hu2, ← hkeys, ← hu1]; exact hund
    rw [hc1.2.2 hund (hnn lookup1 h1), hc2.2.2 hund2 (hnn lookup2 h2)]
    rfl

/-- C31: `BooleanType.parse` returns the VALID conversion with the value `true` for every
TrueNamedArgument and the VALID conversion with the value `false` for every
FalseNamedArgument, whatever the text; for any other argument it is the parse of a selection
whose lookup has the names `true` and `false`: the text `true` gives VALID `true`, the text
`false` gives VALID `false`, and every text gets the status that the selection over the
strings `true` and `false` gives it. -/
theorem BooleanType.parse_spec :
    (∀ (name : Option Str) (tok : Option Tok),
      BooleanType.parse (Arg.trueNamed name tok)
        = Conversion.valid (Value.bool true) (Arg.trueNamed name tok)) ∧
    BooleanType.parse Arg.falseNamed = Conversion.valid (Value.bool false) Arg.falseNamed ∧
    (∀ arg : Arg, (∀ name tok, arg ≠ Arg.trueNamed name tok) → arg ≠ Arg.falseNamed →
      BooleanType.parse arg = SelectionType.parse GType.boolean BooleanType.lookup arg ∧
      (BooleanType.parse arg).getStatus
        = (SelectionType.parse
            (GType.selection [SelOption.string "true".toList, SelOption.string "false".toList])
            (_dataToLookup [SelOption.string "true".toList, SelOption.string "false".toList])
            arg).getStatus ∧
      (arg.text = "true".toList → BooleanType.parse arg = Conversion.valid (Value.bool true) arg) ∧
      (arg.text = "false".toList →
        BooleanType.parse arg = Conversion.valid (Value.bool false) arg)) ∧
    (∀ (canon : Canon) (arg : Arg),
      GType.parse canon GType.boolean arg
        = Except.ok (AnyConversion.simple (BooleanType.parse arg))) := by
  refine ⟨fun _ _ => rfl, rfl, ?_, fun canon arg => by cases arg <;> rfl⟩
  intro arg htrue hfalse
  have hsel : BooleanType.parse arg
      = SelectionType.parse GType.boolean BooleanType.lookup arg := by
    cases arg with
    | trueNamed name tok => exact absurd rfl (htrue name tok)
    | falseNamed => exact absurd rfl hfalse
    | _ => rfl
  have hnd : (JSObject.keys BooleanType.lookup).Nodup := by decide
  have hcases := SelectionType.parse_cases GType.boolean BooleanType.lookup arg hnd
  refine ⟨hsel, ?_, ?_, ?_⟩
  · rw [hsel]
    exact SelectionType.parse_status_of_keys _ _ _ _ arg (by decide) hnd (by decide) (by decide)
  · intro ht
    rw [hsel]
    have hget : Lookup.get BooleanType.lookup arg.text = Value.bool true := by rw [ht]; decide
    have := hcases.2.2
    rw [hget] at this
    exact this (by simp) (by simp)
  · intro ht
    rw [hsel]
    have hget : Lookup.get BooleanType.lookup arg.text = Value.bool false := by rw [ht]; decide
    have := hcases.2.2
    rw [hget] at this
    exact this (by simp) (by simp)

/-- C31 at a concrete input: the plain Argument with the text `t` is INCOMPLETE for the
boolean type, as for the selection over `true` and `false`. -/
theorem BooleanType.parse_spec_witness :
    (BooleanType.parse (Arg.fresh ⟨['t'], [], []⟩)).getStatus = Status.INCOMPLETE :=
  ((BooleanType.parse_spec.2.2.1 (Arg.fresh ⟨['t'], [], []⟩)
    (fun _ _ h => Arg.noConfusion h) (fun h => Arg.noConfusion h)).2.1).trans (by decide)

/-! ### ensureVisibleArgument -/

theorem NumberType.parse_keeps_arg (min max : Option Int) (arg : Arg) :
    (NumberType.parse min max arg).arg = arg := by
  unfold NumberType.parse
  split
  · rfl
  · dsimp only
    split
    · rfl
    · split
      · rfl
      · split <;> rfl

theorem SelectionType.parse_same_arg (self : GType) (lookup : Lookup) (arg : Arg) :
    (SelectionType.parse self lookup arg).arg = arg := by
  unfold SelectionType.parse
  simp only []
  split
  · rfl
  · split <;> rfl

theorem GType.parseSimple_arg (canon : Canon) :
    ∀ (t : GType) (arg : Arg) (c : Conversion),
      GType.parseSimple canon t arg = Except.ok c → c.arg = arg
  | GType.string, arg, c, h => by
    simp only [GType.parseSimple, Except.ok.injEq] at h; subst h; rfl
  | GType.number min max, arg, c, h => by
    simp only [GType.parseSimple, Except.ok.injEq] at h; subst h
    exact NumberType.parse_keeps_arg min max arg
  | GType.boolean, arg, c, h => by
    simp only [GType.parseSimple, Except.ok.injEq] at h; subst h
    cases arg <;> first | rfl | exact SelectionType.parse_same_arg _ _ _
  | GType.blank, arg, c, h => by
    simp only [GType.parseSimple, Except.ok.injEq] at h; subst h; rfl
  | GType.selection data, arg, c, h => by
    simp only [GType.parseSimple, Except.ok.injEq] at h; subst h
    exact SelectionType.parse_same_arg _ _ _
  | GType.lookup entries, arg, c, h => by
    simp only [GType.parseSimple, Except.ok.injEq] at h; subst h
    exact SelectionType.parse_same_arg _ _ _
  | GType.deferred t, arg, c, h => by
    rw [GType.parseSimple] at h
    exact GType.parseSimple_arg canon t arg c h
  | GType.array _, arg, c, h => by simp [GType.parseSimple] at h
  | GType.command, arg, c, h => by
    simp only [GType.parseSimple, Except.ok.injEq] at h; subst h
    exact SelectionType.parse_same_arg _ _ _

/-- C32: `ensureVisibleArgument` on an assignment whose argument is blank (empty text,
prefix and suffix of white space only) replaces the conversion by the parse of a
placeholder Argument with empty text between two single quotes, which is not blank, and
returns true; otherwise it returns false and leaves the conversion as it is. (The parameter
has a type that parses a plain Argument: every type but an array type.) -/
theorem Assignment.ensureVisibleArgument_spec (canon : Canon) (a : Assignment) :
    (a.conversion.arg.isBlank = false →
      Assignment.ensureVisibleArgument canon a = Except.ok (a, false)) ∧
    (a.conversion.arg.isBlank = true → a.param.type.isScalar = true →
      ∃ c, GType.parseSimple canon a.param.type (Arg.fresh ⟨[], "'".toList, "'".toList⟩)
          = Except.ok c ∧
        Assignment.ensureVisibleArgument canon a
          = Except.ok ({ a with conversion := AnyConversion.simple c }, true) ∧
        c.arg = Arg.fresh ⟨[], "'".toList, "'".toList⟩ ∧
        c.arg.isBlank = false ∧ c.arg.text = []) := by
  constructor
  · intro h
    simp [Assignment.ensureVisibleArgument, Assignment.ensureVisibleWith, h]
  · intro h hs
    obtain ⟨c, hc⟩ := GType.parseSimple_scalar canon a.param.type
      (Arg.fresh ⟨[], "'".toList, "'".toList⟩) hs
    have harg := GType.parseSimple_arg canon _ _ c hc
    refine ⟨c, hc, ?_, harg, ?_, ?_⟩
    · simp only [Assignment.ensureVisibleArgument, Assignment.ensureVisibleWith, h,
        not_true_eq_false, if_false, visiblePlaceholder,
        GType.parse_scalar canon a.param.type _ hs, hc, Except.map]
    · rw [harg]; decide
    · rw [harg]; rfl

/-- C32 at a concrete input: a number assignment over the empty Argument becomes the parse
of the quoted empty text, and one over the text `6` is left alone. -/
theorem Assignment.ensureVisibleArgument_spec_witness :
    (∃ c, Assignment.ensureVisibleArgument ⟨[], []⟩
        ⟨⟨"num".toList, GType.number none none, none, none, "num".toList⟩, 0,
          AnyConversion.simple
            ⟨Value.null, Arg.fresh ⟨[], [], []⟩, Status.INCOMPLETE, some [], none⟩⟩
        = Except.ok
            (⟨⟨"num".toList, GType.number none none, none, none, "num".toList⟩, 0,
              AnyConversion.simple c⟩, true) ∧
      c.arg = Arg.fresh ⟨[], "'".toList, "'".toList⟩) ∧
    Assignment.ensureVisibleArgument ⟨[], []⟩
        ⟨⟨"num".toList, GType.number none none, none, none, "num".toList⟩, 0,
          AnyConversion.simple (Conversion.valid (Value.number 6) (Arg.fresh ⟨['6'], [], []⟩))⟩
      = Except.ok
          (⟨⟨"num".toList, GType.number none none, none, none, "num".toList⟩, 0,
            AnyConversion.simple
              (Conversion.valid (Value.number 6) (Arg.fresh ⟨['6'], [], []⟩))⟩, false) :=
  ⟨match (Assignment.ensureVisibleArgument_spec ⟨[], []⟩
        ⟨⟨"num".toList, GType.number none none, none, none, "num".toList⟩, 0,
          AnyConversion.simple
            ⟨Value.null, Arg.fresh ⟨[], [], []⟩, Status.INCOMPLETE, some [], none⟩⟩).2
        (by decide) (by decide) with
    | ⟨c, _, h2, h3, _⟩ => ⟨c, h2, h3⟩,
   (Assignment.ensureVisibleArgument_spec ⟨[], []⟩
        ⟨⟨"num".toList, GType.number none none, none, none, "num".toList⟩, 0,
          AnyConversion.simple
            (Conversion.valid (Value.number 6) (Arg.fresh ⟨['6'], [], []⟩))⟩).1 (by decide)⟩

/-! ### createEvent -/

/-- C35 (the code at a failing input): with the handlers `(f, A)`, `(g, A)` and `(f, B)`
added, `remove(f, A)` removes all three, not `(f, A)` alone: `(g, A)` has another function
and `(f, B)` another scope, yet neither is called when the event fires. With handlers added
without a scope, `remove(f)` removes every handler. -/
theorem remove_drops_handlers_that_differ :
    Event.remove (((Event.create.add 1 (some 10)).add 2 (some 10)).add 1 (some 11)) 1 (some 10)
      = [] ∧
    Event.fire
        (Event.remove (((Event.create.add 1 (some 10)).add 2 (some 10)).add 1 (some 11))
          1 (some 10))
      = [] ∧
    Event.fire (Event.remove ((Event.create.add 1 none).add 2 none) 1 none) = [] ∧
    Event.fire (Event.remove ((Event.create.add 1 (some 10)).add 2 (some 11)) 1 (some 10))
      = [(2, some 11)] := by
  decide

/-! ### Escapes in the tokenizer -/

/-- C37 (the code at a failing input): the three units backslash, backslash, `n` tokenize to
one token whose text is the single unit U+000A (a line feed), not the two units backslash,
`n`: the backslash that the first replacement produces is combined with the `n` by a later
one. -/
theorem tokenize_escaped_backslash_unescaped_twice :
    _tokenize (some ['\\', '\\', 'n']) = [⟨[Char.ofNat 0x0A], [], []⟩] ∧
    _tokenize (some ['\\', '\\', 'n']) ≠ [⟨['\\', 'n'], [], []⟩] := by
  decide

/-! ### Flags of parameters -/

/-- C38 (the code at a failing input): for a command with the parameters `ab` and `abc` the
token `--abc` is accepted by both parameters through `isKnownAs`. -/
theorem isKnownAs_accepts_for_two_parameters :
    (Command.new ⟨some "cmd".toList,
        ParamsField.array
          [ParamItem.param ⟨some "ab".toList, some GType.string, none⟩,
           ParamItem.param ⟨some "abc".toList, some GType.string, none⟩],
        some 0⟩).map
        (fun c => c.params.map (fun p => (p.name, p.isKnownAs "--abc".toList)))
      = Except.ok [("ab".toList, true), ("abc".toList, true)] :=
  rfl

/-! ### NumberType without bounds -/

/-- C39 (the code at a failing input): for a number type with no `max` configured
`increment(v)` is `v`, not `v + 1`, and with no `min` configured `decrement(v)` is `v`, not
`v - 1`, for every integer `v`; with `max = 10` configured `increment(5)` is 6. -/
theorem NumberType.increment_without_bound_is_identity :
    (∀ v : Int, NumberType.increment none v = v ∧ NumberType.increment none v ≠ v + 1) ∧
    (∀ v : Int, NumberType.decrement none v = v ∧ NumberType.decrement none v ≠ v - 1) ∧
    NumberType.increment none 5 = 5 ∧ NumberType.decrement none 5 = 5 ∧
    NumberType.increment (some 10) 5 = 6 := by
  refine ⟨fun v => ⟨rfl, ?_⟩, fun v => ⟨rfl, ?_⟩, rfl, rfl, by decide⟩
  · simp only [NumberType.increment]; omega
  · simp only [NumberType.decrement]; omega

/-! ### Merged and named arguments -/

theorem foldl_merge_toString (rest : List Argument) :
    ∀ a : Argument,
      (rest.foldl Argument.merge a).toString = a.toString ++ joinArgs rest ∧
      (rest.foldl Argument.merge a).prefix_ = a.prefix_ ∧
      (rest.foldl Argument.merge a).suffix = ((a :: rest).getLast (by simp)).suffix := by
  induction rest with
  | nil => intro a; simp [joinArgs]
  | cons b rest ih =>
    intro a
    obtain ⟨h1, h2, h3⟩ := ih (a.merge b)
    simp only [List.foldl_cons]
    refine ⟨?_, ?_, ?_⟩
    · rw [h1]
      simp [Argument.merge, Argument.toString, joinArgs]
    · rw [h2]; rfl
    · rw [h3]
      simp [List.getLast_cons, Argument.merge]
      cases rest with
      | nil => simp [Argument.merge]
      | cons c rest => simp

/-- C40: the MergedArgument built from a non-empty list of Arguments has
`prefix + text + suffix` equal to the concatenation of `prefix + text + suffix` of the
listed Arguments in order, its prefix is the first Argument's prefix and its suffix the last
Argument's suffix; a NamedArgument's `prefix + text + suffix` is that of its name Argument
followed by that of its value Argument. -/
theorem merge_preserves_text :
    (∀ (first : Tok) (rest : List Tok),
      (Arg.merged (first :: rest)).members.toString
        = joinArgs ((first :: rest).map Tok.arg) ∧
      (Arg.merged (first :: rest)).members.prefix_ = first.arg.prefix_ ∧
      (Arg.merged (first :: rest)).members.suffix
        = ((first :: rest).getLast (by simp)).arg.suffix) ∧
    (∀ (args : List Tok), args ≠ [] →
      MergedArgument.new args = Except.ok (Arg.merged args)) ∧
    (∀ nameArg valueArg : Tok,
      (Arg.named nameArg valueArg).members.toString
        = nameArg.arg.toString ++ valueArg.arg.toString ∧
      NamedArgument.new nameArg (some valueArg) = Except.ok (Arg.named nameArg valueArg)) := by
  refine ⟨?_, ?_, ?_⟩
  · intro first rest
    obtain ⟨h1, h2, h3⟩ := foldl_merge_toString (rest.map Tok.arg) first.arg
    simp only [Arg.members, Argument.mergeAll, List.map_cons, Option.getD_some]
    refine ⟨?_, h2, ?_⟩
    · rw [h1]; simp [joinArgs]
    · rw [h3]
      have : ∀ (l : List Tok) (h : l ≠ []) (h' : l.map Tok.arg ≠ []),
          (l.map Tok.arg).getLast h' = (l.getLast h).arg := by
        intro l h h'
        simp [List.getLast_map]
      exact congrArg Argument.suffix (this (first :: rest) (by simp) (by simp))
  · intro args h
    cases args with
    | nil => exact absurd rfl h
    | cons t rest => rfl
  · intro n v
    exact ⟨by simp [Arg.members, NamedArgument.members, Argument.toString], rfl⟩

/-! ### The tokenizer keeps every unit -/

theorem replaceEscape_cons_of_ne (x r c : Char) (s : Str) (hc : c ≠ '\\') :
    replaceEscape x r (c :: s) = c :: replaceEscape x r s := by
  cases s with
  | nil => rfl
  | cons d rest =>
    conv_lhs => unfold replaceEscape
    simp [hc]

theorem replaceEscape_id (x r : Char) : ∀ s : Str, '\\' ∉ s → replaceEscape x r s = s
  | [], _ => rfl
  | c :: s, h => by
    have hc : c ≠ '\\' := fun hc => h (hc ▸ List.mem_cons_self _ _)
    rw [replaceEscape_cons_of_ne x r c s hc,
      replaceEscape_id x r s (fun hm => h (List.mem_cons_of_mem _ hm))]

theorem unescape_id (s : Str) (h : '\\' ∉ s) : unescape s = s := by
  unfold unescape
  simp only [replaceEscape_id _ _ s h]

theorem unescape2_id (s : Str) (h : ∀ c ∈ s, notPlaceholder c) : unescape2 s = s := by
  unfold unescape2
  conv_rhs => rw [← List.map_id s]
  apply List.map_congr_left
  intro c hc
  obtain ⟨h1, h2, h3⟩ := h c hc
  simp [unescape2Char, h1, h2, h3]

theorem substring_of_le (s : Str) (a b : Nat) (h : a ≤ b) :
    substring s a b = (s.take b).drop a := by
  simp [substring, Nat.max_eq_right h, Nat.min_eq_left h]

theorem mem_substring {s : Str} {a b : Nat} {c : Char} (h : c ∈ substring s a b) : c ∈ s :=
  List.mem_of_mem_take (List.mem_of_mem_drop h)

theorem take_append_substring (s : Str) (a b : Nat) (h : a ≤ b) :
    s.take a ++ substring s a b = s.take b := by
  rw [substring_of_le s a b h]
  have : s.take a = (s.take b).take a := by
    rw [List.take_take, Nat.min_eq_left h]
  rw [this, List.take_append_drop]

theorem take_succ_of_append (done rest : Str) (c : Char) :
    (done ++ c :: rest).take (done.length + 1) = (done ++ c :: rest).take done.length ++ [c] := by
  rw [List.take_append_eq_append_take, List.take_append_eq_append_take]
  simp

theorem joinArgs_append (args : List Argument) (a : Argument) :
    joinArgs (args ++ [a]) = joinArgs args ++ a.toString := by
  simp [joinArgs]

/-- One step of the scanner keeps the invariant. -/
theorem tokenizeStep_inv (done rest : Str) (c : Char) (st : TokState)
    (hplace : ∀ d ∈ done ++ c :: rest, notPlaceholder d)
    (hi : st.i = done.length) (hinv : st.inv (done ++ c :: rest)) :
    (tokenizeStep (done ++ c :: rest) c st).i = done.length + 1 ∧
    (tokenizeStep (done ++ c :: rest) c st).inv (done ++ c :: rest) := by
  obtain ⟨mode, i, start, pre, args⟩ := st
  obtain ⟨hle, hjoin, hout⟩ := hinv
  simp only at hi hle hjoin hout
  subst hi
  have hu : ∀ a b, unescape2 (substring (done ++ c :: rest) a b)
      = substring (done ++ c :: rest) a b :=
    fun a b => unescape2_id _ (fun d hd => hplace d (mem_substring hd))
  have htake := take_succ_of_append done rest c
  cases mode with
  | OUTSIDE =>
    have hpre : pre = [] := hout rfl
    subst hpre
    simp only [List.append_nil] at hjoin
    simp only [tokenizeStep]
    split
    · refine ⟨rfl, Nat.le_refl _, ?_, fun h => Mode.noConfusion h⟩
      simp only []
      rw [hjoin]
      exact take_append_substring _ _ _ (by omega)
    · split
      · refine ⟨rfl, Nat.le_refl _, ?_, fun h => Mode.noConfusion h⟩
        simp only []
        rw [hjoin]
        exact take_append_substring _ _ _ (by omega)
      · split
        · exact ⟨rfl, by simp only []; omega, by simpa using hjoin, fun _ => rfl⟩
        · refine ⟨rfl, by simp only []; omega, ?_, fun h => Mode.noConfusion h⟩
          simp only []
          rw [hjoin]
          exact take_append_substring _ _ _ hle
  | IN_SIMPLE =>
    simp only [tokenizeStep]
    split
    · refine ⟨rfl, by simp only []; omega, ?_, fun _ => rfl⟩
      simp only [List.append_nil]
      rw [joinArgs_append, hu]
      simp only [Argument.toString, List.append_nil, ← List.append_assoc]
      rw [hjoin]
      exact take_append_substring _ _ _ hle
    · exact ⟨rfl, by simp only []; omega, hjoin, fun h => Mode.noConfusion h⟩
  | IN_SINGLE_Q =>
    simp only [tokenizeStep]
    split
    · refine ⟨rfl, Nat.le_refl _, ?_, fun _ => rfl⟩
      simp only [List.append_nil]
      rw [joinArgs_append, hu]
      simp only [Argument.toString, ← List.append_assoc]
      rw [hjoin, take_append_substring _ _ _ hle, htake]
    · exact ⟨rfl, by simp only []; omega, hjoin, fun h => Mode.noConfusion h⟩
  | IN_DOUBLE_Q =>
    simp only [tokenizeStep]
    split
    · refine ⟨rfl, Nat.le_refl _, ?_, fun _ => rfl⟩
      simp only [List.append_nil]
      rw [joinArgs_append, hu]
      simp only [Argument.toString, ← List.append_assoc]
      rw [hjoin, take_append_substring _ _ _ hle, htake]
    · exact ⟨rfl, by simp only []; omega, hjoin, fun h => Mode.noConfusion h⟩

theorem joinArgs_set_last_suffix (args : List Argument) (lastArg : Argument) (extra : Str)
    (h : args.getLast? = some lastArg) :
    joinArgs (args.dropLast ++ [{ lastArg with suffix := lastArg.suffix ++ extra }])
      = joinArgs args ++ extra := by
  have hne : args ≠ [] := by
    intro hnil; rw [hnil] at h; simp at h
  have hlast : args.getLast hne = lastArg := by
    rw [List.getLast?_eq_getLast _ hne] at h
    exact Option.some.inj h
  have hsplit : args = args.dropLast ++ [lastArg] := by
    rw [← hlast, List.dropLast_append_getLast hne]
  conv_rhs => rw [hsplit]
  simp [joinArgs, Argument.toString]

/-- At the end of the input the tidy-up branch returns arguments that spell the input. -/
theorem tokenizeFinish_join (typed : Str) (st : TokState)
    (hplace : ∀ d ∈ typed, notPlaceholder d)
    (hi : st.i = typed.length) (hinv : st.inv typed) :
    joinArgs (tokenizeFinish typed st) = typed := by
  obtain ⟨mode, i, start, pre, args⟩ := st
  obtain ⟨hle, hjoin, hout⟩ := hinv
  simp only at hi hle hjoin hout
  subst hi
  have hu : ∀ a b, unescape2 (substring typed a b) = substring typed a b :=
    fun a b => unescape2_id _ (fun d hd => hplace d (mem_substring hd))
  have hall : typed.take start ++ substring typed start typed.length = typed := by
    rw [take_append_substring _ _ _ hle, List.take_length]
  unfold tokenizeFinish
  simp only []
  split
  · rw [joinArgs_append, hu]
    simp only [Argument.toString, List.append_nil, ← List.append_assoc]
    rw [hjoin]
    exact hall
  · rename_i hmode
    have hmode' : mode = Mode.OUTSIDE := by
      cases mode <;> simp_all
    have hpre : pre = [] := hout hmode'
    subst hpre
    simp only [List.append_nil] at hjoin
    split
    · split
      · rename_i hnone
        have hnil : args = [] := by
          cases args with
          | nil => rfl
          | cons a rest => simp at hnone
        subst hnil
        have h0 : List.take start typed = [] := hjoin.symm
        have h1 := hall
        rw [h0, List.nil_append] at h1
        simp only [List.nil_append, joinArgs, List.map_cons, List.map_nil, List.flatten_cons,
          List.flatten_nil, Argument.toString, List.append_nil]
        exact h1
      · rename_i lastArg hsome
        rw [joinArgs_set_last_suffix args lastArg _ hsome, hjoin]
        exact hall
    · rename_i heq
      have heq' : typed.length = start := by
        by_contra hne; exact heq hne
      rw [hjoin, ← heq', List.take_length]

/-- The scanner loop returns arguments that spell the input. -/
theorem tokenizeLoop_join :
    ∀ (rest done : Str) (st : TokState),
      (∀ d ∈ done ++ rest, notPlaceholder d) →
      st.i = done.length → st.inv (done ++ rest) →
      joinArgs (tokenizeLoop (done ++ rest) rest st) = done ++ rest
  | [], done, st, hplace, hi, hinv => by
    simp only [tokenizeLoop]
    apply tokenizeFinish_join _ _ hplace
    · simpa using hi
    · exact hinv
  | c :: rest, done, st, hplace, hi, hinv => by
    obtain ⟨hi', hinv'⟩ := tokenizeStep_inv done rest c st hplace hi hinv
    simp only [tokenizeLoop]
    have hsplit : done ++ c :: rest = (done ++ [c]) ++ rest := by simp
    have := tokenizeLoop_join rest (done ++ [c]) (tokenizeStep (done ++ c :: rest) c st)
      (by rw [← hsplit]; exact hplace) (by simpa using hi') (by rw [← hsplit]; exact hinv')
    rw [← hsplit] at this
    exact this

/-- For every input without a backslash and without a placeholder unit, the arguments
`_tokenize` returns spell the input: `prefix + text + suffix` over them is the input. -/
theorem tokenize_join (s : Str) (hback : '\\' ∉ s) (hplace : ∀ c ∈ s, notPlaceholder c) :
    joinArgs (_tokenize (some s)) = s := by
  cases s with
  | nil => rfl
  | cons c cs =>
    simp only [_tokenize]
    split
    · simp [joinArgs, Argument.toString]
    · rw [unescape_id _ hback]
      exact tokenizeLoop_join (c :: cs) [] ⟨Mode.OUTSIDE, 0, 0, [], []⟩ hplace rfl
        ⟨Nat.le_refl _, rfl, fun _ => rfl⟩

/-! ### `update` keeps the tokens -/

theorem Requisition.assign_argsView (r : Requisition) (c : AnyConversion) (owner : Owner) :
    (Requisition.assign r c owner).argsView = r.argsView :=
  Requisition.assign_args r c owner

theorem Requisition.setCommandConversion_argsView {canon : Canon} {r r' : Requisition}
    {conv : Conversion} (h : Requisition.setCommandConversion canon r conv = Except.ok r') :
    r'.argsView = r.argsView := by
  unfold Requisition.setCommandConversion at h
  split at h
  · exact absurd h (by simp)
  · split at h
    · simp only [Except.ok.injEq] at h
      subst h
      exact Requisition.assign_argsView _ _ _
    · split at h
      · exact absurd h (by simp)
      · simp only [Except.ok.injEq] at h
        subst h
        exact Requisition.assign_argsView _ _ _

theorem Requisition.setParamConversion_argsView {r r' : Requisition} {key : Str}
    {conv : AnyConversion} (h : Requisition.setParamConversion r key conv = Except.ok r') :
    r'.argsView = r.argsView := by
  unfold Requisition.setParamConversion at h
  split at h
  · exact absurd h (by simp)
  · split at h
    · exact absurd h (by simp)
    · simp only [Except.ok.injEq] at h
      subst h
      exact Requisition.assign_argsView _ _ _

theorem Requisition.setUnassignedConversion_argsView {r r' : Requisition}
    {conv : AnyConversion} (h : Requisition.setUnassignedConversion r conv = Except.ok r') :
    r'.argsView = r.argsView := by
  unfold Requisition.setUnassignedConversion at h
  split at h
  · exact absurd h (by simp)
  · simp only [Except.ok.injEq] at h
    subst h
    exact Requisition.assign_argsView _ _ _

theorem Requisition.setParamDefault_argsView {canon : Canon} {r r' : Requisition} {key : Str}
    (h : Requisition.setParamDefault canon r key = Except.ok r') :
    r'.argsView = r.argsView := by
  unfold Requisition.setParamDefault at h
  split at h
  · exact absurd h (by simp)
  · split at h
    · exact absurd h (by simp)
    · exact Requisition.setParamConversion_argsView h

theorem Requisition.setUnassignedDefault_argsView {canon : Canon} {r r' : Requisition}
    (h : Requisition.setUnassignedDefault canon r = Except.ok r') :
    r'.argsView = r.argsView := by
  unfold Requisition.setUnassignedDefault at h
  split at h
  · exact absurd h (by simp)
  · exact Requisition.setUnassignedConversion_argsView h

theorem Requisition.setUnassigned_argsView {canon : Canon} {r r' : Requisition}
    {args : List Tok} (h : Requisition.setUnassigned canon r args = Except.ok r') :
    r'.argsView = r.argsView := by
  unfold Requisition.setUnassigned at h
  split at h
  · exact Requisition.setUnassignedDefault_argsView h
  · split at h
    · exact absurd h (by simp)
    · split at h
      · exact absurd h (by simp)
      · exact Requisition.setUnassignedConversion_argsView h

theorem Requisition.setDefaultArguments_argsView {canon : Canon} :
    ∀ (keys : List Str) {r r' : Requisition},
      Requisition.setDefaultArguments canon r keys = Except.ok r' → r'.argsView = r.argsView
  | [], r, r', h => by
    simp only [Requisition.setDefaultArguments, Except.ok.injEq] at h
    rw [h]
  | key :: rest, r, r', h => by
    simp only [Requisition.setDefaultArguments] at h
    split at h
    · exact absurd h (by simp)
    · rename_i r1 h1
      rw [Requisition.setDefaultArguments_argsView rest h,
        Requisition.setParamDefault_argsView h1]

theorem parseAndSet_argsView {canon : Canon} {r r' : Requisition} {key : Str} {type : GType}
    {arg : Arg} (h : parseAndSet canon r key type arg = Except.ok r') :
    r'.argsView = r.argsView := by
  unfold parseAndSet at h
  split at h
  · exact absurd h (by simp)
  · exact Requisition.setParamConversion_argsView h

theorem namedLoop_argsView {canon : Canon} {key : Str} {param : Parameter} :
    ∀ (rest before : List Tok) {w w' : AssignWork} {args' : List Tok},
      namedLoop canon key param before rest w = Except.ok (args', w') →
      w'.r.argsView = w.r.argsView
  | [], before, w, w', args', h => by
    simp only [namedLoop, Except.ok.injEq, Prod.mk.injEq] at h
    rw [h.2]
  | t :: rest, before, w, w', args', h => by
    conv at h => lhs; unfold namedLoop
    dsimp only at h
    split at h
    · split at h
      · split at h
        · exact absurd h (by simp)
        · rename_i r1 h1
          rw [namedLoop_argsView rest before h]
          exact parseAndSet_argsView h1
      · split at h
        · exact absurd h (by simp)
        · split at h
          · simp only [Except.ok.injEq, Prod.mk.injEq] at h
            rw [← h.2]
          · split at h
            · exact absurd h (by simp)
            · rename_i r1 h1
              simp only [Except.ok.injEq, Prod.mk.injEq] at h
              rw [← h.2]
              exact parseAndSet_argsView h1
    · exact namedLoop_argsView rest (before ++ [t]) h

theorem namedPass_argsView {canon : Canon} :
    ∀ (keys : List Str) {args args' : List Tok} {w w' : AssignWork},
      namedPass canon keys args w = Except.ok (args', w') → w'.r.argsView = w.r.argsView
  | [], args, args', w, w', h => by
    simp only [namedPass, Except.ok.injEq, Prod.mk.injEq] at h
    rw [h.2]
  | key :: keys, args, args', w, w', h => by
    simp only [namedPass] at h
    split at h
    · exact absurd h (by simp)
    · split at h
      · exact absurd h (by simp)
      · rename_i args1 w1 h1
        rw [namedPass_argsView keys h]
        exact namedLoop_argsView args [] h1

theorem positionalStep_argsView {canon : Canon} {name : Str} {args args' : List Tok}
    {w w' : AssignWork} (h : positionalStep canon name args w = Except.ok (args', w')) :
    w'.r.argsView = w.r.argsView := by
  unfold positionalStep at h
  split at h
  · exact absurd h (by simp)
  · split at h
    · split at h
      · exact absurd h (by simp)
      · rename_i r1 h1
        simp only [Except.ok.injEq, Prod.mk.injEq] at h
        rw [← h.2]
        exact Requisition.setParamDefault_argsView h1
    · split at h
      · simp only [Except.ok.injEq, Prod.mk.injEq] at h
        rw [← h.2]
      · dsimp only at h
        split at h
        · exact absurd h (by simp)
        · rename_i r1 h1
          simp only [Except.ok.injEq, Prod.mk.injEq] at h
          rw [← h.2]
          exact parseAndSet_argsView h1

theorem positionalPass_argsView {canon : Canon} :
    ∀ (names : List Str) {args args' : List Tok} {w w' : AssignWork},
      positionalPass canon names args w = Except.ok (args', w') →
      w'.r.argsView = w.r.argsView
  | [], args, args', w, w', h => by
    simp only [positionalPass, Except.ok.injEq, Prod.mk.injEq] at h
    rw [h.2]
  | name :: names, args, args', w, w', h => by
    simp only [positionalPass] at h
    split at h
    · exact absurd h (by simp)
    · rename_i args1 w1 h1
      rw [positionalPass_argsView names h]
      exact positionalStep_argsView h1

theorem arrayPass_argsView {canon : Canon} :
    ∀ (arrays : List (Str × List ArrayMember)) {r r' : Requisition},
      arrayPass canon arrays r = Except.ok r' → r'.argsView = r.argsView
  | [], r, r', h => by
    simp only [arrayPass, Except.ok.injEq] at h
    rw [h]
  | (name, members) :: rest, r, r', h => by
    simp only [arrayPass] at h
    split at h
    · exact absurd h (by simp)
    · split at h
      · exact absurd h (by simp)
      · rename_i r1 h1
        rw [arrayPass_argsView rest h]
        exact parseAndSet_argsView h1

theorem Requisition.assign_step_argsView {canon : Canon} {r r' : Requisition} {args : List Tok}
    (h : Requisition._assign canon r args = Except.ok r') : r'.argsView = r.argsView := by
  unfold Requisition._assign at h
  split at h
  · exact Requisition.setUnassigned_argsView h
  · split at h
    · split at h
      · exact absurd h (by simp)
      · rename_i r1 h1
        rw [Requisition.setUnassignedDefault_argsView h]
        exact Requisition.setDefaultArguments_argsView _ h1
    · split at h
      · exact Requisition.setUnassigned_argsView h
      · dsimp only at h
        split at h
        · split at h
          · exact absurd h (by simp)
          · split at h
            · exact absurd h (by simp)
            · rename_i r1 h1
              rw [Requisition.setUnassignedDefault_argsView h]
              exact parseAndSet_argsView h1
        · split at h
          · exact absurd h (by simp)
          · rename_i args1 w1 h1
            split at h
            · exact absurd h (by simp)
            · rename_i args2 w2 h2
              split at h
              · exact absurd h (by simp)
              · rename_i r3 h3
                have e1 := namedPass_argsView _ h1
                have e2 := positionalPass_argsView _ h2
                have e3 := arrayPass_argsView _ h3
                split at h
                · rw [Requisition.setUnassigned_argsView h, e3, e2, e1]
                · rw [Requisition.setUnassignedDefault_argsView h, e3, e2, e1]

theorem Requisition.split_argsView {canon : Canon} {r r' : Requisition}
    {args rest : List Tok} (h : Requisition._split canon r args = Except.ok (r', rest)) :
    r'.argsView = r.argsView := by
  unfold Requisition._split at h
  split at h
  · exact absurd h (by simp)
  · split at h
    · exact absurd h (by simp)
    · split at h
      · exact absurd h (by simp)
      · rename_i r1 h1
        simp only [Except.ok.injEq, Prod.mk.injEq] at h
        rw [← h.1]
        exact Requisition.setCommandConversion_argsView h1

theorem toSlots_view (args : List Argument) :
    ((toSlots args).map ArgSlot.arg) = args := by
  unfold toSlots
  rw [List.map_zipWith]
  have : ∀ (l : List Nat) (as : List Argument), as.length ≤ l.length →
      List.zipWith (fun _ a => a) l as = as := by
    intro l
    induction l with
    | nil => intro as h; cases as <;> simp_all
    | cons x l ih =>
      intro as h
      cases as with
      | nil => rfl
      | cons a as => simp [ih as (by simpa using h)]
  exact this _ _ (by simp)

/-- When `update` returns, the live list holds the Arguments `_tokenize` returned for the
typed input, in order. -/
theorem Requisition.update_args {canon : Canon} {r r' : Requisition} {input : Input}
    (h : Requisition.update canon r input = Except.ok r') :
    r'._args.map (fun slots => slots.map ArgSlot.arg) = some (_tokenize input.typed) := by
  unfold Requisition.update at h
  dsimp only at h
  split at h
  · exact absurd h (by simp)
  · rename_i r1 rest h1
    have e1 := Requisition.split_argsView h1
    have e2 := Requisition.assign_step_argsView h
    have e : r'.argsView = some ((toSlots (_tokenize input.typed)).map (fun s => (s.id, s.arg))) := by
      rw [e2, e1]; rfl
    have key : r'._args.map (fun slots => slots.map ArgSlot.arg)
        = r'.argsView.map (fun l => l.map Prod.snd) := by
      unfold Requisition.argsView
      cases r'._args with
      | none => rfl
      | some slots =>
        simp only [Option.map_some', List.map_map]
        rfl
    rw [key, e]
    simp only [Option.map_some', List.map_map]
    exact congrArg some (toSlots_view _)

theorem mapM_length {α β : Type} (f : α → Except Thrown β) :
    ∀ (l : List α) (out : List β), l.mapM f = Except.ok out → out.length = l.length
  | [], out, h => by
    have h1 : (Except.ok [] : Except Thrown (List β)) = Except.ok out := h
    simp only [Except.ok.injEq] at h1
    subst h1
    rfl
  | x :: l, out, h => by
    rw [List.mapM_cons] at h
    cases hx : f x with
    | error e => rw [hx] at h; exact absurd h (by intro h2; cases h2)
    | ok y =>
      cases hl : l.mapM f with
      | error e => rw [hx, hl] at h; exact absurd h (by intro h2; cases h2)
      | ok ys =>
        rw [hx, hl] at h
        have h1 : (Except.ok (y :: ys) : Except Thrown (List β)) = Except.ok out := h
        simp only [Except.ok.injEq] at h1
        subst h1
        rw [List.length_cons, List.length_cons, mapM_length f l ys hl]

theorem traces_length (slots : List ArgSlot) :
    ((slots.map slotTraces).flatten).length = (joinArgs (slots.map ArgSlot.arg)).length := by
  induction slots with
  | nil => rfl
  | cons slot slots ih =>
    simp only [List.map_cons, List.flatten_cons, List.length_append, joinArgs] at ih ⊢
    rw [ih]
    simp [slotTraces, Argument.toString]

/-- Right after an `update` that returns, on a typed string with no backslash and no
placeholder character, `toString()` gives the typed string back. -/
theorem Requisition.update_toString {canon : Canon} {r r' : Requisition} {s : Str}
    {cursor : Option Nat} (hback : '\\' ∉ s) (hplace : ∀ c ∈ s, notPlaceholder c)
    (h : Requisition.update canon r ⟨some s, cursor⟩ = Except.ok r') :
    r'.toString = some s := by
  have e := Requisition.update_args h
  unfold Requisition.toString
  cases hargs : r'._args with
  | none => rw [hargs] at e; exact absurd e (by simp)
  | some slots =>
    rw [hargs] at e
    simp only [Option.map_some', Option.some.injEq] at e ⊢
    rw [e]
    exact tokenize_join s hback hplace

/-- When `getInputStatusMarkup()` returns after such an `update`, it has one entry for each
character of the typed string. -/
theorem Requisition.update_markup_length {canon : Canon} {r r' : Requisition} {s : Str}
    {cursor : Option Nat} {statuses : List Status}
    (hback : '\\' ∉ s) (hplace : ∀ c ∈ s, notPlaceholder c)
    (h : Requisition.update canon r ⟨some s, cursor⟩ = Except.ok r')
    (hm : r'.getInputStatusMarkup = Except.ok statuses) :
    statuses.length = s.length := by
  have e := Requisition.update_args h
  unfold Requisition.getInputStatusMarkup Requisition.createInputArgTrace at hm
  cases hargs : r'._args with
  | none => rw [hargs] at hm; exact absurd hm (by simp)
  | some slots =>
    rw [hargs] at e hm
    simp only [Option.map_some', Option.some.injEq] at e
    dsimp only at hm
    rw [mapM_length _ _ _ hm, traces_length, e, tokenize_join s hback hplace]

/-- C36 (the code departs from it): the tokens of a string with no backslash and no
placeholder character do concatenate to the string (tokenize_join, update_toString,
update_markup_length), but the two calls the claim names do not always return. After
update with typed 'ts' and no cursor, the stored cursor start is undefined, so
getInputStatusMarkup throws a TypeError at the first INCOMPLETE character instead of
returning two entries; and update on 'tsm --txt hello 5' throws before toString can be
called. -/
theorem update_without_cursor_markup_throws :
    (Requisition.update TestCommands.canon (Requisition.new ⟨[], []⟩)
        ⟨some "ts".toList, none⟩).bind (fun r => r.getInputStatusMarkup)
      = Except.error (Thrown.typeError "cTrace is undefined".toList) ∧
    (Requisition.update TestCommands.canon (Requisition.new ⟨[], []⟩)
        ⟨some "tsm --txt hello 5".toList, none⟩).map (fun r => r.toString)
      = Except.error (Thrown.typeError "valueArg is null or undefined".toList) :=
  ⟨rfl, rfl⟩

theorem tokenizeLoop_single (typed pre : Str) (args : List Argument) (start : Nat) :
    ∀ (q rest : Str) (i : Nat), '\'' ∉ q →
      tokenizeLoop typed (q ++ rest) ⟨Mode.IN_SINGLE_Q, i, start, pre, args⟩
        = tokenizeLoop typed rest ⟨Mode.IN_SINGLE_Q, i + q.length, start, pre, args⟩
  | [], _, _, _ => rfl
  | c :: q, rest, i, h => by
    have hc : c ≠ '\'' := fun hc => h (hc ▸ List.mem_cons_self _ _)
    simp only [List.cons_append, tokenizeLoop, tokenizeStep, hc, if_false]
    refine (tokenizeLoop_single typed pre args start q rest (i + 1)
      (fun hm => h (List.mem_cons_of_mem _ hm))).trans ?_
    rw [List.length_cons, Nat.add_assoc, Nat.add_comm 1]

theorem tokenizeLoop_double (typed pre : Str) (args : List Argument) (start : Nat) :
    ∀ (q rest : Str) (i : Nat), '"' ∉ q →
      tokenizeLoop typed (q ++ rest) ⟨Mode.IN_DOUBLE_Q, i, start, pre, args⟩
        = tokenizeLoop typed rest ⟨Mode.IN_DOUBLE_Q, i + q.length, start, pre, args⟩
  | [], _, _, _ => rfl
  | c :: q, rest, i, h => by
    have hc : c ≠ '"' := fun hc => h (hc ▸ List.mem_cons_self _ _)
    simp only [List.cons_append, tokenizeLoop, tokenizeStep, hc, if_false]
    refine (tokenizeLoop_double typed pre args start q rest (i + 1)
      (fun hm => h (List.mem_cons_of_mem _ hm))).trans ?_
    rw [List.length_cons, Nat.add_assoc, Nat.add_comm 1]

theorem substring_quoted (d : Char) (q : Str) :
    substring (d :: (q ++ [d])) 1 (1 + q.length) = q := by
  rw [substring_of_le _ _ _ (Nat.le_add_right _ _), Nat.add_comm 1, List.take_succ_cons,
    List.drop_succ_cons, List.drop_zero, List.take_left']
  rfl

/-- C33: for every string q with no backslash and no placeholder character, if q has no
single quote then the input made of a single quote, q and a single quote tokenizes to
exactly one Argument with text q, prefix the single quote and suffix the single quote; and
if q has no double quote the same holds with double quotes. The delimiting quotes are in
the prefix and suffix, never in the text. -/
theorem tokenize_quoted (q : Str) (hback : '\\' ∉ q) (hplace : ∀ c ∈ q, notPlaceholder c) :
    ('\'' ∉ q → _tokenize (some ('\'' :: (q ++ ['\'']))) = [⟨q, ['\''], ['\'']⟩]) ∧
    ('"' ∉ q → _tokenize (some ('"' :: (q ++ ['"']))) = [⟨q, ['"'], ['"']⟩]) := by
  constructor
  · intro hq
    have hb : '\\' ∉ '\'' :: (q ++ ['\'']) := by
      simp only [List.mem_cons, List.mem_append, List.mem_singleton, not_or]
      exact ⟨by decide, hback, by decide⟩
    have hns : isSimple ('\'' :: (q ++ ['\''])) = false := by simp [isSimple]
    simp only [_tokenize, hns, unescape_id _ hb]
    simp only [tokenizeLoop, tokenizeStep, if_true]
    rw [tokenizeLoop_single _ _ _ _ q ['\''] (0 + 1) hq]
    simp only [tokenizeLoop, tokenizeStep, if_true, tokenizeFinish, List.nil_append]
    rw [Nat.zero_add, substring_quoted, unescape2_id q hplace]
    simp [substring]
  · intro hq
    have hb : '\\' ∉ '"' :: (q ++ ['"']) := by
      simp only [List.mem_cons, List.mem_append, List.mem_singleton, not_or]
      exact ⟨by decide, hback, by decide⟩
    have hns : isSimple ('"' :: (q ++ ['"'])) = false := by simp [isSimple]
    simp only [_tokenize, hns, unescape_id _ hb]
    simp only [tokenizeLoop, tokenizeStep, if_true, (by decide : ¬ ('"' = '\'')), if_false,
      Bool.false_eq_true]
    rw [tokenizeLoop_double _ _ _ _ q ['"'] (0 + 1) hq]
    simp only [tokenizeLoop, tokenizeStep, if_true, tokenizeFinish, List.nil_append]
    rw [Nat.zero_add, substring_quoted, unescape2_id q hplace]
    simp [substring]

/-- C33 at concrete inputs: the quoted strings 'a b' and "it's". -/
theorem tokenize_quoted_witness :
    ('\\' ∉ "a b".toList ∧ ∀ c ∈ "a b".toList, notPlaceholder c) ∧
    _tokenize (some "'a b'".toList) = [⟨"a b".toList, "'".toList, "'".toList⟩] :=
  ⟨⟨by decide, by unfold notPlaceholder; decide⟩,
   (tokenize_quoted "a b".toList (by decide) (by unfold notPlaceholder; decide)).1 (by decide)⟩

theorem replaceEscape_pair (x r y : Char) (s : Str) (hy : y ≠ '\\') :
    replaceEscape x r ('\\' :: y :: s)
      = if y = x then r :: replaceEscape x r s else '\\' :: y :: replaceEscape x r s := by
  conv_lhs => unfold replaceEscape
  by_cases hx : y = x
  · simp [hx]
  · simp only [hx, and_false, if_false]
    rw [replaceEscape_cons_of_ne x r y s hy]

theorem replaceEscape_pieces (x r : Char) :
    ∀ ps : List Piece, (∀ p ∈ ps, p.noBackslash) →
      replaceEscape x r (typedPieces ps) = typedPieces (ps.map (Piece.replace x r))
  | [], _ => rfl
  | p :: ps, h => by
    have ih := replaceEscape_pieces x r ps (fun q hq => h q (List.mem_cons_of_mem _ hq))
    have hp := h p (List.mem_cons_self _ _)
    cases p with
    | plain c =>
      show replaceEscape x r (c :: typedPieces ps) = c :: typedPieces (ps.map (Piece.replace x r))
      rw [replaceEscape_cons_of_ne x r c _ hp, ih]
    | space =>
      show replaceEscape x r ('\\' :: ' ' :: typedPieces ps)
        = (Piece.replace x r Piece.space).typed ++ typedPieces (ps.map (Piece.replace x r))
      rw [replaceEscape_pair x r ' ' _ (by decide), ih]
      by_cases hx : x = ' '
      · subst hx; rfl
      · have hx2 : ¬ (' ' = x) := fun e => hx e.symm
        simp only [hx2, if_false, Piece.replace, hx]
        rfl
    | single =>
      show replaceEscape x r ('\\' :: '\'' :: typedPieces ps)
        = (Piece.replace x r Piece.single).typed ++ typedPieces (ps.map (Piece.replace x r))
      rw [replaceEscape_pair x r '\'' _ (by decide), ih]
      by_cases hx : x = '\''
      · subst hx; rfl
      · have hx2 : ¬ ('\'' = x) := fun e => hx e.symm
        simp only [hx2, if_false, Piece.replace, hx]
        rfl
    | double =>
      show replaceEscape x r ('\\' :: '"' :: typedPieces ps)
        = (Piece.replace x r Piece.double).typed ++ typedPieces (ps.map (Piece.replace x r))
      rw [replaceEscape_pair x r '"' _ (by decide), ih]
      by_cases hx : x = '"'
      · subst hx; rfl
      · have hx2 : ¬ ('"' = x) := fun e => hx e.symm
        simp only [hx2, if_false, Piece.replace, hx]
        rfl

theorem Piece.replace_other (x r : Char) (h1 : x ≠ ' ') (h2 : x ≠ '\'') (h3 : x ≠ '"')
    (p : Piece) : Piece.replace x r p = p := by
  cases p <;> simp [Piece.replace, h1, h2, h3]

theorem replaceEscape_pieces_other (x r : Char) (h1 : x ≠ ' ') (h2 : x ≠ '\'') (h3 : x ≠ '"')
    (ps : List Piece) (h : ∀ p ∈ ps, p.noBackslash) :
    replaceEscape x r (typedPieces ps) = typedPieces ps := by
  rw [replaceEscape_pieces x r ps h]
  congr 1
  conv_rhs => rw [← List.map_id ps]
  exact List.map_congr_left (fun p _ => Piece.replace_other x r h1 h2 h3 p)

theorem Piece.replace_noBackslash (x r : Char) (hr : r ≠ '\\') (ps : List Piece)
    (h : ∀ p ∈ ps, p.noBackslash) : ∀ p ∈ ps.map (Piece.replace x r), p.noBackslash := by
  intro p hp
  obtain ⟨q, hq, rfl⟩ := List.mem_map.mp hp
  have hqn := h q hq
  cases q with
  | plain c => exact hqn
  | space =>
    show (if x = ' ' then Piece.plain r else Piece.space).noBackslash
    by_cases hx : x = ' '
    · rw [if_pos hx]; exact hr
    · rw [if_neg hx]; trivial
  | single =>
    show (if x = '\'' then Piece.plain r else Piece.single).noBackslash
    by_cases hx : x = '\''
    · rw [if_pos hx]; exact hr
    · rw [if_neg hx]; trivial
  | double =>
    show (if x = '"' then Piece.plain r else Piece.double).noBackslash
    by_cases hx : x = '"'
    · rw [if_pos hx]; exact hr
    · rw [if_neg hx]; trivial

theorem Piece.replace_all (p : Piece) :
    Piece.replace '"' escDouble (Piece.replace '\'' escSingle (Piece.replace ' ' escSpace p))
      = Piece.plain p.scanned := by
  cases p <;> rfl

theorem typedPieces_plain (f : Piece → Char) :
    ∀ ps : List Piece, typedPieces (ps.map (fun p => Piece.plain (f p))) = ps.map f
  | [] => rfl
  | p :: ps => by
    show f p :: typedPieces (ps.map (fun p => Piece.plain (f p))) = f p :: ps.map f
    rw [typedPieces_plain f ps]

/-- The chain of replacements turns the typed pieces into the units the scanner reads. -/
theorem unescape_pieces (ps : List Piece) (h : ∀ p ∈ ps, p.noBackslash) :
    unescape (typedPieces ps) = ps.map Piece.scanned := by
  unfold unescape
  simp only [replaceEscape_pieces_other '\\' _ (by decide) (by decide) (by decide) ps h,
    replaceEscape_pieces_other 'b' _ (by decide) (by decide) (by decide) ps h,
    replaceEscape_pieces_other 'f' _ (by decide) (by decide) (by decide) ps h,
    replaceEscape_pieces_other 'n' _ (by decide) (by decide) (by decide) ps h,
    replaceEscape_pieces_other 'r' _ (by decide) (by decide) (by decide) ps h,
    replaceEscape_pieces_other 't' _ (by decide) (by decide) (by decide) ps h,
    replaceEscape_pieces_other 'v' _ (by decide) (by decide) (by decide) ps h]
  have h1 := Piece.replace_noBackslash ' ' escSpace (by decide) ps h
  have h2 := Piece.replace_noBackslash '\'' escSingle (by decide) _ h1
  rw [replaceEscape_pieces ' ' escSpace ps h, replaceEscape_pieces '\'' escSingle _ h1,
    replaceEscape_pieces '"' escDouble _ h2, List.map_map, List.map_map]
  rw [← typedPieces_plain Piece.scanned ps]
  congr 1
  exact List.map_congr_left (fun p _ => Piece.replace_all p)

theorem isSimple_pieces :
    ∀ ps : List Piece, isSimple (typedPieces ps) = true → typedPieces ps = ps.map Piece.unit
  | [], _ => rfl
  | Piece.plain c :: ps, h => by
    have h1 : isSimple (c :: typedPieces ps) = true := h
    show c :: typedPieces ps = c :: ps.map Piece.unit
    unfold isSimple at h1
    split at h1
    · exact absurd h1 (by simp)
    · rw [isSimple_pieces ps h1]
  | Piece.space :: ps, h => by
    have h1 : isSimple ('\\' :: ' ' :: typedPieces ps) = true := h
    simp [isSimple] at h1
  | Piece.single :: ps, h => by
    have h1 : isSimple ('\\' :: '\'' :: typedPieces ps) = true := h
    simp [isSimple] at h1
  | Piece.double :: ps, h => by
    have h1 : isSimple ('\\' :: '"' :: typedPieces ps) = true := h
    simp [isSimple] at h1

theorem tokenizeLoop_simple (typed pre : Str) (args : List Argument) (start : Nat) :
    ∀ (q : Str) (i : Nat), ' ' ∉ q →
      tokenizeLoop typed q ⟨Mode.IN_SIMPLE, i, start, pre, args⟩
        = args ++ [⟨unescape2 (substring typed start (i + q.length)), pre, []⟩]
  | [], i, _ => by simp [tokenizeLoop, tokenizeFinish]
  | c :: q, i, h => by
    have hc : c ≠ ' ' := fun hc => h (hc ▸ List.mem_cons_self _ _)
    simp only [tokenizeLoop, tokenizeStep, hc, if_false]
    refine (tokenizeLoop_simple typed pre args start q (i + 1)
      (fun hm => h (List.mem_cons_of_mem _ hm))).trans ?_
    rw [List.length_cons, Nat.add_assoc, Nat.add_comm 1]

/-- A non-empty string with no space and no quote is scanned as one token. -/
theorem tokenizeLoop_word (c : Char) (q : Str)
    (h : ∀ d ∈ c :: q, d ≠ ' ' ∧ d ≠ '\'' ∧ d ≠ '"') :
    tokenizeLoop (c :: q) (c :: q) ⟨Mode.OUTSIDE, 0, 0, [], []⟩
      = [⟨unescape2 (c :: q), [], []⟩] := by
  obtain ⟨h1, h2, h3⟩ := h c (List.mem_cons_self _ _)
  simp only [tokenizeLoop, tokenizeStep, h1, h2, h3, if_false]
  rw [tokenizeLoop_simple _ _ _ _ q (0 + 1)
    (fun hm => (h ' ' (List.mem_cons_of_mem _ hm)).1 rfl)]
  have e1 : substring (c :: q) 0 0 = [] := by simp [substring]
  have e2 : substring (c :: q) 0 (0 + 1 + q.length) = c :: q := by
    rw [substring_of_le _ _ _ (Nat.zero_le _), List.drop_zero]
    exact List.take_of_length_le (by simp; omega)
  rw [e1, e2]
  rfl

/-- A unit that is no space and no quote never pushes an argument, and changes the mode
only by starting a plain token when the scanner is outside one. -/
theorem tokenizeStep_of_not_delimiter (typed : Str) (st : TokState) (c : Char)
    (h1 : c ≠ ' ') (h2 : c ≠ '\'') (h3 : c ≠ '"') :
    (tokenizeStep typed c st).args = st.args ∧
    (tokenizeStep typed c st).mode
      = (if st.mode = Mode.OUTSIDE then Mode.IN_SIMPLE else st.mode) := by
  unfold tokenizeStep
  cases hm : st.mode <;> simp [h1, h2, h3, hm]

theorem typedPieces_append (a b : List Piece) :
    typedPieces (a ++ b) = typedPieces a ++ typedPieces b := by
  simp [typedPieces]

theorem tokenizeLoop_simple_skip (typed pre : Str) (args : List Argument) (start : Nat) :
    ∀ (q rest : Str) (i : Nat), ' ' ∉ q →
      tokenizeLoop typed (q ++ rest) ⟨Mode.IN_SIMPLE, i, start, pre, args⟩
        = tokenizeLoop typed rest ⟨Mode.IN_SIMPLE, i + q.length, start, pre, args⟩
  | [], _, _, _ => rfl
  | c :: q, rest, i, h => by
    have hc : c ≠ ' ' := fun hc => h (hc ▸ List.mem_cons_self _ _)
    simp only [List.cons_append, tokenizeLoop, tokenizeStep, hc, if_false]
    refine (tokenizeLoop_simple_skip typed pre args start q rest (i + 1)
      (fun hm => h (List.mem_cons_of_mem _ hm))).trans ?_
    rw [List.length_cons, Nat.add_assoc, Nat.add_comm 1]

theorem substring_mid (a seg b : Str) :
    substring (a ++ (seg ++ b)) a.length (a.length + seg.length) = seg := by
  rw [substring_of_le _ _ _ (Nat.le_add_right _ _)]
  rw [← List.append_assoc, List.take_left' (by simp), List.drop_left' rfl]

theorem substring_snoc (a : Str) (c : Char) (b : Str) (start : Nat) (h : start ≤ a.length) :
    substring (a ++ c :: b) start (a.length + 1) = substring (a ++ c :: b) start a.length ++ [c] := by
  rw [substring_of_le _ _ _ (by omega), substring_of_le _ _ _ h, take_succ_of_append,
    List.drop_append_of_le_length (by simp [h])]

theorem tokenizeLoop_word_step (done tail pre : Str) (args : List Argument) (start : Nat)
    (c : Char) (q : Str) (h : ∀ d ∈ c :: q, d ≠ ' ' ∧ d ≠ '\'' ∧ d ≠ '"')
    (hpre : substring (done ++ c :: (q ++ tail)) start done.length = pre) :
    tokenizeLoop (done ++ c :: (q ++ tail)) (c :: (q ++ tail))
        ⟨Mode.OUTSIDE, done.length, start, [], args⟩
      = tokenizeLoop (done ++ c :: (q ++ tail)) tail
          ⟨Mode.IN_SIMPLE, done.length + (q.length + 1), done.length, pre, args⟩ := by
  obtain ⟨h1, h2, h3⟩ := h c (List.mem_cons_self _ _)
  simp only [tokenizeLoop, tokenizeStep, h1, h2, h3, if_false]
  rw [tokenizeLoop_simple_skip _ _ _ _ q tail (done.length + 1)
    (fun hm => (h ' ' (List.mem_cons_of_mem _ hm)).1 rfl)]
  rw [hpre, Nat.add_assoc, Nat.add_comm 1]

theorem tokenizeLoop_single_step (done tail pre inner : Str) (args : List Argument)
    (start : Nat) (h : '\'' ∉ inner) (hstart : start ≤ done.length)
    (hpre : substring (done ++ '\'' :: (inner ++ '\'' :: tail)) start done.length = pre) :
    tokenizeLoop (done ++ '\'' :: (inner ++ '\'' :: tail)) ('\'' :: (inner ++ '\'' :: tail))
        ⟨Mode.OUTSIDE, done.length, start, [], args⟩
      = tokenizeLoop (done ++ '\'' :: (inner ++ '\'' :: tail)) tail
          ⟨Mode.OUTSIDE, done.length + (inner.length + 2), done.length + (inner.length + 2), [],
            args ++ [⟨unescape2 inner, pre ++ ['\''], ['\'']⟩]⟩ := by
  have hsub : substring (done ++ '\'' :: (inner ++ '\'' :: tail)) start (done.length + 1)
      = pre ++ ['\''] := by
    rw [← hpre]
    exact substring_snoc done '\'' _ start hstart
  have hmid : substring (done ++ '\'' :: (inner ++ '\'' :: tail)) (done.length + 1)
      (done.length + 1 + inner.length) = inner := by
    have := substring_mid (done ++ ['\'']) inner ('\'' :: tail)
    simp only [List.length_append, List.length_singleton, List.append_assoc,
      List.singleton_append] at this
    exact this
  simp only [tokenizeLoop, tokenizeStep, if_true]
  rw [hsub, tokenizeLoop_single _ _ _ _ inner _ (done.length + 1) h]
  simp only [tokenizeLoop, tokenizeStep, if_true, hmid]
  have e : done.length + 1 + inner.length + 1 = done.length + (inner.length + 2) := by omega
  rw [e]

theorem tokenizeLoop_double_step (done tail pre inner : Str) (args : List Argument)
    (start : Nat) (h : '"' ∉ inner) (hstart : start ≤ done.length)
    (hpre : substring (done ++ '"' :: (inner ++ '"' :: tail)) start done.length = pre) :
    tokenizeLoop (done ++ '"' :: (inner ++ '"' :: tail)) ('"' :: (inner ++ '"' :: tail))
        ⟨Mode.OUTSIDE, done.length, start, [], args⟩
      = tokenizeLoop (done ++ '"' :: (inner ++ '"' :: tail)) tail
          ⟨Mode.OUTSIDE, done.length + (inner.length + 2), done.length + (inner.length + 2), [],
            args ++ [⟨unescape2 inner, pre ++ ['"'], ['"']⟩]⟩ := by
  have hsub : substring (done ++ '"' :: (inner ++ '"' :: tail)) start (done.length + 1)
      = pre ++ ['"'] := by
    rw [← hpre]
    exact substring_snoc done '"' _ start hstart
  have hmid : substring (done ++ '"' :: (inner ++ '"' :: tail)) (done.length + 1)
      (done.length + 1 + inner.length) = inner := by
    have := substring_mid (done ++ ['"']) inner ('"' :: tail)
    simp only [List.length_append, List.length_singleton, List.append_assoc,
      List.singleton_append] at this
    exact this
  simp only [tokenizeLoop, tokenizeStep, if_true, (by decide : ¬ ('"' = '\'')), if_false]
  rw [hsub, tokenizeLoop_double _ _ _ _ inner _ (done.length + 1) h]
  simp only [tokenizeLoop, tokenizeStep, if_true, hmid]
  have e : done.length + 1 + inner.length + 1 = done.length + (inner.length + 2) := by omega
  rw [e]

theorem scanned_word (ps : List Piece) (h : ∀ p ∈ ps, p.wellFormed) :
    ∀ d ∈ ps.map Piece.scanned, d ≠ ' ' ∧ d ≠ '\'' ∧ d ≠ '"' := by
  intro d hd
  obtain ⟨q, hq, rfl⟩ := List.mem_map.mp hd
  have := h q hq
  cases q with
  | plain c => exact ⟨this.1, this.2.2.1, this.2.1⟩
  | space => exact ⟨by decide, by decide, by decide⟩
  | single => exact ⟨by decide, by decide, by decide⟩
  | double => exact ⟨by decide, by decide, by decide⟩

theorem unescape2_scanned (ps : List Piece)
    (h : ∀ c, Piece.plain c ∈ ps → notPlaceholder c) :
    unescape2 (ps.map Piece.scanned) = ps.map Piece.unit := by
  rw [unescape2, List.map_map]
  apply List.map_congr_left
  intro q hq
  cases q with
  | plain c =>
    obtain ⟨a, b, c3⟩ := h c hq
    simp [Piece.scanned, Piece.unit, unescape2Char, a, b, c3]
  | space => rfl
  | single => rfl
  | double => rfl

theorem scanned_quoted (quote : Char) (hq : quote = '\'' ∨ quote = '"') (ps : List Piece)
    (h : ∀ p ∈ ps, p.quotedIn quote) : quote ∉ ps.map Piece.scanned := by
  intro hm
  obtain ⟨q, hqm, he⟩ := List.mem_map.mp hm
  have := h q hqm
  cases q with
  | plain c => exact this.1 he
  | space => rcases hq with rfl | rfl <;> exact absurd he (by decide)
  | single => rcases hq with rfl | rfl <;> exact absurd he (by decide)
  | double => rcases hq with rfl | rfl <;> exact absurd he (by decide)

theorem Item.units_of_wellFormed (it : Item) (h : it.wellFormed) :
    unescape2 (it.pieces.map Piece.scanned) = it.pieces.map Piece.unit := by
  apply unescape2_scanned
  intro c hc
  cases it with
  | word ps => exact (h.2 _ hc).2.2.2.2
  | single ps => exact (h _ hc).2.2
  | double ps => exact (h _ hc).2.2

/-- The scanned form of an item: the quotes and the units the scanner reads for its
pieces. -/
theorem Item.scanned_cases (it : Item) (h : it.wellFormed) :
    (∃ ps c q, it = Item.word ps ∧ it.allPieces.map Piece.scanned = c :: q ∧
      ps.map Piece.scanned = c :: q ∧ ∀ d ∈ c :: q, d ≠ ' ' ∧ d ≠ '\'' ∧ d ≠ '"') ∨
    (∃ ps, it = Item.single ps ∧
      it.allPieces.map Piece.scanned = '\'' :: (ps.map Piece.scanned ++ ['\'']) ∧
      '\'' ∉ ps.map Piece.scanned) ∨
    (∃ ps, it = Item.double ps ∧
      it.allPieces.map Piece.scanned = '"' :: (ps.map Piece.scanned ++ ['"']) ∧
      '"' ∉ ps.map Piece.scanned) := by
  cases it with
  | word ps =>
    left
    obtain ⟨hne, hwf⟩ := h
    have hd := scanned_word ps hwf
    cases hs : ps.map Piece.scanned with
    | nil => exact absurd (List.map_eq_nil_iff.mp hs) hne
    | cons c q => exact ⟨ps, c, q, rfl, hs, hs, hs ▸ hd⟩
  | single ps =>
    right; left
    exact ⟨ps, rfl, by simp [Item.allPieces, Piece.scanned],
      scanned_quoted '\'' (Or.inl rfl) ps h⟩
  | double ps =>
    right; right
    exact ⟨ps, rfl, by simp [Item.allPieces, Piece.scanned],
      scanned_quoted '"' (Or.inr rfl) ps h⟩

/-- Scanning the last item of a line: its token is pushed and the list is returned. -/
theorem tokenizeLoop_item_last (it : Item) (h : it.wellFormed) (done pre : Str)
    (args : List Argument) (start : Nat) (hstart : start ≤ done.length)
    (hpre : substring (done ++ it.allPieces.map Piece.scanned) start done.length = pre) :
    tokenizeLoop (done ++ it.allPieces.map Piece.scanned)
        (it.allPieces.map Piece.scanned) ⟨Mode.OUTSIDE, done.length, start, [], args⟩
      = args ++ [it.token pre] := by
  have hunits := Item.units_of_wellFormed it h
  rcases Item.scanned_cases it h with ⟨ps, c, q, rfl, hs, hs2, hd⟩ | ⟨ps, rfl, hs, hq⟩ |
    ⟨ps, rfl, hs, hq⟩
  · simp only [Item.pieces, Item.token] at hunits ⊢
    rw [hs] at hpre ⊢
    rw [hs2] at hunits
    have e0 : c :: q = c :: (q ++ []) := by simp
    rw [e0] at hpre ⊢
    rw [tokenizeLoop_word_step done [] pre args start c q hd hpre]
    have hmid : substring (done ++ c :: (q ++ [])) done.length (done.length + (q.length + 1))
        = c :: q := by
      have := substring_mid done (c :: q) []
      simp only [List.length_cons, List.cons_append] at this
      exact this
    simp only [tokenizeLoop, tokenizeFinish]
    rw [hmid, hunits]
    simp
  · simp only [Item.pieces, Item.token] at hunits ⊢
    rw [hs] at hpre ⊢
    have e0 : ps.map Piece.scanned ++ ['\''] = ps.map Piece.scanned ++ '\'' :: [] := rfl
    rw [e0] at hpre ⊢
    rw [tokenizeLoop_single_step done [] pre _ args start hq hstart hpre]
    simp [tokenizeLoop, tokenizeFinish, hunits]
  · simp only [Item.pieces, Item.token] at hunits ⊢
    rw [hs] at hpre ⊢
    have e0 : ps.map Piece.scanned ++ ['"'] = ps.map Piece.scanned ++ '"' :: [] := rfl
    rw [e0] at hpre ⊢
    rw [tokenizeLoop_double_step done [] pre _ args start hq hstart hpre]
    simp [tokenizeLoop, tokenizeFinish, hunits]

/-- Scanning an item that is followed by a space: its token is pushed, and the scanner is
outside a token, past the space, with the space as the pending prefix. -/
theorem tokenizeLoop_item_space (it : Item) (h : it.wellFormed) (done more pre : Str)
    (args : List Argument) (start : Nat) (hstart : start ≤ done.length)
    (hpre : substring (done ++ (it.allPieces.map Piece.scanned ++ ' ' :: more)) start
      done.length = pre) :
    tokenizeLoop (done ++ (it.allPieces.map Piece.scanned ++ ' ' :: more))
        (it.allPieces.map Piece.scanned ++ ' ' :: more)
        ⟨Mode.OUTSIDE, done.length, start, [], args⟩
      = tokenizeLoop (done ++ (it.allPieces.map Piece.scanned ++ ' ' :: more)) more
          ⟨Mode.OUTSIDE, done.length + (it.allPieces.map Piece.scanned).length + 1,
            done.length + (it.allPieces.map Piece.scanned).length, [],
            args ++ [it.token pre]⟩ := by
  have hunits := Item.units_of_wellFormed it h
  rcases Item.scanned_cases it h with ⟨ps, c, q, rfl, hs, hs2, hd⟩ | ⟨ps, rfl, hs, hq⟩ |
    ⟨ps, rfl, hs, hq⟩
  · simp only [Item.pieces, Item.token] at hunits ⊢
    rw [hs] at hpre ⊢
    rw [hs2] at hunits
    simp only [List.cons_append] at hpre ⊢
    rw [tokenizeLoop_word_step done _ pre args start c q hd hpre]
    have hmid : substring (done ++ c :: (q ++ ' ' :: more)) done.length
        (done.length + (q.length + 1)) = c :: q := by
      have := substring_mid done (c :: q) (' ' :: more)
      simp only [List.length_cons, List.cons_append] at this
      exact this
    simp only [tokenizeLoop, tokenizeStep, if_true, hmid, hunits, List.length_cons]
  · simp only [Item.pieces, Item.token] at hunits ⊢
    rw [hs] at hpre ⊢
    simp only [List.cons_append, List.append_assoc, List.singleton_append] at hpre ⊢
    rw [tokenizeLoop_single_step done _ pre _ args start hq hstart hpre]
    simp only [tokenizeLoop, tokenizeStep, hunits, List.length_cons, List.length_append,
      List.length_singleton, List.length_nil, (by decide : ¬ (' ' = '\'')),
      (by decide : ¬ (' ' = '"')), if_false, if_true]
  · simp only [Item.pieces, Item.token] at hunits ⊢
    rw [hs] at hpre ⊢
    simp only [List.cons_append, List.append_assoc, List.singleton_append] at hpre ⊢
    rw [tokenizeLoop_double_step done _ pre _ args start hq hstart hpre]
    simp only [tokenizeLoop, tokenizeStep, hunits, List.length_cons, List.length_append,
      List.length_singleton, List.length_nil, (by decide : ¬ (' ' = '\'')),
      (by decide : ¬ (' ' = '"')), if_false, if_true]

/-- Scanning a line of items from outside a token: the tokens of the items are pushed in
order, the first with the pending prefix and each later one after its space. -/
theorem tokenizeLoop_line :
    ∀ (items : List Item), items ≠ [] → (∀ it ∈ items, it.wellFormed) →
    ∀ (done pre : Str) (args : List Argument) (start : Nat),
      start ≤ done.length →
      substring (done ++ (linePieces items).map Piece.scanned) start done.length = pre →
      tokenizeLoop (done ++ (linePieces items).map Piece.scanned)
          ((linePieces items).map Piece.scanned) ⟨Mode.OUTSIDE, done.length, start, [], args⟩
        = args ++ lineTokens pre items
  | [], hne, _, _, _, _, _, _, _ => absurd rfl hne
  | [it], _, hwf, done, pre, args, start, hstart, hpre => by
    simp only [linePieces, lineTokens, List.map_nil] at hpre ⊢
    exact tokenizeLoop_item_last it (hwf it (List.mem_singleton_self _)) done pre args start
      hstart hpre
  | it :: it2 :: rest, _, hwf, done, pre, args, start, hstart, hpre => by
    have hmap : (linePieces (it :: it2 :: rest)).map Piece.scanned
        = it.allPieces.map Piece.scanned ++ ' ' :: (linePieces (it2 :: rest)).map Piece.scanned := by
      simp [linePieces, Piece.scanned]
    rw [hmap] at hpre ⊢
    rw [tokenizeLoop_item_space it (hwf it (List.mem_cons_self _ _)) done _ pre args start
      hstart hpre]
    have et : done ++ (it.allPieces.map Piece.scanned ++
          ' ' :: (linePieces (it2 :: rest)).map Piece.scanned)
        = (done ++ it.allPieces.map Piece.scanned ++ [' ']) ++
          (linePieces (it2 :: rest)).map Piece.scanned := by simp
    have el : done.length + (it.allPieces.map Piece.scanned).length + 1
        = (done ++ it.allPieces.map Piece.scanned ++ [' ']).length := by
      simp only [List.length_append, List.length_singleton]
    have hsp : substring ((done ++ it.allPieces.map Piece.scanned ++ [' ']) ++
          (linePieces (it2 :: rest)).map Piece.scanned)
          (done.length + (it.allPieces.map Piece.scanned).length)
          (done ++ it.allPieces.map Piece.scanned ++ [' ']).length = [' '] := by
      have := substring_mid (done ++ it.allPieces.map Piece.scanned) [' ']
        ((linePieces (it2 :: rest)).map Piece.scanned)
      simp only [List.length_append, List.length_singleton, List.append_assoc,
        List.singleton_append] at this ⊢
      exact this
    rw [et, el]
    rw [tokenizeLoop_line (it2 :: rest) (by simp)
      (fun x hx => hwf x (List.mem_cons_of_mem _ hx))
      (done ++ it.allPieces.map Piece.scanned ++ [' ']) [' '] (args ++ [it.token pre])
      (done.length + (it.allPieces.map Piece.scanned).length) (by simp) hsp]
    simp [lineTokens]

theorem isSimple_false_of_mem (c : Char) (hc : c = ' ' ∨ c = '"' ∨ c = '\'' ∨ c = '\\') :
    ∀ s : Str, c ∈ s → isSimple s = false
  | [], h => absurd h (by simp)
  | d :: s, h => by
    unfold isSimple
    by_cases hd : d = ' ' ∨ d = '"' ∨ d = '\'' ∨ d = '\\'
    · rw [if_pos hd]
    · rw [if_neg hd]
      rcases List.mem_cons.mp h with rfl | hm
      · exact absurd hc hd
      · exact isSimple_false_of_mem c hc s hm

theorem Item.noBackslash_of_wellFormed (it : Item) (h : it.wellFormed) :
    ∀ p ∈ it.allPieces, p.noBackslash := by
  intro p hp
  cases it with
  | word ps =>
    have := h.2 p hp
    cases p with
    | plain c => exact this.2.2.2.1
    | _ => trivial
  | single ps =>
    simp only [Item.allPieces, List.mem_cons, List.mem_append, List.mem_singleton,
      List.not_mem_nil, or_false] at hp
    rcases hp with rfl | hp | rfl
    · show '\'' ≠ '\\'; decide
    · have := h p hp
      cases p with
      | plain c => exact this.2.1
      | _ => trivial
    · show '\'' ≠ '\\'; decide
  | double ps =>
    simp only [Item.allPieces, List.mem_cons, List.mem_append, List.mem_singleton,
      List.not_mem_nil, or_false] at hp
    rcases hp with rfl | hp | rfl
    · show '"' ≠ '\\'; decide
    · have := h p hp
      cases p with
      | plain c => exact this.2.1
      | _ => trivial
    · show '"' ≠ '\\'; decide

theorem linePieces_noBackslash :
    ∀ items : List Item, (∀ it ∈ items, it.wellFormed) → ∀ p ∈ linePieces items, p.noBackslash
  | [], _, p, hp => absurd hp (by simp [linePieces])
  | [it], hwf, p, hp =>
    Item.noBackslash_of_wellFormed it (hwf it (List.mem_singleton_self _)) p hp
  | it :: it2 :: rest, hwf, p, hp => by
    simp only [linePieces, List.mem_append, List.mem_cons] at hp
    rcases hp with hp | rfl | hp
    · exact Item.noBackslash_of_wellFormed it (hwf it (List.mem_cons_self _ _)) p hp
    · show ' ' ≠ '\\'; decide
    · exact linePieces_noBackslash (it2 :: rest)
        (fun x hx => hwf x (List.mem_cons_of_mem _ hx)) p (by simpa [linePieces] using hp)

/-- C34: a line typed as words and quoted sections separated by single spaces, in which
every backslash escapes a space or a quote, tokenizes to one token for each item. The text of
each token holds a plain space for each escaped space and the quote character for each
escaped quote, whether the token is ended by a space, by its closing quote or by the end of
the input; an escaped space never ends a token and an escaped quote never opens or closes a
quoted section. The general reason: when the only backslashes typed are those of escaped
spaces and quotes, the scanner runs over the string in which each escape is one placeholder
unit, and a placeholder unit never pushes a token and never changes the mode except to
start a plain token. -/
theorem tokenize_escaped :
    (∀ items : List Item, items ≠ [] → (∀ it ∈ items, it.wellFormed) →
      _tokenize (some (typedPieces (linePieces items))) = lineTokens [] items) ∧
    (∀ ps : List Piece, (∀ p ∈ ps, p.noBackslash) → isSimple (typedPieces ps) = false →
      _tokenize (some (typedPieces ps))
        = tokenizeLoop (ps.map Piece.scanned) (ps.map Piece.scanned)
            ⟨Mode.OUTSIDE, 0, 0, [], []⟩) ∧
    (∀ (typed : Str) (st : TokState) (c : Char),
      c = escSpace ∨ c = escSingle ∨ c = escDouble →
      (tokenizeStep typed c st).args = st.args ∧
      (tokenizeStep typed c st).mode
        = (if st.mode = Mode.OUTSIDE then Mode.IN_SIMPLE else st.mode)) := by
  have general : ∀ ps : List Piece, (∀ p ∈ ps, p.noBackslash) →
      isSimple (typedPieces ps) = false →
      _tokenize (some (typedPieces ps))
        = tokenizeLoop (ps.map Piece.scanned) (ps.map Piece.scanned)
            ⟨Mode.OUTSIDE, 0, 0, [], []⟩ := by
    intro ps h hs
    have hu := unescape_pieces ps h
    cases ht : typedPieces ps with
    | nil => rw [ht] at hs; exact absurd hs (by simp [isSimple])
    | cons c cs =>
      rw [ht] at hs hu
      simp only [_tokenize, hs, hu]
      rfl
  refine ⟨?_, general, ?_⟩
  · intro items hne hwf
    have hnb := linePieces_noBackslash items hwf
    cases hs : isSimple (typedPieces (linePieces items)) with
    | false =>
      rw [general _ hnb hs]
      have := tokenizeLoop_line items hne hwf [] [] [] 0 (Nat.le_refl _) (by simp [substring])
      simpa using this
    | true =>
      -- a simple input is a single word of plain units
      have hsimple : ∀ c, c = ' ' ∨ c = '"' ∨ c = '\'' ∨ c = '\\' →
          c ∉ typedPieces (linePieces items) := by
        intro c hc hm
        rw [isSimple_false_of_mem c hc _ hm] at hs
        exact absurd hs (by simp)
      have e := isSimple_pieces _ hs
      match items, hne, hwf with
      | [Item.word ps], _, hwf =>
        simp only [linePieces, Item.allPieces, lineTokens, Item.token, List.map_nil] at e hs ⊢
        cases ht : typedPieces ps with
        | nil =>
          have hps := (hwf (Item.word ps) (List.mem_singleton_self _)).1
          cases ps with
          | nil => exact absurd rfl hps
          | cons p ps1 => cases p <;> simp [typedPieces, Piece.typed] at ht
        | cons c cs =>
          rw [ht] at hs e
          simp only [_tokenize, hs, if_true]
          rw [e]
      | [Item.single ps], _, _ =>
        exact absurd (by simp [linePieces, Item.allPieces, typedPieces, Piece.typed])
          (hsimple '\'' (by simp))
      | [Item.double ps], _, _ =>
        exact absurd (by simp [linePieces, Item.allPieces, typedPieces, Piece.typed])
          (hsimple '"' (by simp))
      | it :: it2 :: rest, _, _ =>
        exact absurd (by simp [linePieces, typedPieces, Piece.typed])
          (hsimple ' ' (by simp))
  · intro typed st c hc
    rcases hc with rfl | rfl | rfl <;>
      exact tokenizeStep_of_not_delimiter typed st _ (by decide) (by decide) (by decide)

/-- The input of the repository's test testPathological gives the four tokens the test
expects: the escaped space stays inside the first token and the escaped quotes inside the
third. -/
theorem tokenize_pathological :
    _tokenize (some ['a', '\\', ' ', 'b', ' ', '\\', 't', '\\', 'n', '\\', 'r', ' ',
        '\\', '\'', 'x', '\\', '"', ' ', '\'', 'd'])
      = [⟨['a', ' ', 'b'], [], []⟩,
         ⟨[Char.ofNat 0x09, Char.ofNat 0x0A, Char.ofNat 0x0D], [' '], []⟩,
         ⟨['\'', 'x', '"'], [' '], []⟩,
         ⟨['d'], [' ', '\''], []⟩] := by
  decide

/-- C34 at concrete inputs: a, backslash, space, b is the single token 'a b'; and the line
of a word ended by a space, a single-quoted and a double-quoted section, each with escapes
inside, gives three tokens whose texts hold the space and the quotes themselves. -/
theorem tokenize_escaped_witness :
    _tokenize (some ['a', '\\', ' ', 'b']) = [⟨['a', ' ', 'b'], [], []⟩] ∧
    _tokenize (some ['a', '\\', ' ', 'b', ' ', '\'', 'c', '\\', '\'', 'd', ' ', 'e', '\'',
        ' ', '"', 'f', '\\', '"', 'g', '"'])
      = [⟨['a', ' ', 'b'], [], []⟩,
         ⟨['c', '\'', 'd', ' ', 'e'], [' ', '\''], ['\'']⟩,
         ⟨['f', '"', 'g'], [' ', '"'], ['"']⟩] :=
  ⟨tokenize_escaped.1 [Item.word [Piece.plain 'a', Piece.space, Piece.plain 'b']]
      (by simp)
      (by
        intro it hit
        simp only [List.mem_singleton] at hit
        subst hit
        refine ⟨by simp, ?_⟩
        intro p hp
        simp only [List.mem_cons, List.mem_singleton, List.not_mem_nil, or_false] at hp
        rcases hp with rfl | rfl | rfl
        · show plainUnit 'a'
          unfold plainUnit notPlaceholder
          decide
        · trivial
        · show plainUnit 'b'
          unfold plainUnit notPlaceholder
          decide),
   tokenize_escaped.1
      [Item.word [Piece.plain 'a', Piece.space, Piece.plain 'b'],
       Item.single [Piece.plain 'c', Piece.single, Piece.plain 'd', Piece.plain ' ',
         Piece.plain 'e'],
       Item.double [Piece.plain 'f', Piece.double, Piece.plain 'g']]
      (by simp)
      (by
        intro it hit
        simp only [List.mem_cons, List.mem_singleton, List.not_mem_nil, or_false] at hit
        rcases hit with rfl | rfl | rfl
        · refine ⟨by simp, ?_⟩
          intro p hp
          simp only [List.mem_cons, List.mem_singleton, List.not_mem_nil, or_false] at hp
          rcases hp with rfl | rfl | rfl
          · show plainUnit 'a'
            unfold plainUnit notPlaceholder
            decide
          · trivial
          · show plainUnit 'b'
            unfold plainUnit notPlaceholder
            decide
        · intro p hp
          simp only [List.mem_cons, List.mem_singleton, List.not_mem_nil, or_false] at hp
          rcases hp with rfl | rfl | rfl | rfl | rfl
          · show 'c' ≠ '\'' ∧ 'c' ≠ '\\' ∧ notPlaceholder 'c'
            unfold notPlaceholder
            decide
          · trivial
          · show 'd' ≠ '\'' ∧ 'd' ≠ '\\' ∧ notPlaceholder 'd'
            unfold notPlaceholder
            decide
          · show ' ' ≠ '\'' ∧ ' ' ≠ '\\' ∧ notPlaceholder ' '
            unfold notPlaceholder
            decide
          · show 'e' ≠ '\'' ∧ 'e' ≠ '\\' ∧ notPlaceholder 'e'
            unfold notPlaceholder
            decide
        · intro p hp
          simp only [List.mem_cons, List.mem_singleton, List.not_mem_nil, or_false] at hp
          rcases hp with rfl | rfl | rfl
          · show 'f' ≠ '"' ∧ 'f' ≠ '\\' ∧ notPlaceholder 'f'
            unfold notPlaceholder
            decide
          · trivial
          · show 'g' ≠ '"' ∧ 'g' ≠ '\\' ∧ notPlaceholder 'g'
            unfold notPlaceholder
            decide)⟩

end Gcli
